import Mathlib

/-!
TrafficSliver split module: a shallow embedding and its verified properties

The definitions below embed the C sources of `src/feature/split` (the
traffic-splitting module of a Tor fork).  Conventions of the embedding:

* A C function that can fail a `tor_assert` runs in `Run`: a failed
  assertion is `Fault.assertion`, an array access outside the allocated block
  is `Fault.memory`, and a loop that outlives the fuel of its model is
  `Fault.fuel`.  Return codes (`-1`, `NULL`) are ordinary values.
* `BUG(c)` only logs; it has the value of `c`.
* `subcirc_id_t` is `uint8_t` or `uint16_t` (splitdefines.h); its size in
  bytes is the parameter `idBytes`.  An assignment to a `subcirc_id_t`
  variable truncates modulo `2 ^ (8 * idBytes)`, an assignment to a `uint8_t`
  truncates modulo `256`.
* `RELAY_PAYLOAD_SIZE` is declared in `core/or/or.h`, outside the split
  module; it is a parameter.  Counters of type `unsigned int` and `size_t`
  are natural numbers: they are bounded by `8 * RELAY_PAYLOAD_SIZE`.
* Pointers are handles (natural numbers) into explicit tables.
-/

set_option autoImplicit false

namespace TrafficSliver

/-! ## Outcomes of running C code -/

/-- Ways in which a run does not return. -/
inductive Fault where
  | assertion
  | memory
  | fuel
  deriving DecidableEq, Repr

/-- A run either returns a value or stops with a fault. -/
abbrev Run (α : Type) := Except Fault α

instance instDecidableEqRun {α : Type} [DecidableEq α] : DecidableEq (Run α)
  | .ok a, .ok b => if h : a = b then isTrue (by rw [h]) else isFalse (by intro e; cases e; exact h rfl)
  | .error a, .error b =>
    if h : a = b then isTrue (by rw [h]) else isFalse (by intro e; cases e; exact h rfl)
  | .ok _, .error _ => isFalse (by intro e; cases e)
  | .error _, .ok _ => isFalse (by intro e; cases e)

/-- The macro `tor_assert(c)`: abort unless `c` holds. -/
def tor_assert (c : Bool) : Run Unit :=
  if c then .ok () else .error Fault.assertion

/-- Read `buf[i]`; reading outside the block is a memory fault. -/
def rd (buf : List Nat) (i : Nat) : Run Nat :=
  match buf.get? i with
  | some v => .ok v
  | none => .error Fault.memory

/-- Write `buf[i] = v`; writing outside the block is a memory fault. -/
def wr (buf : List Nat) (i : Nat) (v : Nat) : Run (List Nat) :=
  if i < buf.length then .ok (buf.set i v) else .error Fault.memory

/-! ## splitdefines.h -/

/-- Constant `SPLIT_COOKIE_LEN`. -/
def SPLIT_COOKIE_LEN : Nat := 20

/-- Constant `MAX_SUBCIRCS`. -/
def MAX_SUBCIRCS : Nat := 5

/-- Constant `MAX_NUM_SPLIT_INSTRUCTIONS`. -/
def MAX_NUM_SPLIT_INSTRUCTIONS : Nat := 8

/-- Constant `NUM_SPLIT_INSTRUCTIONS`. -/
def NUM_SPLIT_INSTRUCTIONS : Nat := 2

/-- Constant `SPLIT_INSTRUCTION_TYPE_GENERIC` of `instruction_type_t`. -/
def SPLIT_INSTRUCTION_TYPE_GENERIC : Nat := 0

/-! ## splitutil.h / splitutil.c -/

/-- Function `bit_mask_right`: `0xFF >> from_position` in a `uint8_t`. -/
def bit_mask_right (from_position : Nat) : Nat :=
  (0xFF >>> from_position) % 256

/-- The `while (max_id != 0)` loop of `subcirc_id_get_width`. -/
def subcirc_id_get_width_loop : Nat → Nat → Nat → Nat
  | 0, _, width => width
  | fuel + 1, max_id, width =>
    if max_id ≠ 0 then subcirc_id_get_width_loop fuel (max_id >>> 1) (width + 1)
    else width

/-- Function `subcirc_id_get_width`.  The loop halves `max_id`, so `max_id`
iterations are enough fuel. -/
def subcirc_id_get_width (max_id : Nat) : Nat :=
  if max_id = 0 then 1
  else subcirc_id_get_width_loop max_id max_id 0

/-! ## splitstrategy.c: the generic instruction codec -/

/-- The `for` loop of `parse_to_payload_generic` that finds the maximum ID. -/
def find_max_id : List Nat → Nat → Nat
  | [], max_id => max_id
  | id :: rest, max_id => find_max_id rest (if id > max_id then id else max_id)

/-- The inner `while (remaining && curr_bit + remaining > 8)` loop of the
encoder.  Returns the buffer, `remaining` and `curr_byte`. -/
def enc_while (current_id : Nat) :
    Nat → List Nat → Nat → Nat → Nat → Run (List Nat × Nat × Nat)
  | fuel, buf, remaining, curr_byte, curr_bit =>
    if remaining ≠ 0 ∧ curr_bit + remaining > 8 then
      match fuel with
      | 0 => .error Fault.fuel
      | fuel + 1 => do
        tor_assert (curr_bit == 0)
        let buf ← wr buf curr_byte ((current_id >>> (remaining - 8)) % 256)
        enc_while current_id fuel buf (remaining - 8) (curr_byte + 1) curr_bit
    else .ok (buf, remaining, curr_byte)

/-- One iteration of the `while (count < num)` loop of
`parse_to_payload_generic`, after its three leading assertions: pack
`current_id` into `payload_IDs` at `(curr_byte, curr_bit)`.  Returns the
buffer, `curr_byte` and `curr_bit`. -/
def enc_id (width current_id : Nat) (buf : List Nat) (curr_byte curr_bit : Nat) :
    Run (List Nat × Nat × Nat) := do
  let remaining := width
  let (buf, remaining, curr_byte, curr_bit) ←
    (if curr_bit + remaining > 8 then do
      let old ← rd buf curr_byte
      let buf ← wr buf curr_byte
        (old ||| ((current_id >>> (remaining + curr_bit - 8)) &&& bit_mask_right curr_bit))
      pure (buf, remaining + curr_bit - 8, curr_byte + 1, 0)
    else pure (buf, remaining, curr_byte, curr_bit) : Run (List Nat × Nat × Nat × Nat))
  let (buf, remaining, curr_byte) ← enc_while current_id (remaining + 1) buf remaining curr_byte curr_bit
  if remaining ≠ 0 then do
    tor_assert (curr_bit + remaining ≤ 8)
    let old ← rd buf curr_byte
    let buf ← wr buf curr_byte
      (old ||| ((current_id <<< (8 - (curr_bit + remaining))) &&& bit_mask_right curr_bit))
    let curr_bit := curr_bit + remaining
    if curr_bit = 8 then pure (buf, curr_byte + 1, 0)
    else pure (buf, curr_byte, curr_bit)
  else pure (buf, curr_byte, curr_bit)

/-- The `while (count < num)` loop of `parse_to_payload_generic` over the
IDs still to be written.  Returns the buffer and `written_bits`. -/
def enc_loop (width length : Nat) :
    List Nat → List Nat → Nat → Nat → Nat → Run (List Nat × Nat)
  | [], buf, written_bits, _, _ => .ok (buf, written_bits)
  | current_id :: rest, buf, written_bits, curr_byte, curr_bit => do
    tor_assert (curr_byte == written_bits / 8)
    tor_assert (curr_bit == written_bits % 8)
    tor_assert (decide (curr_byte < length - 2))
    let (buf, curr_byte, curr_bit) ← enc_id width current_id buf curr_byte curr_bit
    enc_loop width length rest buf (written_bits + width) curr_byte curr_bit

/-- Function `parse_to_payload_generic`: `data` is the array of `num` IDs
(`data_len = num * sizeof(subcirc_id_t)`).  The result is `none` for the
return value `-1`, and `some payload` otherwise, the returned length being
the length of `payload`. -/
def parse_to_payload_generic (RELAY_PAYLOAD_SIZE idBytes : Nat) (data : List Nat) :
    Run (Option (List Nat)) := do
  let data_len := data.length * idBytes
  tor_assert (decide (data_len > 0))
  tor_assert (data_len % idBytes == 0)
  let num := data_len / idBytes
  let max_id := find_max_id (data.take num) 0
  let width := subcirc_id_get_width max_id
  if width ≥ 1 <<< 6 then pure none
  else do
    tor_assert (decide (width ≤ 8 * idBytes))
    let total_bits := num * width
    let empty_bits := if total_bits % 8 ≠ 0 then 8 - total_bits % 8 else 0
    let length := total_bits / 8 + (if empty_bits ≠ 0 then 1 else 0) + 2
    if length > RELAY_PAYLOAD_SIZE then pure none
    else do
      let byte1 := (0 ||| ((width <<< 3) % 256)) ||| (empty_bits &&& 0x07)
      let payload_IDs := List.replicate (length - 2) 0
      let (payload_IDs, written_bits) ← enc_loop width length (data.take num) payload_IDs 0 0 0
      tor_assert (written_bits == total_bits)
      pure (some (SPLIT_INSTRUCTION_TYPE_GENERIC :: byte1 :: payload_IDs))

/-- The inner `while (remaining && curr_bit + remaining > 8)` loop of the
decoder.  Returns `current_id`, `remaining` and `curr_byte`. -/
def dec_while (idBytes : Nat) (payload : List Nat) :
    Nat → Nat → Nat → Nat → Nat → Run (Nat × Nat × Nat)
  | fuel, current_id, remaining, curr_byte, curr_bit =>
    if remaining ≠ 0 ∧ curr_bit + remaining > 8 then
      match fuel with
      | 0 => .error Fault.fuel
      | fuel + 1 => do
        tor_assert (curr_bit == 0)
        let current_id := (current_id <<< 8) % 2 ^ (8 * idBytes)
        let b ← rd payload curr_byte
        let current_id := (current_id ||| b) % 2 ^ (8 * idBytes)
        dec_while idBytes payload fuel current_id (remaining - 8) (curr_byte + 1) curr_bit
    else .ok (current_id, remaining, curr_byte)

/-- One iteration of the `while (bits_read < total_bits)` loop of
`parse_from_payload_generic`, between its leading assertions and
`tor_assert(count < num)`: read one ID of `width` bits at
`(curr_byte, curr_bit)`.  Returns `current_id`, `curr_byte`, `curr_bit`. -/
def dec_id (idBytes width : Nat) (payload : List Nat) (curr_byte curr_bit : Nat) :
    Run (Nat × Nat × Nat) := do
  let current_id := 0
  let remaining := width
  let (current_id, remaining, curr_byte, curr_bit) ←
    (if curr_bit + remaining > 8 then do
      let b ← rd payload curr_byte
      pure ((current_id ||| (b &&& bit_mask_right curr_bit)) % 2 ^ (8 * idBytes),
            remaining + curr_bit - 8, curr_byte + 1, 0)
    else pure (current_id, remaining, curr_byte, curr_bit) : Run (Nat × Nat × Nat × Nat))
  let (current_id, remaining, curr_byte) ←
    dec_while idBytes payload (remaining + 1) current_id remaining curr_byte curr_bit
  if remaining ≠ 0 then do
    tor_assert (curr_bit + remaining ≤ 8)
    let current_id := (current_id <<< remaining) % 2 ^ (8 * idBytes)
    let b ← rd payload curr_byte
    let current_id :=
      (current_id ||| ((b &&& bit_mask_right curr_bit) >>> (8 - (curr_bit + remaining))))
        % 2 ^ (8 * idBytes)
    let curr_bit := curr_bit + remaining
    if curr_bit = 8 then pure (current_id, curr_byte + 1, 0)
    else pure (current_id, curr_byte, curr_bit)
  else pure (current_id, curr_byte, curr_bit)

/-- The `while (bits_read < total_bits)` loop of `parse_from_payload_generic`.
Returns the output array and `count`. -/
def dec_loop (idBytes width total_bits num : Nat) (payload : List Nat) :
    Nat → List Nat → Nat → Nat → Nat → Nat → Run (List Nat × Nat)
  | fuel, data, count, bits_read, curr_byte, curr_bit =>
    if bits_read < total_bits then
      match fuel with
      | 0 => .error Fault.fuel
      | fuel + 1 => do
        tor_assert (decide (bits_read + width ≤ total_bits))
        tor_assert (curr_byte == bits_read / 8)
        tor_assert (curr_bit == bits_read % 8)
        let (current_id, curr_byte, curr_bit) ← dec_id idBytes width payload curr_byte curr_bit
        tor_assert (decide (count < num))
        let data ← wr data count current_id
        dec_loop idBytes width total_bits num payload fuel data (count + 1)
          (bits_read + width) curr_byte curr_bit
    else .ok (data, count)

/-- Function `parse_from_payload_generic`: `payload` is the byte array of
length `payload_len`.  The result is `none` for the return value `-1` and
`some data` otherwise, `data` being the array of decoded IDs (the returned
length is `data.length * sizeof(subcirc_id_t)`). -/
def parse_from_payload_generic (RELAY_PAYLOAD_SIZE idBytes : Nat) (payload : List Nat) :
    Run (Option (List Nat)) := do
  let payload_len := payload.length
  tor_assert (decide (payload_len ≤ RELAY_PAYLOAD_SIZE))
  if payload_len < 3 then pure none
  else do
    let type ← rd payload 0
    if type ≠ SPLIT_INSTRUCTION_TYPE_GENERIC then pure none
    else do
      let b1 ← rd payload 1
      let width := (b1 &&& 0xF8) >>> 3
      let empty_bits := b1 &&& 0x07
      if width = 0 then pure none
      else do
        let payload := payload.drop 2
        let payload_len := payload_len - 2
        let total_bits := payload_len * 8
        tor_assert (decide (empty_bits < 8))
        tor_assert (decide (total_bits > empty_bits))
        let total_bits := total_bits - empty_bits
        if total_bits % width ≠ 0 then pure none
        else do
          let num := total_bits / width
          let data := List.replicate num 0
          let (data, count) ← dec_loop idBytes width total_bits num payload total_bits data 0 0 0 0
          tor_assert (count == num)
          pure (some data)

/-- Big-endian value of a digit string in base `2 ^ w`, first digit most
significant. -/
def beValW (w : Nat) : List Nat → Nat
  | [] => 0
  | b :: bs => b * 2 ^ (w * bs.length) + beValW w bs

/-- Big-endian value of a byte string: the number whose base-256 digits are
the bytes, first byte most significant. -/
def beVal (bs : List Nat) : Nat := beValW 8 bs

/-- The number formed by the `k` bits that start at bit offset `off`
(counted from the most significant bit) of an `N`-bit number `S`. -/
def chunk (S N off k : Nat) : Nat := (S / 2 ^ (N - off - k)) % 2 ^ k

/-- The number whose base-`2 ^ W` digits are the given IDs, first ID most
significant. -/
def packedVal (W : Nat) : List Nat → Nat → Nat
  | [], v => v
  | id :: rest, v => packedVal W rest (v * 2 ^ W + id)

/-- Invariant of the encoder's output buffer of `L` bytes after `off` bits
have been written: the bytes are the number `V` followed by zero bits. -/
def EncInv (buf : List Nat) (L off V : Nat) : Prop :=
  buf.length = L ∧ (∀ b ∈ buf, b < 256) ∧ beVal buf = V * 2 ^ (8 * L - off) ∧ off ≤ 8 * L

/-- The IDs carried by a byte string of packed IDs: the `i`-th ID is the
number formed by the `width` bits at bit offset `i * width`, truncated to the
ID type. -/
def decoded_ids (idBytes width num : Nat) (bytes : List Nat) : List Nat :=
  (List.range num).map fun i =>
    chunk (beVal bytes) (8 * bytes.length) (i * width) width % 2 ^ (8 * idBytes)

/-- Width field written by the encoder for the ID list `data`: the width of
its maximum. -/
def enc_width (data : List Nat) : Nat := subcirc_id_get_width (data.foldr max 0)

/-- Number of padding bits after `data.length` IDs of width `enc_width data`:
`8 * ⌈n * W / 8⌉ - n * W`. -/
def enc_empty_bits (data : List Nat) : Nat :=
  8 * ((data.length * enc_width data + 7) / 8) - data.length * enc_width data

/-- Bit number `p` of a byte string, bits counted from the most significant
bit of the first byte. -/
def streamBit (bytes : List Nat) (p : Nat) : Nat :=
  bytes.getD (p / 8) 0 / 2 ^ (7 - p % 8) % 2

/-- Struct `split_instruction_t` without its `next` pointer: a queue of
instructions is a list.  `data` is the array of IDs, `position` and `length`
are byte offsets into it. -/
structure split_instruction_t where
  type : Nat
  data : List Nat
  position : Nat
  length : Nat
  deriving DecidableEq, Repr

/-- Function `split_payload_to_instruction`; `none` is `NULL`. -/
def split_payload_to_instruction (RELAY_PAYLOAD_SIZE idBytes : Nat) (payload : List Nat) :
    Run (Option split_instruction_t) :=
  if payload.length < 1 then pure none
  else do
    let type ← rd payload 0
    if type = SPLIT_INSTRUCTION_TYPE_GENERIC then do
      let r ← parse_from_payload_generic RELAY_PAYLOAD_SIZE idBytes payload
      match r with
      | none => pure none
      | some data => do
        let data_len := data.length * idBytes
        tor_assert (data_len != 0)
        pure (some { type := type, data := data, position := 0, length := data_len })
    else pure none

/-! ## subcirc_list.h / subcirc_list.c -/

/-- Constant `SUBCIRC_LIST_MAX_CAPACITY`. -/
def SUBCIRC_LIST_MAX_CAPACITY : Nat := MAX_SUBCIRCS

/-- Constant `SUBCIRC_LIST_DEFAULT_CAPACITY`. -/
def SUBCIRC_LIST_DEFAULT_CAPACITY : Nat :=
  if SUBCIRC_LIST_MAX_CAPACITY < 8 then SUBCIRC_LIST_MAX_CAPACITY else 8

/-- Struct `subcirc_list_t`.  The array `list` holds sub-circuit pointers
(`none` is `NULL`); it is allocated with `capacity` slots. -/
structure subcirc_list_t where
  list : List (Option Nat)
  capacity : Nat
  num_elements : Nat
  max_index : Int
  deriving DecidableEq, Repr

/-- Read the pointer `list[i]`; reading outside the block is a memory fault. -/
def rdp (list : List (Option Nat)) (i : Nat) : Run (Option Nat) :=
  match list.get? i with
  | some v => .ok v
  | none => .error Fault.memory

/-- Write the pointer `list[i] = v`; writing outside the block is a memory
fault. -/
def wrp (list : List (Option Nat)) (i : Nat) (v : Option Nat) : Run (List (Option Nat)) :=
  if i < list.length then .ok (list.set i v) else .error Fault.memory

/-- Function `subcirc_list_new`. -/
def subcirc_list_new : subcirc_list_t :=
  { max_index := -1, num_elements := 0, capacity := SUBCIRC_LIST_DEFAULT_CAPACITY,
    list := List.replicate SUBCIRC_LIST_DEFAULT_CAPACITY none }

/-- The loop `while (id >= capacity) capacity *= 2` of
`subcirc_list_ensure_capacity`. -/
def ensure_capacity_loop (id : Nat) : Nat → Nat → Run Nat
  | fuel, capacity =>
    if id ≥ capacity then
      match fuel with
      | 0 => .error Fault.fuel
      | fuel + 1 => ensure_capacity_loop id fuel (capacity * 2)
    else .ok capacity

/-- Function `subcirc_list_ensure_capacity`.  The reallocated block keeps the
old slots and its new slots are zeroed. -/
def subcirc_list_ensure_capacity (sl : subcirc_list_t) (id : Nat) : Run subcirc_list_t := do
  tor_assert (sl.capacity != 0)
  tor_assert (decide (id < SUBCIRC_LIST_MAX_CAPACITY))
  if id < sl.capacity then pure sl
  else do
    let capacity ←
      (if id ≥ SUBCIRC_LIST_MAX_CAPACITY / 2 then pure SUBCIRC_LIST_MAX_CAPACITY
       else ensure_capacity_loop id (id + 1) sl.capacity : Run Nat)
    pure { sl with
      list := sl.list.take capacity ++ List.replicate (capacity - sl.capacity) none,
      capacity := capacity }

/-- Function `subcirc_list_add`. -/
def subcirc_list_add (sl : subcirc_list_t) (subcirc : Nat) (id : Nat) : Run subcirc_list_t := do
  let sl ← subcirc_list_ensure_capacity sl id
  let old ← rdp sl.list id
  tor_assert (old == none)
  let list ← wrp sl.list id (some subcirc)
  let sl := { sl with list := list, num_elements := sl.num_elements + 1 }
  if sl.max_index < (id : Int) then pure { sl with max_index := (id : Int) }
  else pure sl

/-- The loop `while (index >= 0)` of `subcirc_list_remove`; returns `index`
at the `break` or at the end of the loop. -/
def remove_scan (list : List (Option Nat)) : Nat → Int → Run Int
  | fuel, index =>
    if index ≥ 0 then
      match fuel with
      | 0 => .error Fault.fuel
      | fuel + 1 => do
        let v ← rdp list index.toNat
        if v.isSome then pure index
        else remove_scan list fuel (index - 1)
    else .ok index

/-- Function `subcirc_list_remove`. -/
def subcirc_list_remove (sl : subcirc_list_t) (id : Nat) : Run subcirc_list_t :=
  if id < sl.capacity then do
    let old ← rdp sl.list id
    if old.isSome then do
      let list ← wrp sl.list id none
      tor_assert (decide ((sl.num_elements : Int) - 1 ≥ 0))
      let sl := { sl with list := list, num_elements := sl.num_elements - 1 }
      if sl.num_elements = 0 then pure { sl with max_index := -1 }
      else if (id : Int) = sl.max_index then do
        let index ← remove_scan sl.list (sl.max_index.toNat + 1) sl.max_index
        tor_assert (decide (index ≥ 0))
        pure { sl with max_index := index }
      else pure sl
    else pure sl
  else pure sl

/-- Function `subcirc_list_clear`. -/
def subcirc_list_clear (sl : subcirc_list_t) : subcirc_list_t :=
  { sl with list := List.replicate sl.capacity none, max_index := -1, num_elements := 0 }

/-- Function `subcirc_list_get`. -/
def subcirc_list_get (sl : subcirc_list_t) (id : Nat) : Run (Option Nat) := do
  tor_assert (decide (id < sl.capacity))
  rdp sl.list id

/-- Function `subcirc_list_get_num`. -/
def subcirc_list_get_num (sl : subcirc_list_t) : Nat := sl.num_elements

/-- The `for` loop of `subcirc_list_contains` from `id` on. -/
def contains_loop (sl : subcirc_list_t) (subcirc : Nat) : Nat → Nat → Run Bool
  | fuel, id =>
    if (id : Int) ≤ sl.max_index then
      match fuel with
      | 0 => .error Fault.fuel
      | fuel + 1 => do
        let v ← rdp sl.list id
        if v = some subcirc then pure true
        else contains_loop sl subcirc fuel (id + 1)
    else .ok false

/-- Function `subcirc_list_contains`. -/
def subcirc_list_contains (sl : subcirc_list_t) (subcirc : Nat) : Run Bool :=
  if sl.num_elements = 0 then pure false
  else do
    tor_assert (decide (sl.max_index ≥ 0))
    contains_loop sl subcirc (sl.max_index.toNat + 1) 0

/-- Sub-circuit lists reachable from `subcirc_list_new` by `subcirc_list_add`
(to an empty slot with `id < MAX_SUBCIRCS`), `subcirc_list_remove` (of any
id) and `subcirc_list_clear`. -/
inductive ListReachable : subcirc_list_t → Prop where
  | new : ListReachable subcirc_list_new
  | add (sl sl' : subcirc_list_t) (subcirc id : Nat) :
      ListReachable sl → id < MAX_SUBCIRCS → sl.list.getD id none = none →
      subcirc_list_add sl subcirc id = .ok sl' → ListReachable sl'
  | remove (sl sl' : subcirc_list_t) (id : Nat) :
      ListReachable sl → subcirc_list_remove sl id = .ok sl' → ListReachable sl'
  | clear (sl : subcirc_list_t) : ListReachable sl → ListReachable (subcirc_list_clear sl)

/-- Number of occupied slots of a sub-circuit list. -/
def occupied (sl : subcirc_list_t) : Nat := (sl.list.filter Option.isSome).length

/-- The field `max_index` is the greatest occupied index, or `-1` when no
slot is occupied. -/
def max_index_ok (sl : subcirc_list_t) : Prop :=
  (sl.max_index = -1 ∧ ∀ i : Nat, sl.list.getD i none = none) ∨
  (0 ≤ sl.max_index ∧ sl.list.getD sl.max_index.toNat none ≠ none ∧
    ∀ i : Nat, sl.max_index < (i : Int) → sl.list.getD i none = none)

/-- The list of the unit test `test_subcirc_list_remove` after adding at the
indices 0, 3 and 1 and removing index 3. -/
def list_after_remove : subcirc_list_t :=
  { list := [some 10, some 12, none, none, none], capacity := 5, num_elements := 2,
    max_index := 1 }

/-! ## Data structures of the split module (subcircuit_st.h, split_data_st.h,
cell_buffer.h) and the circuit objects they refer to -/

/-- Enum `cell_direction_t` of `core/or/or.h`. -/
inductive cell_direction_t where
  | CELL_DIRECTION_IN
  | CELL_DIRECTION_OUT
  deriving DecidableEq, Repr

/-- Enum `subcirc_state_t`. -/
inductive subcirc_state_t where
  | SUBCIRC_STATE_UNSPEC
  | SUBCIRC_STATE_PENDING_COOKIE
  | SUBCIRC_STATE_PENDING_JOIN
  | SUBCIRC_STATE_ADDED
  deriving DecidableEq, Repr

/-- Enum `split_cookie_state_t`. -/
inductive split_cookie_state_t where
  | SPLIT_COOKIE_STATE_INVALID
  | SPLIT_COOKIE_STATE_PENDING
  | SPLIT_COOKIE_STATE_VALID
  deriving DecidableEq, Repr

/-- The relay commands of the split module (`RELAY_COMMAND_SPLIT_*`). -/
inductive relay_command_t where
  | RELAY_COMMAND_SPLIT_SET_COOKIE
  | RELAY_COMMAND_SPLIT_COOKIE_SET
  | RELAY_COMMAND_SPLIT_JOIN
  | RELAY_COMMAND_SPLIT_JOINED
  | RELAY_COMMAND_SPLIT_INSTRUCTION
  | RELAY_COMMAND_SPLIT_INFO
  deriving DecidableEq, Repr

/-- The reasons for closing a circuit that the split module passes on. -/
inductive end_circ_reason_t where
  | END_CIRC_REASON_TORPROTOCOL
  | END_CIRC_REASON_INTERNAL
  deriving DecidableEq, Repr

/-- Struct `buffered_cell_t`: an opaque cell and its insertion time stamp. -/
structure buffered_cell_t where
  cell : Nat
  inserted_timestamp : Nat
  deriving DecidableEq, Repr

/-- Struct `cell_buffer_t`: the queue `head` and the counter `num`. -/
structure cell_buffer_t where
  head : List buffered_cell_t
  num : Int
  deriving DecidableEq, Repr

/-- Struct `subcircuit_t`; `circ` is a circuit handle (`none` is `NULL`). -/
structure subcircuit_t where
  circ : Option Nat
  id : Nat
  state : subcirc_state_t
  cell_buf : cell_buffer_t
  deriving DecidableEq, Repr

/-- Struct `crypt_path_t`: the split fields of a hop of an origin circuit;
`state_open` is `state == CPATH_STATE_OPEN`. -/
structure crypt_path_t where
  split_data : Option Nat
  subcirc : Option Nat
  state_open : Bool := true
  deriving DecidableEq, Repr

/-- Struct `split_data_client_t`, without the extend info.  Each stored
Dirichlet weight `θ` of `previous_data_in` and `previous_data_out` is
represented by `tor_lround(100 * θ)`, the only value the strategies compute
from it; `remaining_cpath` is the ring of hops behind the middle (the empty
list is `NULL`). -/
structure split_data_client_t where
  pending_subcircs : List Nat
  launch_on_cookie : Nat
  strategy : Nat
  is_final : Bool
  use_previous_data_in : Bool
  use_previous_data_out : Bool
  previous_data_in : List Int := List.replicate MAX_SUBCIRCS 0
  previous_data_out : List Int := List.replicate MAX_SUBCIRCS 0
  remaining_cpath : List crypt_path_t := []
  deriving DecidableEq, Repr

/-- Struct `split_data_or_t`.  Its back pointer `split_data` is the handle of
the `split_data_t` that holds it, and its hash-table `node` is membership in
`World.split_data_or_cookie_map`. -/
structure split_data_or_t where
  remaining_relay_early_cells : Nat
  deriving DecidableEq, Repr

/-- Struct `split_data_t`.  The instruction queues are lists (the `next`
pointers); the sticky picks and the slots of `subcircs` are sub-circuit
handles. -/
structure split_data_t where
  split_data_client : Option split_data_client_t
  split_data_or : Option split_data_or_t
  base : Option Nat
  cookie : List Nat
  cookie_state : split_cookie_state_t
  subcircs : subcirc_list_t
  next_subcirc_out : Option Nat
  next_subcirc_in : Option Nat
  instruction_out : List split_instruction_t
  instruction_in : List split_instruction_t
  marked_for_close : Bool
  deriving DecidableEq, Repr

/-- The fields of `circuit_t` / `or_circuit_t` that the split module reads or
writes at the middle.  `state_open` is `state == CIRCUIT_STATE_OPEN`,
`purpose_or` is `purpose == CIRCUIT_PURPOSE_OR`, `has_n_chan` is
`n_chan != NULL`. -/
structure or_circuit_t where
  marked_for_close : Bool
  marked_for_close_reason : Option end_circ_reason_t
  state_open : Bool
  purpose_or : Bool
  remaining_relay_early_cells : Nat
  split_data : Option Nat
  subcirc : Option Nat
  has_n_chan : Bool := true
  deriving DecidableEq, Repr

/-- A cell handed to `relay_send_command_from_edge`: circuit, command,
payload. -/
structure sent_cell_t where
  circ : Nat
  command : relay_command_t
  payload : List Nat
  deriving DecidableEq, Repr

/-- The fields of `circuit_t` / `origin_circuit_t` that the split module
reads or writes at the client.  `purpose_split_join` is
`purpose == CIRCUIT_PURPOSE_SPLIT_JOIN`; `cpath` is the ring of hops, listed
from `circ->cpath` on (the empty list is `NULL`); `purpose_c_general` is
`purpose == CIRCUIT_PURPOSE_C_GENERAL`; `onehop_tunnel` is
`build_state->onehop_tunnel`; `split_data_circuit` is the counter
`num_split_data` of the `split_data_circuit_t` of the circuit (`none` is
`NULL`). -/
structure origin_circuit_t where
  marked_for_close : Bool
  marked_for_close_reason : Option end_circ_reason_t
  purpose_split_join : Bool
  cpath : List crypt_path_t
  purpose_c_general : Bool := !purpose_split_join
  onehop_tunnel : Bool := false
  split_data_circuit : Option Int := none
  deriving DecidableEq, Repr

/-- The memory of a node as the split module sees it: the table of its OR
circuits (the circuits of a middle), the heaps of `subcircuit_t` and
`split_data_t` objects (`none` is a freed object), the hash table
`split_data_or_cookie_map` (the handles of the `split_data_t` whose
`split_data_or` is stored in it), the cells sent so far, and the table of its
origin circuits (the circuits of a client; the sessions of a client refer to
these).  `relayed` lists the cells handed to `append_cell_to_circuit_queue`
so far, each with the circuit whose queue it was appended to. -/
structure World where
  circuits : List or_circuit_t
  subcircuits : List (Option subcircuit_t)
  split_datas : List (Option split_data_t)
  split_data_or_cookie_map : List Nat
  sent : List sent_cell_t
  origin_circuits : List origin_circuit_t := []
  relayed : List (Nat × Nat) := []
  deriving DecidableEq, Repr

/-- Dereference a circuit handle. -/
def get_circ (w : World) (c : Nat) : Run or_circuit_t :=
  match w.circuits.get? c with
  | some x => .ok x
  | none => .error Fault.memory

/-- Dereference a `subcircuit_t` pointer. -/
def get_subcirc (w : World) (p : Nat) : Run subcircuit_t :=
  match w.subcircuits.get? p with
  | some (some x) => .ok x
  | _ => .error Fault.memory

/-- Dereference a `split_data_t` pointer. -/
def get_split_data (w : World) (h : Nat) : Run split_data_t :=
  match w.split_datas.get? h with
  | some (some x) => .ok x
  | _ => .error Fault.memory

/-- Store into the circuit `c`. -/
def set_circ (w : World) (c : Nat) (x : or_circuit_t) : World :=
  { w with circuits := w.circuits.set c x }

/-- Store into the `split_data_t` object `h`. -/
def set_split_data (w : World) (h : Nat) (x : split_data_t) : World :=
  { w with split_datas := w.split_datas.set h (some x) }

/-- Store into the `subcircuit_t` object `p`. -/
def set_subcirc (w : World) (p : Nat) (x : subcircuit_t) : World :=
  { w with subcircuits := w.subcircuits.set p (some x) }

/-! ## Collaborators outside the split module -/

/-- Modelled from the spec: `circuit_mark_for_close` of
`core/or/circuitlist.c` is not under src.  It is idempotent and records the
mark and the reason on the circuit. -/
def circuit_mark_for_close (w : World) (c : Nat) (reason : end_circ_reason_t) : Run World := do
  let circ ← get_circ w c
  if circ.marked_for_close then pure w
  else pure (set_circ w c { circ with marked_for_close := true,
                                      marked_for_close_reason := some reason })

/-- Modelled from the spec: `relay_send_command_from_edge` of
`core/or/relay.c` is not under src.  Whether sending fails is decided by the
environment (`fails`); a sent cell is recorded, a failed send marks the
circuit for close and returns `-1`. -/
def relay_send_command_from_edge (w : World) (c : Nat) (command : relay_command_t)
    (payload : List Nat) (fails : Bool) : Run (Int × World) :=
  if fails then do
    let w ← circuit_mark_for_close w c end_circ_reason_t.END_CIRC_REASON_INTERNAL
    pure (-1, w)
  else pure (0, { w with sent := w.sent ++ [{ circ := c, command := command, payload := payload }] })

/-! ## splitstrategy.c: instruction queues -/

/-- Function `split_instruction_get_next_id` on the queue `*inst_ptr`: returns
the next ID and the queue, from which the head has been removed when its last
ID was read.  `tor_assert(inst->data)` is `data ≠ []`; `position` must be a
multiple of the ID size. -/
def split_instruction_get_next_id (idBytes : Nat) (queue : List split_instruction_t) :
    Run (Nat × List split_instruction_t) :=
  match queue with
  | [] => .error Fault.assertion
  | inst :: next => do
    tor_assert (!inst.data.isEmpty)
    tor_assert (decide (inst.position < inst.length))
    if inst.type = SPLIT_INSTRUCTION_TYPE_GENERIC then do
      tor_assert (decide (inst.position + idBytes ≤ inst.length))
      if inst.position % idBytes ≠ 0 then .error Fault.memory
      else do
        let next_id ← rd inst.data (inst.position / idBytes)
        let inst := { inst with position := inst.position + idBytes }
        if inst.position ≥ inst.length then pure (next_id, next)
        else pure (next_id, inst :: next)
    else .error Fault.assertion

/-- Function `split_instruction_append`. -/
def split_instruction_append (existing : List split_instruction_t) (new : split_instruction_t) :
    List split_instruction_t :=
  existing ++ [new]

/-- Function `split_instruction_list_length`. -/
def split_instruction_list_length (list : List split_instruction_t) : Nat := list.length

/-- The `for` loop of `split_instruction_check` from byte offset `pos` on. -/
def split_instruction_check_loop (idBytes : Nat) (inst : split_instruction_t)
    (subcircs : subcirc_list_t) : Nat → Nat → Run Int
  | fuel, pos =>
    if pos < inst.length then
      match fuel with
      | 0 => .error Fault.fuel
      | fuel + 1 => do
        if pos % idBytes ≠ 0 then .error Fault.memory
        else do
          let id ← rd inst.data (pos / idBytes)
          let sc ← subcirc_list_get subcircs id
          if sc.isNone then pure 0
          else split_instruction_check_loop idBytes inst subcircs fuel (pos + idBytes)
    else .ok 1

/-- Function `split_instruction_check`. -/
def split_instruction_check (idBytes : Nat) (inst : split_instruction_t)
    (subcircs : subcirc_list_t) : Run Int :=
  if inst.type = SPLIT_INSTRUCTION_TYPE_GENERIC then
    if inst.length = 0 then pure (-1)
    else split_instruction_check_loop idBytes inst subcircs inst.length 0
  else pure 0

/-! ## splitcommon.c: the session record -/

/-- Function `cell_buffer_new` followed by `cell_buffer_init`. -/
def cell_buffer_new : cell_buffer_t := { head := [], num := 0 }

/-- Function `subcircuit_new`. -/
def subcircuit_new : subcircuit_t :=
  { circ := none, id := 0, state := subcirc_state_t.SUBCIRC_STATE_UNSPEC,
    cell_buf := cell_buffer_new }

/-- Function `split_data_new`: a zeroed `split_data_t`.  The list pointer
`subcircs` is `NULL` until `split_data_init`; here it is a list without
slots. -/
def split_data_new : split_data_t :=
  { split_data_client := none, split_data_or := none, base := none,
    cookie := List.replicate SPLIT_COOKIE_LEN 0,
    cookie_state := split_cookie_state_t.SPLIT_COOKIE_STATE_INVALID,
    subcircs := { list := [], capacity := 0, num_elements := 0, max_index := 0 },
    next_subcirc_out := none, next_subcirc_in := none,
    instruction_out := [], instruction_in := [], marked_for_close := false }

/-- Function `split_data_init_or`: `split_data_init` for a base that is an
`or_circuit_t`, then `split_data_or_new` and `split_data_or_init`. -/
def split_data_init_or (w : World) (split_data : split_data_t) (base : Nat) :
    Run split_data_t := do
  let circ ← get_circ w base
  pure { split_data with
    base := some base,
    cookie_state := split_cookie_state_t.SPLIT_COOKIE_STATE_INVALID,
    subcircs := subcirc_list_new,
    split_data_or := some { remaining_relay_early_cells := circ.remaining_relay_early_cells } }

/-- Function `split_data_get_num_subcircs_pending`. -/
def split_data_get_num_subcircs_pending (split_data : split_data_t) : Nat :=
  match split_data.split_data_client with
  | some client => client.pending_subcircs.length
  | none => 0

/-- Function `split_data_get_num_subcircs_added`. -/
def split_data_get_num_subcircs_added (split_data : split_data_t) : Nat :=
  subcirc_list_get_num split_data.subcircs

/-- Function `split_data_get_num_subcircs`. -/
def split_data_get_num_subcircs (split_data : split_data_t) : Nat :=
  split_data_get_num_subcircs_pending split_data + split_data_get_num_subcircs_added split_data

/-- Function `split_data_get_subcirc`. -/
def split_data_get_subcirc (split_data : split_data_t) (id : Nat) : Run (Option Nat) :=
  if split_data_get_num_subcircs_added split_data = 0 then pure none
  else do
    tor_assert (decide (split_data.subcircs.max_index ≥ 0))
    if (id : Int) > split_data.subcircs.max_index then pure none
    else subcirc_list_get split_data.subcircs id

/-- Function `split_data_reset_next_subcirc`. -/
def split_data_reset_next_subcirc (split_data : split_data_t) : split_data_t :=
  { split_data with next_subcirc_in := none, next_subcirc_out := none }

/-- Function `split_data_used_subcirc`. -/
def split_data_used_subcirc (split_data : split_data_t) (direction : cell_direction_t) :
    split_data_t :=
  match direction with
  | .CELL_DIRECTION_IN => { split_data with next_subcirc_in := none }
  | .CELL_DIRECTION_OUT => { split_data with next_subcirc_out := none }

/-- The sticky pick `next_subcirc_in` / `next_subcirc_out` of a direction. -/
def next_subcirc (split_data : split_data_t) (direction : cell_direction_t) : Option Nat :=
  match direction with
  | .CELL_DIRECTION_IN => split_data.next_subcirc_in
  | .CELL_DIRECTION_OUT => split_data.next_subcirc_out

/-- The queue `instruction_in` / `instruction_out` of a direction. -/
def instruction (split_data : split_data_t) (direction : cell_direction_t) :
    List split_instruction_t :=
  match direction with
  | .CELL_DIRECTION_IN => split_data.instruction_in
  | .CELL_DIRECTION_OUT => split_data.instruction_out

/-- Assign the sticky pick of a direction. -/
def set_next_subcirc (split_data : split_data_t) (direction : cell_direction_t)
    (v : Option Nat) : split_data_t :=
  match direction with
  | .CELL_DIRECTION_IN => { split_data with next_subcirc_in := v }
  | .CELL_DIRECTION_OUT => { split_data with next_subcirc_out := v }

/-- Assign the queue of a direction. -/
def set_instruction (split_data : split_data_t) (direction : cell_direction_t)
    (q : List split_instruction_t) : split_data_t :=
  match direction with
  | .CELL_DIRECTION_IN => { split_data with instruction_in := q }
  | .CELL_DIRECTION_OUT => { split_data with instruction_out := q }

/-- Function `split_data_get_next_subcirc` on the `split_data_t` object `h`.
The client-only call of `split_data_generate_instruction` (splitclient.c) is
the parameter `generate`; it runs only when `split_data_client` is set. -/
def split_data_get_next_subcirc (idBytes : Nat)
    (generate : World → Nat → cell_direction_t → Run World)
    (w : World) (h : Nat) (direction : cell_direction_t) : Run (Option Nat × World) := do
  let split_data ← get_split_data w h
  if split_data.marked_for_close then do
    let r ← subcirc_list_get split_data.subcircs 0
    pure (r, w)
  else
    match next_subcirc split_data direction with
    | some p => pure (some p, w)
    | none =>
      match instruction split_data direction with
      | [] => pure (none, w)
      | prev :: rest => do
        let (next_id, queue) ← split_instruction_get_next_id idBytes (prev :: rest)
        let w := set_split_data w h (set_instruction split_data direction queue)
        let w ←
          (if queue.length ≠ (prev :: rest).length ∧ split_data.split_data_client.isSome then
            generate w h direction
          else pure w : Run World)
        let split_data ← get_split_data w h
        let next ← subcirc_list_get split_data.subcircs next_id
        let w := set_split_data w h (set_next_subcirc split_data direction next)
        tor_assert next.isSome
        match next with
        | none => .error Fault.assertion
        | some p => do
          let sub ← get_subcirc w p
          tor_assert sub.circ.isSome
          pure (some p, w)

/-- `n` rounds of `split_data_get_next_subcirc` followed by
`split_data_used_subcirc` in one direction; returns the sub-circuits picked,
in order. -/
def pick_rounds (idBytes : Nat) (generate : World → Nat → cell_direction_t → Run World)
    (h : Nat) (direction : cell_direction_t) : Nat → World → Run (List (Option Nat) × World)
  | 0, w => .ok ([], w)
  | n + 1, w => do
    let (p, w) ← split_data_get_next_subcirc idBytes generate w h direction
    let split_data ← get_split_data w h
    let w := set_split_data w h (split_data_used_subcirc split_data direction)
    let (ps, w) ← pick_rounds idBytes generate h direction n w
    pure (p :: ps, w)

/-- The other direction. -/
def other_direction : cell_direction_t → cell_direction_t
  | .CELL_DIRECTION_IN => .CELL_DIRECTION_OUT
  | .CELL_DIRECTION_OUT => .CELL_DIRECTION_IN

/-- An instruction as the decoder and the strategies produce it and as
`split_instruction_get_next_id` leaves it: generic, holding at least one ID,
`length` the size of `data` in bytes, `position` an ID boundary before the
end. -/
def WFInst (idBytes : Nat) (inst : split_instruction_t) : Prop :=
  inst.type = SPLIT_INSTRUCTION_TYPE_GENERIC ∧ inst.length = inst.data.length * idBytes ∧
  inst.position % idBytes = 0 ∧ inst.position < inst.length

/-- The IDs of an instruction that have not been consumed yet. -/
def inst_ids (idBytes : Nat) (inst : split_instruction_t) : List Nat :=
  inst.data.drop (inst.position / idBytes)

/-- The IDs of a queue of instructions that have not been consumed yet: the
concatenation `I1 ++ ... ++ Ik`. -/
def queue_ids (idBytes : Nat) : List split_instruction_t → List Nat
  | [] => []
  | inst :: rest => inst_ids idBytes inst ++ queue_ids idBytes rest

/-- The ID names an occupied slot of the list, and the sub-circuit stored
there is a live object with a circuit. -/
def names_subcirc (w : World) (subcircs : subcirc_list_t) (id : Nat) : Prop :=
  id < subcircs.capacity ∧
  ∃ p sub, subcircs.list.get? id = some (some p) ∧ get_subcirc w p = .ok sub ∧
    sub.circ.isSome = true

/-! ## splitcommon.c: sub-circuit registration -/

/-- The `for` loop of `split_data_check_subcirc` over `split_data->subcircs`
from `id` on: `true` when some stored sub-circuit refers to `circ`. -/
def check_subcirc_loop (w : World) (split_data : split_data_t) (circ : Nat) :
    Nat → Nat → Run Bool
  | fuel, id =>
    if (id : Int) ≤ split_data.subcircs.max_index then
      match fuel with
      | 0 => .error Fault.fuel
      | fuel + 1 => do
        let aux ← split_data_get_subcirc split_data id
        match aux with
        | some p => do
          let sub ← get_subcirc w p
          if sub.circ = some circ then pure true
          else check_subcirc_loop w split_data circ fuel (id + 1)
        | none => check_subcirc_loop w split_data circ fuel (id + 1)
    else .ok false

/-- Function `split_data_check_subcirc` for a circuit of the middle
(`CIRCUIT_IS_ORCIRC(circ)`), on the `split_data_t` object `h`.  Returns `-1`,
`0`, `1` or `2`.  With a client part the code asserts `origin_circ`, which is
`NULL` here. -/
def split_data_check_subcirc (w : World) (h : Nat) (circ : Nat) : Run Int := do
  let split_data ← get_split_data w h
  let or_circ ← get_circ w circ
  let subcirc := if or_circ.split_data = some h then or_circ.subcirc else none
  match subcirc with
  | none => do
    let found ← check_subcirc_loop w split_data circ (split_data.subcircs.max_index.toNat + 1) 0
    if found then pure (-1)
    else
      match split_data.split_data_client with
      | some _ => .error Fault.assertion
      | none => pure 2
  | some p => do
    let sub ← get_subcirc w p
    if sub.circ ≠ some circ then pure (-1)
    else
      match sub.state with
      | .SUBCIRC_STATE_PENDING_COOKIE | .SUBCIRC_STATE_PENDING_JOIN =>
        match split_data.split_data_client with
        | none => pure (-1)
        | some client =>
          if ¬ client.pending_subcircs.contains p then pure (-1)
          else do
            let c ← subcirc_list_contains split_data.subcircs p
            if c then pure (-1) else pure 1
      | .SUBCIRC_STATE_ADDED => do
        let stored ← split_data_get_subcirc split_data sub.id
        if stored ≠ some p then pure (-1)
        else if (match split_data.split_data_client with
                 | some client => client.pending_subcircs.contains p
                 | none => false) then pure (-1)
        else if sub.id = 0 ∧ some circ ≠ split_data.base then pure (-1)
        else if some circ = split_data.base ∧ sub.id ≠ 0 then pure (-1)
        else pure 0
      | .SUBCIRC_STATE_UNSPEC => pure (-1)

/-- Function `split_data_add_subcirc` on the `split_data_t` object `h`:
returns the pointer to the new `subcircuit_t` (`none` is `NULL`). -/
def split_data_add_subcirc (w : World) (h : Nat) (state : subcirc_state_t) (circ : Nat)
    (id : Nat) : Run (Option Nat × World) := do
  let split_data ← get_split_data w h
  if split_data.marked_for_close then pure (none, w)
  else do
    let r ← split_data_check_subcirc w h circ
    tor_assert (r == 2)
    let subcirc : subcircuit_t := { subcircuit_new with circ := some circ, id := id, state := state }
    let p := w.subcircuits.length
    let w := { w with subcircuits := w.subcircuits ++ [some subcirc] }
    match state with
    | .SUBCIRC_STATE_PENDING_COOKIE | .SUBCIRC_STATE_PENDING_JOIN =>
      match split_data.split_data_client with
      | none => .error Fault.assertion
      | some client =>
        pure (some p, set_split_data w h { split_data with
          split_data_client := some { client with
            pending_subcircs := client.pending_subcircs ++ [p] } })
    | .SUBCIRC_STATE_ADDED => do
      tor_assert (decide (id = 0 → some circ = split_data.base))
      let subcircs ← subcirc_list_add split_data.subcircs p id
      let split_data := split_data_reset_next_subcirc { split_data with subcircs := subcircs }
      pure (some p, set_split_data w h split_data)
    | .SUBCIRC_STATE_UNSPEC =>
      pure (none, { w with subcircuits := w.subcircuits.set p none })

/-! ## splitor.c: the middle -/

/-- Function `split_check_or_circuit` for a non-`NULL` circuit. -/
def split_check_or_circuit (circ : or_circuit_t) : Int :=
  if circ.marked_for_close then -1
  else if ¬ circ.state_open then -1
  else if ¬ circ.purpose_or then -1
  else 0

/-- The bytes that `write_subcirc_id(subcirc_id_hton(id), dest)` stores: the
ID in network byte order. -/
def subcirc_id_wire (idBytes : Nat) : Nat → List Nat
  | id => (List.range idBytes).reverse.map (fun i => id / 256 ^ i % 256)

/-- Function `split_send_cookie_response`. -/
def split_send_cookie_response (idBytes : Nat) (w : World) (circ : Nat) (id : Nat)
    (success : Bool) (fails : Bool) : Run (Int × World) :=
  let payload := if success then 0x01 :: subcirc_id_wire idBytes id else [0x00]
  relay_send_command_from_edge w circ relay_command_t.RELAY_COMMAND_SPLIT_COOKIE_SET payload fails

/-- Function `split_send_join_response`. -/
def split_send_join_response (idBytes : Nat) (w : World) (circ : Nat) (id : Nat)
    (success : Bool) (fails : Bool) : Run (Int × World) :=
  let payload := if success then 0x01 :: subcirc_id_wire idBytes id else [0x00]
  relay_send_command_from_edge w circ relay_command_t.RELAY_COMMAND_SPLIT_JOINED payload fails

/-- Function `split_get_new_subcirc_id`. -/
def split_get_new_subcirc_id (split_data : split_data_t) : Run Nat := do
  let next_id := split_data_get_num_subcircs split_data
  tor_assert (decide (next_id < MAX_SUBCIRCS))
  pure next_id

/-- The cookie of the `split_data_t` object `h`, the key under which
`split_data_or_cookie_hash` and `split_data_or_cookie_equal` store it. -/
def cookie_of (w : World) (h : Nat) : Option (List Nat) :=
  match w.split_datas.get? h with
  | some (some sd) => some sd.cookie
  | _ => none

/-- Modelled from the spec: the macro `HT_FIND` of `ext/ht.h` is not under
src.  It returns the stored element that is equal to the given one, elements
being compared by `split_data_or_cookie_equal`, that is, by their cookies. -/
def HT_FIND (w : World) (cookie : List Nat) : Option Nat :=
  w.split_data_or_cookie_map.find? (fun h => cookie_of w h == some cookie)

/-- Modelled from the spec: the macro `HT_REMOVE` of `ext/ht.h` is not under
src.  It removes the stored element that is equal (by its cookie) to the
given one, if there is one. -/
def HT_REMOVE (w : World) (cookie : List Nat) : World :=
  match HT_FIND w cookie with
  | some old => { w with split_data_or_cookie_map := w.split_data_or_cookie_map.erase old }
  | none => w

/-- Modelled from the spec: the macro `HT_REPLACE` of `ext/ht.h` is not under
src.  It stores the element `h`; a stored element that is equal (by its
cookie) to it is taken out and returned. -/
def HT_REPLACE (w : World) (h : Nat) (cookie : List Nat) : Option Nat × World :=
  match HT_FIND w cookie with
  | some old =>
    (some old, { w with split_data_or_cookie_map := (w.split_data_or_cookie_map.erase old) ++ [h] })
  | none => (none, { w with split_data_or_cookie_map := w.split_data_or_cookie_map ++ [h] })

/-- Function `split_data_cookie_make_valid`. -/
def split_data_cookie_make_valid (w : World) (h : Nat) : Run World := do
  let split_data ← get_split_data w h
  tor_assert split_data.split_data_or.isSome
  let w := set_split_data w h { split_data with
    cookie_state := split_cookie_state_t.SPLIT_COOKIE_STATE_VALID }
  let (old_entry, w) := HT_REPLACE w h split_data.cookie
  match old_entry with
  | some old => do
    let old_data ← get_split_data w old
    pure (set_split_data w old { old_data with
      cookie_state := split_cookie_state_t.SPLIT_COOKIE_STATE_INVALID })
  | none => pure w

/-- Function `split_data_cookie_make_invalid`. -/
def split_data_cookie_make_invalid (w : World) (h : Nat) : Run World := do
  let split_data ← get_split_data w h
  tor_assert split_data.split_data_or.isSome
  let w := set_split_data w h { split_data with
    cookie_state := split_cookie_state_t.SPLIT_COOKIE_STATE_INVALID }
  pure (HT_REMOVE w split_data.cookie)

/-- Function `split_get_split_data_by_cookie`. -/
def split_get_split_data_by_cookie (w : World) (cookie : List Nat) : Run (Option Nat) :=
  match HT_FIND w cookie with
  | some found => do
    let split_data ← get_split_data w found
    tor_assert (split_data.cookie_state == split_cookie_state_t.SPLIT_COOKIE_STATE_VALID)
    pure (some found)
  | none => pure none

/-- Function `split_process_set_cookie` on the circuit `circ` with the
payload of the cell.  `fails` tells whether sending the response fails. -/
def split_process_set_cookie (idBytes : Nat) (w : World) (circ : Nat) (payload : List Nat)
    (fails : Bool) : Run (Int × World) := do
  if payload.length ≠ SPLIT_COOKIE_LEN then pure (-1, w)
  else do
    let or_circ ← get_circ w circ
    let r ←
      (match or_circ.split_data with
       | none =>
         if split_check_or_circuit or_circ ≠ 0 then pure (Sum.inl ())
         else do
           tor_assert or_circ.subcirc.isNone
           let split_data ← split_data_init_or w split_data_new circ
           let h := w.split_datas.length
           let w := { w with split_datas := w.split_datas ++ [some split_data] }
           let w := set_circ w circ { or_circ with split_data := some h }
           let subcirc_id ← split_get_new_subcirc_id split_data
           let (sub, w) ← split_data_add_subcirc w h subcirc_state_t.SUBCIRC_STATE_ADDED circ
             subcirc_id
           let or_circ ← get_circ w circ
           let w := set_circ w circ { or_circ with subcirc := sub }
           let c ← split_data_check_subcirc w h circ
           tor_assert (c == 0)
           pure (Sum.inr (h, subcirc_id, w))
       | some h => do
         let c ← split_data_check_subcirc w h circ
         tor_assert (c == 0)
         match or_circ.subcirc with
         | none => .error Fault.memory
         | some p => do
           let sub ← get_subcirc w p
           pure (Sum.inr (h, sub.id, w)) : Run (Unit ⊕ (Nat × Nat × World)))
    match r with
    | Sum.inl _ => do
      let (s, w) ← split_send_cookie_response idBytes w circ 0 false fails
      if s ≠ 0 then pure (-1, w) else pure (0, w)
    | Sum.inr (h, subcirc_id, w) => do
      let w ← split_data_cookie_make_invalid w h
      let split_data ← get_split_data w h
      let w := set_split_data w h { split_data with cookie := payload }
      let w ← split_data_cookie_make_valid w h
      let (s, w) ← split_send_cookie_response idBytes w circ subcirc_id true fails
      if s ≠ 0 then pure (-1, w) else pure (0, w)

/-- Function `split_process_join` on the circuit `circ` with the payload of
the cell.  `fails` tells whether sending the response fails. -/
def split_process_join (idBytes : Nat) (w : World) (circ : Nat) (payload : List Nat)
    (fails : Bool) : Run (Int × World) := do
  if payload.length ≠ SPLIT_COOKIE_LEN then pure (-1, w)
  else do
    let or_circ ← get_circ w circ
    match or_circ.split_data with
    | some _ => do
      tor_assert or_circ.subcirc.isSome
      pure (-1, w)
    | none => do
      tor_assert or_circ.subcirc.isNone
      let found ← split_get_split_data_by_cookie w payload
      match found with
      | some h => do
        let w := set_circ w circ { or_circ with split_data := some h }
        let split_data ← get_split_data w h
        let subcirc_id ← split_get_new_subcirc_id split_data
        let (sub, w) ← split_data_add_subcirc w h subcirc_state_t.SUBCIRC_STATE_ADDED circ
          subcirc_id
        let or_circ ← get_circ w circ
        let w := set_circ w circ { or_circ with subcirc := sub }
        let c ← split_data_check_subcirc w h circ
        tor_assert (c == 0)
        let (s, w) ← split_send_join_response idBytes w circ subcirc_id true fails
        if s ≠ 0 then pure (-1, w) else pure (0, w)
      | none => do
        let (s, w) ← split_send_join_response idBytes w circ 0 false fails
        if s ≠ 0 then pure (-1, w) else pure (0, w)

/-- Function `split_data_get_base` with `must_be_added` set, on the
`split_data_t` object `h` of the middle. -/
def split_data_get_base (w : World) (h : Nat) (must_be_added : Bool) : Run Nat := do
  let split_data ← get_split_data w h
  match split_data.base with
  | none => .error Fault.assertion
  | some base => do
    let _ ← get_circ w base
    let subcirc ← split_data_get_subcirc split_data 0
    if must_be_added then
      match subcirc with
      | none => .error Fault.assertion
      | some p => do
        let sub ← get_subcirc w p
        tor_assert (sub.state == subcirc_state_t.SUBCIRC_STATE_ADDED)
        tor_assert (sub.circ == some base)
        pure base
    else
      match subcirc with
      | none => pure base
      | some p => do
        let sub ← get_subcirc w p
        tor_assert (sub.circ == some base)
        pure base

/-- Function `split_get_next_subcirc` for a base circuit of the middle:
`split_get_next_split_data` reads `TO_OR_CIRCUIT(base)->split_data`. -/
def split_get_next_subcirc (idBytes : Nat)
    (generate : World → Nat → cell_direction_t → Run World) (w : World) (base : Nat)
    (direction : cell_direction_t) : Run (Option Nat × World) := do
  let or_circ ← get_circ w base
  match or_circ.split_data with
  | none => .error Fault.assertion
  | some h => split_data_get_next_subcirc idBytes generate w h direction

/-- Function `cell_buffer_pop`: the cell at the head (`none` is `NULL`) and
the buffer that is left. -/
def cell_buffer_pop (buf : cell_buffer_t) : Run (Option buffered_cell_t × cell_buffer_t) :=
  match buf.head with
  | [] => pure (none, buf)
  | cell :: rest => do
    let buf : cell_buffer_t := { head := rest, num := buf.num - 1 }
    tor_assert (decide (buf.num ≥ 0))
    pure (some cell, buf)

/-- Function `split_get_base_` for a circuit of the middle
(`CIRCUIT_IS_ORCIRC(circ)`); `none` is `NULL`. -/
def split_get_base_ (w : World) (circ : Nat) : Run (Option Nat) := do
  let or_circ ← get_circ w circ
  match or_circ.split_data with
  | none => pure none
  | some h =>
    match or_circ.subcirc with
    | none => .error Fault.assertion
    | some p => do
      let subcirc ← get_subcirc w p
      if subcirc.state = subcirc_state_t.SUBCIRC_STATE_ADDED then do
        let base ← split_data_get_base w h true
        pure (some base)
      else pure none

/-- Function `split_used_circuit` for a base circuit of the middle. -/
def split_used_circuit (w : World) (base : Nat) (direction : cell_direction_t) : Run World := do
  let or_circ ← get_circ w base
  match or_circ.split_data with
  | none => .error Fault.assertion
  | some h => do
    let split_data ← get_split_data w h
    pure (set_split_data w h (split_data_used_subcirc split_data direction))

/-- Modelled from the spec: `append_cell_to_circuit_queue` of
`core/or/relay.c` is not under src.  It appends the cell to the queue of the
circuit towards its next channel. -/
def append_cell_to_circuit_queue (w : World) (circ : Nat) (cell : Nat) : World :=
  { w with relayed := w.relayed ++ [(circ, cell)] }

/-- The `while (next_subcirc && next_subcirc->cell_buf->num > 0)` loop of
`split_handle_buffered_cells` at the middle. -/
def handle_buffered_loop (idBytes : Nat) (generate : World → Nat → cell_direction_t → Run World)
    (base : Nat) : Nat → World → Option Nat → Run World
  | fuel, w, next_subcirc =>
    match next_subcirc with
    | none => .ok w
    | some p => do
      let subcirc ← get_subcirc w p
      if subcirc.cell_buf.num > 0 then
        match fuel with
        | 0 => .error Fault.fuel
        | fuel + 1 => do
          let (buf_cell, buf) ← cell_buffer_pop subcirc.cell_buf
          let w := set_subcirc w p { subcirc with cell_buf := buf }
          match buf_cell with
          | none => .error Fault.assertion
          | some buf_cell => do
            let base_circ ← get_circ w base
            tor_assert base_circ.has_n_chan
            let w := append_cell_to_circuit_queue w base buf_cell.cell
            let w ← split_used_circuit w base cell_direction_t.CELL_DIRECTION_OUT
            let (next_subcirc, w) ← split_get_next_subcirc idBytes generate w base
              cell_direction_t.CELL_DIRECTION_OUT
            handle_buffered_loop idBytes generate base fuel w next_subcirc
      else pure w

/-- Function `split_handle_buffered_cells` for a circuit of the middle
(`CIRCUIT_IS_ORCIRC(circ)`).  The assertion `CIRCUIT_IS_ORCIRC(base)` holds
for a base found in the table of OR circuits. -/
def split_handle_buffered_cells (idBytes : Nat)
    (generate : World → Nat → cell_direction_t → Run World) (fuel : Nat) (w : World)
    (circ : Nat) : Run World := do
  let base ← split_get_base_ w circ
  match base with
  | none => pure w
  | some base => do
    let (next_subcirc, w) ← split_get_next_subcirc idBytes generate w base
      cell_direction_t.CELL_DIRECTION_OUT
    handle_buffered_loop idBytes generate base fuel w next_subcirc

/-- The number of cells in the reorder buffer of a `subcircuit_t` object
(none for a freed object). -/
def buffered_count : Option subcircuit_t → Nat
  | some subcirc => subcirc.cell_buf.head.length
  | none => 0

/-- The number of cells in the reorder buffers of all sub-circuits. -/
def total_buffered (w : World) : Nat :=
  (w.subcircuits.map buffered_count).sum

/-- The run does not end because the fuel of a loop ran out. -/
def no_fuel {α : Type} (x : Run α) : Prop := x ≠ .error Fault.fuel

/-! ## Concrete states used to evaluate the code -/

/-- A 20-byte cookie. -/
def cookieA : List Nat := List.replicate 20 7

/-- An open OR circuit that is not marked for close, with the given
`split_data` and `subcirc` pointers. -/
def ex_circ (split_data subcirc : Option Nat) : or_circuit_t :=
  { marked_for_close := false, marked_for_close_reason := none, state_open := true,
    purpose_or := true, remaining_relay_early_cells := 8, split_data := split_data,
    subcirc := subcirc }

/-- An added sub-circuit with an empty cell buffer. -/
def ex_sub (circ id : Nat) : subcircuit_t :=
  { circ := some circ, id := id, state := subcirc_state_t.SUBCIRC_STATE_ADDED,
    cell_buf := cell_buffer_new }

/-- A middle-side session with cookie `cookieA`. -/
def ex_session (base : Nat) (cookie_state : split_cookie_state_t) (subcircs : subcirc_list_t)
    (next_subcirc_out : Option Nat) (instruction_out instruction_in : List split_instruction_t) :
    split_data_t :=
  { split_data_client := none, split_data_or := some { remaining_relay_early_cells := 8 },
    base := some base, cookie := cookieA, cookie_state := cookie_state, subcircs := subcircs,
    next_subcirc_out := next_subcirc_out, next_subcirc_in := none,
    instruction_out := instruction_out, instruction_in := instruction_in,
    marked_for_close := false }

/-- The list holding one sub-circuit `p` at index 0. -/
def ex_list1 (p : Nat) : subcirc_list_t :=
  { list := [some p, none, none, none, none], capacity := 5, num_elements := 1, max_index := 0 }

/-- The list holding the sub-circuits 0 and 1 at the indices 0 and 1. -/
def ex_list2 : subcirc_list_t :=
  { list := [some 0, some 1, none, none, none], capacity := 5, num_elements := 2, max_index := 1 }

/-- A COOKIE_SET(ok, 0) cell sent on circuit `c` (one-byte IDs). -/
def ex_cookie_set (c : Nat) : sent_cell_t :=
  { circ := c, command := relay_command_t.RELAY_COMMAND_SPLIT_COOKIE_SET, payload := [1, 0] }

/-- A middle with three circuits and no session. -/
def world0 : World :=
  { circuits := [ex_circ none none, ex_circ none none, ex_circ none none], subcircuits := [],
    split_datas := [], split_data_or_cookie_map := [], sent := [] }

/-- The state after SET_COOKIE(`cookieA`) on circuit 0. -/
def world1 : World :=
  { circuits := [ex_circ (some 0) (some 0), ex_circ none none, ex_circ none none],
    subcircuits := [some (ex_sub 0 0)],
    split_datas := [some (ex_session 0 split_cookie_state_t.SPLIT_COOKIE_STATE_VALID
      (ex_list1 0) none [] [])],
    split_data_or_cookie_map := [0], sent := [ex_cookie_set 0] }

/-- The state after SET_COOKIE(`cookieA`) on circuit 0 and then on
circuit 1: session 1 has taken the cookie over from session 0. -/
def world2 : World :=
  { circuits := [ex_circ (some 0) (some 0), ex_circ (some 1) (some 1), ex_circ none none],
    subcircuits := [some (ex_sub 0 0), some (ex_sub 1 0)],
    split_datas := [some (ex_session 0 split_cookie_state_t.SPLIT_COOKIE_STATE_INVALID
        (ex_list1 0) none [] []),
      some (ex_session 1 split_cookie_state_t.SPLIT_COOKIE_STATE_VALID (ex_list1 1) none [] [])],
    split_data_or_cookie_map := [1], sent := [ex_cookie_set 0, ex_cookie_set 1] }

/-- The state after a third SET_COOKIE(`cookieA`), on circuit 0 again. -/
def world3 : World :=
  { circuits := [ex_circ (some 0) (some 0), ex_circ (some 1) (some 1), ex_circ none none],
    subcircuits := [some (ex_sub 0 0), some (ex_sub 1 0)],
    split_datas := [some (ex_session 0 split_cookie_state_t.SPLIT_COOKIE_STATE_VALID
        (ex_list1 0) none [] []),
      some (ex_session 1 split_cookie_state_t.SPLIT_COOKIE_STATE_VALID (ex_list1 1) none [] [])],
    split_data_or_cookie_map := [0],
    sent := [ex_cookie_set 0, ex_cookie_set 1, ex_cookie_set 0] }

/-- The state after SET_COOKIE(`cookieA`) on circuit 0 and JOIN(`cookieA`) on
circuit 1, with the given OUT queue, IN queue and OUT pick. -/
def world_joined (next_subcirc_out : Option Nat)
    (instruction_out instruction_in : List split_instruction_t) : World :=
  { circuits := [ex_circ (some 0) (some 0), ex_circ (some 0) (some 1), ex_circ none none],
    subcircuits := [some (ex_sub 0 0), some (ex_sub 1 1)],
    split_datas := [some (ex_session 0 split_cookie_state_t.SPLIT_COOKIE_STATE_VALID ex_list2
      next_subcirc_out instruction_out instruction_in)],
    split_data_or_cookie_map := [0],
    sent := [ex_cookie_set 0,
      { circ := 1, command := relay_command_t.RELAY_COMMAND_SPLIT_JOINED, payload := [1, 1] }] }

/-- A generic instruction over one-byte IDs at position `position`. -/
def ex_inst (data : List Nat) (position : Nat) : split_instruction_t :=
  { type := SPLIT_INSTRUCTION_TYPE_GENERIC, data := data, position := position,
    length := data.length }

/-- A stand-in for the client-only `split_data_generate_instruction`, which
the middle never calls. -/
def no_generate : World → Nat → cell_direction_t → Run World := fun w _ _ => .ok w

/-- The circuit `c` is marked for close. -/
def is_marked (w : World) (c : Nat) : Prop :=
  ∃ circ, get_circ w c = .ok circ ∧ circ.marked_for_close = true

/-- The session `h` of the middle holds exactly the sub-circuit IDs
`0 .. k-1`: its list was built by the list operations, counts `k` elements,
the slot `i < k` holds a live sub-circuit whose `id` is `i`, the other slots
are empty, and there is no client part (so no pending sub-circuit). -/
def holds_ids (w : World) (h k : Nat) : Prop :=
  ∃ sd, get_split_data w h = .ok sd ∧ sd.split_data_client = none ∧
    ListReachable sd.subcircs ∧ sd.subcircs.num_elements = k ∧
    (∀ i, i < k → ∃ p sub, sd.subcircs.list.getD i none = some p ∧
      get_subcirc w p = .ok sub ∧ sub.id = i) ∧
    (∀ i, k ≤ i → sd.subcircs.list.getD i none = none)

/-- The session of `world_joined` after it was marked for close. -/
def ex_session_marked (next_subcirc_out : Option Nat)
    (instruction_out instruction_in : List split_instruction_t) : split_data_t :=
  { ex_session 0 split_cookie_state_t.SPLIT_COOKIE_STATE_VALID ex_list2 next_subcirc_out
      instruction_out instruction_in with marked_for_close := true }

/-- The state `world_joined` in which the session is marked for close. -/
def world_marked (next_subcirc_out : Option Nat)
    (instruction_out instruction_in : List split_instruction_t) : World :=
  { world_joined next_subcirc_out instruction_out instruction_in with
    split_datas := [some (ex_session_marked next_subcirc_out instruction_out instruction_in)] }

/-- The state `world2` after JOIN(`cookieA`) on circuit 2: the circuit has
become sub-circuit 1 of session 1. -/
def world2_joined : World :=
  { circuits := [ex_circ (some 0) (some 0), ex_circ (some 1) (some 1), ex_circ (some 1) (some 2)],
    subcircuits := [some (ex_sub 0 0), some (ex_sub 1 0), some (ex_sub 2 1)],
    split_datas := [some (ex_session 0 split_cookie_state_t.SPLIT_COOKIE_STATE_INVALID
        (ex_list1 0) none [] []),
      some (ex_session 1 split_cookie_state_t.SPLIT_COOKIE_STATE_VALID
        { list := [some 1, some 2, none, none, none], capacity := 5, num_elements := 2,
          max_index := 1 } none [] [])],
    split_data_or_cookie_map := [1],
    sent := [ex_cookie_set 0, ex_cookie_set 1,
      { circ := 2, command := relay_command_t.RELAY_COMMAND_SPLIT_JOINED, payload := [1, 1] }] }

/-- A reorder buffer holding the cells `cells`, all stamped 0. -/
def ex_buffer (cells : List Nat) : cell_buffer_t :=
  { head := cells.map (fun c => { cell := c, inserted_timestamp := 0 }), num := cells.length }

/-- An added sub-circuit whose reorder buffer holds the cells `cells`. -/
def ex_sub_buffered (circ id : Nat) (cells : List Nat) : subcircuit_t :=
  { circ := some circ, id := id, state := subcirc_state_t.SUBCIRC_STATE_ADDED,
    cell_buf := ex_buffer cells }

/-- The state `world_joined` in which the reorder buffers of the sub-circuits
0 and 1 hold the cells `cells0` and `cells1`, and the cells `relayed` have
been passed on for the base circuit 0. -/
def world_buffered (next_subcirc_out : Option Nat) (instruction_out : List split_instruction_t)
    (cells0 cells1 : List Nat) (relayed : List Nat) : World :=
  { world_joined next_subcirc_out instruction_out [] with
    subcircuits := [some (ex_sub_buffered 0 0 cells0), some (ex_sub_buffered 1 1 cells1)],
    relayed := relayed.map (fun c => (0, c)) }

/-! ## The drain of the reorder buffers as the specification describes it -/

/-- The cells in the reorder buffer of a `subcircuit_t` object, head first
(none for a freed object). -/
def buffered_cells : Option subcircuit_t → List Nat
  | some subcirc => subcirc.cell_buf.head.map (fun c => c.cell)
  | none => []

/-- The cells in the reorder buffers of the sub-circuits, by sub-circuit
handle. -/
def buffers_of (w : World) : List (List Nat) := w.subcircuits.map buffered_cells

/-- The drain as the specification describes it, on the reorder buffers
`bufs` and the sub-circuits `picks` that the scheduler selects one after the
other: as long as the reorder buffer of the selected sub-circuit holds a cell,
the cell at its head is taken out and passed on; the drain stops at the first
selected sub-circuit whose buffer is empty, or when nothing is selected any
more.  Returns the cells passed on, in order, each with the sub-circuit it
came from, and the buffers that are left. -/
def drain_spec : List (List Nat) → List Nat → List (Nat × Nat) × List (List Nat)
  | bufs, [] => ([], bufs)
  | bufs, p :: picks =>
    match bufs.getD p [] with
    | [] => ([], bufs)
    | c :: rest =>
      let r := drain_spec (bufs.set p rest) picks
      ((p, c) :: r.1, r.2)

/-- The sub-circuits that the scheduler selects one after the other in
direction OUT: the sticky pick, if there is one, and then the sub-circuits
stored at the IDs that are left in `instruction_out`. -/
def picks_of (idBytes : Nat) (sd : split_data_t) : List Nat :=
  sd.next_subcirc_out.toList ++
    (queue_ids idBytes sd.instruction_out).filterMap (fun id => sd.subcircs.list.getD id none)

/-- The session `h` of the middle is ready for the drain of the base circuit
`base`: it is a live object without client part that is not marked for
close, its OUT instructions are well formed and their IDs name sub-circuits,
a sticky OUT pick is a live sub-circuit, the counter `num` of every reorder
buffer is the number of cells queued in it, and `base` is a circuit of the
session that has a next channel. -/
def drain_ready (idBytes : Nat) (w : World) (h base : Nat) (sd : split_data_t) : Prop :=
  get_split_data w h = .ok sd ∧ sd.split_data_client = none ∧ sd.marked_for_close = false ∧
  (∀ inst ∈ sd.instruction_out, WFInst idBytes inst) ∧
  (∀ id ∈ queue_ids idBytes sd.instruction_out, names_subcirc w sd.subcircs id) ∧
  (∀ p, sd.next_subcirc_out = some p → ∃ sub, get_subcirc w p = .ok sub) ∧
  (∀ p sub, get_subcirc w p = .ok sub → sub.cell_buf.num = (sub.cell_buf.head.length : Int)) ∧
  (∃ bc, get_circ w base = .ok bc ∧ bc.split_data = some h ∧ bc.has_n_chan = true)

/-! ## splitstrategy.c: the splitting strategies -/

/-- Enum `split_strategy_t`, by its values. -/
def SPLIT_STRATEGY_MIN_ID : Nat := 0

/-- Enum value `SPLIT_STRATEGY_MAX_ID`. -/
def SPLIT_STRATEGY_MAX_ID : Nat := 1

/-- Enum value `SPLIT_STRATEGY_ROUND_ROBIN`. -/
def SPLIT_STRATEGY_ROUND_ROBIN : Nat := 2

/-- Enum value `SPLIT_STRATEGY_RANDOM_UNIFORM`. -/
def SPLIT_STRATEGY_RANDOM_UNIFORM : Nat := 3

/-- Enum value `SPLIT_STRATEGY_WEIGHTED_RANDOM`. -/
def SPLIT_STRATEGY_WEIGHTED_RANDOM : Nat := 4

/-- Enum value `SPLIT_STRATEGY_BATCHED_WEIGHTED_RANDOM`. -/
def SPLIT_STRATEGY_BATCHED_WEIGHTED_RANDOM : Nat := 5

/-- Constant `C_MIN` of splitstrategy.h. -/
def C_MIN : Nat := 50

/-- Constant `C_MAX` of splitstrategy.h. -/
def C_MAX : Nat := 70

/-- The outcome of the random draws of one call of a strategy.  `draw k` is
the `k`-th value handed out by the random generator; `theta` is the vector
drawn by `ran_dirichlet`, each weight `θ_j` represented by
`tor_lround(100 * θ_j)`, the only value the strategies compute from it;
`fuel` is the number of iterations granted to each `do ... while` loop. -/
structure strategy_env where
  draw : Nat → Nat
  theta : List Int
  fuel : Nat

/-- Modelled from the spec: `crypto_rand` of `lib/crypt_ops` is not under src.
It fills a `subcirc_id_t` with random bytes: the `k`-th draw, truncated. -/
def crypto_rand (idBytes : Nat) (env : strategy_env) (k : Nat) : Nat :=
  env.draw k % 2 ^ (8 * idBytes)

/-- Modelled from the spec: `crypto_rand_int_range(min, max)` of
`lib/crypt_ops` is not under src.  It returns a value in `[min, max)`. -/
def crypto_rand_int_range (env : strategy_env) (k : Nat) (min max : Nat) : Nat :=
  min + env.draw k % (max - min)

/-- Function `get_max_ids_generic`. -/
def get_max_ids_generic (RELAY_PAYLOAD_SIZE : Nat) (max_id : Nat) : Run Nat := do
  let max_data_len := RELAY_PAYLOAD_SIZE - 2
  let total_bits := max_data_len * 8
  let width := subcirc_id_get_width max_id
  tor_assert (width != 0)
  pure (total_bits / width)

/-- The instruction that a strategy returns for the ID list `list`. -/
def new_generic_instruction (idBytes : Nat) (list : List Nat) : split_instruction_t :=
  { type := SPLIT_INSTRUCTION_TYPE_GENERIC, data := list, position := 0,
    length := list.length * idBytes }

/-- Function `get_instruction_min_id`. -/
def get_instruction_min_id (RELAY_PAYLOAD_SIZE idBytes : Nat) (subcircs : subcirc_list_t) :
    Run split_instruction_t := do
  tor_assert (decide (subcirc_list_get_num subcircs > 0))
  let s0 ← subcirc_list_get subcircs 0
  tor_assert s0.isSome
  let num ← get_max_ids_generic RELAY_PAYLOAD_SIZE 0
  pure (new_generic_instruction idBytes (List.replicate num 0))

/-- Function `get_instruction_max_id`. -/
def get_instruction_max_id (RELAY_PAYLOAD_SIZE idBytes : Nat) (subcircs : subcirc_list_t) :
    Run split_instruction_t := do
  tor_assert (decide (subcirc_list_get_num subcircs > 0))
  tor_assert (decide (subcircs.max_index ≥ 0))
  let max_id := subcircs.max_index.toNat % 2 ^ (8 * idBytes)
  let num ← get_max_ids_generic RELAY_PAYLOAD_SIZE max_id
  pure (new_generic_instruction idBytes (List.replicate num max_id))

/-- The loop `do current_id = (current_id + 1) % (max_id + 1);
while (!subcirc_list_get(subcircs, current_id))` of
`get_instruction_round_robin`. -/
def rr_next (idBytes : Nat) (subcircs : subcirc_list_t) (max_id : Nat) : Nat → Nat → Run Nat
  | 0, _ => .error Fault.fuel
  | fuel + 1, current_id => do
    let current_id := (current_id + 1) % (max_id + 1) % 2 ^ (8 * idBytes)
    let s ← subcirc_list_get subcircs current_id
    if s.isNone then rr_next idBytes subcircs max_id fuel current_id else pure current_id

/-- The `for` loop of `get_instruction_round_robin` over the remaining
`n` positions. -/
def rr_loop (idBytes : Nat) (subcircs : subcirc_list_t) (max_id fuel : Nat) :
    Nat → Nat → Run (List Nat)
  | 0, _ => pure []
  | n + 1, current_id => do
    let next ← rr_next idBytes subcircs max_id fuel current_id
    let rest ← rr_loop idBytes subcircs max_id fuel n next
    pure (current_id :: rest)

/-- Function `get_instruction_round_robin`. -/
def get_instruction_round_robin (RELAY_PAYLOAD_SIZE idBytes : Nat) (subcircs : subcirc_list_t)
    (fuel : Nat) : Run split_instruction_t := do
  tor_assert (decide (subcirc_list_get_num subcircs > 0))
  tor_assert (decide (subcircs.max_index ≥ 0))
  let max_id := subcircs.max_index.toNat % 2 ^ (8 * idBytes)
  let num ← get_max_ids_generic RELAY_PAYLOAD_SIZE max_id
  let s0 ← subcirc_list_get subcircs 0
  tor_assert s0.isSome
  let list ← rr_loop idBytes subcircs max_id fuel num 0
  pure (new_generic_instruction idBytes list)

/-- The loop `do crypto_rand(&random); current_id = random % (max_id + 1);
while (!subcirc_list_get(subcircs, current_id))` of
`get_instruction_random_uniform`; `k` counts the draws made so far. -/
def ru_pick (idBytes : Nat) (subcircs : subcirc_list_t) (max_id : Nat) (env : strategy_env) :
    Nat → Nat → Run (Nat × Nat)
  | 0, _ => .error Fault.fuel
  | fuel + 1, k => do
    let random := crypto_rand idBytes env k
    let current_id := random % (max_id + 1) % 2 ^ (8 * idBytes)
    let s ← subcirc_list_get subcircs current_id
    if s.isNone then ru_pick idBytes subcircs max_id env fuel (k + 1)
    else pure (current_id, k + 1)

/-- The `for` loop of `get_instruction_random_uniform`. -/
def ru_loop (idBytes : Nat) (subcircs : subcirc_list_t) (max_id : Nat) (env : strategy_env) :
    Nat → Nat → Run (List Nat)
  | 0, _ => pure []
  | n + 1, k => do
    let (current_id, k) ← ru_pick idBytes subcircs max_id env env.fuel k
    let rest ← ru_loop idBytes subcircs max_id env n k
    pure (current_id :: rest)

/-- Function `get_instruction_random_uniform`. -/
def get_instruction_random_uniform (RELAY_PAYLOAD_SIZE idBytes : Nat)
    (subcircs : subcirc_list_t) (env : strategy_env) : Run split_instruction_t := do
  tor_assert (decide (subcirc_list_get_num subcircs > 0))
  tor_assert (decide (subcircs.max_index ≥ 0))
  let max_id := subcircs.max_index.toNat % 2 ^ (8 * idBytes)
  let num ← get_max_ids_generic RELAY_PAYLOAD_SIZE max_id
  let list ← ru_loop idBytes subcircs max_id env num 0
  pure (new_generic_instruction idBytes list)

/-- Read `a[i]` of an array of rounded weights; outside the block it is a
memory fault. -/
def rdi (a : List Int) (i : Nat) : Run Int :=
  match a.get? i with
  | some v => .ok v
  | none => .error Fault.memory

/-- Write `a[i] = v` into an array of rounded weights. -/
def wri (a : List Int) (i : Nat) (v : Int) : Run (List Int) :=
  if i < a.length then .ok (a.set i v) else .error Fault.memory

/-- Write `weighted_paths[i] = v` for an `int` index `i`. -/
def wr_at (a : List Nat) (i : Int) (v : Nat) : Run (List Nat) :=
  if 0 ≤ i then wr a i.toNat v else .error Fault.memory

/-- The loop `for (k = 0; k < number_of_paths; k++) prev_data[k] = theta[k]`. -/
def store_theta (theta : List Int) : Nat → Nat → List Int → Run (List Int)
  | 0, _, prev_data => pure prev_data
  | n + 1, k, prev_data => do
    let t ← rdi theta k
    let prev_data ← wri prev_data k t
    store_theta theta n (k + 1) prev_data

/-- The loop `for (k = 0; k < number_of_paths; k++) theta[k] = prev_data[k]`. -/
def load_theta (prev_data : List Int) : Nat → Nat → List Int → Run (List Int)
  | 0, _, theta => pure theta
  | n + 1, k, theta => do
    let t ← rdi prev_data k
    let theta ← wri theta k t
    load_theta prev_data n (k + 1) theta

/-- The weights used by the two weighted strategies and the stored weights
they leave behind.  `theta` starts as all ones (`100` after scaling); with
`use_prev == 0` it is drawn by `ran_dirichlet` and stored in `prev_data`,
with `use_prev == 1` it is read back from `prev_data`. -/
def prepare_theta (number_of_paths : Nat) (use_prev : Bool) (prev_data : List Int)
    (env : strategy_env) : Run (List Int × List Int) := do
  let theta := List.replicate number_of_paths (100 : Int)
  if use_prev = false then do
    let theta := (List.range number_of_paths).map (fun k => env.theta.getD k 0)
    let prev_data ← store_theta theta number_of_paths 0 prev_data
    pure (theta, prev_data)
  else do
    let theta ← load_theta prev_data number_of_paths 0 theta
    pure (theta, prev_data)

/-- The loop `for (g = 0; g < max_subindex; g++)
weighted_paths[g + last_index] = j`. -/
def fill_bucket (j : Nat) (last_index : Int) : Nat → Int → List Nat → Run (List Nat)
  | 0, _, weighted_paths => pure weighted_paths
  | n + 1, g, weighted_paths => do
    let weighted_paths ← wr_at weighted_paths (g + last_index) j
    fill_bucket j last_index n (g + 1) weighted_paths

/-- The loop over `j < number_of_paths` that fills `weighted_paths`. -/
def fill_buckets (theta : List Int) : Nat → Nat → Int → List Nat → Run (List Nat)
  | 0, _, _, weighted_paths => pure weighted_paths
  | n + 1, j, last_index, weighted_paths => do
    let max_subindex ← rdi theta j
    let weighted_paths ← fill_bucket j last_index max_subindex.toNat 0 weighted_paths
    fill_buckets theta n (j + 1) (max_subindex + last_index) weighted_paths

/-- The array `weighted_paths` of the weighted strategies:
`unsigned int weighted_paths[100] = {number_of_paths - 1}` and then the
buckets. -/
def make_weighted_paths (number_of_paths : Nat) (theta : List Int) : Run (List Nat) :=
  fill_buckets theta number_of_paths 0 0 ((number_of_paths - 1) :: List.replicate 99 0)

/-- The `do ... while` loop of `get_instruction_weighted_random`. -/
def wr_pick (idBytes : Nat) (subcircs : subcirc_list_t) (weighted_paths : List Nat)
    (env : strategy_env) : Nat → Nat → Run (Nat × Nat)
  | 0, _ => .error Fault.fuel
  | fuel + 1, k => do
    let random_int := crypto_rand_int_range env k 0 100
    let random_weighted_circuit_index ← rd weighted_paths random_int
    let current_id := random_weighted_circuit_index % 2 ^ (8 * idBytes)
    let s ← subcirc_list_get subcircs current_id
    if s.isNone then wr_pick idBytes subcircs weighted_paths env fuel (k + 1)
    else pure (current_id, k + 1)

/-- The `for` loop of `get_instruction_weighted_random`. -/
def wr_loop (idBytes : Nat) (subcircs : subcirc_list_t) (weighted_paths : List Nat)
    (env : strategy_env) : Nat → Nat → Run (List Nat)
  | 0, _ => pure []
  | n + 1, k => do
    let (current_id, k) ← wr_pick idBytes subcircs weighted_paths env env.fuel k
    let rest ← wr_loop idBytes subcircs weighted_paths env n k
    pure (current_id :: rest)

/-- Function `get_instruction_weighted_random`; returns the instruction and
the stored weights `prev_data`. -/
def get_instruction_weighted_random (RELAY_PAYLOAD_SIZE idBytes : Nat)
    (subcircs : subcirc_list_t) (use_prev : Bool) (prev_data : List Int) (env : strategy_env) :
    Run (split_instruction_t × List Int) := do
  tor_assert (decide (subcirc_list_get_num subcircs > 0))
  tor_assert (decide (subcircs.max_index ≥ 0))
  let max_id := subcircs.max_index.toNat % 2 ^ (8 * idBytes)
  let num ← get_max_ids_generic RELAY_PAYLOAD_SIZE max_id
  let number_of_paths := max_id + 1
  let (theta, prev_data) ← prepare_theta number_of_paths use_prev prev_data env
  let weighted_paths ← make_weighted_paths number_of_paths theta
  let list ← wr_loop idBytes subcircs weighted_paths env num 0
  pure (new_generic_instruction idBytes list, prev_data)

/-- The `do ... while` loop of `get_instruction_batched_weighted_random` at
position `pos`. -/
def bwr_pick (idBytes : Nat) (subcircs : subcirc_list_t) (weighted_paths : List Nat)
    (env : strategy_env) (pos : Nat) : Nat → Nat → Nat → Run (Nat × Nat)
  | 0, _, _ => .error Fault.fuel
  | fuel + 1, current_id, k => do
    let current_batch_size := crypto_rand_int_range env k C_MIN C_MAX
    let (current_id, k) ←
      (if pos % current_batch_size = 0 then do
        let v ← rd weighted_paths (crypto_rand_int_range env (k + 1) 0 100)
        pure (v % 2 ^ (8 * idBytes), k + 2)
      else pure (current_id, k + 1) : Run (Nat × Nat))
    let s ← subcirc_list_get subcircs current_id
    if s.isNone then bwr_pick idBytes subcircs weighted_paths env pos fuel current_id k
    else pure (current_id, k)

/-- The `for` loop of `get_instruction_batched_weighted_random`. -/
def bwr_loop (idBytes : Nat) (subcircs : subcirc_list_t) (weighted_paths : List Nat)
    (env : strategy_env) : Nat → Nat → Nat → Nat → Run (List Nat)
  | 0, _, _, _ => pure []
  | n + 1, pos, current_id, k => do
    let (current_id, k) ← bwr_pick idBytes subcircs weighted_paths env pos env.fuel current_id k
    let rest ← bwr_loop idBytes subcircs weighted_paths env n (pos + 1) current_id k
    pure (current_id :: rest)

/-- Function `get_instruction_batched_weighted_random`. -/
def get_instruction_batched_weighted_random (RELAY_PAYLOAD_SIZE idBytes : Nat)
    (subcircs : subcirc_list_t) (use_prev : Bool) (prev_data : List Int) (env : strategy_env) :
    Run (split_instruction_t × List Int) := do
  tor_assert (decide (subcirc_list_get_num subcircs > 0))
  tor_assert (decide (subcircs.max_index ≥ 0))
  let max_id := subcircs.max_index.toNat % 2 ^ (8 * idBytes)
  let num ← get_max_ids_generic RELAY_PAYLOAD_SIZE max_id
  let number_of_paths := max_id + 1
  let (theta, prev_data) ← prepare_theta number_of_paths use_prev prev_data env
  let weighted_paths ← make_weighted_paths number_of_paths theta
  let first ← rd weighted_paths (crypto_rand_int_range env 0 0 100)
  let list ← bwr_loop idBytes subcircs weighted_paths env num 0 (first % 2 ^ (8 * idBytes)) 1
  pure (new_generic_instruction idBytes list, prev_data)

/-- Function `split_get_new_instruction`; returns the instruction and the
stored weights `prev_data`, which only the weighted strategies change. -/
def split_get_new_instruction (RELAY_PAYLOAD_SIZE idBytes : Nat) (strategy : Nat)
    (subcircs : subcirc_list_t) (use_prev : Bool) (prev_data : List Int) (env : strategy_env) :
    Run (split_instruction_t × List Int) :=
  if strategy = SPLIT_STRATEGY_MIN_ID then do
    let inst ← get_instruction_min_id RELAY_PAYLOAD_SIZE idBytes subcircs
    pure (inst, prev_data)
  else if strategy = SPLIT_STRATEGY_MAX_ID then do
    let inst ← get_instruction_max_id RELAY_PAYLOAD_SIZE idBytes subcircs
    pure (inst, prev_data)
  else if strategy = SPLIT_STRATEGY_ROUND_ROBIN then do
    let inst ← get_instruction_round_robin RELAY_PAYLOAD_SIZE idBytes subcircs env.fuel
    pure (inst, prev_data)
  else if strategy = SPLIT_STRATEGY_RANDOM_UNIFORM then do
    let inst ← get_instruction_random_uniform RELAY_PAYLOAD_SIZE idBytes subcircs env
    pure (inst, prev_data)
  else if strategy = SPLIT_STRATEGY_WEIGHTED_RANDOM then
    get_instruction_weighted_random RELAY_PAYLOAD_SIZE idBytes subcircs use_prev prev_data env
  else if strategy = SPLIT_STRATEGY_BATCHED_WEIGHTED_RANDOM then
    get_instruction_batched_weighted_random RELAY_PAYLOAD_SIZE idBytes subcircs use_prev prev_data
      env
  else .error Fault.assertion

/-- The occupied indices `e_0 < e_1 < ...` of a sub-circuit list, up to
`max_index`. -/
def occupied_ids (sl : subcirc_list_t) : List Nat :=
  (List.range (sl.max_index.toNat + 1)).filter (fun i => (sl.list.getD i none).isSome)

/-- An outcome of the random draws: the generator hands out `3, 10, 17, ...`,
the Dirichlet weights are 0.3 and 0.7, and every `do ... while` loop may run
ten times. -/
def ex_env : strategy_env :=
  { draw := fun k => k * 7 + 3, theta := [30, 70], fuel := 10 }

/-! ## splitclient.c: the client -/

/-- Dereference an origin circuit handle. -/
def get_origin (w : World) (c : Nat) : Run origin_circuit_t :=
  match w.origin_circuits.get? c with
  | some x => .ok x
  | none => .error Fault.memory

/-- Store into the origin circuit `c`. -/
def set_origin (w : World) (c : Nat) (x : origin_circuit_t) : World :=
  { w with origin_circuits := w.origin_circuits.set c x }

/-- Modelled from the spec: `circuit_mark_for_close` of
`core/or/circuitlist.c` on an origin circuit.  It is idempotent and records
the mark and the reason on the circuit. -/
def circuit_mark_for_close_origin (w : World) (c : Nat) (reason : end_circ_reason_t) :
    Run World := do
  let circ ← get_origin w c
  if circ.marked_for_close then pure w
  else pure (set_origin w c { circ with marked_for_close := true,
                                        marked_for_close_reason := some reason })

/-- Modelled from the spec: `relay_send_command_from_edge` of
`core/or/relay.c` on an origin circuit, towards one of its hops.  Whether
sending fails is decided by the environment (`fails`); a sent cell is
recorded, a failed send marks the circuit for close and returns `-1`. -/
def relay_send_command_from_edge_origin (w : World) (c : Nat) (command : relay_command_t)
    (payload : List Nat) (fails : Bool) : Run (Int × World) :=
  if fails then do
    let w ← circuit_mark_for_close_origin w c end_circ_reason_t.END_CIRC_REASON_INTERNAL
    pure (-1, w)
  else pure (0, { w with sent := w.sent ++ [{ circ := c, command := command, payload := payload }] })

/-- What the client takes from its surroundings: the randomness of the
strategies (`draws`), whether sending the next cell fails (`send_fails`), the
bytes that `crypto_rand` writes into a cookie (`new_cookie`), and the option
`SplitSubcircuits` of the configuration.  The first three may depend on the
memory at the time of the call.  `SplitStrategy` is the option of that name
(`none` when it is not set); `launch_join` is the outcome of
`circuit_launch_by_extend_info` for a SPLIT_JOIN circuit (`none` when it
returns `NULL`, otherwise the number of hops in front of the middle in the
path of the launched circuit); `first_hop_fails` is the outcome of
`circuit_handle_first_hop` (`none` when it succeeds, otherwise the reason
to close the circuit with). -/
structure client_env where
  draws : World → strategy_env
  send_fails : World → Bool
  new_cookie : World → List Nat
  SplitSubcircuits : Int
  SplitStrategy : Option String := none
  launch_join : World → Option Nat := fun _ => none
  first_hop_fails : World → Option end_circ_reason_t := fun _ => none

/-- Constant `SPLIT_DEFAULT_SUBCIRCS` of splitdefines.h. -/
def SPLIT_DEFAULT_SUBCIRCS : Nat := 3

/-- Function `split_get_subcircs_per_circ`. -/
def split_get_subcircs_per_circ (env : client_env) : Nat :=
  if env.SplitSubcircuits ≥ 1 ∧ env.SplitSubcircuits ≤ (MAX_SUBCIRCS : Int) then
    env.SplitSubcircuits.toNat
  else SPLIT_DEFAULT_SUBCIRCS

/-- Function `split_data_get_base` on the `split_data_t` object `h` of a
client: the base is an origin circuit. -/
def split_data_get_base_origin (w : World) (h : Nat) (must_be_added : Bool) : Run Nat := do
  let split_data ← get_split_data w h
  match split_data.base with
  | none => .error Fault.assertion
  | some base => do
    let circ ← get_origin w base
    tor_assert (!circ.purpose_split_join)
    let subcirc ← split_data_get_subcirc split_data 0
    if must_be_added then
      match subcirc with
      | none => .error Fault.assertion
      | some p => do
        let sub ← get_subcirc w p
        tor_assert (sub.state == subcirc_state_t.SUBCIRC_STATE_ADDED)
        tor_assert (sub.circ == some base)
        pure base
    else
      match subcirc with
      | none => pure base
      | some p => do
        let sub ← get_subcirc w p
        tor_assert (sub.circ == some base)
        pure base

/-- Function `split_data_get_middle_cpath`: the index, in `circ->cpath`, of
the first hop whose `split_data` is `h`. -/
def split_data_get_middle_cpath (w : World) (h : Nat) (circ : Nat) : Run Nat := do
  let oc ← get_origin w circ
  tor_assert (!oc.cpath.isEmpty)
  match oc.cpath.findIdx? (fun hop => hop.split_data == some h) with
  | some i => pure i
  | none => .error Fault.assertion

/-- The loop of `split_data_check_subcirc` over the pending sub-circuits:
`true` when one of them refers to `circ`. -/
def check_pending_loop (w : World) (circ : Nat) : List Nat → Run Bool
  | [] => .ok false
  | aux :: rest => do
    let sub ← get_subcirc w aux
    if sub.circ = some circ then pure true
    else check_pending_loop w circ rest

/-- Function `split_data_check_subcirc` for a circuit of the client
(`CIRCUIT_IS_ORIGIN(circ)`), on the `split_data_t` object `h`.  Returns `-1`,
`0`, `1` or `2`. -/
def split_data_check_subcirc_origin (w : World) (h : Nat) (circ : Nat) : Run Int := do
  let split_data ← get_split_data w h
  let origin_circ ← get_origin w circ
  tor_assert (!origin_circ.cpath.isEmpty)
  let subcirc := match origin_circ.cpath.find? (fun hop => hop.split_data == some h) with
    | some cpath => cpath.subcirc
    | none => none
  match subcirc with
  | none => do
    let found ← check_subcirc_loop w split_data circ (split_data.subcircs.max_index.toNat + 1) 0
    if found then pure (-1)
    else
      match split_data.split_data_client with
      | some client => do
        let pending ← check_pending_loop w circ client.pending_subcircs
        if pending then pure (-1) else pure 2
      | none => pure 2
  | some p => do
    let sub ← get_subcirc w p
    if sub.circ ≠ some circ then pure (-1)
    else
      match sub.state with
      | .SUBCIRC_STATE_PENDING_COOKIE | .SUBCIRC_STATE_PENDING_JOIN =>
        match split_data.split_data_client with
        | none => pure (-1)
        | some client =>
          if ¬ client.pending_subcircs.contains p then pure (-1)
          else do
            let c ← subcirc_list_contains split_data.subcircs p
            if c then pure (-1) else pure 1
      | .SUBCIRC_STATE_ADDED => do
        let stored ← split_data_get_subcirc split_data sub.id
        if stored ≠ some p then pure (-1)
        else if (match split_data.split_data_client with
                 | some client => client.pending_subcircs.contains p
                 | none => false) then pure (-1)
        else if sub.id = 0 ∧ some circ ≠ split_data.base then pure (-1)
        else if some circ = split_data.base ∧ sub.id ≠ 0 then pure (-1)
        else pure 0
      | .SUBCIRC_STATE_UNSPEC => pure (-1)

/-- Function `split_instruction_to_payload`; `none` is the return value `-1`.
The array `inst->data` is read over `inst->length` bytes: a `length` that is
no multiple of the ID size fails the assertion of the encoder, a `length`
beyond the array is a read outside the block. -/
def split_instruction_to_payload (RELAY_PAYLOAD_SIZE idBytes : Nat) (inst : split_instruction_t) :
    Run (Option (List Nat)) := do
  tor_assert (decide (inst.length > 0))
  if inst.type = SPLIT_INSTRUCTION_TYPE_GENERIC then do
    tor_assert (inst.length % idBytes == 0)
    if inst.length / idBytes > inst.data.length then .error Fault.memory
    else parse_to_payload_generic RELAY_PAYLOAD_SIZE idBytes (inst.data.take (inst.length / idBytes))
  else .error Fault.assertion

/-- The client part of a session. -/
def get_client (split_data : split_data_t) : Run split_data_client_t :=
  match split_data.split_data_client with
  | some client => .ok client
  | none => .error Fault.assertion

/-- The flag `use_previous_data_in` / `use_previous_data_out` of a direction. -/
def use_previous_data (client : split_data_client_t) (direction : cell_direction_t) : Bool :=
  match direction with
  | .CELL_DIRECTION_IN => client.use_previous_data_in
  | .CELL_DIRECTION_OUT => client.use_previous_data_out

/-- The array `previous_data_in` / `previous_data_out` of a direction. -/
def previous_data (client : split_data_client_t) (direction : cell_direction_t) : List Int :=
  match direction with
  | .CELL_DIRECTION_IN => client.previous_data_in
  | .CELL_DIRECTION_OUT => client.previous_data_out

/-- Assign the flag `use_previous_data_in` / `use_previous_data_out`. -/
def set_use_previous_data (client : split_data_client_t) (direction : cell_direction_t)
    (v : Bool) : split_data_client_t :=
  match direction with
  | .CELL_DIRECTION_IN => { client with use_previous_data_in := v }
  | .CELL_DIRECTION_OUT => { client with use_previous_data_out := v }

/-- Assign the array `previous_data_in` / `previous_data_out`. -/
def set_previous_data (client : split_data_client_t) (direction : cell_direction_t)
    (v : List Int) : split_data_client_t :=
  match direction with
  | .CELL_DIRECTION_IN => { client with previous_data_in := v }
  | .CELL_DIRECTION_OUT => { client with previous_data_out := v }

/-- The relay command that carries the instructions of a direction. -/
def instruction_command (direction : cell_direction_t) : relay_command_t :=
  match direction with
  | .CELL_DIRECTION_IN => relay_command_t.RELAY_COMMAND_SPLIT_INSTRUCTION
  | .CELL_DIRECTION_OUT => relay_command_t.RELAY_COMMAND_SPLIT_INFO

/-- Function `split_data_generate_instruction` on the `split_data_t` object
`h`.  The assertion `CIRCUIT_IS_ORIGIN(base)` holds for a base found in the
table of origin circuits. -/
def split_data_generate_instruction (RELAY_PAYLOAD_SIZE idBytes : Nat) (env : client_env)
    (w : World) (h : Nat) (direction : cell_direction_t) : Run (Int × World) := do
  let split_data ← get_split_data w h
  let client ← get_client split_data
  let base ← split_data_get_base_origin w h true
  let relay_command := instruction_command direction
  let use_prev_data := use_previous_data client direction
  let prev_data := previous_data client direction
  if split_instruction_list_length (instruction split_data direction)
      ≥ MAX_NUM_SPLIT_INSTRUCTIONS then pure (-1, w)
  else do
    let (new_instruction, prev_data) ← split_get_new_instruction RELAY_PAYLOAD_SIZE idBytes
      client.strategy split_data.subcircs use_prev_data prev_data (env.draws w)
    let client := set_previous_data client direction prev_data
    let w := set_split_data w h { split_data with split_data_client := some client }
    let payload ← split_instruction_to_payload RELAY_PAYLOAD_SIZE idBytes new_instruction
    match payload with
    | none => pure (-1, w)
    | some payload => do
      tor_assert (decide (payload.length > 0))
      let _ ← split_data_get_middle_cpath w h base
      let (retval, w) ← relay_send_command_from_edge_origin w base relay_command payload
        (env.send_fails w)
      let split_data ← get_split_data w h
      let w := set_split_data w h (set_instruction split_data direction
        (split_instruction_append (instruction split_data direction) new_instruction))
      pure (retval, w)

/-- The assignment `split_data->split_data_client->use_previous_data_... = v`
on the `split_data_t` object `h`. -/
def store_use_previous_data (w : World) (h : Nat) (direction : cell_direction_t) (v : Bool) :
    Run World := do
  let split_data ← get_split_data w h
  let client ← get_client split_data
  pure (set_split_data w h { split_data with
    split_data_client := some (set_use_previous_data client direction v) })

/-- One `for` loop of `split_data_finalise`: `n` times, generate an
instruction for `direction` and set the `use_previous_data` flag of that
direction. -/
def finalise_loop (RELAY_PAYLOAD_SIZE idBytes : Nat) (env : client_env) (h : Nat)
    (direction : cell_direction_t) : Nat → World → Run World
  | 0, w => .ok w
  | n + 1, w => do
    let (_, w) ← split_data_generate_instruction RELAY_PAYLOAD_SIZE idBytes env w h direction
    let w ← store_use_previous_data w h direction true
    finalise_loop RELAY_PAYLOAD_SIZE idBytes env h direction n w

/-- Function `split_data_finalise` on the `split_data_t` object `h`.  The sum
of the two `unsigned int` values wraps at `2 ^ 32`. -/
def split_data_finalise (RELAY_PAYLOAD_SIZE idBytes : Nat) (env : client_env) (w : World)
    (h : Nat) : Run World := do
  let split_data ← get_split_data w h
  let client ← get_client split_data
  if client.is_final then pure w
  else if split_data_get_num_subcircs_added split_data < split_get_subcircs_per_circ env
      ∧ (split_data_get_num_subcircs_pending split_data + client.launch_on_cookie) % 2 ^ 32 > 0
    then pure w
  else do
    let w ← store_use_previous_data w h cell_direction_t.CELL_DIRECTION_IN false
    let w ← store_use_previous_data w h cell_direction_t.CELL_DIRECTION_OUT false
    let w ← finalise_loop RELAY_PAYLOAD_SIZE idBytes env h cell_direction_t.CELL_DIRECTION_IN
      NUM_SPLIT_INSTRUCTIONS w
    let w ← finalise_loop RELAY_PAYLOAD_SIZE idBytes env h cell_direction_t.CELL_DIRECTION_OUT
      NUM_SPLIT_INSTRUCTIONS w
    let split_data ← get_split_data w h
    let client ← get_client split_data
    pure (set_split_data w h { split_data with
      split_data_client := some { client with is_final := true } })

/-- Modelled from the spec: `crypto_rand` of `lib/crypt_ops` is not under src.
It fills the `SPLIT_COOKIE_LEN` bytes of a cookie with random bytes. -/
def crypto_rand_cookie (env : client_env) (w : World) : List Nat :=
  (List.range SPLIT_COOKIE_LEN).map (fun i => (env.new_cookie w).getD i 0 % 256)

/-- Function `split_send_new_cookie` on the circuit `circ` and its hop at
index `middle`. -/
def split_send_new_cookie (env : client_env) (w : World) (circ : Nat) (middle : Nat) :
    Run (Int × World) := do
  let oc ← get_origin w circ
  match oc.cpath.get? middle with
  | none => .error Fault.assertion
  | some hop =>
    match hop.split_data with
    | none => .error Fault.assertion
    | some h => do
      let split_data ← get_split_data w h
      if split_data.cookie_state = split_cookie_state_t.SPLIT_COOKIE_STATE_PENDING then
        pure (0, w)
      else do
        let cookie := crypto_rand_cookie env w
        let w := set_split_data w h { split_data with
          cookie_state := split_cookie_state_t.SPLIT_COOKIE_STATE_PENDING, cookie := cookie }
        relay_send_command_from_edge_origin w circ relay_command_t.RELAY_COMMAND_SPLIT_SET_COOKIE
          cookie (env.send_fails w)

/-- Function `split_data_send_new_cookie` on the `split_data_t` object `h`. -/
def split_data_send_new_cookie (env : client_env) (w : World) (h : Nat) : Run (Int × World) := do
  let split_data ← get_split_data w h
  if split_data.cookie_state = split_cookie_state_t.SPLIT_COOKIE_STATE_PENDING then pure (0, w)
  else do
    let circ ← split_data_get_base_origin w h true
    let cpath ← split_data_get_middle_cpath w h circ
    split_send_new_cookie env w circ cpath

/-- Function `subcirc_change_state` on the `subcircuit_t` object `p`.  The
log message reads the circuit behind `subcirc->circ`. -/
def subcirc_change_state (w : World) (p : Nat) (new_state : subcirc_state_t) : Run World := do
  let subcirc ← get_subcirc w p
  tor_assert (new_state != subcirc_state_t.SUBCIRC_STATE_ADDED)
  match subcirc.circ with
  | none => .error Fault.memory
  | some _ =>
    pure { w with subcircuits := w.subcircuits.set p (some { subcirc with state := new_state }) }

/-- Function `split_data_append_cpath`: one new hop, without split fields,
is appended to `circ->cpath` for every hop of `remaining_cpath`.  The relay
crypto of the hops is not part of the model. -/
def split_data_append_cpath (w : World) (h : Nat) (circ : Nat) : Run World := do
  let split_data ← get_split_data w h
  let client ← get_client split_data
  let oc ← get_origin w circ
  tor_assert oc.purpose_split_join
  tor_assert (!client.remaining_cpath.isEmpty)
  pure (set_origin w circ { oc with
    cpath := oc.cpath ++ client.remaining_cpath.map (fun _ => { split_data := none, subcirc := none }) })

/-- Function `split_data_subcirc_make_added` on the session `h` and the
`subcircuit_t` object `p`. -/
def split_data_subcirc_make_added (RELAY_PAYLOAD_SIZE idBytes : Nat) (env : client_env)
    (w : World) (h : Nat) (p : Nat) (id : Nat) : Run World := do
  let split_data ← get_split_data w h
  let client ← get_client split_data
  let subcirc ← get_subcirc w p
  tor_assert (subcirc.state == subcirc_state_t.SUBCIRC_STATE_PENDING_COOKIE ||
              subcirc.state == subcirc_state_t.SUBCIRC_STATE_PENDING_JOIN)
  tor_assert (client.pending_subcircs.contains p)
  match subcirc.circ with
  | none => .error Fault.assertion
  | some circ => do
    tor_assert (decide (id = 0 → some circ = split_data.base))
    let client := { client with pending_subcircs := client.pending_subcircs.filter (fun q => q != p) }
    let _ ← get_origin w circ
    let subcirc := { subcirc with id := id, state := subcirc_state_t.SUBCIRC_STATE_ADDED }
    let w := { w with subcircuits := w.subcircuits.set p (some subcirc) }
    let subcircs ← subcirc_list_add split_data.subcircs p id
    let w := set_split_data w h { split_data with
      split_data_client := some client, subcircs := subcircs }
    split_data_finalise RELAY_PAYLOAD_SIZE idBytes env w h

/-- The `do ... while` loop of `split_may_attach_stream` over the hops of the
circuit. -/
def may_attach_loop (RELAY_PAYLOAD_SIZE idBytes : Nat) (env : client_env) :
    List crypt_path_t → World → Run (Bool × World)
  | [], w => .ok (true, w)
  | cpath :: rest, w =>
    match cpath.split_data with
    | some h => do
      tor_assert cpath.subcirc.isSome
      let split_data ← get_split_data w h
      let _ ← get_client split_data
      let w ← split_data_finalise RELAY_PAYLOAD_SIZE idBytes env w h
      let split_data ← get_split_data w h
      let client ← get_client split_data
      if !client.is_final then pure (false, w)
      else may_attach_loop RELAY_PAYLOAD_SIZE idBytes env rest w
    | none => may_attach_loop RELAY_PAYLOAD_SIZE idBytes env rest w

/-- Function `split_may_attach_stream`. -/
def split_may_attach_stream (RELAY_PAYLOAD_SIZE idBytes : Nat) (env : client_env) (w : World)
    (circ : Nat) (must_be_open : Bool) : Run (Bool × World) := do
  let oc ← get_origin w circ
  if oc.purpose_split_join then pure (false, w)
  else if !must_be_open then pure (true, w)
  else do
    tor_assert (!oc.cpath.isEmpty)
    may_attach_loop RELAY_PAYLOAD_SIZE idBytes env oc.cpath w

/-- Modelled from the spec: `connection_ap_attach_pending` of
`core/or/connection_edge.c` is not under src.  It attaches waiting streams to
circuits and leaves the data of the split module as it is. -/
def connection_ap_attach_pending (w : World) : World := w

/-- The value of `subcirc_id_ntoh(read_subcirc_id(bytes))`: the ID whose
bytes, in network byte order, are `bytes`. -/
def subcirc_id_of_wire (bytes : List Nat) : Nat :=
  bytes.foldl (fun acc b => acc * 256 + b % 256) 0

/-- Function `split_process_joined` on the circuit `circ`, its hop at index
`middle`, and the payload of the cell. -/
def split_process_joined (RELAY_PAYLOAD_SIZE idBytes : Nat) (env : client_env) (w : World)
    (circ : Nat) (middle : Nat) (payload : List Nat) : Run (Int × World) := do
  let oc ← get_origin w circ
  match oc.cpath.get? middle with
  | none => .error Fault.assertion
  | some hop =>
    if payload.length ≠ 1 ∧ payload.length ≠ 1 + idBytes then do
      let w ← circuit_mark_for_close_origin w circ end_circ_reason_t.END_CIRC_REASON_TORPROTOCOL
      pure (-1, w)
    else do
      let success ← rd payload 0
      match hop.split_data with
      | none => do
        let w ← circuit_mark_for_close_origin w circ end_circ_reason_t.END_CIRC_REASON_TORPROTOCOL
        pure (-1, w)
      | some h =>
        match hop.subcirc with
        | none => .error Fault.assertion
        | some p => do
          let subcirc ← get_subcirc w p
          if subcirc.state ≠ subcirc_state_t.SUBCIRC_STATE_PENDING_JOIN then do
            let w ← circuit_mark_for_close_origin w circ
              end_circ_reason_t.END_CIRC_REASON_TORPROTOCOL
            pure (-1, w)
          else do
            let c ← split_data_check_subcirc_origin w h circ
            tor_assert (c == 1)
            if success ≠ 0 then do
              tor_assert (payload.length == 1 + idBytes)
              let received_id := subcirc_id_of_wire (payload.drop 1)
              let w ← split_data_append_cpath w h circ
              let w ← split_data_subcirc_make_added RELAY_PAYLOAD_SIZE idBytes env w h p
                received_id
              let base_circ ← split_data_get_base_origin w h true
              let (may, w) ← split_may_attach_stream RELAY_PAYLOAD_SIZE idBytes env w base_circ true
              if may then pure (0, connection_ap_attach_pending w) else pure (0, w)
            else do
              tor_assert (payload.length == 1)
              let (_, w) ← split_data_send_new_cookie env w h
              let w ← subcirc_change_state w p subcirc_state_t.SUBCIRC_STATE_PENDING_COOKIE
              pure (0, w)

/-! ## Concrete states of a client -/

/-- A hop of an origin circuit. -/
def ex_hop (split_data subcirc : Option Nat) : crypt_path_t :=
  { split_data := split_data, subcirc := subcirc }

/-- An origin circuit that is not marked for close. -/
def ex_origin (purpose_split_join : Bool) (cpath : List crypt_path_t) : origin_circuit_t :=
  { marked_for_close := false, marked_for_close_reason := none,
    purpose_split_join := purpose_split_join, cpath := cpath }

/-- A pending sub-circuit with an empty cell buffer. -/
def ex_sub_pending (circ : Nat) (state : subcirc_state_t) : subcircuit_t :=
  { circ := some circ, id := 0, state := state, cell_buf := cell_buffer_new }

/-- The client part of a session with the round-robin strategy. -/
def ex_client (pending_subcircs : List Nat) (is_final : Bool) : split_data_client_t :=
  { pending_subcircs := pending_subcircs, launch_on_cookie := 0,
    strategy := SPLIT_STRATEGY_ROUND_ROBIN, is_final := is_final,
    use_previous_data_in := false, use_previous_data_out := false,
    remaining_cpath := [ex_hop none none] }

/-- A client-side session with cookie `cookieA` and base circuit 0. -/
def ex_client_session (cookie_state : split_cookie_state_t) (subcircs : subcirc_list_t)
    (client : split_data_client_t) (instruction_out instruction_in : List split_instruction_t) :
    split_data_t :=
  { split_data_client := some client, split_data_or := none, base := some 0, cookie := cookieA,
    cookie_state := cookie_state, subcircs := subcircs, next_subcirc_out := none,
    next_subcirc_in := none, instruction_out := instruction_out,
    instruction_in := instruction_in, marked_for_close := false }

/-- A client whose base circuit 0 is sub-circuit 0 of session 0 and whose
circuit 1 has sent JOIN and waits for the answer. -/
def client_world_pending (cookie_state : split_cookie_state_t) : World :=
  { circuits := [],
    subcircuits := [some (ex_sub 0 0),
      some (ex_sub_pending 1 subcirc_state_t.SUBCIRC_STATE_PENDING_JOIN)],
    split_datas := [some (ex_client_session cookie_state (ex_list1 0) (ex_client [1] false) [] [])],
    split_data_or_cookie_map := [], sent := [],
    origin_circuits := [ex_origin false [ex_hop none none, ex_hop (some 0) (some 0), ex_hop none none],
      ex_origin true [ex_hop none none, ex_hop (some 0) (some 1)]] }

/-- A client whose session 0 has the added sub-circuits of `subcircs` (the
circuits 0 and 1), no pending sub-circuit, and the given queues. -/
def client_world_added (subcircs : subcirc_list_t) (client : split_data_client_t)
    (instruction_out instruction_in : List split_instruction_t) : World :=
  { circuits := [],
    subcircuits := [some (ex_sub 0 0), some (ex_sub 1 1)],
    split_datas := [some (ex_client_session split_cookie_state_t.SPLIT_COOKIE_STATE_VALID
      subcircs client instruction_out instruction_in)],
    split_data_or_cookie_map := [], sent := [],
    origin_circuits := [ex_origin false [ex_hop none none, ex_hop (some 0) (some 0), ex_hop none none],
      ex_origin true [ex_hop none none, ex_hop (some 0) (some 1), ex_hop none none]] }

/-- Surroundings of a client: the draws of `ex_env`, no failing send, the new
cookie `9, 9, ...`, and the given `SplitSubcircuits`. -/
def ex_client_env (SplitSubcircuits : Int) : client_env :=
  { draws := fun _ => ex_env, send_fails := fun _ => false,
    new_cookie := fun _ => List.replicate 20 9, SplitSubcircuits := SplitSubcircuits }

/-! ## States of client sessions -/

/-- Replace the client part of a session. -/
def with_client (split_data : split_data_t) (client : split_data_client_t) : split_data_t :=
  { split_data with split_data_client := some client }

/-- The origin circuits of `w` are still there in `w'`, with the same purpose
and the same hops (marks for close may differ). -/
def origin_frame (w w' : World) : Prop :=
  ∀ c oc, get_origin w c = .ok oc →
    ∃ oc', get_origin w' c = .ok oc' ∧ oc'.purpose_split_join = oc.purpose_split_join ∧
      oc'.cpath = oc.cpath

/-- The session `h` can reach its middle: it is a live object `sd` with the
client part `client`, its base circuit `base` is an origin circuit that is
added as sub-circuit 0, and the base has a hop for the session. -/
def client_ready (w : World) (h : Nat) (sd : split_data_t) (client : split_data_client_t)
    (base : Nat) : Prop :=
  get_split_data w h = .ok sd ∧ sd.split_data_client = some client ∧
  split_data_get_base_origin w h true = .ok base ∧
  ∃ m, split_data_get_middle_cpath w h base = .ok m

/-- Instruction generation succeeds for the session `h` in `direction` at the
state `w`.  Either the queue of the direction is full, so that
`split_data_generate_instruction` asks the strategy for nothing; or
`split_get_new_instruction`, called as `split_data_generate_instruction`
calls it at `w` (with the strategy, the sub-circuits, the flag
`use_previous_data` and the stored weights of the session in that direction,
and with the draws of `w`), returns an instruction, and
`split_instruction_to_payload` turns that instruction into a payload that is
not empty. -/
def generation_succeeds (RELAY_PAYLOAD_SIZE idBytes : Nat) (env : client_env) (w : World)
    (h : Nat) (direction : cell_direction_t) : Bool :=
  match get_split_data w h with
  | .error _ => false
  | .ok split_data =>
    match split_data.split_data_client with
    | none => false
    | some client =>
      if split_instruction_list_length (instruction split_data direction)
          ≥ MAX_NUM_SPLIT_INSTRUCTIONS then true
      else
        match split_get_new_instruction RELAY_PAYLOAD_SIZE idBytes client.strategy
            split_data.subcircs (use_previous_data client direction)
            (previous_data client direction) (env.draws w) with
        | .error _ => false
        | .ok (inst, _) =>
          match split_instruction_to_payload RELAY_PAYLOAD_SIZE idBytes inst with
          | .ok (some payload) => !payload.isEmpty
          | _ => false

/-- Instruction generation succeeds in each of the `n` rounds of a loop of
`split_data_finalise` for `direction` that starts at the state `w`: it
succeeds at `w`, and then in the remaining rounds, which start at the state
that one round of the loop (`split_data_generate_instruction`, then the flag
`use_previous_data` of the direction is set) makes of `w`. -/
def loop_generation_succeeds (RELAY_PAYLOAD_SIZE idBytes : Nat) (env : client_env) (h : Nat)
    (direction : cell_direction_t) : Nat → World → Bool
  | 0, _ => true
  | n + 1, w =>
    generation_succeeds RELAY_PAYLOAD_SIZE idBytes env w h direction &&
    match finalise_loop RELAY_PAYLOAD_SIZE idBytes env h direction 1 w with
    | .ok w => loop_generation_succeeds RELAY_PAYLOAD_SIZE idBytes env h direction n w
    | .error _ => true

/-- Instruction generation succeeds during the call of `split_data_finalise`
on the session `h` at the state `w`: it succeeds in every round of the loop
for `CELL_DIRECTION_IN`, which starts once the two flags `use_previous_data`
are cleared, and in every round of the loop for `CELL_DIRECTION_OUT`, which
starts at the state that the first loop has left. -/
def finalise_generation_succeeds (RELAY_PAYLOAD_SIZE idBytes : Nat) (env : client_env)
    (w : World) (h : Nat) : Bool :=
  match (do
      let w ← store_use_previous_data w h cell_direction_t.CELL_DIRECTION_IN false
      store_use_previous_data w h cell_direction_t.CELL_DIRECTION_OUT false : Run World) with
  | .error _ => true
  | .ok w =>
    loop_generation_succeeds RELAY_PAYLOAD_SIZE idBytes env h cell_direction_t.CELL_DIRECTION_IN
      NUM_SPLIT_INSTRUCTIONS w &&
    match finalise_loop RELAY_PAYLOAD_SIZE idBytes env h cell_direction_t.CELL_DIRECTION_IN
        NUM_SPLIT_INSTRUCTIONS w with
    | .ok w =>
      loop_generation_succeeds RELAY_PAYLOAD_SIZE idBytes env h
        cell_direction_t.CELL_DIRECTION_OUT NUM_SPLIT_INSTRUCTIONS w
    | .error _ => true

/-- The session after `split_data_generate_instruction` has appended `inst`
in `direction` and stored the weights `prev`. -/
def session_generated (sd : split_data_t) (client : split_data_client_t)
    (direction : cell_direction_t) (inst : split_instruction_t) (prev : List Int) :
    split_data_t :=
  set_instruction (with_client sd (set_previous_data client direction prev)) direction
    (instruction sd direction ++ [inst])

/-- The instructions `insts` were generated one after the other by
`split_get_new_instruction`: the first one with the flag `use_prev` and the
stored weights `prev`, every later one with the flag set and the weights that
the one before it has stored; `last` are the weights stored in the end.  The
draws of each call are those of some state of the memory. -/
def generated_chain (RELAY_PAYLOAD_SIZE idBytes : Nat) (env : client_env) (strategy : Nat)
    (subcircs : subcirc_list_t) : Bool → List Int → List split_instruction_t → List Int → Prop
  | _, prev, [], last => last = prev
  | use_prev, prev, inst :: rest, last =>
    ∃ w0 stored, split_get_new_instruction RELAY_PAYLOAD_SIZE idBytes strategy subcircs use_prev
        prev (env.draws w0) = .ok (inst, stored) ∧
      generated_chain RELAY_PAYLOAD_SIZE idBytes env strategy subcircs true stored rest last

/-- The client part after `split_data_finalise` has finalised the session:
all three flags are set, and the weights are those stored last. -/
def client_finalised (client : split_data_client_t) (lin lout : List Int) : split_data_client_t :=
  { client with
    is_final := true, use_previous_data_in := true, use_previous_data_out := true,
    previous_data_in := lin, previous_data_out := lout }

/-- The session after `split_data_finalise` has finalised it and appended the
instructions `ins` and `outs`. -/
def session_finalised (sd : split_data_t) (client : split_data_client_t)
    (ins outs : List split_instruction_t) (lin lout : List Int) : split_data_t :=
  { sd with
    split_data_client := some (client_finalised client lin lout),
    instruction_in := sd.instruction_in ++ ins,
    instruction_out := sd.instruction_out ++ outs }

/-- The session after `split_send_new_cookie` has stored the new cookie: the
cookie is `cookie` and its state is PENDING. -/
def session_new_cookie (sd : split_data_t) (cookie : List Nat) : split_data_t :=
  { sd with cookie_state := split_cookie_state_t.SPLIT_COOKIE_STATE_PENDING, cookie := cookie }

/-- The sub-circuit `sub` in the state `state`. -/
def subcirc_in_state (sub : subcircuit_t) (state : subcirc_state_t) : subcircuit_t :=
  { sub with state := state }

/-- A client whose session 0 consists of its base circuit 0 only: the base is
added as sub-circuit 0, no sub-circuit is pending, and the session is not
final. -/
def client_world_single : World :=
  { circuits := [],
    subcircuits := [some (ex_sub 0 0)],
    split_datas := [some (ex_client_session split_cookie_state_t.SPLIT_COOKIE_STATE_VALID
      (ex_list1 0) (ex_client [] false) [] [])],
    split_data_or_cookie_map := [], sent := [],
    origin_circuits := [ex_origin false [ex_hop none none, ex_hop (some 0) (some 0),
      ex_hop none none]] }

/-- The instruction that the round-robin strategy returns for the list
holding sub-circuit 0 only, with one-byte IDs and a payload size of 4. -/
def ex_inst_zero : split_instruction_t := new_generic_instruction 1 (List.replicate 16 0)

/-- The cell that carries `ex_inst_zero` on circuit 0. -/
def ex_instruction_cell (command : relay_command_t) : sent_cell_t :=
  { circ := 0, command := command, payload := [0, 8, 0, 0] }

/-- The client part `ex_client` after the session was finalised. -/
def ex_client_final (pending_subcircs : List Nat) : split_data_client_t :=
  { ex_client pending_subcircs true with
    use_previous_data_in := true, use_previous_data_out := true }

/-- The state `client_world_single` after `split_data_finalise` has
finalised session 0. -/
def client_world_single_final : World :=
  { client_world_single with
    split_datas := [some (ex_client_session split_cookie_state_t.SPLIT_COOKIE_STATE_VALID
      (ex_list1 0) (ex_client_final []) [ex_inst_zero, ex_inst_zero]
      [ex_inst_zero, ex_inst_zero])],
    sent := [ex_instruction_cell relay_command_t.RELAY_COMMAND_SPLIT_INSTRUCTION,
      ex_instruction_cell relay_command_t.RELAY_COMMAND_SPLIT_INSTRUCTION,
      ex_instruction_cell relay_command_t.RELAY_COMMAND_SPLIT_INFO,
      ex_instruction_cell relay_command_t.RELAY_COMMAND_SPLIT_INFO] }

/-! ## Predicates on the sessions of a circuit's hops -/

/-- The session `h` is a live object with a client part whose flag
`is_final` is set. -/
def session_final (w : World) (h : Nat) : Prop :=
  ∃ sd client, get_split_data w h = .ok sd ∧ sd.split_data_client = some client ∧
    client.is_final = true

/-- Every hop of `cpath` that carries a split session carries one whose
`is_final` is set. -/
def hops_final (w : World) (cpath : List crypt_path_t) : Prop :=
  ∀ hop ∈ cpath, ∀ h, hop.split_data = some h → session_final w h

/-- From `w` to `w'` the origin circuits keep purpose and hops, and every
session that was final is still final. -/
def final_frame (w w' : World) : Prop :=
  origin_frame w w' ∧ ∀ h, session_final w h → session_final w' h

/-! ## cell_buffer.c -/

/-- The value an `int` takes after an arithmetic operation whose exact result
is `x`: the two's complement representative of `x` modulo `2 ^ 32`. -/
def wrap_int32 (x : Int) : Int := (x + 2 ^ 31) % 2 ^ 32 - 2 ^ 31

/-- Function `cell_buffer_append`: `TOR_SIMPLEQ_INSERT_TAIL` and `++buf->num`. -/
def cell_buffer_append (buf : cell_buffer_t) (cell : buffered_cell_t) : cell_buffer_t :=
  { head := buf.head ++ [cell], num := wrap_int32 (buf.num + 1) }

/-- Function `cell_buffer_append_cell`; `stamp` is the value that
`monotime_coarse_get_stamp()` returns, a `uint32_t`. -/
def cell_buffer_append_cell (buf : cell_buffer_t) (cell : Nat) (stamp : Nat) : cell_buffer_t :=
  cell_buffer_append buf { cell := cell, inserted_timestamp := stamp % 2 ^ 32 }

/-- Function `cell_buffer_max_buffered_age`; `now` is a `uint32_t`, and so is
the difference `now - first->inserted_timestamp`. -/
def cell_buffer_max_buffered_age (buf : cell_buffer_t) (now : Nat) : Run Nat :=
  match buf.head with
  | [] => pure 0
  | first :: _ => do
    tor_assert (decide (now ≥ first.inserted_timestamp))
    pure ((now + 2 ^ 32 - first.inserted_timestamp) % 2 ^ 32)

/-- One call on a cell buffer: `cell_buffer_append` of a cell or
`cell_buffer_pop`. -/
inductive buffer_op where
  | append (cell : buffered_cell_t)
  | pop
  deriving DecidableEq, Repr

/-- Run a sequence of calls on a cell buffer; returns the buffer and what the
calls of `cell_buffer_pop` returned (`none` is `NULL`). -/
def run_buffer_ops : List buffer_op → cell_buffer_t →
    Run (cell_buffer_t × List (Option buffered_cell_t))
  | [], buf => pure (buf, [])
  | .append cell :: rest, buf => run_buffer_ops rest (cell_buffer_append buf cell)
  | .pop :: rest, buf => do
    let (cell, buf) ← cell_buffer_pop buf
    let (buf, out) ← run_buffer_ops rest buf
    pure (buf, cell :: out)

/-- The cells that a sequence of calls appends, in the order of the calls. -/
def appended_cells : List buffer_op → List buffered_cell_t
  | [] => []
  | .append cell :: rest => cell :: appended_cells rest
  | .pop :: rest => appended_cells rest

/-- The greatest number of cells queued at any time while `ops` run on a
queue that holds `n` cells. -/
def peak_queued : List buffer_op → Nat → Nat
  | [], n => n
  | .append _ :: rest, n => max n (peak_queued rest (n + 1))
  | .pop :: rest, n => max n (peak_queued rest (n - 1))

/-- The FIFO as the specification describes it, on a plain queue of cells:
an append puts the cell at the back, a pop takes the cell at the front and
gives nothing when the queue is empty.  Returns the queue in the end and what
the pops gave. -/
def fifo_spec : List buffer_op → List buffered_cell_t →
    List buffered_cell_t × List (Option buffered_cell_t)
  | [], queue => (queue, [])
  | .append cell :: rest, queue => fifo_spec rest (queue ++ [cell])
  | .pop :: rest, queue =>
    let r := fifo_spec rest queue.tail
    (r.1, queue.head? :: r.2)

/-- A buffered cell with payload `c`, stamped `t`. -/
def ex_cell (c t : Nat) : buffered_cell_t := { cell := c, inserted_timestamp := t }

/-! ## The candidates of the RANDOM_UNIFORM strategy -/

/-- The candidate `current_id = random % (unsigned int)(max_id + 1)` that
`get_instruction_random_uniform` computes from the random value `random`. -/
def ru_candidate (idBytes max_id random : Nat) : Nat :=
  random % (max_id + 1) % 2 ^ (8 * idBytes)

/-- The number of values `r` of the random `subcirc_id_t`,
`0 ≤ r < 2 ^ (8 * sizeof(subcirc_id_t))`, that give the candidate `i`. -/
def ru_count (idBytes max_id i : Nat) : Nat :=
  Nat.count (fun r => ru_candidate idBytes max_id r = i) (2 ^ (8 * idBytes))

/-- An outcome of the random draws for the BATCHED_WEIGHTED_RANDOM strategy:
the Dirichlet weights are 0.5 and 0.5; the generator hands out 0 except for
its draws number 53 (a weighted choice, `60`) and 54 (a batch size,
`C_MIN + 1`). -/
def ex_env_batch : strategy_env :=
  { draw := fun k => if k = 53 then 60 else if k = 54 then 1 else 0, theta := [50, 50],
    fuel := 10 }

/-! ## splitcommon.c: marking a session for close -/

/-- The loop of `split_data_mark_for_close` over the `n` indices from `id`
on of `split_data->subcircs`.  `mark` is `circuit_mark_for_close` for the
circuits of the node; it does nothing on a circuit that is already marked,
which is the test `!sub->circ->marked_for_close` of the loop. -/
def mark_added_loop (mark : World → Nat → end_circ_reason_t → Run World)
    (subcircs : subcirc_list_t) (reason : end_circ_reason_t) : Nat → Nat → World → Run World
  | 0, _, w => pure w
  | n + 1, id, w => do
    let sub ← subcirc_list_get subcircs id
    match sub with
    | none => mark_added_loop mark subcircs reason n (id + 1) w
    | some p => do
      let s ← get_subcirc w p
      tor_assert (s.state == subcirc_state_t.SUBCIRC_STATE_ADDED)
      match s.circ with
      | none => .error Fault.assertion
      | some c => do
        let w ← mark w c reason
        mark_added_loop mark subcircs reason n (id + 1) w

/-- The loop of `split_data_mark_for_close` over the pending sub-circuits. -/
def mark_pending_loop (mark : World → Nat → end_circ_reason_t → Run World)
    (reason : end_circ_reason_t) : List Nat → World → Run World
  | [], w => pure w
  | p :: rest, w => do
    let s ← get_subcirc w p
    match s.circ with
    | none => .error Fault.assertion
    | some c => do
      let w ← mark w c reason
      mark_pending_loop mark reason rest w

/-- Function `split_data_mark_for_close` on the `split_data_t` object `h`;
`mark` is `circuit_mark_for_close` for the circuits of the node.  The first
loop runs over the indices `0 .. max_index`. -/
def split_data_mark_for_close (mark : World → Nat → end_circ_reason_t → Run World) (w : World)
    (h : Nat) (reason : end_circ_reason_t) : Run World := do
  let split_data ← get_split_data w h
  if split_data.marked_for_close then pure w
  else do
    let w := set_split_data w h { split_data with marked_for_close := true }
    let w ← mark_added_loop mark split_data.subcircs reason
      (split_data.subcircs.max_index + 1).toNat 0 w
    match split_data.split_data_client with
    | some client => mark_pending_loop mark reason client.pending_subcircs w
    | none => pure w

/-- Function `split_mark_for_close` for a circuit of the middle
(`CIRCUIT_IS_ORCIRC(circ)`). -/
def split_mark_for_close (w : World) (circ : Nat) (reason : end_circ_reason_t) : Run World := do
  let or_circ ← get_circ w circ
  match or_circ.split_data with
  | some h => do
    tor_assert or_circ.subcirc.isSome
    split_data_mark_for_close circuit_mark_for_close w h reason
  | none => pure w

/-- The `do ... while` loop of `split_mark_for_close` over the hops of an
origin circuit (`SPLIT_EVAL` is not defined). -/
def mark_hops_loop (circ : Nat) (reason : end_circ_reason_t) :
    List crypt_path_t → World → Run World
  | [], w => pure w
  | cpath :: rest, w =>
    match cpath.split_data with
    | some h =>
      match cpath.subcirc with
      | none => .error Fault.assertion
      | some p => do
        let sub ← get_subcirc w p
        let close ←
          (if sub.state = subcirc_state_t.SUBCIRC_STATE_ADDED then pure true
           else do
             let base ← split_data_get_base_origin w h false
             pure (decide (circ = base)) : Run Bool)
        let w ←
          (if close then split_data_mark_for_close circuit_mark_for_close_origin w h reason
           else pure w : Run World)
        mark_hops_loop circ reason rest w
    | none => mark_hops_loop circ reason rest w

/-- Function `split_mark_for_close` for a circuit of the client. -/
def split_mark_for_close_origin (w : World) (circ : Nat) (reason : end_circ_reason_t) :
    Run World := do
  let oc ← get_origin w circ
  mark_hops_loop circ reason oc.cpath w

/-! ## Predicates for marking a session for close -/

/-- The origin circuit `c` is marked for close. -/
def origin_marked (w : World) (c : Nat) : Prop :=
  ∃ oc, get_origin w c = .ok oc ∧ oc.marked_for_close = true

/-- The session `h` is marked for close. -/
def session_marked (w : World) (h : Nat) : Prop :=
  ∃ sd, get_split_data w h = .ok sd ∧ sd.marked_for_close = true

/-- The sub-circuits of a session: those stored at the indices
`0 .. max_index` of its list, and the pending ones of a client. -/
def session_subcircs (sd : split_data_t) : List Nat :=
  (List.range (sd.subcircs.max_index + 1).toNat).filterMap
      (fun id => sd.subcircs.list.getD id none) ++
    (match sd.split_data_client with
     | some client => client.pending_subcircs
     | none => [])

/-- A session whose sub-circuits can be walked over: the array of its list
has `capacity` slots, `max_index` lies within, every stored sub-circuit is a
live object in the state ADDED, and every sub-circuit, stored or pending,
refers to a circuit for which `live` holds. -/
def session_walkable (live : World → Nat → Prop) (w : World) (sd : split_data_t) : Prop :=
  sd.subcircs.list.length = sd.subcircs.capacity ∧
  sd.subcircs.max_index < (sd.subcircs.capacity : Int) ∧
  (∀ id p, id < (sd.subcircs.max_index + 1).toNat → sd.subcircs.list.getD id none = some p →
    ∃ s, get_subcirc w p = .ok s ∧ s.state = subcirc_state_t.SUBCIRC_STATE_ADDED) ∧
  (∀ p ∈ session_subcircs sd, ∃ s c, get_subcirc w p = .ok s ∧ s.circ = some c ∧ live w c)

/-- The OR circuit `c` is a live object. -/
def circ_live (w : World) (c : Nat) : Prop := ∃ oc, get_circ w c = .ok oc

/-- The origin circuit `c` is a live object. -/
def origin_live (w : World) (c : Nat) : Prop := ∃ oc, get_origin w c = .ok oc

/-- What the loops of `split_data_mark_for_close` use of
`circuit_mark_for_close`: on a live circuit it returns, the circuit is marked
afterwards, marks and live circuits are kept, and the heaps are untouched;
and storing into a session changes neither the marks nor the live
circuits. -/
def mark_spec (mark : World → Nat → end_circ_reason_t → Run World)
    (live marked : World → Nat → Prop) : Prop :=
  (∀ w c r, live w c → ∃ w', mark w c r = .ok w' ∧ marked w' c ∧
    (∀ c', marked w c' → marked w' c') ∧ (∀ c', live w c' → live w' c') ∧
    w'.subcircuits = w.subcircuits ∧ w'.split_datas = w.split_datas) ∧
  (∀ w h x c, live w c → live (set_split_data w h x) c) ∧
  (∀ w h x c, marked w c → marked (set_split_data w h x) c)

/-- The session `sd` with its flag `marked_for_close` set. -/
def session_set_marked (sd : split_data_t) : split_data_t :=
  { sd with marked_for_close := true }

/-! ## splitclient.c: launching sub-circuits -/

/-- Constant `SPLIT_DEFAULT_STRATEGY` of splitdefines.h. -/
def SPLIT_DEFAULT_STRATEGY : Nat := SPLIT_STRATEGY_ROUND_ROBIN

/-- Function `split_get_default_strategy`. -/
def split_get_default_strategy (env : client_env) : Nat :=
  match env.SplitStrategy with
  | none => SPLIT_DEFAULT_STRATEGY
  | some s =>
    if s = "MIN_ID" then SPLIT_STRATEGY_MIN_ID
    else if s = "MAX_ID" then SPLIT_STRATEGY_MAX_ID
    else if s = "ROUND_ROBIN" then SPLIT_STRATEGY_ROUND_ROBIN
    else if s = "RANDOM_UNIFORM" then SPLIT_STRATEGY_RANDOM_UNIFORM
    else if s = "WEIGHTED_RANDOM" then SPLIT_STRATEGY_WEIGHTED_RANDOM
    else if s = "BATCHED_WEIGHTED_RANDOM" then SPLIT_STRATEGY_BATCHED_WEIGHTED_RANDOM
    else SPLIT_DEFAULT_STRATEGY

/-- Function `split_check_origin_circuit` for a non-`NULL` circuit.  For a
one-hop tunnel the code logs a warning and goes on to `return 0`. -/
def split_check_origin_circuit (circ : origin_circuit_t) : Int :=
  if circ.marked_for_close then -1
  else if !circ.purpose_c_general then -1
  else if circ.onehop_tunnel then 0
  else 0

/-- Function `split_check_circuit_middle` for a non-`NULL` circuit; `middle`
is the index of the hop in `circ->cpath`, an index beyond the path being a
hop that is not found in it. -/
def split_check_circuit_middle (circ : origin_circuit_t) (middle : Nat) : Run Int := do
  tor_assert (!circ.cpath.isEmpty)
  match circ.cpath.get? middle with
  | none => pure (-1)
  | some hop =>
    if middle = 0 ∨ middle = circ.cpath.length - 1 then pure (-1)
    else if !hop.state_open then pure (-1)
    else pure 0

/-- Store into the hop `middle` of the origin circuit `circ`. -/
def set_hop (w : World) (circ middle : Nat) (hop : crypt_path_t) : Run World := do
  let oc ← get_origin w circ
  if middle < oc.cpath.length then
    pure (set_origin w circ { oc with cpath := oc.cpath.set middle hop })
  else .error Fault.memory

/-- Read the hop `middle` of the origin circuit `circ`. -/
def get_hop (w : World) (circ middle : Nat) : Run crypt_path_t := do
  let oc ← get_origin w circ
  match oc.cpath.get? middle with
  | some hop => pure hop
  | none => .error Fault.memory

/-- Function `split_data_add_subcirc` on the `split_data_t` object `h` of a
client, for an origin circuit: returns the pointer to the new `subcircuit_t`
(`none` is `NULL`). -/
def split_data_add_subcirc_origin (w : World) (h : Nat) (state : subcirc_state_t) (circ : Nat)
    (id : Nat) : Run (Option Nat × World) := do
  let split_data ← get_split_data w h
  if split_data.marked_for_close then pure (none, w)
  else do
    let r ← split_data_check_subcirc_origin w h circ
    tor_assert (r == 2)
    let subcirc : subcircuit_t := { subcircuit_new with circ := some circ, id := id, state := state }
    let p := w.subcircuits.length
    let w := { w with subcircuits := w.subcircuits ++ [some subcirc] }
    match state with
    | .SUBCIRC_STATE_PENDING_COOKIE | .SUBCIRC_STATE_PENDING_JOIN =>
      match split_data.split_data_client with
      | none => .error Fault.assertion
      | some client =>
        pure (some p, set_split_data w h { split_data with
          split_data_client := some { client with
            pending_subcircs := client.pending_subcircs ++ [p] } })
    | .SUBCIRC_STATE_ADDED => do
      tor_assert (decide (id = 0 → some circ = split_data.base))
      let subcircs ← subcirc_list_add split_data.subcircs p id
      let split_data := split_data_reset_next_subcirc { split_data with subcircs := subcircs }
      pure (some p, set_split_data w h split_data)
    | .SUBCIRC_STATE_UNSPEC =>
      pure (none, { w with subcircuits := w.subcircuits.set p none })

/-- Function `split_data_client_new`. -/
def split_data_client_new (env : client_env) : split_data_client_t :=
  { pending_subcircs := [], launch_on_cookie := 0, strategy := split_get_default_strategy env,
    is_final := false, use_previous_data_in := false, use_previous_data_out := false }

/-- Function `split_data_init_client`: `split_data_init` for a base that is an
origin circuit, then `split_data_client_new` and `split_data_client_init`,
which copies the hops behind `middle` and asserts that there is one and that
all of them are open. -/
def split_data_init_client (env : client_env) (w : World) (split_data : split_data_t)
    (base middle : Nat) : Run (split_data_t × World) := do
  let oc ← get_origin w base
  let num : Int := match oc.split_data_circuit with
    | none => 0
    | some n => n
  let w := set_origin w base { oc with split_data_circuit := some (num + 1) }
  let split_data := { split_data with
    base := some base,
    cookie_state := split_cookie_state_t.SPLIT_COOKIE_STATE_INVALID,
    subcircs := subcirc_list_new }
  let rest := oc.cpath.drop (middle + 1)
  if middle ≥ oc.cpath.length then .error Fault.memory
  else if rest.isEmpty then .error Fault.assertion
  else do
    tor_assert (rest.all (fun hop => hop.state_open))
    let client := { split_data_client_new env with
      remaining_cpath := rest.map (fun _ => { split_data := none, subcirc := none }) }
    pure ({ split_data with split_data_client := some client }, w)

/-- Function `split_create_split_data` on the circuit `circ` and its hop at
index `middle`. -/
def split_create_split_data (env : client_env) (w : World) (circ middle : Nat) :
    Run (Int × World) := do
  let oc ← get_origin w circ
  let hop ← get_hop w circ middle
  tor_assert hop.split_data.isNone
  tor_assert hop.subcirc.isNone
  tor_assert (split_check_origin_circuit oc == 0)
  let c ← split_check_circuit_middle oc middle
  tor_assert (c == 0)
  let (split_data, w) ← split_data_init_client env w split_data_new circ middle
  let h := w.split_datas.length
  let w := { w with split_datas := w.split_datas ++ [some split_data] }
  let w ← set_hop w circ middle { hop with split_data := some h }
  let (sub, w) ← split_data_add_subcirc_origin w h subcirc_state_t.SUBCIRC_STATE_PENDING_COOKIE
    circ 0
  let hop ← get_hop w circ middle
  let w ← set_hop w circ middle { hop with subcirc := sub }
  split_send_new_cookie env w circ middle

/-- Function `split_data_launch_join_circuit` on the `split_data_t` object
`h`; returns the launched circuit (`none` is `NULL`).
Modelled from the spec: `circuit_launch_by_extend_info` and
`circuit_handle_first_hop` of `core/or` are not under src.  The first returns
`NULL` or a new SPLIT_JOIN circuit whose path ends at the middle, with hops
that are not open yet; the second fails with a reason or succeeds. -/
def split_data_launch_join_circuit (env : client_env) (w : World) (h : Nat) :
    Run (Option Nat × World) := do
  let base_circ ← split_data_get_base_origin w h false
  let split_data ← get_split_data w h
  let _ ← get_client split_data
  let base ← get_origin w base_circ
  tor_assert (!base.onehop_tunnel)
  match env.launch_join w with
  | none => pure (none, w)
  | some n => do
    let launched_circ := w.origin_circuits.length
    let hop : crypt_path_t := { split_data := none, subcirc := none, state_open := false }
    let circ : origin_circuit_t :=
      { marked_for_close := false, marked_for_close_reason := none, purpose_split_join := true,
        cpath := List.replicate n hop ++ [hop] }
    let w := { w with origin_circuits := w.origin_circuits ++ [circ] }
    let w ← set_hop w launched_circ n { hop with split_data := some h }
    let (sub, w) ← split_data_add_subcirc_origin w h subcirc_state_t.SUBCIRC_STATE_PENDING_JOIN
      launched_circ 0
    let middle ← get_hop w launched_circ n
    let w ← set_hop w launched_circ n { middle with subcirc := sub }
    match env.first_hop_fails w with
    | some reason => do
      let w ← circuit_mark_for_close_origin w launched_circ reason
      pure (none, w)
    | none => pure (some launched_circ, w)

/-- The `for` loop of `split_data_launch_subcirc`, which stops at the first
launch that fails. -/
def launch_loop (env : client_env) (h : Nat) : Nat → World → Run World
  | 0, w => pure w
  | n + 1, w => do
    let (launched_circ, w) ← split_data_launch_join_circuit env w h
    match launched_circ with
    | none => pure w
    | some _ => launch_loop env h n w

/-- Function `split_data_launch_subcirc` on the `split_data_t` object `h`;
`num` is an `int`, and the sum with the `unsigned int` count wraps at
`2 ^ 32`. -/
def split_data_launch_subcirc (env : client_env) (w : World) (h : Nat) (num : Int) :
    Run World := do
  let split_data ← get_split_data w h
  let _ ← get_client split_data
  tor_assert (decide (num ≥ 0))
  if num = 0 then pure w
  else if split_data.marked_for_close then pure w
  else if (split_data_get_num_subcircs split_data + num.toNat) % 2 ^ 32 > MAX_SUBCIRCS then pure w
  else
    match split_data.cookie_state with
    | .SPLIT_COOKIE_STATE_INVALID => do
      let (r, w) ← split_data_send_new_cookie env w h
      if r ≠ 0 then pure w
      else launch_loop env h num.toNat w
    | .SPLIT_COOKIE_STATE_PENDING | .SPLIT_COOKIE_STATE_VALID =>
      launch_loop env h num.toNat w

/-- Function `split_launch_subcircuit` on the circuit `circ` and its hop at
index `middle`. -/
def split_launch_subcircuit (env : client_env) (w : World) (circ middle : Nat) (num : Int) :
    Run (Int × World) := do
  if num ≤ 0 then pure (0, w)
  else if num ≥ (MAX_SUBCIRCS : Int) then pure (-1, w)
  else do
    let oc ← get_origin w circ
    if split_check_origin_circuit oc ≠ 0 then pure (-1, w)
    else do
      let c ← split_check_circuit_middle oc middle
      if c ≠ 0 then pure (-1, w)
      else do
        let hop ← get_hop w circ middle
        let r ←
          (match hop.split_data with
           | none => do
             let (r, w) ← split_create_split_data env w circ middle
             if r ≠ 0 then pure (none, w) else pure (some (), w)
           | some h => do
             let c ← split_data_check_subcirc_origin w h circ
             tor_assert (c == 0)
             pure (some (), w) : Run (Option Unit × World))
        match r with
        | (none, w) => pure (-1, w)
        | (some _, w) => do
          let hop ← get_hop w circ middle
          match hop.split_data with
          | none => .error Fault.assertion
          | some h => do
            let w ← split_data_launch_subcirc env w h num
            pure (0, w)

/-- A client with one origin circuit of three open hops and no session; the
circuit is a one-hop tunnel when `onehop_tunnel` is set. -/
def client_world_fresh (onehop_tunnel : Bool) : World :=
  { circuits := [], subcircuits := [], split_datas := [], split_data_or_cookie_map := [],
    sent := [],
    origin_circuits := [{ ex_origin false [ex_hop none none, ex_hop none none, ex_hop none none]
      with onehop_tunnel := onehop_tunnel }] }

/-- Surroundings of a client in which every launch of a SPLIT_JOIN circuit
succeeds, with one hop in front of the middle. -/
def ex_launch_env : client_env :=
  { ex_client_env 3 with launch_join := fun _ => some 1 }

/-! ## splitclient.c: COOKIE_SET -/

/-- Function `split_send_join_request` on the circuit `circ` and its hop at
index `middle`. -/
def split_send_join_request (env : client_env) (w : World) (circ middle : Nat) :
    Run (Int × World) := do
  let oc ← get_origin w circ
  match oc.cpath.get? middle with
  | none => .error Fault.assertion
  | some hop =>
    match hop.split_data with
    | none => .error Fault.assertion
    | some h =>
      match hop.subcirc with
      | none => .error Fault.assertion
      | some p => do
        let split_data ← get_split_data w h
        let subcirc ← get_subcirc w p
        tor_assert (subcirc.state == subcirc_state_t.SUBCIRC_STATE_PENDING_JOIN)
        match split_data.cookie_state with
        | .SPLIT_COOKIE_STATE_INVALID => do
          let w ← subcirc_change_state w p subcirc_state_t.SUBCIRC_STATE_PENDING_COOKIE
          let (_, w) ← split_data_send_new_cookie env w h
          pure (1, w)
        | .SPLIT_COOKIE_STATE_PENDING => do
          let w ← subcirc_change_state w p subcirc_state_t.SUBCIRC_STATE_PENDING_COOKIE
          pure (1, w)
        | .SPLIT_COOKIE_STATE_VALID =>
          relay_send_command_from_edge_origin w circ relay_command_t.RELAY_COMMAND_SPLIT_JOIN
            split_data.cookie (env.send_fails w)

/-- The loop of `split_data_handle_pending_cookie` over the pending
sub-circuits. -/
def pending_cookie_loop (env : client_env) (h : Nat) : List Nat → World → Run World
  | [], w => pure w
  | p :: rest, w => do
    let subcirc ← get_subcirc w p
    match subcirc.circ with
    | none => .error Fault.assertion
    | some circ => do
      let c ← split_data_check_subcirc_origin w h circ
      tor_assert (c == 1)
      if subcirc.state ≠ subcirc_state_t.SUBCIRC_STATE_PENDING_COOKIE then
        pending_cookie_loop env h rest w
      else do
        let w ← subcirc_change_state w p subcirc_state_t.SUBCIRC_STATE_PENDING_JOIN
        let cpath ← split_data_get_middle_cpath w h circ
        let (_, w) ← split_send_join_request env w circ cpath
        pending_cookie_loop env h rest w

/-- The `int` that an `unsigned int` argument becomes. -/
def int_of_unsigned (n : Nat) : Int :=
  if n % 2 ^ 32 < 2 ^ 31 then (n % 2 ^ 32 : Nat) else ((n % 2 ^ 32 : Nat) : Int) - 2 ^ 32

/-- Function `split_data_handle_pending_cookie` on the `split_data_t` object
`h`. -/
def split_data_handle_pending_cookie (env : client_env) (w : World) (h : Nat) : Run World := do
  let split_data ← get_split_data w h
  let client ← get_client split_data
  tor_assert (split_data.cookie_state == split_cookie_state_t.SPLIT_COOKIE_STATE_VALID)
  let num_to_launch := client.launch_on_cookie
  let w := set_split_data w h { split_data with
    split_data_client := some { client with launch_on_cookie := 0 } }
  let w ← split_data_launch_subcirc env w h (int_of_unsigned num_to_launch)
  let split_data ← get_split_data w h
  let client ← get_client split_data
  pending_cookie_loop env h client.pending_subcircs w

/-- Function `split_data_remove_subcirc` for the pointers `split_data` and
`subcirc` of the hop `middle` of the origin circuit `circ`.  Freed objects
leave the heaps; `subcircuit_free` and `split_data_free` set the pointers of
the hop to `NULL`. -/
def split_data_remove_subcirc_origin (w : World) (circ middle : Nat) (at_exit : Bool) :
    Run World := do
  let hop ← get_hop w circ middle
  match hop.split_data, hop.subcirc with
  | some h, some p => do
    let split_data ← get_split_data w h
    let subcirc ← get_subcirc w p
    let split_data ←
      (match subcirc.state with
       | .SUBCIRC_STATE_PENDING_COOKIE | .SUBCIRC_STATE_PENDING_JOIN => do
         let client ← get_client split_data
         tor_assert (client.pending_subcircs.contains p)
         pure { split_data with split_data_client := some { client with
           pending_subcircs := client.pending_subcircs.filter (fun q => q != p) } }
       | .SUBCIRC_STATE_ADDED => do
         let stored ← split_data_get_subcirc split_data subcirc.id
         tor_assert (stored == some p)
         let subcircs ← subcirc_list_remove split_data.subcircs subcirc.id
         pure { split_data with subcircs := subcircs }
       | .SUBCIRC_STATE_UNSPEC => pure split_data : Run split_data_t)
    let w := set_split_data w h split_data
    let w ←
      (if subcirc.circ = split_data.base then do
         let w ←
           (if !at_exit then
              split_data_mark_for_close circuit_mark_for_close_origin w h
                end_circ_reason_t.END_CIRC_REASON_INTERNAL
            else pure w : Run World)
         match split_data.base with
         | none => .error Fault.memory
         | some base => do
           let origin_base ← get_origin w base
           match origin_base.split_data_circuit with
           | none => .error Fault.assertion
           | some num => do
             let num := num - 1
             let w := set_origin w base { origin_base with
               split_data_circuit := if num = 0 then none else some num }
             let split_data ← get_split_data w h
             pure (set_split_data w h { split_data with base := none })
       else pure w : Run World)
    let w := { w with subcircuits := w.subcircuits.set p none }
    let hop ← get_hop w circ middle
    let w ← set_hop w circ middle { hop with subcirc := none }
    let split_data ← get_split_data w h
    let w :=
      if split_data_get_num_subcircs split_data = 0 then
        { w with split_datas := w.split_datas.set h none }
      else w
    let hop ← get_hop w circ middle
    set_hop w circ middle { hop with split_data := none }
  | _, _ => .error Fault.assertion

/-- Function `split_process_cookie_set` on the circuit `circ`, its hop at
index `middle`, and the payload of the cell. -/
def split_process_cookie_set (RELAY_PAYLOAD_SIZE idBytes : Nat) (env : client_env) (w : World)
    (circ : Nat) (middle : Nat) (payload : List Nat) : Run (Int × World) := do
  let oc ← get_origin w circ
  match oc.cpath.get? middle with
  | none => .error Fault.assertion
  | some hop =>
    if payload.length ≠ 1 ∧ payload.length ≠ 1 + idBytes then do
      let w ← circuit_mark_for_close_origin w circ end_circ_reason_t.END_CIRC_REASON_TORPROTOCOL
      pure (-1, w)
    else do
      let success ← rd payload 0
      match hop.split_data with
      | none => do
        let w ← circuit_mark_for_close_origin w circ end_circ_reason_t.END_CIRC_REASON_TORPROTOCOL
        pure (-1, w)
      | some h =>
        match hop.subcirc with
        | none => .error Fault.assertion
        | some p => do
          let split_data ← get_split_data w h
          let subcirc ← get_subcirc w p
          if split_data.cookie_state ≠ split_cookie_state_t.SPLIT_COOKIE_STATE_PENDING then do
            let w ← circuit_mark_for_close_origin w circ
              end_circ_reason_t.END_CIRC_REASON_TORPROTOCOL
            pure (-1, w)
          else if success ≠ 0 then do
            tor_assert (payload.length == 1 + idBytes)
            let received_id := subcirc_id_of_wire (payload.drop 1)
            let r ←
              (match subcirc.state with
               | .SUBCIRC_STATE_PENDING_COOKIE => do
                 let c ← split_data_check_subcirc_origin w h circ
                 tor_assert (c == 1)
                 let w ← split_data_subcirc_make_added RELAY_PAYLOAD_SIZE idBytes env w h p
                   received_id
                 pure (some w)
               | .SUBCIRC_STATE_ADDED => do
                 let c ← split_data_check_subcirc_origin w h circ
                 tor_assert (c == 0)
                 if subcirc.id ≠ received_id then pure none else pure (some w)
               | _ => .error Fault.assertion : Run (Option World))
            match r with
            | none => do
              let w ← circuit_mark_for_close_origin w circ
                end_circ_reason_t.END_CIRC_REASON_TORPROTOCOL
              pure (-1, w)
            | some w => do
              let split_data ← get_split_data w h
              let w := set_split_data w h { split_data with
                cookie_state := split_cookie_state_t.SPLIT_COOKIE_STATE_VALID }
              let w ← split_data_handle_pending_cookie env w h
              pure (0, w)
          else do
            tor_assert (payload.length == 1)
            match subcirc.state with
            | .SUBCIRC_STATE_PENDING_COOKIE => do
              let c ← split_data_check_subcirc_origin w h circ
              tor_assert (c == 1)
              tor_assert (split_data_get_num_subcircs split_data == 1)
              let w ← split_data_remove_subcirc_origin w circ middle false
              pure (0, w)
            | .SUBCIRC_STATE_ADDED => do
              let c ← split_data_check_subcirc_origin w h circ
              tor_assert (c == 0)
              pure (0, set_split_data w h { split_data with
                cookie_state := split_cookie_state_t.SPLIT_COOKIE_STATE_INVALID })
            | _ => .error Fault.assertion

/-! ## Bit fields of a byte string -/

/-- The number spelled by the `k` bits at bit offsets `off .. off + k - 1` of
a byte string, the first of them most significant (bits are counted from the
most significant bit of the first byte). -/
def bits_msb_first (bytes : List Nat) (off : Nat) : Nat → Nat
  | 0 => 0
  | k + 1 => bits_msb_first bytes off k * 2 + streamBit bytes (off + k)

/-! ## Middle states for JOIN processing -/

/-- A middle with six circuits and no session. -/
def world_six : World :=
  { circuits := List.replicate 6 (ex_circ none none), subcircuits := [],
    split_datas := [], split_data_or_cookie_map := [], sent := [] }

/-- The state of `world_six` after SET_COOKIE(`cookieA`) on circuit 0 and
JOIN(`cookieA`) on the circuits 1, 2, 3 and 4: the session holds
`MAX_SUBCIRCS` sub-circuits. -/
def world_full : World :=
  { circuits := [ex_circ (some 0) (some 0), ex_circ (some 0) (some 1), ex_circ (some 0) (some 2),
      ex_circ (some 0) (some 3), ex_circ (some 0) (some 4), ex_circ none none],
    subcircuits := [some (ex_sub 0 0), some (ex_sub 1 1), some (ex_sub 2 2), some (ex_sub 3 3),
      some (ex_sub 4 4)],
    split_datas := [some (ex_session 0 split_cookie_state_t.SPLIT_COOKIE_STATE_VALID
      { list := [some 0, some 1, some 2, some 3, some 4], capacity := 5, num_elements := 5,
        max_index := 4 } none [] [])],
    split_data_or_cookie_map := [0],
    sent := [ex_cookie_set 0,
      { circ := 1, command := relay_command_t.RELAY_COMMAND_SPLIT_JOINED, payload := [1, 1] },
      { circ := 2, command := relay_command_t.RELAY_COMMAND_SPLIT_JOINED, payload := [1, 2] },
      { circ := 3, command := relay_command_t.RELAY_COMMAND_SPLIT_JOINED, payload := [1, 3] },
      { circ := 4, command := relay_command_t.RELAY_COMMAND_SPLIT_JOINED, payload := [1, 4] }] }

/-- The handlers that lead from `world_six` to `world_full`. -/
def run_to_full : Run (Int × World) := do
  let (_, w) ← split_process_set_cookie 1 world_six 0 cookieA false
  let (_, w) ← split_process_join 1 w 1 cookieA false
  let (_, w) ← split_process_join 1 w 2 cookieA false
  let (_, w) ← split_process_join 1 w 3 cookieA false
  split_process_join 1 w 4 cookieA false

/-- An OR circuit of a session that was marked for close for a protocol
error. -/
def ex_circ_marked (split_data subcirc : Option Nat) : or_circuit_t :=
  { marked_for_close := true,
    marked_for_close_reason := some end_circ_reason_t.END_CIRC_REASON_TORPROTOCOL,
    state_open := true, purpose_or := true, remaining_relay_early_cells := 8,
    split_data := split_data, subcirc := subcirc }

/-- The state of `world_joined` after `split_mark_for_close` on circuit 0:
the session and its two circuits are marked for close, the session is still
indexed under `cookieA`, and circuit 2 is untouched. -/
def world_closing : World :=
  { world_marked none [] [] with
    circuits := [ex_circ_marked (some 0) (some 0), ex_circ_marked (some 0) (some 1),
      ex_circ none none] }

/-! ## Client states for COOKIE_SET and JOINED processing -/

/-- A client whose base circuit 0 is sub-circuit 0 of session 0 and whose
circuits 1 and 2 have sent JOIN and wait for the answer. -/
def client_world_two_pending : World :=
  { circuits := [],
    subcircuits := [some (ex_sub 0 0),
      some (ex_sub_pending 1 subcirc_state_t.SUBCIRC_STATE_PENDING_JOIN),
      some (ex_sub_pending 2 subcirc_state_t.SUBCIRC_STATE_PENDING_JOIN)],
    split_datas := [some (ex_client_session split_cookie_state_t.SPLIT_COOKIE_STATE_VALID
      (ex_list1 0) (ex_client [1, 2] false) [] [])],
    split_data_or_cookie_map := [], sent := [],
    origin_circuits := [ex_origin false [ex_hop none none, ex_hop (some 0) (some 0), ex_hop none none],
      ex_origin true [ex_hop none none, ex_hop (some 0) (some 1)],
      ex_origin true [ex_hop none none, ex_hop (some 0) (some 2)]] }

/-- The return value of a handler, without the state. -/
def returned (x : Run (Int × World)) : Run Int := x.map Prod.fst

/-! ## Rounded Dirichlet weights -/

/-- Modelled from the spec: `tor_lround` of `lib/math` is not under src.  It is
`lround`: the nearest integer, a half rounded away from zero.  The weights
are taken as rational numbers. -/
def tor_lround (x : ℚ) : Int :=
  if 0 ≤ x then Int.floor (x + 1 / 2) else Int.ceil (x - 1 / 2)

/-- The values `(int) tor_lround(100 * theta[j])` that the bucket-filling loop
computes from a weight vector. -/
def rounded_weights (theta : List ℚ) : List Int :=
  theta.map fun t => tor_lround (100 * t)

/-! ## splitcommon.c: removing a sub-circuit at the middle -/

/-- Function `split_data_remove_subcirc` for the pointers `split_data` and
`subcirc` of the OR circuit `circ`.  Freed objects leave the heaps;
`subcircuit_free` and `split_data_free` set the pointers of the circuit to
`NULL`, and `split_data_free` runs `split_data_or_free_`, which takes the
cookie out of the index. -/
def split_data_remove_subcirc (w : World) (circ : Nat) (at_exit : Bool) : Run World := do
  let or_circ ← get_circ w circ
  match or_circ.split_data, or_circ.subcirc with
  | some h, some p => do
    let split_data ← get_split_data w h
    let subcirc ← get_subcirc w p
    let split_data ←
      (match subcirc.state with
       | .SUBCIRC_STATE_PENDING_COOKIE | .SUBCIRC_STATE_PENDING_JOIN => do
         let client ← get_client split_data
         tor_assert (client.pending_subcircs.contains p)
         pure { split_data with split_data_client := some { client with
           pending_subcircs := client.pending_subcircs.filter (fun q => q != p) } }
       | .SUBCIRC_STATE_ADDED => do
         let stored ← split_data_get_subcirc split_data subcirc.id
         tor_assert (stored == some p)
         let subcircs ← subcirc_list_remove split_data.subcircs subcirc.id
         pure { split_data with subcircs := subcircs }
       | .SUBCIRC_STATE_UNSPEC => pure split_data : Run split_data_t)
    let w := set_split_data w h split_data
    let w ←
      (if subcirc.circ = split_data.base then do
         let w ←
           (if !at_exit then
              split_data_mark_for_close circuit_mark_for_close w h
                end_circ_reason_t.END_CIRC_REASON_INTERNAL
            else pure w : Run World)
         let split_data ← get_split_data w h
         pure (set_split_data w h { split_data with base := none })
       else pure w : Run World)
    let w := { w with subcircuits := w.subcircuits.set p none }
    let or_circ ← get_circ w circ
    let w := set_circ w circ { or_circ with subcirc := none }
    let split_data ← get_split_data w h
    let w ←
      (if split_data_get_num_subcircs split_data = 0 then do
         let w ←
           (if split_data.split_data_or.isSome then split_data_cookie_make_invalid w h
            else pure w : Run World)
         pure { w with split_datas := w.split_datas.set h none }
       else pure w : Run World)
    let or_circ ← get_circ w circ
    pure (set_circ w circ { or_circ with split_data := none })
  | _, _ => .error Fault.assertion

/-- Function `split_remove_subcirc` for a circuit of the middle
(`CIRCUIT_IS_ORCIRC(circ)`).  The result of `split_data_check_subcirc` is
only looked at by `tor_assert_nonfatal`. -/
def split_remove_subcirc (w : World) (circ : Nat) (at_exit : Bool) : Run World := do
  let or_circ ← get_circ w circ
  let w ←
    (match or_circ.split_data with
     | some h => do
       let _ ← split_data_check_subcirc w h circ
       split_data_remove_subcirc w circ at_exit
     | none => pure w : Run World)
  let or_circ ← get_circ w circ
  tor_assert or_circ.split_data.isNone
  tor_assert or_circ.subcirc.isNone
  pure w

/-- The handlers that lead from `world_six` to a session with a gap:
SET_COOKIE on circuit 0, JOIN on the circuits 1 and 2, and then the removal
of circuit 1. -/
def run_to_gap : Run World := do
  let (_, w) ← split_process_set_cookie 1 world_six 0 cookieA false
  let (_, w) ← split_process_join 1 w 1 cookieA false
  let (_, w) ← split_process_join 1 w 2 cookieA false
  split_remove_subcirc w 1 false

/-- The state that `run_to_gap` leads to: the session holds the sub-circuits
0 and 2, the slot 1 is empty again. -/
def world_gap : World :=
  { circuits := [ex_circ (some 0) (some 0), ex_circ none none, ex_circ (some 0) (some 2),
      ex_circ none none, ex_circ none none, ex_circ none none],
    subcircuits := [some (ex_sub 0 0), none, some (ex_sub 2 2)],
    split_datas := [some (ex_session 0 split_cookie_state_t.SPLIT_COOKIE_STATE_VALID
      { list := [some 0, none, some 2, none, none], capacity := 5, num_elements := 2,
        max_index := 2 } none [] [])],
    split_data_or_cookie_map := [0],
    sent := [ex_cookie_set 0,
      { circ := 1, command := relay_command_t.RELAY_COMMAND_SPLIT_JOINED, payload := [1, 1] },
      { circ := 2, command := relay_command_t.RELAY_COMMAND_SPLIT_JOINED, payload := [1, 2] }] }

/-! ## The sub-circuits of a client session -/

/-- The list `pending_subcircs` of a session (empty without a client
part). -/
def pending_of (sd : split_data_t) : List Nat :=
  match sd.split_data_client with
  | some client => client.pending_subcircs
  | none => []

/-- The state is `SUBCIRC_STATE_PENDING_COOKIE` or
`SUBCIRC_STATE_PENDING_JOIN`. -/
def is_pending (s : subcirc_state_t) : Prop :=
  s = subcirc_state_t.SUBCIRC_STATE_PENDING_COOKIE ∨ s = subcirc_state_t.SUBCIRC_STATE_PENDING_JOIN

/-- Where the sub-circuits `S` of a session are stored, given the sub-circuit
objects `subs` (`none` is a freed object), the pending list and the added
list: both lists hold sub-circuits of the session only; every sub-circuit of
the session is a live object that either is in a pending state, is in the
pending list and is in no slot of the added list, or is in the state ADDED,
is not in the pending list and is in the slot of its own ID and in no other
slot.  The added list is one that `subcirc_list_add` and
`subcirc_list_remove` lead to from `subcirc_list_new`. -/
def parts_ok (subs : List (Option subcircuit_t)) (pending : List Nat) (sl : subcirc_list_t)
    (S : List Nat) : Prop :=
  ListReachable sl ∧
  (∀ p ∈ pending, p ∈ S) ∧
  (∀ id p, sl.list.getD id none = some p → p ∈ S) ∧
  ∀ p ∈ S, ∃ sub, subs.getD p none = some sub ∧
    ((is_pending sub.state ∧ p ∈ pending ∧ ∀ id, sl.list.getD id none ≠ some p) ∨
     (sub.state = subcirc_state_t.SUBCIRC_STATE_ADDED ∧ p ∉ pending ∧
        ∀ id, sl.list.getD id none = some p ↔ id = sub.id))

/-- The sub-circuits `S` of the session `h` are stored as `parts_ok` says, as
long as the session is a live object. -/
def session_partition (w : World) (h : Nat) (S : List Nat) : Prop :=
  ∀ sd, get_split_data w h = .ok sd → parts_ok w.subcircuits (pending_of sd) sd.subcircs S

/-- One operation on the sub-circuits of the client session `h`, from the
state `w` with the sub-circuits `S` to the state `w'` with the sub-circuits
`S'`: a returning call of `split_data_add_subcirc` (which creates the
sub-circuit `p`, or refuses), of `split_data_subcirc_make_added`, of
`subcirc_change_state` as the handlers call it (on a sub-circuit in a pending
state, to a pending state), or of `split_data_remove_subcirc` on a hop of the
session. -/
inductive client_step (RELAY_PAYLOAD_SIZE idBytes : Nat) (env : client_env) (h : Nat) :
    World → List Nat → World → List Nat → Prop where
  | add (w w' : World) (S : List Nat) (state : subcirc_state_t) (circ id p : Nat) :
      split_data_add_subcirc_origin w h state circ id = .ok (some p, w') →
      client_step RELAY_PAYLOAD_SIZE idBytes env h w S w' (p :: S)
  | add_refused (w w' : World) (S : List Nat) (state : subcirc_state_t) (circ id : Nat) :
      split_data_add_subcirc_origin w h state circ id = .ok (none, w') →
      client_step RELAY_PAYLOAD_SIZE idBytes env h w S w' S
  | make_added (w w' : World) (S : List Nat) (p id : Nat) :
      split_data_subcirc_make_added RELAY_PAYLOAD_SIZE idBytes env w h p id = .ok w' →
      client_step RELAY_PAYLOAD_SIZE idBytes env h w S w' S
  | change_state (w w' : World) (S : List Nat) (p : Nat) (sub : subcircuit_t)
      (new_state : subcirc_state_t) :
      get_subcirc w p = .ok sub → is_pending sub.state → is_pending new_state →
      subcirc_change_state w p new_state = .ok w' →
      client_step RELAY_PAYLOAD_SIZE idBytes env h w S w' S
  | remove (w w' : World) (S : List Nat) (circ middle : Nat) (at_exit : Bool)
      (hop : crypt_path_t) (p : Nat) :
      get_hop w circ middle = .ok hop → hop.split_data = some h → hop.subcirc = some p →
      split_data_remove_subcirc_origin w circ middle at_exit = .ok w' →
      client_step RELAY_PAYLOAD_SIZE idBytes env h w S w' (S.filter (fun q => q != p))

/-- The states of the client session `h` that are reachable from a session
without sub-circuits (both lists empty, the added list as `subcirc_list_new`
returns it), together with the sub-circuits of the session. -/
inductive client_reach (RELAY_PAYLOAD_SIZE idBytes : Nat) (env : client_env) (h : Nat) :
    World → List Nat → Prop where
  | init (w : World) (sd : split_data_t) :
      get_split_data w h = .ok sd → pending_of sd = [] → sd.subcircs = subcirc_list_new →
      client_reach RELAY_PAYLOAD_SIZE idBytes env h w []
  | step (w w' : World) (S S' : List Nat) :
      client_reach RELAY_PAYLOAD_SIZE idBytes env h w S →
      client_step RELAY_PAYLOAD_SIZE idBytes env h w S w' S' →
      client_reach RELAY_PAYLOAD_SIZE idBytes env h w' S'

/-- From `w` to `w'` the sub-circuit objects are untouched and the session
`h`, when it is a live object, keeps its added list and its pending list. -/
def parts_frame (h : Nat) (w w' : World) : Prop :=
  w'.subcircuits = w.subcircuits ∧
  ∀ sd, get_split_data w h = .ok sd →
    ∃ sd', get_split_data w' h = .ok sd' ∧ sd'.subcircs = sd.subcircs ∧
      pending_of sd' = pending_of sd

/-- A client whose session 0 has just been created on the hop 1 of its
circuit 0: no sub-circuit is pending or added. -/
def client_world_empty : World :=
  { circuits := [], subcircuits := [],
    split_datas := [some (ex_client_session split_cookie_state_t.SPLIT_COOKIE_STATE_PENDING
      subcirc_list_new (ex_client [] false) [] [])],
    split_data_or_cookie_map := [], sent := [],
    origin_circuits := [ex_origin false [ex_hop none none, ex_hop (some 0) none, ex_hop none none]] }

/-- The state `client_world_empty` after `split_data_add_subcirc` has added
the base circuit 0 in the state PENDING_COOKIE. -/
def client_world_base_pending : World :=
  { client_world_empty with
    subcircuits := [some (ex_sub_pending 0 subcirc_state_t.SUBCIRC_STATE_PENDING_COOKIE)],
    split_datas := [some (ex_client_session split_cookie_state_t.SPLIT_COOKIE_STATE_PENDING
      subcirc_list_new (ex_client [0] false) [] [])] }

/-! ## Clients with a weighted strategy -/

/-- The client part of a session with the strategy `strategy`, the flags
`use_previous_data` both `use_prev` and the stored weights both `prev`. -/
def ex_client_strategy (strategy : Nat) (is_final use_prev : Bool) (prev : List Int) :
    split_data_client_t :=
  { pending_subcircs := [], launch_on_cookie := 0, strategy := strategy, is_final := is_final,
    use_previous_data_in := use_prev, use_previous_data_out := use_prev,
    previous_data_in := prev, previous_data_out := prev,
    remaining_cpath := [ex_hop none none] }

/-- A client whose session 0 has the added sub-circuits 0 and 1, no pending
sub-circuit, empty queues, and is not final; its strategy is `strategy` and
its stored weights are all zero, as `tor_malloc_zero` leaves them. -/
def client_world_strategy (strategy : Nat) : World :=
  client_world_added ex_list2
    (ex_client_strategy strategy false false (List.replicate MAX_SUBCIRCS 0)) [] []

/-- Surroundings of a client whose Dirichlet weights change from call to
call: when `k` cells have been sent, `ran_dirichlet` draws the weights
`0.3 + k / 10` and `0.7 - k / 10`.  The other draws are those of `ex_env`, no
send fails, and `SplitSubcircuits` is 2. -/
def ex_client_env_varying : client_env :=
  { draws := fun w => { draw := fun k => k * 7 + 3,
                        theta := [30 + 10 * (w.sent.length : Int), 70 - 10 * (w.sent.length : Int)],
                        fuel := 10 },
    send_fails := fun _ => false,
    new_cookie := fun _ => List.replicate 20 9, SplitSubcircuits := 2 }

/-- What a call leaves of the session 0: the stored weights of the two
directions (IN, then OUT), the three flags `is_final`,
`use_previous_data_in` and `use_previous_data_out`, and the IDs of the
instructions in `instruction_in` and in `instruction_out`. -/
def session_summary (w : World) :
    Run (List (List Int) × List Bool × List (List Nat) × List (List Nat)) := do
  let split_data ← get_split_data w 0
  let client ← get_client split_data
  pure ([client.previous_data_in, client.previous_data_out],
    [client.is_final, client.use_previous_data_in, client.use_previous_data_out],
    split_data.instruction_in.map (fun inst => inst.data),
    split_data.instruction_out.map (fun inst => inst.data))

/-- A client whose session 0 was created on the hop 1 of its circuit 0 and
waits for COOKIE_SET: the base circuit 0 is a pending sub-circuit in the
state PENDING_COOKIE, and no sub-circuit is added. -/
def client_world_base_waiting : World :=
  { circuits := [],
    subcircuits := [some (ex_sub_pending 0 subcirc_state_t.SUBCIRC_STATE_PENDING_COOKIE)],
    split_datas := [some (ex_client_session split_cookie_state_t.SPLIT_COOKIE_STATE_PENDING
      subcirc_list_new (ex_client [0] false) [] [])],
    split_data_or_cookie_map := [], sent := [],
    origin_circuits := [ex_origin false [ex_hop none none, ex_hop (some 0) (some 0),
      ex_hop none none]] }

theorem pow_mul_div_pow_of_le (a m n : Nat) (h : n ≤ m) : a * 2 ^ m / 2 ^ n = a * 2 ^ (m - n) := by
  have : 2 ^ m = 2 ^ (m - n) * 2 ^ n := by rw [← pow_add]; congr 1; omega
  rw [this, ← Nat.mul_assoc, Nat.mul_div_cancel _ (Nat.two_pow_pos n)]

theorem pow_mul_div_pow_of_ge (a m n : Nat) (h : m ≤ n) : a * 2 ^ m / 2 ^ n = a / 2 ^ (n - m) := by
  have : 2 ^ n = 2 ^ m * 2 ^ (n - m) := by rw [← pow_add]; congr 1; omega
  rw [this, ← Nat.div_div_eq_div_mul, Nat.mul_div_cancel _ (Nat.two_pow_pos m)]

theorem pow_mul_mod_pow (x m n : Nat) (h : m ≤ n) : x * 2 ^ m % 2 ^ n = x % 2 ^ (n - m) * 2 ^ m := by
  have : 2 ^ n = 2 ^ (n - m) * 2 ^ m := by rw [← pow_add]; congr 1; omega
  rw [this, Nat.mul_mod_mul_right]

theorem div_pow_div_pow (x a b : Nat) : x / 2 ^ a / 2 ^ b = x / 2 ^ (a + b) := by
  rw [Nat.div_div_eq_div_mul, ← pow_add]

theorem beValW_replicate_zero (w n : Nat) : beValW w (List.replicate n 0) = 0 := by
  induction n with
  | zero => rfl
  | succ n ih => simp [List.replicate_succ, beValW, ih]

theorem beValW_lt (w : Nat) (bs : List Nat) (h : ∀ b ∈ bs, b < 2 ^ w) :
    beValW w bs < 2 ^ (w * bs.length) := by
  induction bs with
  | nil => simp [beValW]
  | cons b t ih =>
    have hb : b < 2 ^ w := h b (List.mem_cons_self _ _)
    have ht := ih (fun x hx => h x (List.mem_cons_of_mem _ hx))
    simp only [beValW, List.length_cons]
    have e : 2 ^ (w * (t.length + 1)) = 2 ^ w * 2 ^ (w * t.length) := by
      rw [show w * (t.length + 1) = w + w * t.length by ring, pow_add]
    rw [e]
    have : (b + 1) * 2 ^ (w * t.length) ≤ 2 ^ w * 2 ^ (w * t.length) :=
      Nat.mul_le_mul_right _ hb
    nlinarith

theorem beValW_getD (w : Nat) (bs : List Nat) (h : ∀ b ∈ bs, b < 2 ^ w) (i : Nat)
    (hi : i < bs.length) :
    bs.getD i 0 = beValW w bs / 2 ^ (w * (bs.length - 1 - i)) % 2 ^ w := by
  induction bs generalizing i with
  | nil => simp at hi
  | cons b t ih =>
    have hb : b < 2 ^ w := h b (List.mem_cons_self _ _)
    have ht : ∀ x ∈ t, x < 2 ^ w := fun x hx => h x (List.mem_cons_of_mem _ hx)
    have hlt := beValW_lt w t ht
    cases i with
    | zero =>
      simp only [List.getD_cons_zero, beValW, List.length_cons, Nat.add_sub_cancel, Nat.sub_zero]
      rw [Nat.add_comm, Nat.add_mul_div_right _ _ (Nat.two_pow_pos _), Nat.div_eq_of_lt hlt]
      simp [Nat.mod_eq_of_lt hb]
    | succ j =>
      have hj : j < t.length := by simpa using hi
      simp only [List.getD_cons_succ, beValW, List.length_cons, Nat.add_sub_cancel]
      rw [ih ht j hj]
      have e1 : t.length - (j + 1) = t.length - 1 - j := by omega
      have e2 : 2 ^ (w * t.length) = 2 ^ (w * (t.length - 1 - j)) * (2 ^ w * 2 ^ (w * j)) := by
        rw [← pow_add, ← pow_add]; congr 1
        have : t.length = (t.length - 1 - j) + (1 + j) := by omega
        conv_lhs => rw [this]
        ring
      rw [e1, e2, ← Nat.mul_assoc, Nat.mul_comm b, Nat.mul_assoc, Nat.add_comm,
        Nat.add_mul_div_left _ _ (Nat.two_pow_pos _)]
      rw [show b * (2 ^ w * 2 ^ (w * j)) = 2 ^ w * (b * 2 ^ (w * j)) by ring,
        Nat.add_mul_mod_self_left]

theorem beValW_set (w : Nat) (bs : List Nat) (i v : Nat) (hi : i < bs.length) :
    beValW w (bs.set i v) + bs.getD i 0 * 2 ^ (w * (bs.length - 1 - i))
      = beValW w bs + v * 2 ^ (w * (bs.length - 1 - i)) := by
  induction bs generalizing i with
  | nil => simp at hi
  | cons b t ih =>
    cases i with
    | zero =>
      simp only [List.set_cons_zero, beValW, List.getD_cons_zero, List.length_cons,
        Nat.add_sub_cancel, Nat.sub_zero]
      omega
    | succ j =>
      have hj : j < t.length := by simpa using hi
      have := ih j hj
      simp only [List.set_cons_succ, beValW, List.getD_cons_succ, List.length_cons,
        Nat.add_sub_cancel, List.length_set]
      have e1 : t.length - (j + 1) = t.length - 1 - j := by omega
      rw [e1]; omega

theorem beVal_replicate_zero (n : Nat) : beVal (List.replicate n 0) = 0 :=
  beValW_replicate_zero 8 n

theorem beVal_getD (bs : List Nat) (h : ∀ b ∈ bs, b < 256) (i : Nat) (hi : i < bs.length) :
    bs.getD i 0 = beVal bs / 2 ^ (8 * (bs.length - 1 - i)) % 256 :=
  beValW_getD 8 bs h i hi

theorem beVal_set (bs : List Nat) (i v : Nat) (hi : i < bs.length) :
    beVal (bs.set i v) + bs.getD i 0 * 2 ^ (8 * (bs.length - 1 - i))
      = beVal bs + v * 2 ^ (8 * (bs.length - 1 - i)) :=
  beValW_set 8 bs i v hi

theorem packedVal_eq (W : Nat) (ids : List Nat) (v : Nat) :
    packedVal W ids v = v * 2 ^ (W * ids.length) + beValW W ids := by
  induction ids generalizing v with
  | nil => simp [packedVal, beValW]
  | cons a t ih =>
    simp only [packedVal, ih, beValW, List.length_cons]
    rw [show W * (t.length + 1) = W + W * t.length by ring, pow_add]
    ring

theorem rd_ok (buf : List Nat) (i : Nat) (hi : i < buf.length) : rd buf i = .ok (buf.getD i 0) := by
  simp [rd, List.getD, List.get?_eq_get hi, List.getElem?_eq_getElem hi]

theorem wr_ok (buf : List Nat) (i v : Nat) (hi : i < buf.length) : wr buf i v = .ok (buf.set i v) := by
  simp [wr, hi]

theorem and_bit_mask_right (x bit : Nat) (h : bit ≤ 8) : x &&& bit_mask_right bit = x % 2 ^ (8 - bit) := by
  have : bit_mask_right bit = 2 ^ (8 - bit) - 1 := by
    unfold bit_mask_right
    interval_cases bit <;> rfl
  rw [this, Nat.and_pow_two_sub_one_eq_mod]

theorem chunk_lt (S N off k : Nat) : chunk S N off k < 2 ^ k := Nat.mod_lt _ (Nat.two_pow_pos k)

theorem chunk_zero (S N off : Nat) : chunk S N off 0 = 0 := by simp [chunk, Nat.mod_one]

theorem chunk_concat (S N off a k : Nat) (h : off + a + k ≤ N) :
    chunk S N off (a + k) = chunk S N off a * 2 ^ k + chunk S N (off + a) k := by
  unfold chunk
  have e1 : N - off - a = (N - off - (a + k)) + k := by omega
  have e2 : N - (off + a) - k = N - off - (a + k) := by omega
  rw [e1, e2, ← div_pow_div_pow, pow_add, Nat.mul_comm (2 ^ a) (2 ^ k), Nat.mod_mul]
  ring

theorem byte_eq_chunk (bs : List Nat) (h : ∀ b ∈ bs, b < 256) (cb : Nat) (hcb : cb < bs.length) :
    bs.getD cb 0 = chunk (beVal bs) (8 * bs.length) (8 * cb) 8 := by
  rw [beVal_getD bs h cb hcb]
  unfold chunk
  have : 8 * bs.length - 8 * cb - 8 = 8 * (bs.length - 1 - cb) := by omega
  rw [this]; norm_num

theorem subbyte_eq_chunk (bs : List Nat) (h : ∀ b ∈ bs, b < 256) (cb bit k : Nat)
    (hcb : cb < bs.length) (hk : bit + k ≤ 8) :
    bs.getD cb 0 % 2 ^ (8 - bit) / 2 ^ (8 - bit - k)
      = chunk (beVal bs) (8 * bs.length) (8 * cb + bit) k := by
  rw [beVal_getD bs h cb hcb]
  unfold chunk
  have e0 : (256 : Nat) = 2 ^ 8 := by norm_num
  rw [e0, Nat.mod_mod_of_dvd _ (Nat.pow_dvd_pow 2 (by omega : 8 - bit ≤ 8))]
  have e1 : 2 ^ (8 - bit) = 2 ^ (8 - bit - k) * 2 ^ k := by rw [← pow_add]; congr 1; omega
  rw [e1, Nat.mod_mul_right_div_self, div_pow_div_pow]
  have e2 : 8 * (bs.length - 1 - cb) + (8 - bit - k) = 8 * bs.length - (8 * cb + bit) - k := by omega
  rw [e2]

theorem shl_or_mod (cur c k b : Nat) (hk : k ≤ b) (hc : c < 2 ^ k) :
    ((cur <<< k) % 2 ^ b ||| c) % 2 ^ b = (cur * 2 ^ k + c) % 2 ^ b := by
  rw [Nat.shiftLeft_eq, pow_mul_mod_pow _ _ _ hk, Nat.mul_comm _ (2 ^ k), ← Nat.mul_add_lt_is_or hc,
    Nat.mul_comm (2 ^ k), ← pow_mul_mod_pow _ _ _ hk, Nat.mod_add_mod]

theorem mod_shift_add (x c k b : Nat) : ((x % 2 ^ b) * 2 ^ k + c) % 2 ^ b = (x * 2 ^ k + c) % 2 ^ b := by
  rw [Nat.add_mod, Nat.mul_mod, Nat.mod_mod, ← Nat.mul_mod, ← Nat.add_mod]

theorem dec_while_skip (idBytes : Nat) (payload : List Nat) (fuel cur rem cb bit : Nat)
    (h : bit + rem ≤ 8) :
    dec_while idBytes payload fuel cur rem cb bit = .ok (cur, rem, cb) := by
  unfold dec_while
  have : ¬ (rem ≠ 0 ∧ bit + rem > 8) := by omega
  simp [this]

theorem dec_while_run (idBytes : Nat) (payload : List Nat) (hb : ∀ b ∈ payload, b < 256)
    (hid : 1 ≤ idBytes) (off : Nat) :
    ∀ (fuel cur rem cb a : Nat), (rem - 1) / 8 ≤ fuel → 8 * cb = off + a →
      off + a + rem ≤ 8 * payload.length →
      cur = chunk (beVal payload) (8 * payload.length) off a % 2 ^ (8 * idBytes) →
      dec_while idBytes payload fuel cur rem cb 0
        = .ok (chunk (beVal payload) (8 * payload.length) off (a + 8 * ((rem - 1) / 8))
                % 2 ^ (8 * idBytes), rem - 8 * ((rem - 1) / 8), cb + (rem - 1) / 8) := by
  intro fuel
  induction fuel with
  | zero =>
    intro cur rem cb a hf hcb hle hcur
    have hrem : rem ≤ 8 := by omega
    rw [dec_while_skip _ _ _ _ _ _ _ (by omega)]
    have : (rem - 1) / 8 = 0 := by omega
    simp [this, hcur]
  | succ fuel ih =>
    intro cur rem cb a hf hcb hle hcur
    by_cases hrem : rem ≤ 8
    · rw [dec_while_skip _ _ _ _ _ _ _ (by omega)]
      have : (rem - 1) / 8 = 0 := by omega
      simp [this, hcur]
    · have hcond : rem ≠ 0 ∧ 0 + rem > 8 := by omega
      have hcbl : cb < payload.length := by omega
      unfold dec_while
      rw [if_pos hcond]
      simp only [tor_assert, bind, Except.bind, rd_ok payload cb hcbl, beq_self_eq_true, if_true]
      have hq : (rem - 1) / 8 = (rem - 8 - 1) / 8 + 1 := by omega
      have hstep : ((cur <<< 8) % 2 ^ (8 * idBytes) ||| payload.getD cb 0) % 2 ^ (8 * idBytes)
          = chunk (beVal payload) (8 * payload.length) off (a + 8) % 2 ^ (8 * idBytes) := by
        have hbyte := byte_eq_chunk payload hb cb hcbl
        rw [shl_or_mod _ _ 8 _ (by omega) (by rw [hbyte]; exact chunk_lt _ _ _ _), hcur,
          mod_shift_add, hbyte, hcb, ← chunk_concat _ _ _ _ _ (by omega)]
      rw [ih _ (rem - 8) (cb + 1) (a + 8) (by omega) (by omega) (by omega) hstep]
      have e1 : a + 8 + 8 * ((rem - 8 - 1) / 8) = a + 8 * ((rem - 1) / 8) := by omega
      have e2 : rem - 8 - 8 * ((rem - 8 - 1) / 8) = rem - 8 * ((rem - 1) / 8) := by omega
      have e3 : cb + 1 + (rem - 8 - 1) / 8 = cb + (rem - 1) / 8 := by omega
      rw [e1, e2, e3]

theorem dec_id_ok (idBytes width : Nat) (payload : List Nat) (hb : ∀ b ∈ payload, b < 256)
    (hid : 1 ≤ idBytes) (hw : 1 ≤ width) (off : Nat) (hoff : off + width ≤ 8 * payload.length) :
    dec_id idBytes width payload (off / 8) (off % 8)
      = .ok (chunk (beVal payload) (8 * payload.length) off width % 2 ^ (8 * idBytes),
             (off + width) / 8, (off + width) % 8) := by
  have hcbl : off / 8 < payload.length := by omega
  have hbit : off % 8 < 8 := Nat.mod_lt _ (by norm_num)
  by_cases hc : off % 8 + width > 8
  · -- the ID spans more than the current byte
    have h1 : ((0 ||| (payload.getD (off / 8) 0 &&& bit_mask_right (off % 8))) % 2 ^ (8 * idBytes))
        = chunk (beVal payload) (8 * payload.length) off (8 - off % 8) % 2 ^ (8 * idBytes) := by
      rw [Nat.zero_or, and_bit_mask_right _ _ (by omega)]
      have := subbyte_eq_chunk payload hb (off / 8) (off % 8) (8 - off % 8) hcbl (by omega)
      rw [show 8 - off % 8 - (8 - off % 8) = 0 by omega, pow_zero, Nat.div_one,
        show 8 * (off / 8) + off % 8 = off by omega] at this
      rw [this]
    have hrun := dec_while_run idBytes payload hb hid off (width + off % 8 - 8 + 1)
      _ (width + off % 8 - 8) (off / 8 + 1) (8 - off % 8) (by omega) (by omega) (by omega) h1
    unfold dec_id
    simp only [hc, if_true, bind, Except.bind, pure, Except.pure, rd_ok payload _ hcbl, hrun]
    have hr : width + off % 8 - 8 - 8 * ((width + off % 8 - 8 - 1) / 8) ≠ 0 := by omega
    have hcb2 : off / 8 + 1 + (width + off % 8 - 8 - 1) / 8 < payload.length := by omega
    simp only [hr, ne_eq, not_false_eq_true, if_true, tor_assert, rd_ok payload _ hcb2]
    have hle : 0 + (width + off % 8 - 8 - 8 * ((width + off % 8 - 8 - 1) / 8)) ≤ 8 := by omega
    simp only [hle, decide_True, if_true]
    have hlast : (((chunk (beVal payload) (8 * payload.length) off
            (8 - off % 8 + 8 * ((width + off % 8 - 8 - 1) / 8)) % 2 ^ (8 * idBytes))
          <<< (width + off % 8 - 8 - 8 * ((width + off % 8 - 8 - 1) / 8))) % 2 ^ (8 * idBytes)
        ||| (payload.getD (off / 8 + 1 + (width + off % 8 - 8 - 1) / 8) 0 &&& bit_mask_right 0)
          >>> (8 - (0 + (width + off % 8 - 8 - 8 * ((width + off % 8 - 8 - 1) / 8)))))
          % 2 ^ (8 * idBytes)
        = chunk (beVal payload) (8 * payload.length) off width % 2 ^ (8 * idBytes) := by
      rw [and_bit_mask_right _ _ (by omega), Nat.shiftRight_eq_div_pow]
      have := subbyte_eq_chunk payload hb (off / 8 + 1 + (width + off % 8 - 8 - 1) / 8) 0
        (width + off % 8 - 8 - 8 * ((width + off % 8 - 8 - 1) / 8)) hcb2 (by omega)
      simp only [Nat.sub_zero, Nat.add_zero, Nat.zero_add] at this ⊢
      rw [this, shl_or_mod _ _ _ _ (by omega) (chunk_lt _ _ _ _), mod_shift_add]
      have e : 8 * (off / 8 + 1 + (width + off % 8 - 8 - 1) / 8)
          = off + (8 - off % 8 + 8 * ((width + off % 8 - 8 - 1) / 8)) := by omega
      rw [e, ← chunk_concat _ _ _ _ _ (by omega)]
      congr 2
      omega
    rw [hlast]
    by_cases h8 : 0 + (width + off % 8 - 8 - 8 * ((width + off % 8 - 8 - 1) / 8)) = 8
    · simp only [h8, if_true]
      congr 2
      · congr 1
        · omega
        · omega
    · simp only [h8, if_false]
      congr 2
      · congr 1
        · omega
        · omega
  · -- the ID lies within the current byte
    unfold dec_id
    have hskip := dec_while_skip idBytes payload (width + 1) 0 width (off / 8) (off % 8) (by omega)
    simp only [hc, if_false, bind, Except.bind, pure, Except.pure, hskip]
    have hr : width ≠ 0 := by omega
    have hle : off % 8 + width ≤ 8 := by omega
    simp only [hr, ne_eq, not_false_eq_true, if_true, tor_assert, hle, decide_True,
      rd_ok payload _ hcbl]
    have hlast : ((0 <<< width) % 2 ^ (8 * idBytes)
        ||| (payload.getD (off / 8) 0 &&& bit_mask_right (off % 8)) >>> (8 - (off % 8 + width)))
          % 2 ^ (8 * idBytes)
        = chunk (beVal payload) (8 * payload.length) off width % 2 ^ (8 * idBytes) := by
      rw [and_bit_mask_right _ _ (by omega), Nat.shiftRight_eq_div_pow]
      have := subbyte_eq_chunk payload hb (off / 8) (off % 8) width hcbl (by omega)
      rw [show 8 * (off / 8) + off % 8 = off by omega,
        show 8 - off % 8 - width = 8 - (off % 8 + width) by omega] at this
      rw [this, shl_or_mod _ _ _ _ (by omega) (chunk_lt _ _ _ _)]
      simp
    rw [hlast]
    by_cases h8 : off % 8 + width = 8
    · simp only [h8, if_true]
      congr 2
      · congr 1
        · omega
        · omega
    · simp only [h8, if_false]
      congr 2
      · congr 1
        · omega
        · omega

theorem dec_loop_ok (idBytes width total_bits num : Nat) (payload : List Nat)
    (hb : ∀ b ∈ payload, b < 256) (hid : 1 ≤ idBytes) (hw : 1 ≤ width)
    (hT : total_bits = num * width) (hlen : total_bits ≤ 8 * payload.length) :
    ∀ (fuel : Nat) (data : List Nat) (count : Nat), num - count ≤ fuel → count ≤ num →
      data.length = num →
      ∃ r, dec_loop idBytes width total_bits num payload fuel data count (count * width)
              (count * width / 8) (count * width % 8) = .ok (r, num)
        ∧ r.length = num
        ∧ (∀ i, i < count → r.getD i 0 = data.getD i 0)
        ∧ (∀ i, count ≤ i → i < num →
            r.getD i 0 = chunk (beVal payload) (8 * payload.length) (i * width) width
              % 2 ^ (8 * idBytes)) := by
  intro fuel
  induction fuel with
  | zero =>
    intro data count hf hc hl
    have : count = num := by omega
    subst this
    refine ⟨data, ?_, hl, fun _ _ => rfl, fun i h1 h2 => by omega⟩
    unfold dec_loop
    simp [hT]
  | succ fuel ih =>
    intro data count hf hc hl
    by_cases hcn : count = num
    · subst hcn
      refine ⟨data, ?_, hl, fun _ _ => rfl, fun i h1 h2 => by omega⟩
      unfold dec_loop
      simp [hT]
    · have hlt : count < num := by omega
      have hbr : count * width < total_bits := by
        rw [hT]; exact Nat.mul_lt_mul_of_pos_right hlt (by omega)
      have hnext : count * width + width ≤ total_bits := by
        rw [hT]
        calc count * width + width = (count + 1) * width := by ring
          _ ≤ num * width := Nat.mul_le_mul_right _ (by omega)
      have hstep := dec_id_ok idBytes width payload hb hid hw (count * width) (by omega)
      obtain ⟨r, hr, hrl, hr1, hr2⟩ := ih (data.set count
        (chunk (beVal payload) (8 * payload.length) (count * width) width % 2 ^ (8 * idBytes)))
        (count + 1) (by omega) (by omega) (by simp [hl])
      have e : (count + 1) * width = count * width + width := by ring
      rw [e] at hr
      refine ⟨r, ?_, hrl, ?_, ?_⟩
      · unfold dec_loop
        rw [if_pos hbr]
        simp only [tor_assert, bind, Except.bind, hnext, decide_True, if_true, beq_self_eq_true,
          hstep, hlt, wr_ok data count _ (by omega : count < data.length)]
        exact hr
      · intro i hi
        rw [hr1 i (by omega)]
        simp only [List.getD_eq_getElem?_getD, List.getElem?_set]
        have : count ≠ i := by omega
        simp [this]
      · intro i h1 h2
        by_cases hic : i = count
        · subst hic
          rw [hr1 i (by omega)]
          simp only [List.getD_eq_getElem?_getD, List.getElem?_set]
          simp [hl, hlt]
        · exact hr2 i (by omega) h2

theorem parse_from_payload_generic_ok (RELAY_PAYLOAD_SIZE idBytes : Nat) (payload : List Nat)
    (hb : ∀ b ∈ payload, b < 256) (hid : 1 ≤ idBytes) (hP : payload.length ≤ RELAY_PAYLOAD_SIZE)
    (h3 : 3 ≤ payload.length) (htype : payload.getD 0 0 = 0)
    (hw : payload.getD 1 0 / 8 ≠ 0)
    (hal : (8 * (payload.length - 2) - payload.getD 1 0 % 8) % (payload.getD 1 0 / 8) = 0) :
    parse_from_payload_generic RELAY_PAYLOAD_SIZE idBytes payload
      = .ok (some (decoded_ids idBytes (payload.getD 1 0 / 8)
          ((8 * (payload.length - 2) - payload.getD 1 0 % 8) / (payload.getD 1 0 / 8))
          (payload.drop 2))) := by
  have hb1 : payload.getD 1 0 < 256 := by
    rw [List.getD_eq_getElem?_getD, List.getElem?_eq_getElem (by omega : 1 < payload.length)]
    exact hb _ (List.getElem_mem _)
  have hW : (payload.getD 1 0 &&& 0xF8) >>> 3 = payload.getD 1 0 / 8 := by
    generalize payload.getD 1 0 = x at hb1
    interval_cases x <;> rfl
  have hE : payload.getD 1 0 &&& 0x07 = payload.getD 1 0 % 8 := by
    exact Nat.and_pow_two_sub_one_eq_mod _ 3
  set W := payload.getD 1 0 / 8 with hWdef
  set E := payload.getD 1 0 % 8 with hEdef
  have hElt : E < 8 := Nat.mod_lt _ (by norm_num)
  set T := 8 * (payload.length - 2) - E with hTdef
  have hTW : T = T / W * W := by
    rw [Nat.div_mul_cancel (Nat.dvd_of_mod_eq_zero hal)]
  have hdl : (payload.drop 2).length = payload.length - 2 := by simp
  have hbd : ∀ b ∈ payload.drop 2, b < 256 := fun b hbm => hb b (List.mem_of_mem_drop hbm)
  obtain ⟨r, hr, hrl, -, hr2⟩ := dec_loop_ok idBytes W T (T / W) (payload.drop 2) hbd hid
    (Nat.pos_of_ne_zero hw) hTW (by rw [hdl]; omega) T (List.replicate (T / W) 0) 0
    (by rw [Nat.sub_zero]; exact Nat.div_le_self _ _) (Nat.zero_le _) (by simp)
  simp only [Nat.zero_mul, Nat.zero_div, Nat.zero_mod] at hr
  have hres : r = decoded_ids idBytes W (T / W) (payload.drop 2) := by
    apply List.ext_getElem
    · simp [decoded_ids, hrl]
    · intro i h1 h2
      have := hr2 i (by omega) (by omega)
      rw [List.getD_eq_getElem?_getD, List.getElem?_eq_getElem h1] at this
      simp only [Option.getD_some] at this
      simp [decoded_ids, this]
  unfold parse_from_payload_generic
  simp only [tor_assert, bind, Except.bind, pure, Except.pure, hP, decide_True, if_true,
    rd_ok payload 0 (by omega), rd_ok payload 1 (by omega), htype, hW, hE,
    SPLIT_INSTRUCTION_TYPE_GENERIC]
  have hn3 : ¬ payload.length < 3 := by omega
  have hTpos : (payload.length - 2) * 8 > E := by omega
  have hT' : (payload.length - 2) * 8 - E = T := by omega
  simp only [hn3, if_false, ne_eq, not_true_eq_false, hw, hElt, hTpos, hT', hal, hr,
    beq_self_eq_true, hres, decide_True, if_true]

theorem subcirc_id_get_width_loop_eq :
    ∀ (fuel m w k : Nat), m < 2 ^ k → (k = 0 ∨ 2 ^ (k - 1) ≤ m) → k ≤ fuel →
      subcirc_id_get_width_loop fuel m w = w + k := by
  intro fuel
  induction fuel with
  | zero =>
    intro m w k _ _ hk
    have : k = 0 := by omega
    subst this
    rfl
  | succ fuel ih =>
    intro m w k h1 h2 hk
    by_cases hm : m = 0
    · subst hm
      have : k = 0 := by
        rcases h2 with h | h
        · exact h
        · have := Nat.two_pow_pos (k - 1); omega
      subst this
      simp [subcirc_id_get_width_loop]
    · have hk1 : 1 ≤ k := by
        rcases Nat.eq_zero_or_pos k with h | h
        · subst h; simp at h1; exact absurd h1 hm
        · exact h
      have e : 2 ^ k = 2 * 2 ^ (k - 1) := by
        rw [← pow_succ']; congr 1; omega
      have := ih (m >>> 1) (w + 1) (k - 1)
        (by rw [Nat.shiftRight_eq_div_pow]; simp only [pow_one]; omega)
        (by
          by_cases hk2 : k - 1 = 0
          · exact Or.inl hk2
          · right
            have hle : 2 ^ (k - 1) ≤ m := by
              rcases h2 with h | h
              · omega
              · exact h
            have e2 : 2 ^ (k - 1) = 2 * 2 ^ (k - 1 - 1) := by
              rw [← pow_succ']; congr 1; omega
            rw [Nat.shiftRight_eq_div_pow]; simp only [pow_one]; omega)
        (by omega)
      simp only [subcirc_id_get_width_loop, ne_eq, hm, not_false_eq_true, if_true, this]
      omega

theorem subcirc_id_get_width_eq (m : Nat) :
    subcirc_id_get_width m = if m = 0 then 1 else Nat.size m := by
  unfold subcirc_id_get_width
  by_cases hm : m = 0
  · simp [hm]
  · simp only [hm, if_false]
    have h1 : m < 2 ^ Nat.size m := Nat.lt_size_self m
    have h2 : Nat.size m = 0 ∨ 2 ^ (Nat.size m - 1) ≤ m := by
      by_cases hs : Nat.size m = 0
      · exact Or.inl hs
      · right
        exact Nat.lt_size.mp (by omega)
    have h3 : Nat.size m ≤ m := Nat.size_le.mpr (Nat.lt_two_pow m)
    rw [subcirc_id_get_width_loop_eq m m 0 (Nat.size m) h1 h2 h3]
    simp

theorem subcirc_id_get_width_pos (m : Nat) : 1 ≤ subcirc_id_get_width m := by
  rw [subcirc_id_get_width_eq]
  by_cases hm : m = 0
  · simp [hm]
  · simp only [hm, if_false]
    exact Nat.size_pos.mpr (Nat.pos_of_ne_zero hm)

theorem lt_two_pow_subcirc_id_get_width (m : Nat) : m < 2 ^ subcirc_id_get_width m := by
  rw [subcirc_id_get_width_eq]
  by_cases hm : m = 0
  · simp [hm]
  · simp only [hm, if_false]
    exact Nat.lt_size_self m

theorem subcirc_id_get_width_le (m w : Nat) (hw : 1 ≤ w) (h : m < 2 ^ w) :
    subcirc_id_get_width m ≤ w := by
  rw [subcirc_id_get_width_eq]
  by_cases hm : m = 0
  · simp [hm, hw]
  · simp only [hm, if_false]
    exact Nat.size_le.mpr h

theorem subcirc_id_get_width_eq_clog (m : Nat) :
    subcirc_id_get_width m = max 1 (Nat.clog 2 (m + 1)) := by
  apply le_antisymm
  · rcases le_total 1 (Nat.clog 2 (m + 1)) with h | h
    · rw [max_eq_right h]
      apply subcirc_id_get_width_le _ _ h
      have := Nat.le_pow_clog (by norm_num : 1 < 2) (m + 1)
      omega
    · rw [max_eq_left h]
      apply subcirc_id_get_width_le _ _ (le_refl 1)
      have := Nat.le_pow_clog (by norm_num : 1 < 2) (m + 1)
      have h2 : 2 ^ Nat.clog 2 (m + 1) ≤ 2 ^ 1 := Nat.pow_le_pow_right (by norm_num) h
      omega
  · apply max_le (subcirc_id_get_width_pos m)
    apply (Nat.le_pow_iff_clog_le (by norm_num : 1 < 2)).mp
    have := lt_two_pow_subcirc_id_get_width m
    omega

theorem find_max_id_eq (l : List Nat) (m : Nat) : find_max_id l m = max m (l.foldr max 0) := by
  induction l generalizing m with
  | nil => simp [find_max_id]
  | cons a t ih =>
    simp only [find_max_id, List.foldr_cons, ih]
    by_cases h : a > m
    · simp only [h, if_true]; omega
    · simp only [h, if_false]; omega

theorem le_foldr_max (l : List Nat) (x : Nat) (hx : x ∈ l) : x ≤ l.foldr max 0 := by
  induction l with
  | nil => simp at hx
  | cons a t ih =>
    simp only [List.foldr_cons]
    rcases List.mem_cons.mp hx with h | h
    · subst h; exact le_max_left _ _
    · exact le_trans (ih h) (le_max_right _ _)

theorem foldr_max_lt (l : List Nat) (B : Nat) (hB : 0 < B) (h : ∀ x ∈ l, x < B) :
    l.foldr max 0 < B := by
  induction l with
  | nil => simpa using hB
  | cons a t ih =>
    simp only [List.foldr_cons]
    exact max_lt (h a (List.mem_cons_self _ _)) (ih (fun x hx => h x (List.mem_cons_of_mem _ hx)))

theorem old_byte (buf : List Nat) (L off V : Nat) (h : EncInv buf L off V) (hcb : off / 8 < L) :
    buf.getD (off / 8) 0 = V % 2 ^ (off % 8) * 2 ^ (8 - off % 8) := by
  obtain ⟨hl, hb, hv, _⟩ := h
  rw [beVal_getD buf hb _ (by omega), hv, hl,
    pow_mul_div_pow_of_le _ _ _ (by omega : 8 * (L - 1 - off / 8) ≤ 8 * L - off),
    show 8 * L - off - 8 * (L - 1 - off / 8) = 8 - off % 8 by omega,
    show (256 : Nat) = 2 ^ 8 by norm_num, pow_mul_mod_pow _ _ _ (by omega : 8 - off % 8 ≤ 8),
    show 8 - (8 - off % 8) = off % 8 by omega]

theorem put_chunk (buf : List Nat) (L off V k c : Nat) (h : EncInv buf L off V)
    (hk : off % 8 + k ≤ 8) (hk1 : 1 ≤ k) (hoff : off + k ≤ 8 * L) (hc : c < 2 ^ k) :
    EncInv (buf.set (off / 8) (buf.getD (off / 8) 0 + c * 2 ^ (8 - off % 8 - k))) L (off + k)
        (V * 2 ^ k + c)
      ∧ buf.getD (off / 8) 0 ||| (c * 2 ^ (8 - off % 8 - k))
          = buf.getD (off / 8) 0 + c * 2 ^ (8 - off % 8 - k) := by
  have hcb : off / 8 < L := by omega
  have hold := old_byte buf L off V h hcb
  obtain ⟨hl, hb, hv, hle⟩ := h
  have e1 : 2 ^ (8 - off % 8) = 2 ^ k * 2 ^ (8 - off % 8 - k) := by
    rw [← pow_add]; congr 1; omega
  have hclt : c * 2 ^ (8 - off % 8 - k) < 2 ^ (8 - off % 8) := by
    rw [e1]; exact Nat.mul_lt_mul_of_pos_right hc (Nat.two_pow_pos _)
  have hnew : buf.getD (off / 8) 0 + c * 2 ^ (8 - off % 8 - k) < 256 := by
    have hm : V % 2 ^ (off % 8) < 2 ^ (off % 8) := Nat.mod_lt _ (Nat.two_pow_pos _)
    have e2 : (256 : Nat) = 2 ^ (off % 8) * 2 ^ (8 - off % 8) := by
      rw [← pow_add, show off % 8 + (8 - off % 8) = 8 by omega]; norm_num
    have : (V % 2 ^ (off % 8) + 1) * 2 ^ (8 - off % 8) ≤ 2 ^ (off % 8) * 2 ^ (8 - off % 8) :=
      Nat.mul_le_mul_right _ hm
    rw [hold, e2]
    nlinarith
  refine ⟨⟨by simp [hl], ?_, ?_, by omega⟩, ?_⟩
  · intro b hbm
    rcases List.mem_or_eq_of_mem_set hbm with h1 | h1
    · exact hb b h1
    · rw [h1]; exact hnew
  · have hs := beVal_set buf (off / 8) (buf.getD (off / 8) 0 + c * 2 ^ (8 - off % 8 - k))
      (by omega)
    rw [hl, hv] at hs
    have e3 : 2 ^ (8 * L - off) = 2 ^ k * 2 ^ (8 * L - (off + k)) := by
      rw [← pow_add]; congr 1; omega
    have e4 : 2 ^ (8 - off % 8 - k) * 2 ^ (8 * (L - 1 - off / 8)) = 2 ^ (8 * L - (off + k)) := by
      rw [← pow_add]; congr 1; omega
    have e5 : (V * 2 ^ k + c) * 2 ^ (8 * L - (off + k))
        = V * 2 ^ (8 * L - off) + c * (2 ^ (8 - off % 8 - k) * 2 ^ (8 * (L - 1 - off / 8))) := by
      rw [e4, e3]; ring
    rw [e5]
    have e6 : (buf.getD (off / 8) 0 + c * 2 ^ (8 - off % 8 - k)) * 2 ^ (8 * (L - 1 - off / 8))
        = buf.getD (off / 8) 0 * 2 ^ (8 * (L - 1 - off / 8))
          + c * (2 ^ (8 - off % 8 - k) * 2 ^ (8 * (L - 1 - off / 8))) := by ring
    rw [e6] at hs
    omega
  · rw [hold, Nat.mul_comm _ (2 ^ (8 - off % 8)), Nat.mul_add_lt_is_or hclt]

/-- Writing the `k` bits below bit `r` of `id` after the bits above them. -/
theorem carry_bits (V0 W id r k : Nat) (hk : k ≤ r) (hr : r ≤ W) :
    (V0 * 2 ^ (W - r) + id / 2 ^ r) * 2 ^ k + id / 2 ^ (r - k) % 2 ^ k
      = V0 * 2 ^ (W - (r - k)) + id / 2 ^ (r - k) := by
  have e1 : 2 ^ (W - (r - k)) = 2 ^ (W - r) * 2 ^ k := by
    rw [← pow_add]; congr 1; omega
  have e2 : id / 2 ^ r = id / 2 ^ (r - k) / 2 ^ k := by
    rw [div_pow_div_pow]; congr 2; omega
  have e3 := Nat.div_add_mod (id / 2 ^ (r - k)) (2 ^ k)
  rw [e1, e2]
  nlinarith [e3]

theorem phase1_write (buf : List Nat) (L off V id r : Nat) (h : EncInv buf L off V)
    (hr : off % 8 + r > 8) (hoff : off + r ≤ 8 * L) :
    EncInv (buf.set (off / 8) (buf.getD (off / 8) 0 |||
        ((id >>> (r + off % 8 - 8)) &&& bit_mask_right (off % 8)))) L (off + (8 - off % 8))
      (V * 2 ^ (8 - off % 8) + id / 2 ^ (r + off % 8 - 8) % 2 ^ (8 - off % 8)) := by
  have hbit : off % 8 < 8 := Nat.mod_lt _ (by norm_num)
  have hp := put_chunk buf L off V (8 - off % 8) (id / 2 ^ (r + off % 8 - 8) % 2 ^ (8 - off % 8)) h
    (by omega) (by omega) (by omega) (Nat.mod_lt _ (Nat.two_pow_pos _))
  rw [show 8 - off % 8 - (8 - off % 8) = 0 by omega, pow_zero, Nat.mul_one] at hp
  rw [and_bit_mask_right _ _ (by omega), Nat.shiftRight_eq_div_pow, hp.2]
  exact hp.1

theorem phase2_write (buf : List Nat) (L off V id r : Nat) (h : EncInv buf L off V)
    (hal : off % 8 = 0) (hoff : off + 8 ≤ 8 * L) :
    EncInv (buf.set (off / 8) ((id >>> (r - 8)) % 256)) L (off + 8)
      (V * 2 ^ 8 + id / 2 ^ (r - 8) % 2 ^ 8) := by
  have hold := old_byte buf L off V h (by omega)
  have hp := put_chunk buf L off V 8 (id / 2 ^ (r - 8) % 2 ^ 8) h
    (by omega) (by omega) (by omega) (Nat.mod_lt _ (Nat.two_pow_pos _))
  rw [hal] at hold
  simp only [pow_zero, Nat.mod_one, Nat.zero_mul] at hold
  rw [hold, hal] at hp
  simp only [Nat.sub_zero, Nat.sub_self, pow_zero, Nat.mul_one, Nat.zero_add] at hp
  rw [Nat.shiftRight_eq_div_pow]
  exact hp.1

theorem phase3_write (buf : List Nat) (L off V id r : Nat) (h : EncInv buf L off V)
    (hr1 : 1 ≤ r) (hr : off % 8 + r ≤ 8) (hoff : off + r ≤ 8 * L) :
    EncInv (buf.set (off / 8) (buf.getD (off / 8) 0 |||
        ((id <<< (8 - (off % 8 + r))) &&& bit_mask_right (off % 8)))) L (off + r)
      (V * 2 ^ r + id % 2 ^ r) := by
  have hp := put_chunk buf L off V r (id % 2 ^ r) h hr hr1 hoff (Nat.mod_lt _ (Nat.two_pow_pos _))
  rw [and_bit_mask_right _ _ (by omega), Nat.shiftLeft_eq,
    pow_mul_mod_pow _ _ _ (by omega : 8 - (off % 8 + r) ≤ 8 - off % 8),
    show 8 - off % 8 - (8 - (off % 8 + r)) = r by omega,
    show 8 - (off % 8 + r) = 8 - off % 8 - r by omega, hp.2]
  exact hp.1

theorem enc_while_skip (id fuel : Nat) (buf : List Nat) (rem cb bit : Nat) (h : bit + rem ≤ 8) :
    enc_while id fuel buf rem cb bit = .ok (buf, rem, cb) := by
  unfold enc_while
  have : ¬ (rem ≠ 0 ∧ bit + rem > 8) := by omega
  simp [this]

theorem enc_while_run (id L V0 W : Nat) :
    ∀ (fuel : Nat) (buf : List Nat) (r off : Nat), (r - 1) / 8 ≤ fuel → off % 8 = 0 → r ≤ W →
      off + r ≤ 8 * L → EncInv buf L off (V0 * 2 ^ (W - r) + id / 2 ^ r) →
      ∃ buf', enc_while id fuel buf r (off / 8) 0
          = .ok (buf', r - 8 * ((r - 1) / 8), off / 8 + (r - 1) / 8)
        ∧ EncInv buf' L (off + 8 * ((r - 1) / 8))
            (V0 * 2 ^ (W - (r - 8 * ((r - 1) / 8))) + id / 2 ^ (r - 8 * ((r - 1) / 8))) := by
  intro fuel
  induction fuel with
  | zero =>
    intro buf r off hf hal hrW hoff hinv
    have hq : (r - 1) / 8 = 0 := by omega
    refine ⟨buf, ?_, ?_⟩
    · rw [enc_while_skip _ _ _ _ _ _ (by omega), hq]; simp
    · rw [hq]; simpa using hinv
  | succ fuel ih =>
    intro buf r off hf hal hrW hoff hinv
    by_cases hr8 : r ≤ 8
    · have hq : (r - 1) / 8 = 0 := by omega
      refine ⟨buf, ?_, ?_⟩
      · rw [enc_while_skip _ _ _ _ _ _ (by omega), hq]; simp
      · rw [hq]; simpa using hinv
    · have hcond : r ≠ 0 ∧ 0 + r > 8 := by omega
      have h2 := phase2_write buf L off _ id r hinv hal (by omega)
      rw [show (2 : Nat) ^ 8 = 2 ^ 8 from rfl, carry_bits V0 W id r 8 (by omega) hrW] at h2
      obtain ⟨buf', hrun, hinv'⟩ := ih _ (r - 8) (off + 8) (by omega) (by omega) (by omega)
        (by omega) h2
      refine ⟨buf', ?_, ?_⟩
      · unfold enc_while
        rw [if_pos hcond]
        simp only [tor_assert, bind, Except.bind, beq_self_eq_true, if_true,
          wr_ok buf (off / 8) _ (by rw [hinv.1]; omega)]
        rw [show (off + 8) / 8 = off / 8 + 1 by omega] at hrun
        rw [hrun]
        have e2 : r - 8 - 8 * ((r - 8 - 1) / 8) = r - 8 * ((r - 1) / 8) := by omega
        have e3 : off / 8 + 1 + (r - 8 - 1) / 8 = off / 8 + (r - 1) / 8 := by omega
        rw [e2, e3]
      · have e1 : off + 8 + 8 * ((r - 8 - 1) / 8) = off + 8 * ((r - 1) / 8) := by omega
        have e2 : r - 8 - 8 * ((r - 8 - 1) / 8) = r - 8 * ((r - 1) / 8) := by omega
        rw [e1, e2] at hinv'
        exact hinv'

theorem enc_id_ok (width id L V0 off : Nat) (buf : List Nat) (hw : 1 ≤ width)
    (hid : id < 2 ^ width) (hoff : off + width ≤ 8 * L) (hinv : EncInv buf L off V0) :
    ∃ buf', enc_id width id buf (off / 8) (off % 8)
        = .ok (buf', (off + width) / 8, (off + width) % 8)
      ∧ EncInv buf' L (off + width) (V0 * 2 ^ width + id) := by
  have hbit : off % 8 < 8 := Nat.mod_lt _ (by norm_num)
  have hcbl : off / 8 < buf.length := by rw [hinv.1]; omega
  by_cases hc : off % 8 + width > 8
  · have h1 := phase1_write buf L off V0 id width hinv hc hoff
    have hcarry := carry_bits V0 width id width (8 - off % 8) (by omega) (le_refl _)
    rw [Nat.sub_self, pow_zero, Nat.mul_one, Nat.div_eq_of_lt hid, Nat.add_zero,
      show width - (8 - off % 8) = width + off % 8 - 8 by omega] at hcarry
    rw [hcarry] at h1
    obtain ⟨buf2, hrun, hinv2⟩ := enc_while_run id L V0 width (width + off % 8 - 8 + 1) _
      (width + off % 8 - 8) (off + (8 - off % 8)) (by omega) (by omega) (by omega) (by omega) h1
    have hcb2 : (off + (8 - off % 8)) / 8 + (width + off % 8 - 8 - 1) / 8 < buf2.length := by
      rw [hinv2.1]; omega
    have h3 := phase3_write buf2 L _ _ id (width + off % 8 - 8 - 8 * ((width + off % 8 - 8 - 1) / 8))
      hinv2 (by omega) (by omega) (by omega)
    have hcarry3 := carry_bits V0 width id
      (width + off % 8 - 8 - 8 * ((width + off % 8 - 8 - 1) / 8))
      (width + off % 8 - 8 - 8 * ((width + off % 8 - 8 - 1) / 8)) (le_refl _) (by omega)
    rw [Nat.sub_self, pow_zero, Nat.div_one, Nat.sub_zero] at hcarry3
    rw [hcarry3] at h3
    have eoff : off + (8 - off % 8) + 8 * ((width + off % 8 - 8 - 1) / 8)
        + (width + off % 8 - 8 - 8 * ((width + off % 8 - 8 - 1) / 8)) = off + width := by omega
    have ecb : (off + (8 - off % 8) + 8 * ((width + off % 8 - 8 - 1) / 8)) / 8
        = (off + (8 - off % 8)) / 8 + (width + off % 8 - 8 - 1) / 8 := by omega
    have ebit : (off + (8 - off % 8) + 8 * ((width + off % 8 - 8 - 1) / 8)) % 8 = 0 := by omega
    rw [eoff, ecb, ebit, show (off + (8 - off % 8)) / 8 = off / 8 + 1 by omega] at h3
    refine ⟨_, ?_, h3⟩
    unfold enc_id
    rw [show (off + (8 - off % 8)) / 8 = off / 8 + 1 by omega] at hrun
    simp only [hc, if_true, bind, Except.bind, pure, Except.pure, rd_ok buf _ hcbl,
      wr_ok buf _ _ hcbl, hrun]
    have hr : width + off % 8 - 8 - 8 * ((width + off % 8 - 8 - 1) / 8) ≠ 0 := by omega
    have hle : 0 + (width + off % 8 - 8 - 8 * ((width + off % 8 - 8 - 1) / 8)) ≤ 8 := by omega
    rw [show (off + (8 - off % 8)) / 8 = off / 8 + 1 by omega] at hcb2
    simp only [hr, ne_eq, not_false_eq_true, if_true, tor_assert, hle, decide_True,
      rd_ok buf2 _ hcb2, wr_ok buf2 _ _ hcb2]
    by_cases h8 : 0 + (width + off % 8 - 8 - 8 * ((width + off % 8 - 8 - 1) / 8)) = 8
    · rw [if_pos h8]
      simp only [Except.ok.injEq, Prod.mk.injEq]
      exact ⟨trivial, by omega, by omega⟩
    · rw [if_neg h8]
      simp only [Except.ok.injEq, Prod.mk.injEq]
      exact ⟨trivial, by omega, by omega⟩
  · have h3 := phase3_write buf L off V0 id width hinv hw (by omega) hoff
    rw [Nat.mod_eq_of_lt hid] at h3
    refine ⟨_, ?_, h3⟩
    unfold enc_id
    have hskip := enc_while_skip id (width + 1) buf width (off / 8) (off % 8) (by omega)
    simp only [hc, if_false, bind, Except.bind, pure, Except.pure, hskip]
    have hr : width ≠ 0 := by omega
    have hle : off % 8 + width ≤ 8 := by omega
    simp only [hr, ne_eq, not_false_eq_true, if_true, tor_assert, hle, decide_True,
      rd_ok buf _ hcbl, wr_ok buf _ _ hcbl]
    by_cases h8 : off % 8 + width = 8
    · rw [if_pos h8]
      simp only [Except.ok.injEq, Prod.mk.injEq]
      exact ⟨trivial, by omega, by omega⟩
    · rw [if_neg h8]
      simp only [Except.ok.injEq, Prod.mk.injEq]
      exact ⟨trivial, by omega, by omega⟩

theorem enc_loop_ok (width length L : Nat) (hw : 1 ≤ width) (hL : length - 2 = L) :
    ∀ (ids : List Nat) (buf : List Nat) (wb V : Nat), EncInv buf L wb V →
      (∀ id ∈ ids, id < 2 ^ width) → wb + ids.length * width ≤ 8 * L →
      ∃ buf', enc_loop width length ids buf wb (wb / 8) (wb % 8)
          = .ok (buf', wb + ids.length * width)
        ∧ EncInv buf' L (wb + ids.length * width) (packedVal width ids V) := by
  intro ids
  induction ids with
  | nil =>
    intro buf wb V hinv _ _
    exact ⟨buf, by simp [enc_loop], by simpa [packedVal] using hinv⟩
  | cons id rest ih =>
    intro buf wb V hinv hids hfit
    have hlen : wb + width + rest.length * width ≤ 8 * L := by
      simp only [List.length_cons] at hfit
      have : (rest.length + 1) * width = rest.length * width + width := by ring
      omega
    obtain ⟨buf1, hstep, hinv1⟩ := enc_id_ok width id L V wb buf hw
      (hids id (List.mem_cons_self _ _)) (by omega) hinv
    obtain ⟨buf2, hrun, hinv2⟩ := ih buf1 (wb + width) _ hinv1
      (fun x hx => hids x (List.mem_cons_of_mem _ hx)) hlen
    have e : wb + width + rest.length * width = wb + (id :: rest).length * width := by
      simp only [List.length_cons]; ring
    rw [e] at hrun hinv2
    refine ⟨buf2, ?_, by simpa [packedVal] using hinv2⟩
    have hcb : wb / 8 < length - 2 := by rw [hL]; omega
    simp only [enc_loop, tor_assert, bind, Except.bind, beq_self_eq_true, if_true, hcb,
      decide_True, hstep]
    exact hrun

theorem parse_to_payload_generic_ok (RELAY_PAYLOAD_SIZE idBytes : Nat) (data : List Nat)
    (hne : data ≠ []) (hid1 : 1 ≤ idBytes) (hid2 : idBytes ≤ 2)
    (hids : ∀ id ∈ data, id < 2 ^ (8 * idBytes))
    (hfit : 2 + (data.length * enc_width data + 7) / 8 ≤ RELAY_PAYLOAD_SIZE) :
    ∃ bytes, parse_to_payload_generic RELAY_PAYLOAD_SIZE idBytes data
        = .ok (some (0 :: (enc_width data * 8 + enc_empty_bits data) :: bytes))
      ∧ EncInv bytes ((data.length * enc_width data + 7) / 8) (data.length * enc_width data)
          (packedVal (enc_width data) data 0) := by
  have hlen : 0 < data.length := List.length_pos.mpr hne
  have hnum : data.length * idBytes / idBytes = data.length :=
    Nat.mul_div_cancel _ (by omega)
  have hW1 : 1 ≤ enc_width data := subcirc_id_get_width_pos _
  have hWle : enc_width data ≤ 8 * idBytes :=
    subcirc_id_get_width_le _ _ (by omega) (foldr_max_lt _ _ (Nat.two_pow_pos _) hids)
  have hidw : ∀ id ∈ data, id < 2 ^ enc_width data := fun id hid =>
    lt_of_le_of_lt (le_foldr_max data id hid) (lt_two_pow_subcirc_id_get_width _)
  set W := enc_width data with hWdef
  set T := data.length * W with hTdef
  have hEdef : enc_empty_bits data = 8 * ((T + 7) / 8) - T := rfl
  have hE : (if T % 8 ≠ 0 then 8 - T % 8 else 0) = enc_empty_bits data := by
    rw [hEdef]; split <;> omega
  have hElt : enc_empty_bits data < 8 := by rw [hEdef]; omega
  have hL : T / 8 + (if enc_empty_bits data ≠ 0 then 1 else 0) + 2 = (T + 7) / 8 + 2 := by
    rw [hEdef]; split <;> omega
  have hinv0 : EncInv (List.replicate ((T + 7) / 8) 0) ((T + 7) / 8) 0 0 := by
    refine ⟨by simp, ?_, ?_, Nat.zero_le _⟩
    · intro b hb
      rw [List.eq_of_mem_replicate hb]; norm_num
    · rw [beVal_replicate_zero]; simp
  obtain ⟨bytes, hrun, hinv⟩ := enc_loop_ok W ((T + 7) / 8 + 2) ((T + 7) / 8) hW1 (by omega)
    data _ 0 0 hinv0 hidw (by omega)
  simp only [Nat.zero_add, Nat.zero_div, Nat.zero_mod] at hrun hinv
  refine ⟨bytes, ?_, hinv⟩
  have hmax : find_max_id data 0 = data.foldr max 0 := by
    rw [find_max_id_eq]; simp
  have hb1 : (0 ||| (W <<< 3) % 256) ||| (enc_empty_bits data &&& 0x07)
      = W * 8 + enc_empty_bits data := by
    rw [Nat.zero_or, Nat.shiftLeft_eq, Nat.mod_eq_of_lt (by norm_num; omega),
      show (7 : Nat) = 2 ^ 3 - 1 by norm_num, Nat.and_pow_two_sub_one_eq_mod,
      Nat.mod_eq_of_lt (by norm_num; omega), Nat.mul_comm,
      Nat.mul_add_lt_is_or (by norm_num; omega)]
  unfold parse_to_payload_generic
  simp only [tor_assert, bind, Except.bind, pure, Except.pure, hnum, List.take_length, hmax]
  have h1 : data.length * idBytes > 0 := Nat.mul_pos hlen (by omega)
  have h2 : data.length * idBytes % idBytes = 0 := Nat.mul_mod_left _ _
  have hWe : subcirc_id_get_width (List.foldr max 0 data) = W := rfl
  have h3 : ¬ (W ≥ 1 <<< 6) := by
    have : (1 : Nat) <<< 6 = 64 := rfl
    omega
  have h4 : ¬ ((T + 7) / 8 + 2 > RELAY_PAYLOAD_SIZE) := by omega
  simp only [h1, h2, decide_True, if_true, beq_self_eq_true, hWe, h3, if_false, hWle, ← hTdef,
    hE, hL, h4, Nat.add_sub_cancel, hrun, hb1, SPLIT_INSTRUCTION_TYPE_GENERIC]

theorem chunk_of_EncInv (bytes : List Nat) (L T V off k : Nat) (h : EncInv bytes L T V)
    (hk : off + k ≤ T) :
    chunk (beVal bytes) (8 * bytes.length) off k = V / 2 ^ (T - off - k) % 2 ^ k := by
  obtain ⟨hl, _, hv, hle⟩ := h
  unfold chunk
  rw [hv, hl, pow_mul_div_pow_of_ge _ _ _ (by omega : 8 * L - T ≤ 8 * L - off - k),
    show 8 * L - off - k - (8 * L - T) = T - off - k by omega]

theorem decoded_ids_of_EncInv (idBytes W : Nat) (data bytes : List Nat) (L : Nat)
    (h : EncInv bytes L (data.length * W) (beValW W data))
    (hids : ∀ id ∈ data, id < 2 ^ W) (hW : W ≤ 8 * idBytes) :
    decoded_ids idBytes W data.length bytes = data := by
  apply List.ext_getElem
  · simp [decoded_ids]
  · intro i h1 h2
    have hnext : i * W + W ≤ data.length * W := by
      calc i * W + W = (i + 1) * W := by ring
        _ ≤ data.length * W := Nat.mul_le_mul_right _ (by omega)
    have hd := beValW_getD W data hids i h2
    rw [List.getD_eq_getElem?_getD, List.getElem?_eq_getElem h2, Option.getD_some] at hd
    have hlt : data[i] < 2 ^ (8 * idBytes) :=
      lt_of_lt_of_le (hids _ (List.getElem_mem _)) (Nat.pow_le_pow_right (by norm_num) hW)
    have e : data.length * W - i * W - W = W * (data.length - 1 - i) := by
      have : data.length = (data.length - 1 - i) + (i + 1) := by omega
      conv_lhs => rw [this]
      have e2 : (data.length - 1 - i + (i + 1)) * W
          = W * (data.length - 1 - i) + (i * W + W) := by ring
      rw [e2]; omega
    simp only [decoded_ids, List.getElem_map, List.getElem_range]
    rw [chunk_of_EncInv bytes L _ _ _ _ h hnext, e, ← hd, Nat.mod_eq_of_lt hlt]

theorem streamBit_eq_chunk (bytes : List Nat) (hb : ∀ b ∈ bytes, b < 256) (p : Nat)
    (hp : p < 8 * bytes.length) :
    streamBit bytes p = chunk (beVal bytes) (8 * bytes.length) p 1 := by
  have h := subbyte_eq_chunk bytes hb (p / 8) (p % 8) 1 (by omega) (by omega)
  rw [show 8 * (p / 8) + p % 8 = p by omega] at h
  rw [← h]
  unfold streamBit
  have e : 2 ^ (8 - p % 8) = 2 ^ (7 - p % 8) * 2 := by
    rw [← pow_succ]; congr 1; omega
  rw [e, show 8 - p % 8 - 1 = 7 - p % 8 by omega, Nat.mod_mul_right_div_self]

theorem div_pow_mod_two (x W b : Nat) (hb : b < W) : x / 2 ^ b % 2 = x % 2 ^ W / 2 ^ b % 2 := by
  have e : 2 ^ W = 2 ^ b * 2 ^ (W - b) := by rw [← pow_add]; congr 1; omega
  rw [e, Nat.mod_mul_right_div_self, Nat.mod_mod_of_dvd]
  exact dvd_pow_self 2 (by omega)

theorem bits_of_EncInv (W : Nat) (data bytes : List Nat) (L : Nat)
    (h : EncInv bytes L (data.length * W) (beValW W data))
    (hids : ∀ id ∈ data, id < 2 ^ W) (i j : Nat) (hi : i < data.length) (hj : j < W) :
    streamBit bytes (i * W + j) = data.getD i 0 / 2 ^ (W - 1 - j) % 2 := by
  have hnext : i * W + W ≤ data.length * W := by
    calc i * W + W = (i + 1) * W := by ring
      _ ≤ data.length * W := Nat.mul_le_mul_right _ (by omega)
  have hlen : bytes.length = L := h.1
  rw [streamBit_eq_chunk bytes h.2.1 _ (by rw [hlen]; have := h.2.2.2; omega),
    chunk_of_EncInv bytes L _ _ _ _ h (by omega), beValW_getD W data hids i hi, pow_one]
  have e : data.length * W - (i * W + j) - 1 = W * (data.length - 1 - i) + (W - 1 - j) := by
    have : data.length = (data.length - 1 - i) + (i + 1) := by omega
    conv_lhs => rw [this]
    have e2 : (data.length - 1 - i + (i + 1)) * W
        = W * (data.length - 1 - i) + (i * W + W) := by ring
    rw [e2]; omega
  rw [e, ← div_pow_div_pow, div_pow_mod_two _ W _ (by omega)]

theorem pad_bits_of_EncInv (bytes : List Nat) (L T V e : Nat) (h : EncInv bytes L T V)
    (he : T + e < 8 * L) : streamBit bytes (T + e) = 0 := by
  obtain ⟨hl, hb, hv, hle⟩ := h
  rw [streamBit_eq_chunk bytes hb _ (by rw [hl]; exact he)]
  unfold chunk
  rw [hv, hl, pow_mul_div_pow_of_le _ _ _ (by omega : 8 * L - (T + e) - 1 ≤ 8 * L - T),
    show 8 * L - T - (8 * L - (T + e) - 1) = e + 1 by omega, pow_succ, ← Nat.mul_assoc, pow_one,
    Nat.mul_mod_left]

theorem rdp_ok (l : List (Option Nat)) (i : Nat) (hi : i < l.length) :
    rdp l i = .ok (l.getD i none) := by
  unfold rdp
  rw [List.getD_eq_getElem?_getD, List.get?_eq_getElem?, List.getElem?_eq_getElem hi]
  rfl

theorem getD_replicate_none (n i : Nat) :
    (List.replicate n (none : Option Nat)).getD i none = none := by
  induction n generalizing i with
  | zero => simp
  | succ n ih =>
    cases i with
    | zero => simp [List.replicate_succ]
    | succ j => simp [List.replicate_succ]

theorem wrp_ok (l : List (Option Nat)) (i : Nat) (v : Option Nat) (hi : i < l.length) :
    wrp l i v = .ok (l.set i v) := by
  unfold wrp
  rw [if_pos hi]

theorem getD_set_eq (l : List (Option Nat)) (i j : Nat) (v : Option Nat) (hi : i < l.length) :
    (l.set i v).getD j none = if i = j then v else l.getD j none := by
  simp only [List.getD_eq_getElem?_getD, List.getElem?_set]
  by_cases h : i = j
  · subst h
    simp [hi]
  · simp [h]

theorem occupied_set_some (l : List (Option Nat)) (i x : Nat) (hi : i < l.length)
    (h : l.getD i none = none) :
    ((l.set i (some x)).filter Option.isSome).length = (l.filter Option.isSome).length + 1 := by
  induction l generalizing i with
  | nil => simp at hi
  | cons a t ih =>
    cases i with
    | zero =>
      simp only [List.getD_cons_zero] at h
      subst h
      simp [List.filter]
    | succ j =>
      have hj : j < t.length := by simpa using hi
      simp only [List.getD_cons_succ] at h
      have := ih j hj h
      simp only [List.set_cons_succ, List.filter_cons]
      cases a <;> simp [this]

theorem occupied_set_none (l : List (Option Nat)) (i : Nat) (hi : i < l.length)
    (h : l.getD i none ≠ none) :
    ((l.set i none).filter Option.isSome).length + 1 = (l.filter Option.isSome).length := by
  induction l generalizing i with
  | nil => simp at hi
  | cons a t ih =>
    cases i with
    | zero =>
      simp only [List.getD_cons_zero] at h
      cases a with
      | none => exact absurd rfl h
      | some v => simp [List.filter]
    | succ j =>
      have hj : j < t.length := by simpa using hi
      simp only [List.getD_cons_succ] at h
      have := ih j hj h
      simp only [List.set_cons_succ, List.filter_cons]
      cases a <;> simp <;> omega

theorem occupied_zero (l : List (Option Nat)) (h : (l.filter Option.isSome).length = 0) (i : Nat) :
    l.getD i none = none := by
  induction l generalizing i with
  | nil => simp
  | cons a t ih =>
    cases a with
    | some v => simp [List.filter] at h
    | none =>
      simp only [List.filter_cons, Option.isSome_none, Bool.false_eq_true, if_false] at h
      cases i with
      | zero => simp
      | succ j => simpa using ih h j

theorem occupied_pos_of_slot (l : List (Option Nat)) (i : Nat) (h : l.getD i none ≠ none) :
    0 < (l.filter Option.isSome).length := by
  rcases Nat.eq_zero_or_pos (l.filter Option.isSome).length with h0 | h0
  · exact absurd (occupied_zero l h0 i) h
  · exact h0

theorem getD_none_of_le (l : List (Option Nat)) (i : Nat) (h : l.length ≤ i) :
    l.getD i none = none := by
  simp [List.getD_eq_getElem?_getD, List.getElem?_eq_none h]

theorem remove_scan_ok (l : List (Option Nat)) :
    ∀ (fuel : Nat) (index : Nat), index < l.length → index + 1 ≤ fuel →
      (∃ j, j ≤ index ∧ l.getD j none ≠ none) →
      ∃ r : Nat, remove_scan l fuel (index : Int) = .ok (r : Int) ∧ r ≤ index ∧
        l.getD r none ≠ none ∧ ∀ i : Nat, r < i → i ≤ index → l.getD i none = none := by
  intro fuel
  induction fuel with
  | zero => intro index _ hf; omega
  | succ fuel ih =>
    intro index hlen hf hex
    unfold remove_scan
    have hnn : (index : Int) ≥ 0 := Int.ofNat_nonneg _
    simp only [hnn, if_true, bind, Except.bind, Int.toNat_ofNat, rdp_ok l index hlen, pure,
      Except.pure]
    by_cases hocc : (l.getD index none).isSome
    · refine ⟨index, by rw [if_pos hocc], le_refl _, ?_, fun i h1 h2 => by omega⟩
      intro hn; rw [hn] at hocc; simp at hocc
    · have hnone : l.getD index none = none := by
        cases hv : l.getD index none with
        | none => rfl
        | some v => rw [hv] at hocc; simp at hocc
      simp only [hocc, Bool.false_eq_true, if_false]
      obtain ⟨j, hj1, hj2⟩ := hex
      have hjlt : j < index := by
        rcases Nat.lt_or_ge j index with h | h
        · exact h
        · have : j = index := by omega
          rw [this] at hj2; exact absurd hnone hj2
      obtain ⟨r, hr, hr1, hr2, hr3⟩ := ih (index - 1) (by omega) (by omega) ⟨j, by omega, hj2⟩
      have e : (index : Int) - 1 = ((index - 1 : Nat) : Int) := by omega
      rw [e, hr]
      refine ⟨r, rfl, by omega, hr2, ?_⟩
      intro i h1 h2
      by_cases hi : i = index
      · rw [hi]; exact hnone
      · exact hr3 i h1 (by omega)

/-- Invariant of the reachable sub-circuit lists. -/
theorem list_invariant (sl : subcirc_list_t) (h : ListReachable sl) :
    sl.capacity = MAX_SUBCIRCS ∧ sl.list.length = sl.capacity ∧
    sl.num_elements = occupied sl ∧ max_index_ok sl ∧ sl.max_index < (sl.capacity : Int) := by
  induction h with
  | new => 
    refine ⟨rfl, rfl, rfl, Or.inl ⟨rfl, ?_⟩, by decide⟩
    intro i
    exact getD_replicate_none _ i
  | add sl sl' subcirc id _ hid hempty hadd ih =>
    obtain ⟨hcap, hlen, hnum, hmax, hlt⟩ := ih
    have hidc : id < sl.capacity := by rw [hcap]; exact hid
    have hens : subcirc_list_ensure_capacity sl id = .ok sl := by
      unfold subcirc_list_ensure_capacity
      have h0 : sl.capacity ≠ 0 := by rw [hcap]; decide
      simp [tor_assert, bind, Except.bind, pure, Except.pure, hidc, h0,
        SUBCIRC_LIST_MAX_CAPACITY, hid]
    unfold subcirc_list_add at hadd
    simp only [hens, bind, Except.bind, rdp_ok sl.list id (by omega), hempty, tor_assert,
      beq_self_eq_true, if_true, wrp_ok sl.list id _ (by omega), pure, Except.pure] at hadd
    by_cases hm : sl.max_index < (id : Int)
    · simp only [hm, if_true, Except.ok.injEq] at hadd
      subst hadd
      refine ⟨hcap, by simp [hlen], ?_, ?_, by simp; omega⟩
      · simp only [occupied]
        rw [occupied_set_some sl.list id subcirc (by omega) hempty, hnum]; rfl
      · right
        refine ⟨by simp, ?_, ?_⟩
        · simp only [Int.toNat_ofNat]
          rw [getD_set_eq _ _ _ _ (by omega : id < sl.list.length)]
          simp
        · intro i hi
          simp only at hi
          rw [getD_set_eq _ _ _ _ (by omega : id < sl.list.length)]
          have hne : id ≠ i := by omega
          simp only [hne, if_false]
          rcases hmax with ⟨_, h2⟩ | ⟨_, _, h3⟩
          · exact h2 i
          · exact h3 i (by omega)
    · simp only [hm, if_false, Except.ok.injEq] at hadd
      subst hadd
      refine ⟨hcap, by simp [hlen], ?_, ?_, hlt⟩
      · simp only [occupied]
        rw [occupied_set_some sl.list id subcirc (by omega) hempty, hnum]; rfl
      · rcases hmax with ⟨h1, _⟩ | ⟨h1, h2, h3⟩
        · exfalso; rw [h1] at hm; omega
        · right
          have hne : id ≠ sl.max_index.toNat := by
            intro he; rw [← he] at h2; exact h2 hempty
          refine ⟨h1, ?_, ?_⟩
          · simp only
            rw [getD_set_eq _ _ _ _ (by omega : id < sl.list.length)]
            simp only [hne, if_false]; exact h2
          · intro i hi
            simp only at hi
            rw [getD_set_eq _ _ _ _ (by omega : id < sl.list.length)]
            have hne2 : id ≠ i := by omega
            simp only [hne2, if_false]
            exact h3 i hi
  | remove sl sl' id _ hrem ih =>
    obtain ⟨hcap, hlen, hnum, hmax, hlt⟩ := ih
    unfold subcirc_list_remove at hrem
    by_cases hidc : id < sl.capacity
    · simp only [hidc, if_true, bind, Except.bind, rdp_ok sl.list id (by omega)] at hrem
      by_cases hocc : (sl.list.getD id none).isSome
      · have hne : sl.list.getD id none ≠ none := by
          intro hn; rw [hn] at hocc; simp at hocc
        have hpos := occupied_pos_of_slot sl.list id hne
        have hdec := occupied_set_none sl.list id (by omega) hne
        have hnpos : ((sl.num_elements : Int) - 1 ≥ 0) := by
          rw [hnum]; unfold occupied; omega
        simp only [hocc, if_true, wrp_ok sl.list id _ (by omega), tor_assert, hnpos, decide_True,
          pure, Except.pure] at hrem
        by_cases hz : sl.num_elements - 1 = 0
        · simp only [hz, if_true, Except.ok.injEq] at hrem
          subst hrem
          have hocc0 : ((sl.list.set id none).filter Option.isSome).length = 0 := by
            rw [hnum] at hz; unfold occupied at hz; omega
          refine ⟨hcap, by simp [hlen], ?_, Or.inl ⟨rfl, ?_⟩, by simp; omega⟩
          · simp only [occupied]; rw [hocc0]
          · intro i; exact occupied_zero _ hocc0 i
        · simp only [hz, if_false] at hrem
          rcases hmax with ⟨h1, h2⟩ | ⟨h1, h2, h3⟩
          · exact absurd (h2 id) hne
          · have hnum' : sl.num_elements - 1 = ((sl.list.set id none).filter Option.isSome).length := by
              rw [hnum]; unfold occupied; omega
            have hmlt : sl.max_index.toNat < sl.list.length := by omega
            by_cases hidm : (id : Int) = sl.max_index
            · -- the greatest index was removed: scan downwards
              have hidm' : sl.max_index.toNat = id := by omega
              have hex : ∃ j, j ≤ sl.max_index.toNat ∧ (sl.list.set id none).getD j none ≠ none := by
                have hpos2 : 0 < ((sl.list.set id none).filter Option.isSome).length := by
                  rw [← hnum']; omega
                by_contra hcon
                push_neg at hcon
                have hall : ∀ i, (sl.list.set id none).getD i none = none := by
                  intro i
                  by_cases hi : i ≤ sl.max_index.toNat
                  · exact hcon i hi
                  · rw [getD_set_eq _ _ _ _ (by omega : id < sl.list.length)]
                    have : id ≠ i := by omega
                    simp only [this, if_false]
                    exact h3 i (by omega)
                have : ((sl.list.set id none).filter Option.isSome).length = 0 := by
                  by_contra hnz
                  obtain ⟨x, hx⟩ := List.exists_mem_of_length_pos (Nat.pos_of_ne_zero hnz)
                  obtain ⟨hx1, hx2⟩ := List.mem_filter.mp hx
                  obtain ⟨n, hn, hnx⟩ := List.getElem_of_mem hx1
                  have := hall n
                  rw [List.getD_eq_getElem?_getD, List.getElem?_eq_getElem hn, hnx] at this
                  simp only [Option.getD_some] at this
                  rw [this] at hx2; simp at hx2
                omega
              obtain ⟨r, hr, hr1, hr2, hr3⟩ := remove_scan_ok (sl.list.set id none)
                (sl.max_index.toNat + 1) sl.max_index.toNat (by simpa using hmlt) (le_refl _) hex
              have e : ((sl.max_index.toNat : Nat) : Int) = sl.max_index := Int.toNat_of_nonneg h1
              rw [e] at hr
              simp only [hidm, if_true, hr] at hrem
              have hr0 : ((r : Int) ≥ 0) := Int.ofNat_nonneg _
              simp only [hr0, decide_True, if_true, Except.ok.injEq] at hrem
              subst hrem
              refine ⟨hcap, by simp [hlen], ?_, Or.inr ⟨hr0, ?_, ?_⟩, by simp; omega⟩
              · simp only [occupied]; exact hnum'
              · simpa using hr2
              · intro i hi
                simp only at hi
                by_cases hile : i ≤ sl.max_index.toNat
                · exact hr3 i (by omega) hile
                · rw [getD_set_eq _ _ _ _ (by omega : id < sl.list.length)]
                  have : id ≠ i := by omega
                  simp only [this, if_false]
                  exact h3 i (by omega)
            · simp only [hidm, if_false, Except.ok.injEq] at hrem
              subst hrem
              refine ⟨hcap, by simp [hlen], ?_, Or.inr ⟨h1, ?_, ?_⟩, hlt⟩
              · simp only [occupied]; exact hnum'
              · simp only
                rw [getD_set_eq _ _ _ _ (by omega : id < sl.list.length)]
                have : id ≠ sl.max_index.toNat := by omega
                simp only [this, if_false]; exact h2
              · intro i hi
                simp only at hi
                rw [getD_set_eq _ _ _ _ (by omega : id < sl.list.length)]
                by_cases hii : id = i
                · simp [hii]
                · simp only [hii, if_false]; exact h3 i hi
      · simp only [hocc, Bool.false_eq_true, if_false, pure, Except.pure, Except.ok.injEq] at hrem
        subst hrem
        exact ⟨hcap, hlen, hnum, hmax, hlt⟩
    · simp only [hidc, if_false, pure, Except.pure, Except.ok.injEq] at hrem
      subst hrem
      exact ⟨hcap, hlen, hnum, hmax, hlt⟩
  | clear sl _ ih =>
    obtain ⟨hcap, hlen, hnum, hmax, hlt⟩ := ih
    refine ⟨hcap, by simp [subcirc_list_clear], ?_, Or.inl ⟨rfl, ?_⟩, by
      simp [subcirc_list_clear]; omega⟩
    · simp only [subcirc_list_clear, occupied]
      have : ∀ n, ((List.replicate n (none : Option Nat)).filter Option.isSome).length = 0 := by
        intro n
        induction n with
        | zero => rfl
        | succ n ih => simp [List.replicate_succ, List.filter]
      rw [this]
    · intro i
      exact getD_replicate_none _ i

theorem get_split_data_lt (w : World) (h : Nat) (sd : split_data_t)
    (hg : get_split_data w h = .ok sd) : h < w.split_datas.length := by
  unfold get_split_data at hg
  by_contra hcon
  rw [List.get?_eq_getElem?, List.getElem?_eq_none (by omega)] at hg
  simp at hg

theorem get_set_split_data (w : World) (h : Nat) (x : split_data_t)
    (hlt : h < w.split_datas.length) :
    get_split_data (set_split_data w h x) h = .ok x := by
  unfold get_split_data set_split_data
  simp [List.get?_eq_getElem?, List.getElem?_set, hlt]

theorem next_subcirc_set (sd : split_data_t) (d : cell_direction_t) (v : Option Nat) :
    next_subcirc (set_next_subcirc sd d v) d = v := by
  cases d <;> rfl

theorem marked_set_next (sd : split_data_t) (d : cell_direction_t) (v : Option Nat) :
    (set_next_subcirc sd d v).marked_for_close = sd.marked_for_close := by
  cases d <;> rfl

/-- What the first call of `split_data_get_next_subcirc` leaves behind: the
returned sub-circuit is the sticky pick, and nothing is returned only when
the queue is empty. -/
theorem get_next_subcirc_sticky (idBytes : Nat)
    (generate : World → Nat → cell_direction_t → Run World) (w w1 : World) (h : Nat)
    (d : cell_direction_t) (r1 : Option Nat) (sd0 sd1 : split_data_t)
    (hsd0 : get_split_data w h = .ok sd0) (hnm0 : sd0.marked_for_close = false)
    (hrun : split_data_get_next_subcirc idBytes generate w h d = .ok (r1, w1))
    (hsd1 : get_split_data w1 h = .ok sd1) :
    next_subcirc sd1 d = r1 ∧ (r1 = none → instruction sd1 d = []) := by
  unfold split_data_get_next_subcirc at hrun
  simp only [hsd0, bind, Except.bind, hnm0, Bool.false_eq_true, if_false] at hrun
  cases hn : next_subcirc sd0 d with
  | some p =>
    simp only [hn, pure, Except.pure, Except.ok.injEq, Prod.mk.injEq] at hrun
    obtain ⟨hr, hw⟩ := hrun
    subst hw
    rw [hsd0] at hsd1
    cases hsd1
    exact ⟨by rw [hn, hr], fun hnone => by rw [← hr] at hnone; cases hnone⟩
  | none =>
    simp only [hn] at hrun
    cases hq : instruction sd0 d with
    | nil =>
      simp only [hq, pure, Except.pure, Except.ok.injEq, Prod.mk.injEq] at hrun
      obtain ⟨hr, hw⟩ := hrun
      subst hw
      rw [hsd0] at hsd1
      cases hsd1
      exact ⟨by rw [hn, hr], fun _ => hq⟩
    | cons prev rest =>
      simp only [hq] at hrun
      cases hid : split_instruction_get_next_id idBytes (prev :: rest) with
      | error e => simp [hid] at hrun
      | ok v =>
        obtain ⟨next_id, queue⟩ := v
        simp only [hid] at hrun
        generalize hgen : (if queue.length ≠ (prev :: rest).length ∧
            sd0.split_data_client.isSome = true then
              generate (set_split_data w h (set_instruction sd0 d queue)) h d
            else (pure (set_split_data w h (set_instruction sd0 d queue)) : Run World)) = g at hrun
        cases g with
        | error e => simp at hrun
        | ok w2 =>
          simp only at hrun
          cases hsd2 : get_split_data w2 h with
          | error e => simp [hsd2] at hrun
          | ok sd2 =>
            simp only [hsd2] at hrun
            cases hget : subcirc_list_get sd2.subcircs next_id with
            | error e => simp [hget] at hrun
            | ok next =>
              simp only [hget, tor_assert] at hrun
              cases next with
              | none => simp at hrun
              | some p =>
                simp only [Option.isSome_some, if_true] at hrun
                cases hsub : get_subcirc (set_split_data w2 h
                    (set_next_subcirc sd2 d (some p))) p with
                | error e => simp [hsub] at hrun
                | ok sub =>
                  simp only [hsub] at hrun
                  by_cases hc : sub.circ.isSome
                  · simp only [hc, if_true, pure, Except.pure, Except.ok.injEq,
                      Prod.mk.injEq] at hrun
                    obtain ⟨hr, hw⟩ := hrun
                    subst hw
                    rw [get_set_split_data _ _ _ (get_split_data_lt _ _ _ hsd2)] at hsd1
                    cases hsd1
                    rw [next_subcirc_set]
                    exact ⟨hr, fun hnone => by rw [← hr] at hnone; cases hnone⟩
                  · simp [hc] at hrun

/-- C10: for a session that is not marked for close, a second call of
`split_data_get_next_subcirc(d)` with no `split_data_used_subcirc(d)` in
between returns the same sub-circuit as the first, consumes no ID and leaves
the whole state unchanged; after `split_data_used_subcirc(d)` the sticky pick
of direction `d` is empty while the pick of the other direction and both
queues are unchanged. -/
theorem C10_sticky_pick (idBytes : Nat) (generate : World → Nat → cell_direction_t → Run World)
    (w w1 : World) (h : Nat) (d : cell_direction_t) (r1 : Option Nat) (sd0 sd1 : split_data_t)
    (hsd0 : get_split_data w h = .ok sd0) (hnm0 : sd0.marked_for_close = false)
    (hrun : split_data_get_next_subcirc idBytes generate w h d = .ok (r1, w1))
    (hsd1 : get_split_data w1 h = .ok sd1) (hnm1 : sd1.marked_for_close = false) :
    split_data_get_next_subcirc idBytes generate w1 h d = .ok (r1, w1) ∧
    next_subcirc (split_data_used_subcirc sd1 d) d = none ∧
    next_subcirc (split_data_used_subcirc sd1 d) (other_direction d)
      = next_subcirc sd1 (other_direction d) ∧
    (split_data_used_subcirc sd1 d).instruction_in = sd1.instruction_in ∧
    (split_data_used_subcirc sd1 d).instruction_out = sd1.instruction_out := by
  obtain ⟨hst, hq⟩ := get_next_subcirc_sticky idBytes generate w w1 h d r1 sd0 sd1 hsd0 hnm0 hrun
    hsd1
  refine ⟨?_, by cases d <;> rfl, by cases d <;> rfl, by cases d <;> rfl, by cases d <;> rfl⟩
  unfold split_data_get_next_subcirc
  simp only [hsd1, bind, Except.bind, hnm1, Bool.false_eq_true, if_false, hst]
  cases r1 with
  | some p => rfl
  | none => simp only [hq rfl]; rfl

theorem get_next_id_ok (idBytes : Nat) (hid : 1 ≤ idBytes) (inst : split_instruction_t)
    (rest : List split_instruction_t) (hwf : WFInst idBytes inst) :
    ∃ id q', split_instruction_get_next_id idBytes (inst :: rest) = .ok (id, q') ∧
      queue_ids idBytes (inst :: rest) = id :: queue_ids idBytes q' ∧
      (q' = rest ∨ ∃ inst', q' = inst' :: rest ∧ WFInst idBytes inst') ∧
      (q'.length ≠ (inst :: rest).length → q' = rest) := by
  obtain ⟨htype, hlen, hal, hpos⟩ := hwf
  have hk : inst.position / idBytes < inst.data.length := by
    rw [hlen] at hpos
    exact Nat.div_lt_of_lt_mul (by rw [Nat.mul_comm]; exact hpos)
  have hpe : inst.position = inst.position / idBytes * idBytes := by
    have := Nat.div_add_mod inst.position idBytes
    rw [hal, Nat.add_zero, Nat.mul_comm] at this
    exact this.symm
  have hnext : inst.position + idBytes ≤ inst.length := by
    rw [hlen]
    calc inst.position + idBytes = (inst.position / idBytes + 1) * idBytes := by
          rw [Nat.add_mul, Nat.one_mul, ← hpe]
      _ ≤ inst.data.length * idBytes := Nat.mul_le_mul_right _ hk
  have hne : inst.data.isEmpty = false := by
    cases hd : inst.data with
    | nil => rw [hd] at hk; simp at hk
    | cons a t => rfl
  have hdrop : inst.data.drop (inst.position / idBytes)
      = inst.data.getD (inst.position / idBytes) 0 :: inst.data.drop (inst.position / idBytes + 1) := by
    rw [List.getD_eq_getElem?_getD, List.getElem?_eq_getElem hk, Option.getD_some]
    exact List.drop_eq_getElem_cons hk
  have hdiv : (inst.position + idBytes) / idBytes = inst.position / idBytes + 1 := by
    rw [Nat.add_div_right _ (by omega)]
  unfold split_instruction_get_next_id
  simp only [tor_assert, bind, Except.bind, hne, Bool.not_false, if_true, hpos, decide_True, htype,
    hnext, hal, ne_eq, not_true_eq_false, if_false, rd_ok inst.data _ hk, pure, Except.pure]
  by_cases hend : inst.position + idBytes ≥ inst.length
  · refine ⟨inst.data.getD (inst.position / idBytes) 0, rest, by simp only [hend, if_true], ?_,
      Or.inl rfl, fun _ => rfl⟩
    have hlast : inst.position / idBytes + 1 = inst.data.length := by
      have h1 : inst.data.length * idBytes ≤ (inst.position / idBytes + 1) * idBytes := by
        rw [Nat.add_mul, Nat.one_mul, ← hpe, ← hlen]; exact hend
      have := Nat.le_of_mul_le_mul_right h1 (by omega : 0 < idBytes)
      omega
    simp only [queue_ids, inst_ids]
    rw [hdrop, hlast, List.drop_length]
    rfl
  · refine ⟨inst.data.getD (inst.position / idBytes) 0,
      { type := SPLIT_INSTRUCTION_TYPE_GENERIC, data := inst.data,
                 position := inst.position + idBytes, length := inst.length } :: rest,
      by simp only [hend, if_false], ?_, Or.inr ⟨_, rfl, rfl, hlen, ?_, by simpa using hend⟩,
      fun hcon => absurd rfl hcon⟩
    · simp only [queue_ids, inst_ids, hdiv]
      rw [hdrop]
      rfl
    · simp only [Nat.add_mod_right]; exact hal

theorem get_circ_lt (w : World) (c : Nat) (circ : or_circuit_t)
    (hc : get_circ w c = .ok circ) : c < w.circuits.length := by
  unfold get_circ at hc
  by_contra hcon
  rw [List.get?_eq_getElem?, List.getElem?_eq_none (by omega)] at hc
  simp at hc

theorem get_set_circ (w : World) (c : Nat) (x : or_circuit_t) (hlt : c < w.circuits.length) :
    get_circ (set_circ w c x) c = .ok x := by
  unfold get_circ set_circ
  simp [List.get?_eq_getElem?, List.getElem?_set, hlt]

theorem bind_ok {α β : Type} (x : Run α) (f : α → Run β) (r : β)
    (h : (x >>= f) = .ok r) : ∃ a, x = .ok a ∧ f a = .ok r := by
  cases x with
  | error e => cases h
  | ok a => exact ⟨a, rfl, h⟩

theorem tor_assert_ok (c : Bool) (u : Unit) (h : tor_assert c = .ok u) : c = true := by
  unfold tor_assert at h
  cases c with
  | true => rfl
  | false => cases h

theorem get_split_data_set_ne (w : World) (a h : Nat) (x : split_data_t) (hne : a ≠ h) :
    get_split_data (set_split_data w a x) h = get_split_data w h := by
  unfold get_split_data set_split_data
  simp [List.get?_eq_getElem?, List.getElem?_set, hne]

theorem get_subcirc_lt (w : World) (p : Nat) (sub : subcircuit_t)
    (hg : get_subcirc w p = .ok sub) : p < w.subcircuits.length := by
  unfold get_subcirc at hg
  by_contra hcon
  rw [List.get?_eq_getElem?, List.getElem?_eq_none (by omega)] at hg
  simp at hg

theorem get_subcirc_append (w : World) (p : Nat) (sub : subcircuit_t) (x : Option subcircuit_t)
    (hg : get_subcirc w p = .ok sub) :
    get_subcirc { w with subcircuits := w.subcircuits ++ [x] } p = .ok sub := by
  have hlt := get_subcirc_lt w p sub hg
  unfold get_subcirc at hg ⊢
  simp only [List.get?_eq_getElem?] at hg ⊢
  rw [List.getElem?_append_left hlt]
  exact hg

theorem get_subcirc_new (w : World) (x : subcircuit_t) :
    get_subcirc { w with subcircuits := w.subcircuits ++ [some x] } w.subcircuits.length
      = .ok x := by
  unfold get_subcirc
  simp [List.get?_eq_getElem?]

/-- What a successful `subcirc_list_add` to a reachable list does. -/
theorem subcirc_list_add_inv (sl sl' : subcirc_list_t) (hr : ListReachable sl) (p id : Nat)
    (hadd : subcirc_list_add sl p id = .ok sl') :
    id < MAX_SUBCIRCS ∧ sl.list.getD id none = none ∧ ListReachable sl' ∧
    sl'.num_elements = sl.num_elements + 1 ∧ sl'.list.getD id none = some p ∧
    ∀ j, j ≠ id → sl'.list.getD j none = sl.list.getD j none := by
  obtain ⟨hcap, hlen, -, -, -⟩ := list_invariant sl hr
  have hadd0 := hadd
  unfold subcirc_list_add subcirc_list_ensure_capacity at hadd
  have h0 : (sl.capacity != 0) = true := by rw [hcap]; decide
  simp only [h0, tor_assert, if_true, bind, Except.bind, SUBCIRC_LIST_MAX_CAPACITY, pure,
    Except.pure] at hadd
  by_cases hid : id < MAX_SUBCIRCS
  · have hidc : id < sl.capacity := by rw [hcap]; exact hid
    have hidl : id < sl.list.length := by omega
    simp only [hid, decide_True, if_true, hidc, rdp_ok sl.list id hidl,
      wrp_ok sl.list id (some p) hidl] at hadd
    by_cases hold : sl.list.getD id none = none
    · simp only [hold, beq_self_eq_true, if_true] at hadd
      have hl : sl'.list = sl.list.set id (some p) ∧ sl'.num_elements = sl.num_elements + 1 := by
        by_cases hm : sl.max_index < (id : Int)
        · simp only [hm, if_true, Except.ok.injEq] at hadd
          rw [← hadd]; exact ⟨rfl, rfl⟩
        · simp only [hm, if_false, Except.ok.injEq] at hadd
          rw [← hadd]; exact ⟨rfl, rfl⟩
      refine ⟨hid, hold, ListReachable.add sl sl' p id hr hid hold hadd0, hl.2, ?_, ?_⟩
      · rw [hl.1, getD_set_eq _ _ _ _ hidl, if_pos rfl]
      · intro j hj
        rw [hl.1, getD_set_eq _ _ _ _ hidl, if_neg (Ne.symm hj)]
    · exfalso
      cases hv : sl.list.getD id none with
      | none => exact hold hv
      | some v =>
        rw [hv] at hadd
        simp at hadd
  · simp [hid] at hadd

/-- What a successful `split_data_add_subcirc` in state ADDED does at the
middle. -/
theorem split_data_add_subcirc_inv (w w2 : World) (h circ id : Nat) (sd : split_data_t)
    (sub : Option Nat) (hsd : get_split_data w h = .ok sd)
    (hadd : split_data_add_subcirc w h subcirc_state_t.SUBCIRC_STATE_ADDED circ id
      = .ok (sub, w2)) :
    (sd.marked_for_close = true ∧ sub = none ∧ w2 = w) ∨
    (sd.marked_for_close = false ∧ sub = some w.subcircuits.length ∧
      ∃ subcircs, subcirc_list_add sd.subcircs w.subcircuits.length id = .ok subcircs ∧
        w2 = set_split_data
          { w with subcircuits := w.subcircuits ++
              [some { subcircuit_new with circ := some circ, id := id,
                                          state := subcirc_state_t.SUBCIRC_STATE_ADDED }] } h
          (split_data_reset_next_subcirc { sd with subcircs := subcircs })) := by
  unfold split_data_add_subcirc at hadd
  simp only [hsd, bind, Except.bind] at hadd
  cases hm : sd.marked_for_close with
  | true =>
    left
    simp only [hm, if_true, pure, Except.pure, Except.ok.injEq, Prod.mk.injEq] at hadd
    exact ⟨rfl, hadd.1.symm, hadd.2.symm⟩
  | false =>
    right
    simp only [hm, Bool.false_eq_true, if_false] at hadd
    cases hchk : split_data_check_subcirc w h circ with
    | error e => rw [hchk] at hadd; cases hadd
    | ok r =>
      rw [hchk] at hadd
      simp only at hadd
      cases ha : tor_assert (r == 2) with
      | error e => rw [ha] at hadd; cases hadd
      | ok u =>
        rw [ha] at hadd
        simp only at hadd
        cases hb : tor_assert (decide (id = 0 → some circ = sd.base)) with
        | error e => rw [hb] at hadd; cases hadd
        | ok u2 =>
          rw [hb] at hadd
          simp only at hadd
          cases hl : subcirc_list_add sd.subcircs w.subcircuits.length id with
          | error e => rw [hl] at hadd; cases hadd
          | ok subcircs =>
            rw [hl] at hadd
            simp only [pure, Except.pure, Except.ok.injEq, Prod.mk.injEq] at hadd
            exact ⟨rfl, hadd.1.symm, subcircs, rfl, hadd.2.symm⟩

theorem check_subcirc_no_subcirc (w : World) (h circ : Nat) (oc : or_circuit_t) (c : Int)
    (hc : get_circ w circ = .ok oc) (hn : oc.subcirc = none)
    (hchk : split_data_check_subcirc w h circ = .ok c) : c ≠ 0 := by
  unfold split_data_check_subcirc at hchk
  cases hsd : get_split_data w h with
  | error e => rw [hsd] at hchk; cases hchk
  | ok sd =>
    have hsub : (if oc.split_data = some h then oc.subcirc else none) = none := by
      rw [hn]; simp
    simp only [hsd, hc, bind, Except.bind, hsub] at hchk
    cases hl : check_subcirc_loop w sd circ (sd.subcircs.max_index.toNat + 1) 0 with
    | error e => rw [hl] at hchk; cases hchk
    | ok found =>
      rw [hl] at hchk
      cases found with
      | true =>
        simp only [if_true, pure, Except.pure, Except.ok.injEq] at hchk
        omega
      | false =>
        simp only [Bool.false_eq_true, if_false] at hchk
        cases hcl : sd.split_data_client with
        | some cl => rw [hcl] at hchk; cases hchk
        | none =>
          rw [hcl] at hchk
          simp only [pure, Except.pure, Except.ok.injEq] at hchk
          omega

theorem join_step (idBytes : Nat) (w w' : World) (circ : Nat) (payload : List Nat)
    (fails : Bool) (oc : or_circuit_t) (h : Nat) (sd : split_data_t)
    (hc : get_circ w circ = .ok oc) (hfresh : oc.split_data = none)
    (hfound : split_get_split_data_by_cookie w payload = .ok (some h))
    (hsd : get_split_data w h = .ok sd) (hcl : sd.split_data_client = none)
    (hrun : split_process_join idBytes w circ payload fails = .ok (0, w')) :
    ∃ subcircs, subcirc_list_add sd.subcircs w.subcircuits.length sd.subcircs.num_elements
        = .ok subcircs ∧
      w' = { (set_circ (set_split_data
          { (set_circ w circ { oc with split_data := some h }) with
              subcircuits := w.subcircuits ++
              [some { subcircuit_new with circ := some circ, id := sd.subcircs.num_elements,
                                          state := subcirc_state_t.SUBCIRC_STATE_ADDED }] } h
          (split_data_reset_next_subcirc { sd with subcircs := subcircs })) circ
          { oc with split_data := some h, subcirc := some w.subcircuits.length }) with
        sent := w.sent ++ [⟨circ, relay_command_t.RELAY_COMMAND_SPLIT_JOINED,
          0x01 :: subcirc_id_wire idBytes sd.subcircs.num_elements⟩] } := by
  have hclt := get_circ_lt w circ oc hc
  unfold split_process_join at hrun
  by_cases hl : payload.length ≠ SPLIT_COOKIE_LEN
  · simp [hl, pure, Except.pure] at hrun
  · simp only [hl, if_false, hc, hfresh, hfound, bind, Except.bind] at hrun
    cases ha : tor_assert oc.subcirc.isNone with
    | error e => rw [ha] at hrun; cases hrun
    | ok u =>
      rw [ha] at hrun
      simp only at hrun
      have hsd1 : get_split_data (set_circ w circ { oc with split_data := some h }) h = .ok sd := hsd
      rw [hsd1] at hrun
      simp only [split_get_new_subcirc_id, split_data_get_num_subcircs,
        split_data_get_num_subcircs_pending, hcl, split_data_get_num_subcircs_added,
        subcirc_list_get_num, Nat.zero_add, bind, Except.bind] at hrun
      cases hb : tor_assert (decide (sd.subcircs.num_elements < MAX_SUBCIRCS)) with
      | error e => rw [hb] at hrun; cases hrun
      | ok u1 =>
        rw [hb] at hrun
        simp only [pure, Except.pure] at hrun
        cases hadd : split_data_add_subcirc (set_circ w circ { oc with split_data := some h }) h
            subcirc_state_t.SUBCIRC_STATE_ADDED circ sd.subcircs.num_elements with
        | error e => rw [hadd] at hrun; cases hrun
        | ok r =>
          obtain ⟨sub, w2⟩ := r
          rw [hadd] at hrun
          simp only at hrun
          have hc1 : get_circ (set_circ w circ { oc with split_data := some h }) circ
              = .ok { oc with split_data := some h } := get_set_circ _ _ _ hclt
          rcases split_data_add_subcirc_inv _ w2 h circ _ sd sub hsd1 hadd with
            ⟨-, hsub, hw2⟩ | ⟨-, hsub, subcircs, hlist, hw2⟩
          · exfalso
            subst hsub hw2
            rw [hc1] at hrun
            simp only at hrun
            cases hchk : split_data_check_subcirc
                (set_circ (set_circ w circ { oc with split_data := some h }) circ
                  { oc with split_data := some h, subcirc := none }) h circ with
            | error e => rw [hchk] at hrun; cases hrun
            | ok c =>
              rw [hchk] at hrun
              simp only at hrun
              have hne := check_subcirc_no_subcirc _ h circ _ c
                (get_set_circ _ _ _ (by simpa [set_circ] using hclt)) rfl hchk
              have : (c == 0) = false := by simpa using hne
              rw [this] at hrun
              cases hrun
          · subst hsub hw2
            refine ⟨subcircs, hlist, ?_⟩
            have hc2 : get_circ (set_split_data
                { (set_circ w circ { oc with split_data := some h }) with
                  subcircuits := (set_circ w circ { oc with split_data := some h }).subcircuits ++
                    [some { subcircuit_new with
                              circ := some circ, id := sd.subcircs.num_elements,
                              state := subcirc_state_t.SUBCIRC_STATE_ADDED }] } h
                (split_data_reset_next_subcirc { sd with subcircs := subcircs })) circ
                = .ok { oc with split_data := some h } := hc1
            rw [hc2] at hrun
            simp only at hrun
            split at hrun
            · cases hrun
            · split at hrun
              · cases hrun
              · unfold split_send_join_response relay_send_command_from_edge at hrun
                cases fails with
                | true =>
                  exfalso
                  simp only [if_true, bind, Except.bind, pure, Except.pure] at hrun
                  split at hrun
                  · cases hrun
                  · rename_i v hv
                    split at hv
                    · cases hv
                    · injection hv with hv
                      subst hv
                      simp at hrun
                | false =>
                  simp only [Bool.false_eq_true, if_false, pure, Except.pure, ne_eq,
                    not_true_eq_false, Except.ok.injEq, Prod.mk.injEq, true_and] at hrun
                  rw [← hrun]
                  rfl

/-- The hash-table operations touch only the table. -/
theorem HT_REMOVE_frame (w : World) (cookie : List Nat) :
    (HT_REMOVE w cookie).circuits = w.circuits ∧
    (HT_REMOVE w cookie).subcircuits = w.subcircuits ∧
    (HT_REMOVE w cookie).split_datas = w.split_datas ∧
    (HT_REMOVE w cookie).sent = w.sent := by
  unfold HT_REMOVE
  split <;> exact ⟨rfl, rfl, rfl, rfl⟩

theorem HT_REPLACE_frame (w : World) (h : Nat) (cookie : List Nat) :
    (HT_REPLACE w h cookie).2.circuits = w.circuits ∧
    (HT_REPLACE w h cookie).2.subcircuits = w.subcircuits ∧
    (HT_REPLACE w h cookie).2.split_datas = w.split_datas ∧
    (HT_REPLACE w h cookie).2.sent = w.sent := by
  unfold HT_REPLACE
  split <;> exact ⟨rfl, rfl, rfl, rfl⟩

theorem get_split_data_congr (w w' : World) (h : Nat) (heq : w'.split_datas = w.split_datas) :
    get_split_data w' h = get_split_data w h := by
  unfold get_split_data
  rw [heq]

theorem make_invalid_inv (w w' : World) (h : Nat) (sd : split_data_t)
    (hsd : get_split_data w h = .ok sd)
    (hrun : split_data_cookie_make_invalid w h = .ok w') :
    w'.circuits = w.circuits ∧ w'.subcircuits = w.subcircuits ∧ w'.sent = w.sent ∧
    get_split_data w' h
      = .ok { sd with cookie_state := split_cookie_state_t.SPLIT_COOKIE_STATE_INVALID } := by
  have hlt := get_split_data_lt w h sd hsd
  unfold split_data_cookie_make_invalid at hrun
  simp only [hsd, bind, Except.bind] at hrun
  split at hrun
  · cases hrun
  · simp only [pure, Except.pure, Except.ok.injEq] at hrun
    subst hrun
    obtain ⟨h1, h2, h3, h4⟩ := HT_REMOVE_frame (set_split_data w h
      { sd with cookie_state := split_cookie_state_t.SPLIT_COOKIE_STATE_INVALID }) sd.cookie
    refine ⟨h1, h2, h4, ?_⟩
    rw [get_split_data_congr _ _ h h3]
    exact get_set_split_data w h _ hlt

theorem make_valid_inv (w w' : World) (h : Nat) (sd : split_data_t)
    (hsd : get_split_data w h = .ok sd)
    (hrun : split_data_cookie_make_valid w h = .ok w') :
    w'.circuits = w.circuits ∧ w'.subcircuits = w.subcircuits ∧ w'.sent = w.sent ∧
    ∃ sd', get_split_data w' h = .ok sd' ∧ sd'.subcircs = sd.subcircs ∧
      sd'.split_data_client = sd.split_data_client ∧ sd'.base = sd.base := by
  have hlt := get_split_data_lt w h sd hsd
  unfold split_data_cookie_make_valid at hrun
  simp only [hsd, bind, Except.bind] at hrun
  split at hrun
  · cases hrun
  · obtain ⟨h1, h2, h3, h4⟩ := HT_REPLACE_frame (set_split_data w h
      { sd with cookie_state := split_cookie_state_t.SPLIT_COOKIE_STATE_VALID }) h sd.cookie
    have hg : get_split_data (HT_REPLACE (set_split_data w h
        { sd with cookie_state := split_cookie_state_t.SPLIT_COOKIE_STATE_VALID }) h sd.cookie).2 h
        = .ok { sd with cookie_state := split_cookie_state_t.SPLIT_COOKIE_STATE_VALID } := by
      rw [get_split_data_congr _ _ h h3]
      exact get_set_split_data w h _ hlt
    generalize HT_REPLACE (set_split_data w h
      { sd with cookie_state := split_cookie_state_t.SPLIT_COOKIE_STATE_VALID }) h sd.cookie = r
      at hrun h1 h2 h3 h4 hg
    obtain ⟨old_entry, w1⟩ := r
    simp only at hrun h1 h2 h3 h4 hg
    cases old_entry with
    | none =>
      simp only [pure, Except.pure, Except.ok.injEq] at hrun
      subst hrun
      exact ⟨h1, h2, h4, _, hg, rfl, rfl, rfl⟩
    | some old =>
      simp only at hrun
      cases hold : get_split_data w1 old with
      | error e => rw [hold] at hrun; cases hrun
      | ok old_data =>
        rw [hold] at hrun
        simp only [pure, Except.pure, Except.ok.injEq] at hrun
        subst hrun
        refine ⟨h1, h2, h4, ?_⟩
        by_cases ho : old = h
        · subst ho
          rw [hg] at hold
          injection hold with hold
          subst hold
          exact ⟨_, get_set_split_data w1 old _ (get_split_data_lt w1 old _ hg), rfl, rfl, rfl⟩
        · rw [get_split_data_set_ne _ _ _ _ ho]
          exact ⟨_, hg, rfl, rfl, rfl⟩

theorem get_split_data_new (w : World) (x : split_data_t) :
    get_split_data { w with split_datas := w.split_datas ++ [some x] } w.split_datas.length
      = .ok x := by
  unfold get_split_data
  simp [List.get?_eq_getElem?]

theorem set_cookie_tail (idBytes : Nat) (w3 w' : World) (h circ : Nat) (payload : List Nat)
    (fails : Bool) (subcirc_id : Nat)
    (hrun : (do
        let w ← split_data_cookie_make_invalid w3 h
        let split_data ← get_split_data w h
        let w := set_split_data w h { split_data with cookie := payload }
        let w ← split_data_cookie_make_valid w h
        let (s, w) ← split_send_cookie_response idBytes w circ subcirc_id true fails
        if s ≠ 0 then pure (-1, w) else pure (0, w) : Run (Int × World)) = .ok (0, w')) :
    w'.circuits = w3.circuits ∧ w'.subcircuits = w3.subcircuits ∧
    w'.sent = w3.sent ++ [⟨circ, relay_command_t.RELAY_COMMAND_SPLIT_COOKIE_SET,
      0x01 :: subcirc_id_wire idBytes subcirc_id⟩] ∧
    ∃ sdA sd', get_split_data w3 h = .ok sdA ∧ get_split_data w' h = .ok sd' ∧
      sd'.subcircs = sdA.subcircs ∧ sd'.split_data_client = sdA.split_data_client ∧
      sd'.base = sdA.base := by
  obtain ⟨w4, h4, hrun⟩ := bind_ok _ _ _ hrun
  obtain ⟨sd4, hsd4, hrun⟩ := bind_ok _ _ _ hrun
  try dsimp only at hrun
  obtain ⟨w6, h6, hrun⟩ := bind_ok _ _ _ hrun
  obtain ⟨⟨s, w7⟩, h7, hrun⟩ := bind_ok _ _ _ hrun
  try dsimp only at hrun
  cases hsdA : get_split_data w3 h with
  | error e =>
    unfold split_data_cookie_make_invalid at h4
    rw [hsdA] at h4
    cases h4
  | ok sdA =>
    obtain ⟨a1, a2, a3, a4⟩ := make_invalid_inv w3 w4 h sdA hsdA h4
    rw [a4] at hsd4
    injection hsd4 with hsd4
    subst hsd4
    have hlt4 := get_split_data_lt w4 h _ a4
    obtain ⟨b1, b2, b3, sd6, b4, b5, b6, b7⟩ := make_valid_inv _ w6 h _
      (get_set_split_data w4 h _ hlt4) h6
    unfold split_send_cookie_response relay_send_command_from_edge at h7
    cases fails with
    | true =>
      exfalso
      simp only [if_true] at h7
      obtain ⟨w8, -, h8⟩ := bind_ok _ _ _ h7
      simp only [pure, Except.pure, Except.ok.injEq, Prod.mk.injEq] at h8
      have hs := h8.1
      subst hs
      simp [pure, Except.pure] at hrun
    | false =>
      simp only [Bool.false_eq_true, if_false, pure, Except.pure, Except.ok.injEq,
        Prod.mk.injEq] at h7
      obtain ⟨hs, hw7⟩ := h7
      subst hs
      simp only [ne_eq, not_true_eq_false, if_false, pure, Except.pure, Except.ok.injEq,
        Prod.mk.injEq, true_and] at hrun
      subst hrun
      subst hw7
      refine ⟨?_, ?_, ?_, sdA, sd6, rfl, ?_, ?_, ?_, ?_⟩
      · show w6.circuits = w3.circuits
        rw [b1]; exact a1
      · show w6.subcircuits = w3.subcircuits
        rw [b2]; exact a2
      · show w6.sent ++ _ = w3.sent ++ _
        rw [b3]
        show w4.sent ++ _ = w3.sent ++ _
        rw [a3]
        rfl
      · exact b4
      · rw [b5]
      · rw [b6]
      · rw [b7]

theorem set_cookie_step (idBytes : Nat) (w w' : World) (circ : Nat) (payload : List Nat)
    (fails : Bool) (oc : or_circuit_t)
    (hc : get_circ w circ = .ok oc) (hfresh : oc.split_data = none)
    (hchk : split_check_or_circuit oc = 0)
    (hrun : split_process_set_cookie idBytes w circ payload fails = .ok (0, w')) :
    ∃ subcircs sd', subcirc_list_add subcirc_list_new w.subcircuits.length 0 = .ok subcircs ∧
      get_split_data w' w.split_datas.length = .ok sd' ∧ sd'.subcircs = subcircs ∧
      sd'.split_data_client = none ∧ sd'.base = some circ ∧
      w'.subcircuits = w.subcircuits ++
        [some ⟨some circ, 0, subcirc_state_t.SUBCIRC_STATE_ADDED, cell_buffer_new⟩] ∧
      w'.sent = w.sent ++ [⟨circ, relay_command_t.RELAY_COMMAND_SPLIT_COOKIE_SET,
        0x01 :: subcirc_id_wire idBytes 0⟩] ∧
      get_circ w' circ = .ok ⟨oc.marked_for_close, oc.marked_for_close_reason, oc.state_open,
        oc.purpose_or, oc.remaining_relay_early_cells, some w.split_datas.length,
        some w.subcircuits.length, oc.has_n_chan⟩ := by
  have hclt := get_circ_lt w circ oc hc
  unfold split_process_set_cookie at hrun
  by_cases hl : payload.length ≠ SPLIT_COOKIE_LEN
  · simp [hl, pure, Except.pure] at hrun
  · rw [if_neg hl] at hrun
    obtain ⟨oc1, h1, hrun1⟩ := bind_ok _ _ _ hrun
    clear hrun
    rw [hc] at h1
    injection h1 with h1
    subst h1
    obtain ⟨r, hr, hrun⟩ := bind_ok _ _ _ hrun1
    clear hrun1
    simp only [hfresh, hchk, ne_eq, not_true_eq_false, if_false] at hr
    obtain ⟨u, -, hr⟩ := bind_ok _ _ _ hr
    obtain ⟨sd0, hsd0, hr⟩ := bind_ok _ _ _ hr
    unfold split_data_init_or at hsd0
    rw [hc] at hsd0
    simp only [bind, Except.bind, pure, Except.pure, Except.ok.injEq] at hsd0
    have hf1 : sd0.split_data_client = none := by rw [← hsd0]; rfl
    have hf2 : sd0.base = some circ := by rw [← hsd0]
    have hf3 : sd0.subcircs = subcirc_list_new := by rw [← hsd0]
    have hf4 : sd0.marked_for_close = false := by rw [← hsd0]; rfl
    clear hsd0
    try dsimp only at hr
    obtain ⟨id, hid, hr⟩ := bind_ok _ _ _ hr
    have hid0 : id = 0 := by
      unfold split_get_new_subcirc_id split_data_get_num_subcircs
        split_data_get_num_subcircs_pending split_data_get_num_subcircs_added at hid
      rw [hf1, hf3] at hid
      have : (.ok 0 : Run Nat) = .ok id := hid
      injection this with this
      exact this.symm
    subst hid0
    obtain ⟨⟨sub, w2⟩, hadd, hr⟩ := bind_ok _ _ _ hr
    try dsimp only at hr
    have hsd1 := get_split_data_new w sd0
    have key := fun hs => split_data_add_subcirc_inv _ w2 _ circ 0 sd0 sub hs hadd
    rcases key hsd1 with ⟨hm, -, -⟩ | ⟨-, hsub, subcircs, hlist, hw2⟩
    · rw [hf4] at hm
      cases hm
    · subst hsub hw2
      clear key hadd
      rw [hf3] at hlist
      obtain ⟨oc2, hoc2, hr⟩ := bind_ok _ _ _ hr
      obtain ⟨c, -, hr⟩ := bind_ok _ _ _ hr
      obtain ⟨u2, -, hr⟩ := bind_ok _ _ _ hr
      simp only [pure, Except.pure, Except.ok.injEq] at hr
      subst hr
      have hoc2e : oc2 = { oc with split_data := some w.split_datas.length } := by
        have e := get_set_circ { w with split_datas := w.split_datas ++ [some sd0] } circ
          { oc with split_data := some w.split_datas.length } hclt
        have e2 : (.ok { oc with split_data := some w.split_datas.length } : Run or_circuit_t)
            = .ok oc2 := e.symm.trans hoc2
        injection e2 with e2
        exact e2.symm
      subst hoc2e
      obtain ⟨t1, t2, t3, sdA, sd', t4, t5, t6, t7, t8⟩ :=
        set_cookie_tail idBytes _ w' _ circ payload fails 0 hrun
      have hlen : w.split_datas.length < (w.split_datas ++ [some sd0]).length := by simp
      have hA := get_set_split_data
        (set_circ { w with split_datas := w.split_datas ++ [some sd0],
                           subcircuits := w.subcircuits ++
          [some ⟨some circ, 0, subcirc_state_t.SUBCIRC_STATE_ADDED, cell_buffer_new⟩] } circ
          { oc with split_data := some w.split_datas.length }) w.split_datas.length
        (split_data_reset_next_subcirc { sd0 with subcircs := subcircs }) hlen
      have hA2 : (.ok (split_data_reset_next_subcirc { sd0 with subcircs := subcircs })
          : Run split_data_t) = .ok sdA := hA.symm.trans t4
      injection hA2 with hA2
      subst hA2
      refine ⟨subcircs, sd', hlist, t5, t6, ?_, ?_, t2, t3, ?_⟩
      · rw [t7]; exact hf1
      · rw [t8]; exact hf2
      · unfold get_circ
        rw [t1]
        simp only [set_circ, set_split_data]
        simp [List.get?_eq_getElem?, List.getElem?_set, hclt]

theorem width_field_eq (payload : List Nat) (hb : ∀ b ∈ payload, b < 256)
    (h3 : 2 ≤ payload.length) :
    (payload.getD 1 0 &&& 0xF8) >>> 3 = payload.getD 1 0 / 8
      ∧ payload.getD 1 0 &&& 0x07 = payload.getD 1 0 % 8 := by
  have hb1 : payload.getD 1 0 < 256 := by
    rw [List.getD_eq_getElem?_getD, List.getElem?_eq_getElem (by omega : 1 < payload.length)]
    exact hb _ (List.getElem_mem _)
  refine ⟨?_, Nat.and_pow_two_sub_one_eq_mod _ 3⟩
  generalize payload.getD 1 0 = x at hb1
  interval_cases x <;> rfl

theorem parse_from_payload_generic_fail (RELAY_PAYLOAD_SIZE idBytes : Nat) (payload : List Nat)
    (hb : ∀ b ∈ payload, b < 256) (hP : payload.length ≤ RELAY_PAYLOAD_SIZE)
    (hbad : payload.length < 3 ∨ payload.getD 0 0 ≠ 0 ∨ payload.getD 1 0 / 8 = 0 ∨
      (8 * (payload.length - 2) - payload.getD 1 0 % 8) % (payload.getD 1 0 / 8) ≠ 0) :
    parse_from_payload_generic RELAY_PAYLOAD_SIZE idBytes payload = .ok none := by
  unfold parse_from_payload_generic
  simp only [tor_assert, hP, decide_True, if_true, bind, Except.bind, pure, Except.pure]
  by_cases h3 : payload.length < 3
  · simp only [h3, if_true]
  · obtain ⟨hW, hE⟩ := width_field_eq payload hb (by omega)
    simp only [h3, if_false, rd_ok payload 0 (by omega), rd_ok payload 1 (by omega),
      SPLIT_INSTRUCTION_TYPE_GENERIC, hW, hE]
    by_cases h0 : payload.getD 0 0 = 0
    · simp only [h0, ne_eq, not_true_eq_false, if_false]
      by_cases hw : payload.getD 1 0 / 8 = 0
      · simp only [hw, if_true]
      · have hElt : payload.getD 1 0 % 8 < 8 := Nat.mod_lt _ (by norm_num)
        have hTpos : (payload.length - 2) * 8 > payload.getD 1 0 % 8 := by omega
        have hal : ((payload.length - 2) * 8 - payload.getD 1 0 % 8) % (payload.getD 1 0 / 8) ≠ 0 := by
          rcases hbad with h | h | h | h
          · exact absurd h h3
          · exact absurd h0 h
          · exact absurd h hw
          · rw [Nat.mul_comm]; exact h
        simp only [hw, if_false, hElt, hTpos, decide_True, if_true, hal, ne_eq, not_false_eq_true]
    · simp only [h0, ne_eq, not_false_eq_true, if_true]

theorem split_payload_to_instruction_eq (RELAY_PAYLOAD_SIZE idBytes : Nat) (payload : List Nat)
    (h1 : 1 ≤ payload.length) :
    split_payload_to_instruction RELAY_PAYLOAD_SIZE idBytes payload
      = if payload.getD 0 0 = 0 then
          (match parse_from_payload_generic RELAY_PAYLOAD_SIZE idBytes payload with
           | .error e => .error e
           | .ok none => .ok none
           | .ok (some data) =>
             if data.length * idBytes ≠ 0 then
               .ok (some { type := 0, data := data, position := 0,
                           length := data.length * idBytes })
             else .error Fault.assertion)
        else .ok none := by
  unfold split_payload_to_instruction
  have : ¬ payload.length < 1 := by omega
  simp only [this, if_false, bind, Except.bind, rd_ok payload 0 (by omega),
    SPLIT_INSTRUCTION_TYPE_GENERIC, pure, Except.pure, tor_assert]
  by_cases h0 : payload.getD 0 0 = 0
  · simp only [h0, if_true]
    cases hpf : parse_from_payload_generic RELAY_PAYLOAD_SIZE idBytes payload with
    | error e => rfl
    | ok r =>
      cases r with
      | none => rfl
      | some data =>
        simp only
        by_cases hz : data.length * idBytes = 0
        · simp [hz]
        · simp [hz]
  · simp only [h0, if_false]

/-- The decoder fails on exactly the malformed payloads. -/
theorem decode_dichotomy (RELAY_PAYLOAD_SIZE idBytes : Nat) (payload : List Nat)
    (hid : idBytes = 1 ∨ idBytes = 2) (hb : ∀ b ∈ payload, b < 256)
    (hP : payload.length ≤ RELAY_PAYLOAD_SIZE) :
    ((payload.length < 3 ∨ payload.getD 0 0 ≠ 0 ∨ payload.getD 1 0 / 8 = 0 ∨
        (8 * (payload.length - 2) - payload.getD 1 0 % 8) % (payload.getD 1 0 / 8) ≠ 0) →
      parse_from_payload_generic RELAY_PAYLOAD_SIZE idBytes payload = .ok none ∧
      split_payload_to_instruction RELAY_PAYLOAD_SIZE idBytes payload = .ok none) ∧
    (¬ (payload.length < 3 ∨ payload.getD 0 0 ≠ 0 ∨ payload.getD 1 0 / 8 = 0 ∨
        (8 * (payload.length - 2) - payload.getD 1 0 % 8) % (payload.getD 1 0 / 8) ≠ 0) →
      ∃ data, parse_from_payload_generic RELAY_PAYLOAD_SIZE idBytes payload = .ok (some data) ∧
        data.length = (8 * (payload.length - 2) - payload.getD 1 0 % 8) / (payload.getD 1 0 / 8) ∧
        1 ≤ data.length ∧
        split_payload_to_instruction RELAY_PAYLOAD_SIZE idBytes payload
          = .ok (some { type := SPLIT_INSTRUCTION_TYPE_GENERIC, data := data, position := 0,
                        length := data.length * idBytes })) := by
  have hid1 : 1 ≤ idBytes := by omega
  constructor
  · intro hbad
    have hpf := parse_from_payload_generic_fail RELAY_PAYLOAD_SIZE idBytes payload hb hP hbad
    refine ⟨hpf, ?_⟩
    by_cases h1 : 1 ≤ payload.length
    · rw [split_payload_to_instruction_eq _ _ _ h1, hpf]
      simp
    · unfold split_payload_to_instruction
      have : payload.length < 1 := by omega
      simp [this, pure, Except.pure]
  · intro hgood
    simp only [not_or, not_lt, ne_eq, not_not] at hgood
    obtain ⟨h3, h0, hw, hal⟩ := hgood
    have hpf := parse_from_payload_generic_ok RELAY_PAYLOAD_SIZE idBytes payload hb hid1 hP h3 h0
      hw hal
    have hE : payload.getD 1 0 % 8 < 8 := Nat.mod_lt _ (by norm_num)
    have hlen : (decoded_ids idBytes (payload.getD 1 0 / 8)
        ((8 * (payload.length - 2) - payload.getD 1 0 % 8) / (payload.getD 1 0 / 8))
        (payload.drop 2)).length
        = (8 * (payload.length - 2) - payload.getD 1 0 % 8) / (payload.getD 1 0 / 8) := by
      simp [decoded_ids]
    have hpos : 1 ≤ (8 * (payload.length - 2) - payload.getD 1 0 % 8) / (payload.getD 1 0 / 8) := by
      apply Nat.div_pos _ (Nat.pos_of_ne_zero hw)
      apply Nat.le_of_dvd (by omega) (Nat.dvd_of_mod_eq_zero hal)
    refine ⟨_, hpf, hlen, by rw [hlen]; exact hpos, ?_⟩
    rw [split_payload_to_instruction_eq _ _ _ (by omega), hpf]
    have hnz : (decoded_ids idBytes (payload.getD 1 0 / 8)
        ((8 * (payload.length - 2) - payload.getD 1 0 % 8) / (payload.getD 1 0 / 8))
        (payload.drop 2)).length * idBytes ≠ 0 := by
      rw [hlen]
      exact Nat.mul_ne_zero (by omega) (by omega)
    simp only [h0, if_true, hnz, ne_eq, not_false_eq_true, SPLIT_INSTRUCTION_TYPE_GENERIC]

/-- C7: a payload of at most `RELAY_PAYLOAD_SIZE` bytes fails to decode
(both `parse_from_payload_generic` and `split_payload_to_instruction` on top
of it) exactly when it is shorter than 3 bytes, or its type tag is not 0x00,
or its width field `W` (bits 7..3 of byte 1) is 0, or `8 * (len - 2) - E` is
not a multiple of `W` (`E` being bits 2..0 of byte 1); in every other case
decoding succeeds and returns exactly `(8 * (len - 2) - E) / W` IDs, at least
one. -/
theorem C7_decode_fails_exactly (RELAY_PAYLOAD_SIZE idBytes : Nat) (payload : List Nat)
    (hid : idBytes = 1 ∨ idBytes = 2) (hb : ∀ b ∈ payload, b < 256)
    (hP : payload.length ≤ RELAY_PAYLOAD_SIZE) :
    ((payload.length < 3 ∨ payload.getD 0 0 ≠ 0 ∨ payload.getD 1 0 / 8 = 0 ∨
        (8 * (payload.length - 2) - payload.getD 1 0 % 8) % (payload.getD 1 0 / 8) ≠ 0) →
      parse_from_payload_generic RELAY_PAYLOAD_SIZE idBytes payload = .ok none ∧
      split_payload_to_instruction RELAY_PAYLOAD_SIZE idBytes payload = .ok none) ∧
    (¬ (payload.length < 3 ∨ payload.getD 0 0 ≠ 0 ∨ payload.getD 1 0 / 8 = 0 ∨
        (8 * (payload.length - 2) - payload.getD 1 0 % 8) % (payload.getD 1 0 / 8) ≠ 0) →
      ∃ data, parse_from_payload_generic RELAY_PAYLOAD_SIZE idBytes payload = .ok (some data) ∧
        data.length = (8 * (payload.length - 2) - payload.getD 1 0 % 8) / (payload.getD 1 0 / 8) ∧
        1 ≤ data.length ∧
        split_payload_to_instruction RELAY_PAYLOAD_SIZE idBytes payload
          = .ok (some { type := SPLIT_INSTRUCTION_TYPE_GENERIC, data := data, position := 0,
                        length := data.length * idBytes })) :=
  decode_dichotomy RELAY_PAYLOAD_SIZE idBytes payload hid hb hP

/-- C7 at the payloads `[0, 0x2C, 0, 0xFF, 0x10]` (well-formed, four IDs of
width 5) and `[0, 0x2C, 0, 0xFF]` (misaligned). -/
theorem C7_decode_fails_exactly_witness :
    (parse_from_payload_generic 498 2 [0, 0x2C, 0, 0xFF] = .ok none ∧
      split_payload_to_instruction 498 2 [0, 0x2C, 0, 0xFF] = .ok none) ∧
    (∃ data, parse_from_payload_generic 498 2 [0, 0x2C, 0, 0xFF, 0x10] = .ok (some data) ∧
        data.length = 4 ∧ 1 ≤ data.length ∧
        split_payload_to_instruction 498 2 [0, 0x2C, 0, 0xFF, 0x10]
          = .ok (some { type := SPLIT_INSTRUCTION_TYPE_GENERIC, data := data, position := 0,
                        length := data.length * 2 })) :=
  ⟨(C7_decode_fails_exactly 498 2 [0, 0x2C, 0, 0xFF] (Or.inr rfl) (by decide) (by decide)).1
      (by decide),
   (C7_decode_fails_exactly 498 2 [0, 0x2C, 0, 0xFF, 0x10] (Or.inr rfl) (by decide)
      (by decide)).2 (by decide)⟩

theorem encode_facts (RELAY_PAYLOAD_SIZE idBytes : Nat) (s : List Nat)
    (hid : idBytes = 1 ∨ idBytes = 2) (hne : s ≠ [])
    (hrep : ∀ id ∈ s, id < 2 ^ (8 * idBytes))
    (hfit : 2 + (s.length * enc_width s + 7) / 8 ≤ RELAY_PAYLOAD_SIZE) :
    ∃ bytes, parse_to_payload_generic RELAY_PAYLOAD_SIZE idBytes s
        = .ok (some (0 :: (enc_width s * 8 + enc_empty_bits s) :: bytes))
      ∧ EncInv bytes ((s.length * enc_width s + 7) / 8) (s.length * enc_width s)
          (beValW (enc_width s) s)
      ∧ 1 ≤ enc_width s ∧ enc_width s ≤ 8 * idBytes ∧ enc_empty_bits s < 8
      ∧ (∀ id ∈ s, id < 2 ^ enc_width s) := by
  obtain ⟨bytes, h1, h2⟩ := parse_to_payload_generic_ok RELAY_PAYLOAD_SIZE idBytes s hne
    (by omega) (by omega) hrep hfit
  rw [packedVal_eq, Nat.zero_mul, Nat.zero_add] at h2
  refine ⟨bytes, h1, h2, subcirc_id_get_width_pos _, ?_, ?_, ?_⟩
  · exact subcirc_id_get_width_le _ _ (by omega) (foldr_max_lt _ _ (Nat.two_pow_pos _) hrep)
  · unfold enc_empty_bits; omega
  · exact fun id hmem =>
      lt_of_le_of_lt (le_foldr_max s id hmem) (lt_two_pow_subcirc_id_get_width _)

/-- C1: for every non-empty list `s` of sub-circuit IDs, each representable
in `subcirc_id_t`, whose encoding (two header bytes and `⌈n * W / 8⌉` data
bytes, `W` the width of the maximum) fits `RELAY_PAYLOAD_SIZE`,
`parse_to_payload_generic` succeeds and `parse_from_payload_generic` applied
to its output returns exactly `s`. -/
theorem C1_codec_roundtrip (RELAY_PAYLOAD_SIZE idBytes : Nat) (s : List Nat)
    (hid : idBytes = 1 ∨ idBytes = 2) (hne : s ≠ [])
    (hrep : ∀ id ∈ s, id < 2 ^ (8 * idBytes))
    (hfit : 2 + (s.length * subcirc_id_get_width (s.foldr max 0) + 7) / 8 ≤ RELAY_PAYLOAD_SIZE) :
    ∃ payload, parse_to_payload_generic RELAY_PAYLOAD_SIZE idBytes s = .ok (some payload) ∧
      parse_from_payload_generic RELAY_PAYLOAD_SIZE idBytes payload = .ok (some s) := by
  have hWe : subcirc_id_get_width (s.foldr max 0) = enc_width s := rfl
  rw [hWe] at hfit
  obtain ⟨bytes, henc, hinv, hW1, hW2, hE, hids⟩ :=
    encode_facts RELAY_PAYLOAD_SIZE idBytes s hid hne hrep hfit
  refine ⟨_, henc, ?_⟩
  have hlen : 0 < s.length := List.length_pos.mpr hne
  have hT : 1 ≤ s.length * enc_width s := Nat.mul_pos hlen hW1
  have hbl : bytes.length = (s.length * enc_width s + 7) / 8 := hinv.1
  have hEdef : enc_empty_bits s = 8 * ((s.length * enc_width s + 7) / 8) - s.length * enc_width s :=
    rfl
  have hb : ∀ b ∈ (0 :: (enc_width s * 8 + enc_empty_bits s) :: bytes), b < 256 := by
    intro b hbm
    rcases List.mem_cons.mp hbm with h | h
    · rw [h]; norm_num
    · rcases List.mem_cons.mp h with h | h
      · rw [h]; omega
      · exact hinv.2.1 b h
  have hb1 : (0 :: (enc_width s * 8 + enc_empty_bits s) :: bytes).getD 1 0
      = enc_width s * 8 + enc_empty_bits s := rfl
  have hw : (enc_width s * 8 + enc_empty_bits s) / 8 = enc_width s := by omega
  have he : (enc_width s * 8 + enc_empty_bits s) % 8 = enc_empty_bits s := by omega
  have hTT : 8 * ((0 :: (enc_width s * 8 + enc_empty_bits s) :: bytes).length - 2)
      - enc_empty_bits s = s.length * enc_width s := by
    simp only [List.length_cons, Nat.add_sub_cancel, hbl]
    omega
  have hdec := parse_from_payload_generic_ok RELAY_PAYLOAD_SIZE idBytes
    (0 :: (enc_width s * 8 + enc_empty_bits s) :: bytes) hb (by omega)
    (by simp only [List.length_cons, hbl]; omega)
    (by simp only [List.length_cons, hbl]; omega) rfl
    (by rw [hb1, hw]; omega)
    (by rw [hb1, hw, he, hTT]; exact Nat.mul_mod_left _ _)
  rw [hb1, hw, he, hTT, Nat.mul_div_cancel _ (by omega : 0 < enc_width s)] at hdec
  rw [hdec]
  simp only [List.drop_succ_cons, List.drop_zero]
  rw [decoded_ids_of_EncInv idBytes (enc_width s) s bytes _ hinv hids hW2]

/-- C1 at the list `[3, 1, 3, 0, 2]` of the unit test, with two-byte IDs. -/
theorem C1_codec_roundtrip_witness :
    ∃ payload, parse_to_payload_generic 498 2 [3, 1, 3, 0, 2] = .ok (some payload) ∧
      parse_from_payload_generic 498 2 payload = .ok (some [3, 1, 3, 0, 2]) :=
  C1_codec_roundtrip 498 2 [3, 1, 3, 0, 2] (Or.inr rfl) (by decide) (by decide) (by decide)

/-- C6: for every non-empty ID list `s` of `n` IDs that fits a payload, with
`W` the width of its maximum and `E = 8 * ⌈n * W / 8⌉ - n * W`,
`parse_to_payload_generic` returns a payload of exactly `2 + ⌈n * W / 8⌉`
bytes; byte 0 is 0x00; byte 1 is `(W << 3) | E`; for every `i < n` and
`j < W` the bit at offset `i * W + j` of bytes 2.. (MSB first) is bit
`W - 1 - j` of the `i`-th ID; the last `E` bits are zero.  The list
`[3, 1, 3, 0, 2]` yields `0x00, 0b00010110, 0b11011100, 0b10000000`. -/
theorem C6_payload_layout (RELAY_PAYLOAD_SIZE idBytes : Nat) (s : List Nat)
    (hid : idBytes = 1 ∨ idBytes = 2) (hne : s ≠ [])
    (hrep : ∀ id ∈ s, id < 2 ^ (8 * idBytes))
    (hfit : 2 + (s.length * subcirc_id_get_width (s.foldr max 0) + 7) / 8 ≤ RELAY_PAYLOAD_SIZE) :
    (∃ payload, parse_to_payload_generic RELAY_PAYLOAD_SIZE idBytes s = .ok (some payload) ∧
      payload.length = 2 + (s.length * subcirc_id_get_width (s.foldr max 0) + 7) / 8 ∧
      payload.getD 0 0 = 0x00 ∧
      payload.getD 1 0 = (subcirc_id_get_width (s.foldr max 0) <<< 3) |||
        (8 * ((s.length * subcirc_id_get_width (s.foldr max 0) + 7) / 8)
          - s.length * subcirc_id_get_width (s.foldr max 0)) ∧
      (∀ i j, i < s.length → j < subcirc_id_get_width (s.foldr max 0) →
        streamBit (payload.drop 2) (i * subcirc_id_get_width (s.foldr max 0) + j)
          = s.getD i 0 / 2 ^ (subcirc_id_get_width (s.foldr max 0) - 1 - j) % 2) ∧
      (∀ e, e < 8 * ((s.length * subcirc_id_get_width (s.foldr max 0) + 7) / 8)
            - s.length * subcirc_id_get_width (s.foldr max 0) →
        streamBit (payload.drop 2) (s.length * subcirc_id_get_width (s.foldr max 0) + e) = 0)) ∧
    parse_to_payload_generic 498 2 [3, 1, 3, 0, 2]
      = .ok (some [0x00, 0b00010110, 0b11011100, 0b10000000]) := by
  refine ⟨?_, by decide⟩
  have hWe : subcirc_id_get_width (s.foldr max 0) = enc_width s := rfl
  simp only [hWe] at hfit ⊢
  obtain ⟨bytes, henc, hinv, hW1, hW2, hE, hids⟩ :=
    encode_facts RELAY_PAYLOAD_SIZE idBytes s hid hne hrep hfit
  have hbl : bytes.length = (s.length * enc_width s + 7) / 8 := hinv.1
  refine ⟨_, henc, ?_, rfl, ?_, ?_, ?_⟩
  · simp only [List.length_cons, hbl]; omega
  · change enc_width s * 8 + enc_empty_bits s = (enc_width s <<< 3) ||| enc_empty_bits s
    rw [Nat.shiftLeft_eq, Nat.mul_comm]
    exact @Nat.mul_add_lt_is_or 3 _ hE _
  · intro i j hi hj
    exact bits_of_EncInv (enc_width s) s bytes _ hinv hids i j hi hj
  · intro e he
    exact pad_bits_of_EncInv bytes _ _ _ e hinv (by omega)

/-- C6 at the list `[0, 6, 5, 0, 1, 3, 4, 2, 1]` of the second unit test. -/
theorem C6_payload_layout_witness :
    (∃ payload, parse_to_payload_generic 498 2 [0, 6, 5, 0, 1, 3, 4, 2, 1] = .ok (some payload) ∧
      payload.length = 2 + ([0, 6, 5, 0, 1, 3, 4, 2, 1].length
          * subcirc_id_get_width ([0, 6, 5, 0, 1, 3, 4, 2, 1].foldr max 0) + 7) / 8 ∧
      payload.getD 0 0 = 0x00 ∧
      payload.getD 1 0 = (subcirc_id_get_width ([0, 6, 5, 0, 1, 3, 4, 2, 1].foldr max 0) <<< 3) |||
        (8 * (([0, 6, 5, 0, 1, 3, 4, 2, 1].length
            * subcirc_id_get_width ([0, 6, 5, 0, 1, 3, 4, 2, 1].foldr max 0) + 7) / 8)
          - [0, 6, 5, 0, 1, 3, 4, 2, 1].length
            * subcirc_id_get_width ([0, 6, 5, 0, 1, 3, 4, 2, 1].foldr max 0)) ∧
      (∀ i j, i < [0, 6, 5, 0, 1, 3, 4, 2, 1].length →
        j < subcirc_id_get_width ([0, 6, 5, 0, 1, 3, 4, 2, 1].foldr max 0) →
        streamBit (payload.drop 2)
            (i * subcirc_id_get_width ([0, 6, 5, 0, 1, 3, 4, 2, 1].foldr max 0) + j)
          = [0, 6, 5, 0, 1, 3, 4, 2, 1].getD i 0
              / 2 ^ (subcirc_id_get_width ([0, 6, 5, 0, 1, 3, 4, 2, 1].foldr max 0) - 1 - j) % 2) ∧
      (∀ e, e < 8 * (([0, 6, 5, 0, 1, 3, 4, 2, 1].length
              * subcirc_id_get_width ([0, 6, 5, 0, 1, 3, 4, 2, 1].foldr max 0) + 7) / 8)
            - [0, 6, 5, 0, 1, 3, 4, 2, 1].length
              * subcirc_id_get_width ([0, 6, 5, 0, 1, 3, 4, 2, 1].foldr max 0) →
        streamBit (payload.drop 2) ([0, 6, 5, 0, 1, 3, 4, 2, 1].length
          * subcirc_id_get_width ([0, 6, 5, 0, 1, 3, 4, 2, 1].foldr max 0) + e) = 0)) ∧
    parse_to_payload_generic 498 2 [3, 1, 3, 0, 2]
      = .ok (some [0x00, 0b00010110, 0b11011100, 0b10000000]) :=
  C6_payload_layout 498 2 [0, 6, 5, 0, 1, 3, 4, 2, 1] (Or.inr rfl) (by decide) (by decide)
    (by decide)

/-- C8: for every ID value `m`, `subcirc_id_get_width m` is
`max 1 ⌈log₂ (m + 1)⌉`, the least `w ≥ 1` with `m < 2 ^ w` (the values of the
unit test included); and the width field written by the encoder for a list
`s` is the width of the maximum of `s`. -/
theorem C8_width (m : Nat) :
    subcirc_id_get_width m = max 1 (Nat.clog 2 (m + 1)) ∧
    (1 ≤ subcirc_id_get_width m ∧ m < 2 ^ subcirc_id_get_width m ∧
      ∀ w, 1 ≤ w → m < 2 ^ w → subcirc_id_get_width m ≤ w) ∧
    (subcirc_id_get_width 0 = 1 ∧ subcirc_id_get_width 1 = 1 ∧ subcirc_id_get_width 3 = 2 ∧
      subcirc_id_get_width 16 = 5 ∧ subcirc_id_get_width 255 = 8 ∧
      subcirc_id_get_width 1024 = 11) ∧
    (∀ (RELAY_PAYLOAD_SIZE idBytes : Nat) (s : List Nat), (idBytes = 1 ∨ idBytes = 2) → s ≠ [] →
      (∀ id ∈ s, id < 2 ^ (8 * idBytes)) →
      2 + (s.length * subcirc_id_get_width (s.foldr max 0) + 7) / 8 ≤ RELAY_PAYLOAD_SIZE →
      ∃ payload, parse_to_payload_generic RELAY_PAYLOAD_SIZE idBytes s = .ok (some payload) ∧
        (payload.getD 1 0 &&& 0xF8) >>> 3 = subcirc_id_get_width (s.foldr max 0)) := by
  refine ⟨subcirc_id_get_width_eq_clog m, ⟨subcirc_id_get_width_pos m,
    lt_two_pow_subcirc_id_get_width m, fun w h1 h2 => subcirc_id_get_width_le m w h1 h2⟩,
    by decide, ?_⟩
  intro P idBytes s hid hne hrep hfit
  obtain ⟨bytes, henc, hinv, hW1, hW2, hE, hids⟩ := encode_facts P idBytes s hid hne hrep hfit
  refine ⟨_, henc, ?_⟩
  change ((enc_width s * 8 + enc_empty_bits s) &&& 0xF8) >>> 3 = enc_width s
  have hlt : enc_width s * 8 + enc_empty_bits s < 256 := by omega
  have hdiv : (enc_width s * 8 + enc_empty_bits s) / 8 = enc_width s := by omega
  generalize enc_width s * 8 + enc_empty_bits s = x at hlt hdiv
  rw [← hdiv]
  interval_cases x <;> rfl

/-- C8 at `m = 16` and the list `[3, 1, 3, 0, 2]`. -/
theorem C8_width_witness :
    subcirc_id_get_width 16 = 5 ∧
    ∃ payload, parse_to_payload_generic 498 1 [3, 1, 3, 0, 2] = .ok (some payload) ∧
      (payload.getD 1 0 &&& 0xF8) >>> 3 = subcirc_id_get_width ([3, 1, 3, 0, 2].foldr max 0) :=
  ⟨(C8_width 16).2.2.1.2.2.2.1,
   (C8_width 16).2.2.2 498 1 [3, 1, 3, 0, 2] (Or.inl rfl) (by decide) (by decide) (by decide)⟩

theorem subcirc_list_add_total (sl : subcirc_list_t) (h : ListReachable sl) (subcirc id : Nat)
    (hid : id < MAX_SUBCIRCS) (hempty : sl.list.getD id none = none) :
    ∃ sl', subcirc_list_add sl subcirc id = .ok sl' := by
  obtain ⟨hcap, hlen, -, -, -⟩ := list_invariant sl h
  have hidc : id < sl.capacity := by rw [hcap]; exact hid
  have hens : subcirc_list_ensure_capacity sl id = .ok sl := by
    unfold subcirc_list_ensure_capacity
    have h0 : sl.capacity ≠ 0 := by rw [hcap]; decide
    simp [tor_assert, bind, Except.bind, pure, Except.pure, hidc, h0,
      SUBCIRC_LIST_MAX_CAPACITY, hid]
  unfold subcirc_list_add
  simp only [hens, bind, Except.bind, rdp_ok sl.list id (by omega), hempty, tor_assert,
    beq_self_eq_true, if_true, wrp_ok sl.list id _ (by omega), pure, Except.pure]
  split <;> exact ⟨_, rfl⟩

theorem subcirc_list_remove_total (sl : subcirc_list_t) (h : ListReachable sl) (id : Nat) :
    ∃ sl', subcirc_list_remove sl id = .ok sl' := by
  obtain ⟨hcap, hlen, hnum, hmax, hlt⟩ := list_invariant sl h
  unfold subcirc_list_remove
  by_cases hidc : id < sl.capacity
  · simp only [hidc, if_true, bind, Except.bind, rdp_ok sl.list id (by omega)]
    by_cases hocc : (sl.list.getD id none).isSome
    · have hne : sl.list.getD id none ≠ none := by
        intro hn; rw [hn] at hocc; simp at hocc
      have hpos := occupied_pos_of_slot sl.list id hne
      have hdec := occupied_set_none sl.list id (by omega) hne
      have hnpos : ((sl.num_elements : Int) - 1 ≥ 0) := by
        rw [hnum]; unfold occupied; omega
      simp only [hocc, if_true, wrp_ok sl.list id _ (by omega), tor_assert, hnpos, decide_True,
        pure, Except.pure]
      by_cases hz : sl.num_elements - 1 = 0
      · simp only [hz, if_true]; exact ⟨_, rfl⟩
      · simp only [hz, if_false]
        by_cases hidm : (id : Int) = sl.max_index
        · rcases hmax with ⟨h1, h2⟩ | ⟨h1, h2, h3⟩
          · exact absurd (h2 id) hne
          · have hmlt : sl.max_index.toNat < sl.list.length := by omega
            have hex : ∃ j, j ≤ sl.max_index.toNat ∧ (sl.list.set id none).getD j none ≠ none := by
              by_contra hcon
              push_neg at hcon
              have hall : ∀ i, (sl.list.set id none).getD i none = none := by
                intro i
                by_cases hi : i ≤ sl.max_index.toNat
                · exact hcon i hi
                · rw [getD_set_eq _ _ _ _ (by omega : id < sl.list.length)]
                  have : id ≠ i := by omega
                  simp only [this, if_false]
                  exact h3 i (by omega)
              have : ((sl.list.set id none).filter Option.isSome).length = 0 := by
                by_contra hnz
                obtain ⟨x, hx⟩ := List.exists_mem_of_length_pos (Nat.pos_of_ne_zero hnz)
                obtain ⟨hx1, hx2⟩ := List.mem_filter.mp hx
                obtain ⟨n, hn, hnx⟩ := List.getElem_of_mem hx1
                have := hall n
                rw [List.getD_eq_getElem?_getD, List.getElem?_eq_getElem hn, hnx] at this
                simp only [Option.getD_some] at this
                rw [this] at hx2; simp at hx2
              rw [hnum] at hz; unfold occupied at hz; omega
            obtain ⟨r, hr, -, -, -⟩ := remove_scan_ok (sl.list.set id none)
              (sl.max_index.toNat + 1) sl.max_index.toNat (by simpa using hmlt) (le_refl _) hex
            have e : ((sl.max_index.toNat : Nat) : Int) = sl.max_index := Int.toNat_of_nonneg h1
            rw [e] at hr
            have hr0 : ((r : Int) ≥ 0) := Int.ofNat_nonneg _
            simp only [hidm, if_true, hr, hr0, decide_True]
            exact ⟨_, rfl⟩
        · simp only [hidm, if_false]; exact ⟨_, rfl⟩
    · simp only [hocc, Bool.false_eq_true, if_false, pure, Except.pure]; exact ⟨_, rfl⟩
  · simp only [hidc, if_false, pure, Except.pure]; exact ⟨_, rfl⟩

/-- C5: for every sub-circuit list reached from `subcirc_list_new` by
`subcirc_list_add` (to an empty slot with `id < MAX_SUBCIRCS`),
`subcirc_list_remove` (of any id) and `subcirc_list_clear`: `num_elements` is
the number of occupied slots, `max_index` is the greatest occupied index (or
`-1` when no slot is occupied), and `capacity` does not exceed
`MAX_SUBCIRCS`; on such a list these operations return (no assertion
fails). -/
theorem C5_subcirc_list_invariant (sl : subcirc_list_t) (h : ListReachable sl) :
    sl.num_elements = occupied sl ∧ max_index_ok sl ∧ sl.capacity ≤ MAX_SUBCIRCS ∧
    (∀ id, ∃ sl', subcirc_list_remove sl id = .ok sl') ∧
    (∀ subcirc id, id < MAX_SUBCIRCS → sl.list.getD id none = none →
      ∃ sl', subcirc_list_add sl subcirc id = .ok sl') := by
  obtain ⟨hcap, -, hnum, hmax, -⟩ := list_invariant sl h
  exact ⟨hnum, hmax, le_of_eq hcap, subcirc_list_remove_total sl h,
    subcirc_list_add_total sl h⟩

/-- C5 at the list obtained by adding at the indices 0, 3 and 1 and then
removing index 3. -/
theorem C5_subcirc_list_invariant_witness :
    ListReachable list_after_remove ∧
    (list_after_remove.num_elements = occupied list_after_remove ∧
      max_index_ok list_after_remove ∧ list_after_remove.capacity ≤ MAX_SUBCIRCS ∧
      (∀ id, ∃ sl', subcirc_list_remove list_after_remove id = .ok sl') ∧
      (∀ subcirc id, id < MAX_SUBCIRCS → list_after_remove.list.getD id none = none →
        ∃ sl', subcirc_list_add list_after_remove subcirc id = .ok sl')) :=
  have hr : ListReachable list_after_remove :=
    ListReachable.remove
      { list := [some 10, some 12, none, some 11, none], capacity := 5, num_elements := 3,
        max_index := 3 } _ 3
      (ListReachable.add
        { list := [some 10, none, none, some 11, none], capacity := 5, num_elements := 2,
          max_index := 3 } _ 12 1
        (ListReachable.add
          { list := [some 10, none, none, none, none], capacity := 5, num_elements := 1,
            max_index := 0 } _ 11 3
          (ListReachable.add subcirc_list_new _ 10 0 ListReachable.new (by decide) (by decide)
            (by decide))
          (by decide) (by decide) (by decide))
        (by decide) (by decide) (by decide))
      (by decide)
  ⟨hr, C5_subcirc_list_invariant list_after_remove hr⟩

theorem get_subcirc_set_split_data (w : World) (h : Nat) (x : split_data_t) (p : Nat) :
    get_subcirc (set_split_data w h x) p = get_subcirc w p := rfl

theorem queue_ids_nil_of_wf (idBytes : Nat) (q : List split_instruction_t)
    (hwf : ∀ inst ∈ q, WFInst idBytes inst) (hid : 1 ≤ idBytes)
    (hnil : queue_ids idBytes q = []) : q = [] := by
  cases q with
  | nil => rfl
  | cons inst rest =>
    exfalso
    obtain ⟨id, q', -, hq, -, -⟩ := get_next_id_ok idBytes hid inst rest
      (hwf inst (List.mem_cons_self _ _))
    rw [hnil] at hq
    cases hq

/-- One round at the merge point: `split_data_get_next_subcirc` followed by
`split_data_used_subcirc`. -/
theorem pick_round (idBytes : Nat) (generate : World → Nat → cell_direction_t → Run World)
    (hid : 1 ≤ idBytes) (h : Nat) (d : cell_direction_t) (w : World) (sd : split_data_t)
    (hsd : get_split_data w h = .ok sd) (hcl : sd.split_data_client = none)
    (hnm : sd.marked_for_close = false) (hst : next_subcirc sd d = none)
    (hwf : ∀ inst ∈ instruction sd d, WFInst idBytes inst)
    (id : Nat) (ids : List Nat) (hids : queue_ids idBytes (instruction sd d) = id :: ids)
    (hname : names_subcirc w sd.subcircs id) :
    ∃ w1 sd1 sd2, split_data_get_next_subcirc idBytes generate w h d
        = .ok (sd.subcircs.list.getD id none, w1) ∧
      (sd.subcircs.list.getD id none).isSome = true ∧
      get_split_data w1 h = .ok sd1 ∧
      get_split_data (set_split_data w1 h (split_data_used_subcirc sd1 d)) h = .ok sd2 ∧
      sd2 = split_data_used_subcirc sd1 d ∧
      w1.subcircuits = w.subcircuits ∧
      sd2.split_data_client = none ∧ sd2.marked_for_close = false ∧ next_subcirc sd2 d = none ∧
      (∀ inst ∈ instruction sd2 d, WFInst idBytes inst) ∧
      queue_ids idBytes (instruction sd2 d) = ids ∧ sd2.subcircs = sd.subcircs ∧
      instruction sd2 (other_direction d) = instruction sd (other_direction d) ∧
      next_subcirc sd2 (other_direction d) = next_subcirc sd (other_direction d) ∧
      (instruction sd2 d).length ≤ (instruction sd d).length := by
  have hlt := get_split_data_lt w h sd hsd
  cases hq : instruction sd d with
  | nil => rw [hq] at hids; cases hids
  | cons inst rest =>
    rw [hq] at hwf hids
    obtain ⟨id', q', hnext, hqids, hq', hcons⟩ := get_next_id_ok idBytes hid inst rest
      (hwf inst (List.mem_cons_self _ _))
    rw [hids] at hqids
    injection hqids with h1 h2
    subst h1
    obtain ⟨hcap, p, sub, hslot, hsub, hcirc⟩ := hname
    have hgetD : sd.subcircs.list.getD id none = some p := by
      rw [List.getD_eq_getElem?_getD, ← List.get?_eq_getElem?, hslot]; rfl
    have hrdp : rdp sd.subcircs.list id = .ok (some p) := by
      unfold rdp; rw [hslot]
    have hsubc : (set_instruction sd d q').subcircs = sd.subcircs := by cases d <;> rfl
    have hngen : ¬ (q'.length ≠ (inst :: rest).length ∧ sd.split_data_client.isSome = true) := by
      rw [hcl]; simp
    refine ⟨set_split_data (set_split_data w h (set_instruction sd d q')) h
        (set_next_subcirc (set_instruction sd d q') d (some p)),
      set_next_subcirc (set_instruction sd d q') d (some p),
      split_data_used_subcirc (set_next_subcirc (set_instruction sd d q') d (some p)) d,
      ?_, by rw [hgetD]; rfl, ?_, ?_, rfl, rfl, ?_, ?_, ?_, ?_, ?_, ?_, ?_, ?_, ?_⟩
    · unfold split_data_get_next_subcirc
      simp only [hsd, bind, Except.bind, hnm, Bool.false_eq_true, if_false, hst, hq, hnext, hngen,
        pure, Except.pure, get_set_split_data w h _ hlt, subcirc_list_get, tor_assert, hsubc, hcap,
        decide_True, if_true, hrdp, Option.isSome_some, get_subcirc_set_split_data, hsub, hcirc,
        hgetD]
    · exact get_set_split_data _ _ _ (by simpa [set_split_data] using hlt)
    · exact get_set_split_data _ _ _ (by simpa [set_split_data] using hlt)
    · cases d <;> exact hcl
    · cases d <;> exact hnm
    · cases d <;> rfl
    · have : instruction (split_data_used_subcirc
          (set_next_subcirc (set_instruction sd d q') d (some p)) d) d = q' := by
        cases d <;> rfl
      rw [this]
      rcases hq' with hq' | ⟨inst', hq', hwf'⟩
      · rw [hq']; exact fun x hx => hwf x (List.mem_cons_of_mem _ hx)
      · rw [hq']
        intro x hx
        rcases List.mem_cons.mp hx with hx | hx
        · rw [hx]; exact hwf'
        · exact hwf x (List.mem_cons_of_mem _ hx)
    · have : instruction (split_data_used_subcirc
          (set_next_subcirc (set_instruction sd d q') d (some p)) d) d = q' := by
        cases d <;> rfl
      rw [this]; exact h2.symm
    · cases d <;> rfl
    · cases d <;> rfl
    · cases d <;> rfl
    · have : instruction (split_data_used_subcirc
          (set_next_subcirc (set_instruction sd d q') d (some p)) d) d = q' := by
        cases d <;> rfl
      rw [this]
      rcases hq' with hq' | ⟨inst', hq', -⟩
      · rw [hq']; simp
      · rw [hq']; simp

/-- C2: at the merge point (no client part, hence no replenishment), for a
session that is not marked for close, has no sticky pick in direction `d`
and whose queue `instruction_d` holds well-formed instructions `I1..Ik` whose
IDs all name occupied slots: for every `n` up to the total number of IDs,
`n` rounds of `split_data_get_next_subcirc(d)` followed by
`split_data_used_subcirc(d)` return, and select exactly the sub-circuits
stored at the first `n` IDs of `I1 ++ ... ++ Ik`, in that order; the IDs left
in the queue are the remaining ones, the other direction is untouched. -/
theorem C2_merge_point_order (idBytes : Nat)
    (generate : World → Nat → cell_direction_t → Run World)
    (hid : idBytes = 1 ∨ idBytes = 2) (h : Nat) (d : cell_direction_t) (n : Nat) (w : World)
    (sd : split_data_t)
    (hsd : get_split_data w h = .ok sd) (hcl : sd.split_data_client = none)
    (hnm : sd.marked_for_close = false) (hst : next_subcirc sd d = none)
    (hwf : ∀ inst ∈ instruction sd d, WFInst idBytes inst)
    (hname : ∀ id ∈ queue_ids idBytes (instruction sd d), names_subcirc w sd.subcircs id)
    (hn : n ≤ (queue_ids idBytes (instruction sd d)).length) :
    ∃ w' sd', pick_rounds idBytes generate h d n w
        = .ok (((queue_ids idBytes (instruction sd d)).take n).map
                (fun id => sd.subcircs.list.getD id none), w') ∧
      (∀ id ∈ (queue_ids idBytes (instruction sd d)).take n,
        (sd.subcircs.list.getD id none).isSome = true) ∧
      get_split_data w' h = .ok sd' ∧
      queue_ids idBytes (instruction sd' d) = (queue_ids idBytes (instruction sd d)).drop n ∧
      next_subcirc sd' d = none ∧ sd'.subcircs = sd.subcircs ∧
      instruction sd' (other_direction d) = instruction sd (other_direction d) ∧
      next_subcirc sd' (other_direction d) = next_subcirc sd (other_direction d) := by
  have hid1 : 1 ≤ idBytes := by omega
  induction n generalizing w sd with
  | zero =>
    exact ⟨w, sd, by simp [pick_rounds], by simp, hsd, by simp, hst, rfl, rfl, rfl⟩
  | succ n ih =>
    cases hids : queue_ids idBytes (instruction sd d) with
    | nil => rw [hids] at hn; simp at hn
    | cons id ids =>
      rw [hids] at hn hname
      obtain ⟨w1, sd1, sd2, hrun, hsome, hsd1, hsd2, hsd2e, hsubs, hcl2, hnm2, hst2, hwf2, hids2,
        hsc2, hoq, hon, -⟩ := pick_round idBytes generate hid1 h d w sd hsd hcl hnm hst hwf id ids hids
          (hname id (List.mem_cons_self _ _))
      have hname2 : ∀ id' ∈ queue_ids idBytes (instruction sd2 d),
          names_subcirc (set_split_data w1 h (split_data_used_subcirc sd1 d)) sd2.subcircs id' := by
        intro id' hmem
        rw [hids2] at hmem
        obtain ⟨hc, p, sub, h1, h2, h3⟩ := hname id' (List.mem_cons_of_mem _ hmem)
        refine ⟨by rw [hsc2]; exact hc, p, sub, by rw [hsc2]; exact h1, ?_, h3⟩
        unfold get_subcirc at h2 ⊢
        simp only [set_split_data, hsubs]
        exact h2
      obtain ⟨w', sd', hrun', hsome', hsd', hq', hst', hsc', hoq', hon'⟩ :=
        ih (set_split_data w1 h (split_data_used_subcirc sd1 d)) sd2 hsd2 hcl2 hnm2 hst2 hwf2
          hname2 (by rw [hids2]; simpa using hn)
      refine ⟨w', sd', ?_, ?_, hsd', ?_, hst', by rw [hsc', hsc2], by rw [hoq', hoq],
        by rw [hon', hon]⟩
      · simp only [pick_rounds, bind, Except.bind, hrun, hsd1, hrun', pure, Except.pure, hids2,
          hsc2, List.take_succ_cons, List.map_cons]
      · intro id' hmem
        simp only [List.take_succ_cons] at hmem
        rcases List.mem_cons.mp hmem with hm | hm
        · rw [hm]; exact hsome
        · have := hsome' id' (by rw [hids2]; exact hm)
          rw [hsc2] at this; exact this
      · rw [hq', hids2]; rfl

/-- C3 (evaluation at the failing input): three SET_COOKIE cells carrying the
same cookie arrive on circuit 0, on circuit 1 and on circuit 0 again.  Before
the third cell the cookie is indexed under session 1; afterwards it is
indexed under session 0, and session 1, the previous holder, still has
`cookie_state = VALID`. -/
theorem C3_collision_keeps_previous_holder_valid :
    split_process_set_cookie 1 world0 0 cookieA false = .ok (0, world1) ∧
    split_process_set_cookie 1 world1 1 cookieA false = .ok (0, world2) ∧
    split_get_split_data_by_cookie world2 cookieA = .ok (some 1) ∧
    split_process_set_cookie 1 world2 0 cookieA false = .ok (0, world3) ∧
    split_get_split_data_by_cookie world3 cookieA = .ok (some 0) ∧
    (get_split_data world3 1).map (fun sd => sd.cookie_state)
      = .ok split_cookie_state_t.SPLIT_COOKIE_STATE_VALID := by
  decide

theorem get_subcirc_of_append (w w' : World) (p : Nat) (sub : subcircuit_t)
    (x : Option subcircuit_t) (hs : w'.subcircuits = w.subcircuits ++ [x])
    (hg : get_subcirc w p = .ok sub) : get_subcirc w' p = .ok sub := by
  have hlt := get_subcirc_lt w p sub hg
  unfold get_subcirc at hg ⊢
  rw [hs]
  simp only [List.get?_eq_getElem?] at hg ⊢
  rw [List.getElem?_append_left hlt]
  exact hg

theorem get_subcirc_of_new (w w' : World) (x : subcircuit_t)
    (hs : w'.subcircuits = w.subcircuits ++ [some x]) :
    get_subcirc w' w.subcircuits.length = .ok x := by
  unfold get_subcirc
  rw [hs]
  simp [List.get?_eq_getElem?]

/-- C4: at the middle, a SET_COOKIE cell that arrives on a circuit without a
session and is accepted creates the session `h` in which that circuit is
sub-circuit 0 (the session then holds exactly the ID 0, its base is the
circuit, and COOKIE_SET(ok, 0) is sent); and a JOIN cell that finds the
session `h` by its cookie and succeeds while `h` holds exactly the IDs
`0 .. k-1` (no sub-circuit having been removed) stores the joining circuit at
ID `k`, with `k < MAX_SUBCIRCS`, answers JOINED(ok, k), and leaves the session
holding exactly the IDs `0 .. k`.  So the k-th successful JOIN gets ID `k`. -/
theorem C4_ids_in_join_order (idBytes : Nat) (w w' : World) (circ : Nat) (payload : List Nat)
    (fails : Bool) (oc : or_circuit_t)
    (hc : get_circ w circ = .ok oc) (hfresh : oc.split_data = none) :
    (split_check_or_circuit oc = 0 →
      split_process_set_cookie idBytes w circ payload fails = .ok (0, w') →
      holds_ids w' w.split_datas.length 1 ∧
      ∃ sd' p sub, get_split_data w' w.split_datas.length = .ok sd' ∧ sd'.base = some circ ∧
        sd'.subcircs.list.getD 0 none = some p ∧ get_subcirc w' p = .ok sub ∧
        sub.circ = some circ ∧ sub.id = 0 ∧
        (get_circ w' circ).map (fun c => (c.split_data, c.subcirc))
          = .ok (some w.split_datas.length, some p) ∧
        w'.sent = w.sent ++ [⟨circ, relay_command_t.RELAY_COMMAND_SPLIT_COOKIE_SET,
          0x01 :: subcirc_id_wire idBytes 0⟩]) ∧
    (∀ h k, split_get_split_data_by_cookie w payload = .ok (some h) → holds_ids w h k →
      split_process_join idBytes w circ payload fails = .ok (0, w') →
      k < MAX_SUBCIRCS ∧ holds_ids w' h (k + 1) ∧
      ∃ sd' p sub, get_split_data w' h = .ok sd' ∧
        sd'.subcircs.list.getD k none = some p ∧ get_subcirc w' p = .ok sub ∧
        sub.circ = some circ ∧ sub.id = k ∧
        (get_circ w' circ).map (fun c => (c.split_data, c.subcirc)) = .ok (some h, some p) ∧
        w'.sent = w.sent ++ [⟨circ, relay_command_t.RELAY_COMMAND_SPLIT_JOINED,
          0x01 :: subcirc_id_wire idBytes k⟩]) := by
  have hclt := get_circ_lt w circ oc hc
  constructor
  · intro hchk hrun
    obtain ⟨subcircs, sd', hadd, hsd', hsub, hcl, hbase, hsubs, hsent, hcirc⟩ :=
      set_cookie_step idBytes w w' circ payload fails oc hc hfresh hchk hrun
    obtain ⟨-, -, hreach, hnum, hslot, hothers⟩ :=
      subcirc_list_add_inv subcirc_list_new subcircs ListReachable.new _ 0 hadd
    have hnew := get_subcirc_of_new w w' _ hsubs
    refine ⟨⟨sd', hsd', hcl, by rw [hsub]; exact hreach, by rw [hsub, hnum]; rfl, ?_, ?_⟩,
      sd', w.subcircuits.length, _, hsd', hbase, by rw [hsub]; exact hslot, hnew, rfl, rfl,
      by rw [hcirc]; rfl, hsent⟩
    · intro i hi
      have : i = 0 := by omega
      subst this
      exact ⟨w.subcircuits.length, _, by rw [hsub]; exact hslot, hnew, rfl⟩
    · intro i hi
      rw [hsub, hothers i (by omega)]
      exact getD_replicate_none _ i
  · intro h k hfound hholds hrun
    obtain ⟨sd, hsd, hcl, hreach, hnum, hlow, hhigh⟩ := hholds
    obtain ⟨subcircs, hadd, hw'⟩ :=
      join_step idBytes w w' circ payload fails oc h sd hc hfresh hfound hsd hcl hrun
    rw [hnum] at hadd hw'
    obtain ⟨hk, -, hreach', hnum', hslot, hothers⟩ :=
      subcirc_list_add_inv sd.subcircs subcircs hreach _ k hadd
    have hlt := get_split_data_lt w h sd hsd
    have hsubs : w'.subcircuits = w.subcircuits ++
        [some ⟨some circ, k, subcirc_state_t.SUBCIRC_STATE_ADDED, cell_buffer_new⟩] := by
      rw [hw']; rfl
    have hsd' : get_split_data w' h
        = .ok (split_data_reset_next_subcirc { sd with subcircs := subcircs }) := by
      rw [hw']
      exact get_set_split_data { w with subcircuits := w.subcircuits ++
        [some ⟨some circ, k, subcirc_state_t.SUBCIRC_STATE_ADDED, cell_buffer_new⟩] } h _ hlt
    have hnew := get_subcirc_of_new w w' _ hsubs
    refine ⟨hk, ⟨_, hsd', hcl, hreach', by rw [← hnum, ← hnum']; rfl, ?_, ?_⟩,
      _, w.subcircuits.length, _, hsd', hslot, hnew, rfl, rfl, ?_, by rw [hw']⟩
    · intro i hi
      by_cases hik : i = k
      · subst hik
        exact ⟨w.subcircuits.length, _, hslot, hnew, rfl⟩
      · obtain ⟨p, sub, h1, h2, h3⟩ := hlow i (by omega)
        exact ⟨p, sub, (hothers i hik).trans h1, get_subcirc_of_append w w' p sub _ hsubs h2, h3⟩
    · intro i hi
      exact (hothers i (by omega)).trans (hhigh i (by omega))
    · rw [hw']
      unfold get_circ
      simp [set_circ, set_split_data, List.get?_eq_getElem?, List.getElem?_set, hclt, Except.map]

theorem holds_ids_world1 : holds_ids world1 0 1 := by
  refine ⟨ex_session 0 split_cookie_state_t.SPLIT_COOKIE_STATE_VALID (ex_list1 0) none [] [],
    rfl, rfl, ?_, rfl, ?_, ?_⟩
  · exact ListReachable.add subcirc_list_new (ex_list1 0) 0 0 ListReachable.new (by decide)
      (by decide) (by decide)
  · intro i hi
    have : i = 0 := by omega
    subst this
    exact ⟨0, ex_sub 0 0, rfl, rfl, rfl⟩
  · intro i hi
    rcases i with _ | _ | _ | _ | _ | i
    · omega
    all_goals rfl

/-- C4 on a middle with three circuits: SET_COOKIE on circuit 0 creates
session 0 with circuit 0 at ID 0, and the first JOIN, on circuit 1, is stored
at ID 1 and answered with JOINED(ok, 1). -/
theorem C4_ids_in_join_order_witness :
    (holds_ids world1 0 1 ∧
      ∃ sd' p sub, get_split_data world1 0 = .ok sd' ∧ sd'.base = some 0 ∧
        sd'.subcircs.list.getD 0 none = some p ∧ get_subcirc world1 p = .ok sub ∧
        sub.circ = some 0 ∧ sub.id = 0 ∧
        (get_circ world1 0).map (fun c => (c.split_data, c.subcirc)) = .ok (some 0, some p) ∧
        world1.sent = world0.sent ++ [⟨0, relay_command_t.RELAY_COMMAND_SPLIT_COOKIE_SET,
          0x01 :: subcirc_id_wire 1 0⟩]) ∧
    (1 < MAX_SUBCIRCS ∧ holds_ids (world_joined none [] []) 0 (1 + 1) ∧
      ∃ sd' p sub, get_split_data (world_joined none [] []) 0 = .ok sd' ∧
        sd'.subcircs.list.getD 1 none = some p ∧
        get_subcirc (world_joined none [] []) p = .ok sub ∧
        sub.circ = some 1 ∧ sub.id = 1 ∧
        (get_circ (world_joined none [] []) 1).map (fun c => (c.split_data, c.subcirc))
          = .ok (some 0, some p) ∧
        (world_joined none [] []).sent = world1.sent ++
          [⟨1, relay_command_t.RELAY_COMMAND_SPLIT_JOINED, 0x01 :: subcirc_id_wire 1 1⟩]) :=
  ⟨(C4_ids_in_join_order 1 world0 world1 0 cookieA false (ex_circ none none) rfl rfl).1
      (by decide) (by decide),
   (C4_ids_in_join_order 1 world1 (world_joined none [] []) 1 cookieA false (ex_circ none none)
      rfl rfl).2 0 1 (by decide) holds_ids_world1 (by decide)⟩

/-- C2 at a session holding the sub-circuits 0 and 1 whose OUT queue holds
one instruction with the IDs 0, 1, 1: three rounds select the sub-circuits
0, 1, 1 in this order and empty the queue. -/
theorem C2_merge_point_order_witness :
    ∃ w' sd', pick_rounds 1 no_generate 0 cell_direction_t.CELL_DIRECTION_OUT 3
          (world_joined none [ex_inst [0, 1, 1] 0] [])
        = .ok ([some 0, some 1, some 1], w') ∧
      (∀ id ∈ [0, 1, 1], (ex_list2.list.getD id none).isSome = true) ∧
      get_split_data w' 0 = .ok sd' ∧
      queue_ids 1 sd'.instruction_out = [] ∧
      sd'.next_subcirc_out = none ∧ sd'.subcircs = ex_list2 ∧
      sd'.instruction_in = [] ∧ sd'.next_subcirc_in = none :=
  C2_merge_point_order 1 no_generate (Or.inl rfl) 0 cell_direction_t.CELL_DIRECTION_OUT 3
    (world_joined none [ex_inst [0, 1, 1] 0] [])
    (ex_session 0 split_cookie_state_t.SPLIT_COOKIE_STATE_VALID ex_list2 none
      [ex_inst [0, 1, 1] 0] [])
    rfl rfl rfl rfl
    (by
      intro inst hmem
      rw [List.mem_singleton.mp hmem]
      exact ⟨rfl, rfl, rfl, by decide⟩)
    (by
      intro id hmem
      have hmem2 : id ∈ [0, 1, 1] := hmem
      simp only [List.mem_cons, List.mem_singleton, List.not_mem_nil, or_false, or_self] at hmem2
      rcases hmem2 with h0 | h1
      · subst h0
        exact ⟨by decide, 0, ex_sub 0 0, rfl, rfl, rfl⟩
      · subst h1
        exact ⟨by decide, 1, ex_sub 1 1, rfl, rfl, rfl⟩)
    (by decide)

/-- C10 at a session holding the sub-circuits 0 and 1 whose OUT queue holds
one instruction with the IDs 0, 1, 1: the first call picks sub-circuit 0 and
consumes ID 0; the second call returns sub-circuit 0 again and changes
nothing. -/
theorem C10_sticky_pick_witness :
    split_data_get_next_subcirc 1 no_generate (world_joined none [ex_inst [0, 1, 1] 0] []) 0
        cell_direction_t.CELL_DIRECTION_OUT
      = .ok (some 0, world_joined (some 0) [ex_inst [0, 1, 1] 1] []) ∧
    (split_data_get_next_subcirc 1 no_generate (world_joined (some 0) [ex_inst [0, 1, 1] 1] []) 0
        cell_direction_t.CELL_DIRECTION_OUT
      = .ok (some 0, world_joined (some 0) [ex_inst [0, 1, 1] 1] []) ∧
    next_subcirc (split_data_used_subcirc
      (ex_session 0 split_cookie_state_t.SPLIT_COOKIE_STATE_VALID ex_list2 (some 0)
        [ex_inst [0, 1, 1] 1] []) cell_direction_t.CELL_DIRECTION_OUT)
      cell_direction_t.CELL_DIRECTION_OUT = none ∧
    next_subcirc (split_data_used_subcirc
      (ex_session 0 split_cookie_state_t.SPLIT_COOKIE_STATE_VALID ex_list2 (some 0)
        [ex_inst [0, 1, 1] 1] []) cell_direction_t.CELL_DIRECTION_OUT)
      (other_direction cell_direction_t.CELL_DIRECTION_OUT)
      = next_subcirc (ex_session 0 split_cookie_state_t.SPLIT_COOKIE_STATE_VALID ex_list2 (some 0)
        [ex_inst [0, 1, 1] 1] []) (other_direction cell_direction_t.CELL_DIRECTION_OUT) ∧
    (split_data_used_subcirc
      (ex_session 0 split_cookie_state_t.SPLIT_COOKIE_STATE_VALID ex_list2 (some 0)
        [ex_inst [0, 1, 1] 1] []) cell_direction_t.CELL_DIRECTION_OUT).instruction_in = [] ∧
    (split_data_used_subcirc
      (ex_session 0 split_cookie_state_t.SPLIT_COOKIE_STATE_VALID ex_list2 (some 0)
        [ex_inst [0, 1, 1] 1] []) cell_direction_t.CELL_DIRECTION_OUT).instruction_out
      = [ex_inst [0, 1, 1] 1]) :=
  ⟨by decide,
   C10_sticky_pick 1 no_generate (world_joined none [ex_inst [0, 1, 1] 0] [])
    (world_joined (some 0) [ex_inst [0, 1, 1] 1] []) 0 cell_direction_t.CELL_DIRECTION_OUT
    (some 0)
    (ex_session 0 split_cookie_state_t.SPLIT_COOKIE_STATE_VALID ex_list2 none
      [ex_inst [0, 1, 1] 0] [])
    (ex_session 0 split_cookie_state_t.SPLIT_COOKIE_STATE_VALID ex_list2 (some 0)
      [ex_inst [0, 1, 1] 1] [])
    rfl rfl (by decide) rfl rfl⟩

/-- C20: for a session that is marked for close (its list built by the list
operations), `split_data_get_next_subcirc(d)` returns, for either direction,
the sub-circuit stored at ID 0 if that slot is occupied and nothing
otherwise, and it leaves the whole state, so both instruction queues and both
sticky picks, unchanged. -/
theorem C20_marked_returns_slot_zero (idBytes : Nat)
    (generate : World → Nat → cell_direction_t → Run World) (w : World) (h : Nat)
    (d : cell_direction_t) (sd : split_data_t) (hsd : get_split_data w h = .ok sd)
    (hm : sd.marked_for_close = true) (hr : ListReachable sd.subcircs) :
    split_data_get_next_subcirc idBytes generate w h d
      = .ok (sd.subcircs.list.getD 0 none, w) ∧
    ((sd.subcircs.list.getD 0 none).isSome = false →
      split_data_get_next_subcirc idBytes generate w h d = .ok (none, w)) := by
  obtain ⟨hcap, hlen, -, -, -⟩ := list_invariant sd.subcircs hr
  have h0 : 0 < sd.subcircs.capacity := by rw [hcap]; decide
  have hrun : split_data_get_next_subcirc idBytes generate w h d
      = .ok (sd.subcircs.list.getD 0 none, w) := by
    unfold split_data_get_next_subcirc subcirc_list_get
    simp only [hsd, bind, Except.bind, hm, if_true, tor_assert, h0, decide_True,
      rdp_ok sd.subcircs.list 0 (by omega), pure, Except.pure]
  refine ⟨hrun, fun hn => ?_⟩
  rw [hrun]
  cases hx : sd.subcircs.list.getD 0 none with
  | none => rfl
  | some p => rw [hx] at hn; cases hn

/-- C20 at a marked session holding the sub-circuits 0 and 1 with a pending
OUT instruction and a sticky OUT pick 1: the call returns sub-circuit 0 and
changes nothing. -/
theorem C20_marked_returns_slot_zero_witness :
    split_data_get_next_subcirc 1 no_generate (world_marked (some 1) [ex_inst [1, 1] 0] []) 0
        cell_direction_t.CELL_DIRECTION_OUT
      = .ok (some 0, world_marked (some 1) [ex_inst [1, 1] 0] []) :=
  (C20_marked_returns_slot_zero 1 no_generate (world_marked (some 1) [ex_inst [1, 1] 0] []) 0
    cell_direction_t.CELL_DIRECTION_OUT (ex_session_marked (some 1) [ex_inst [1, 1] 0] [])
    rfl rfl
    (ListReachable.add (ex_list1 0) ex_list2 1 1
      (ListReachable.add subcirc_list_new (ex_list1 0) 0 0 ListReachable.new (by decide)
        (by decide) (by decide))
      (by decide) (by decide) (by decide))).1

/-- C17 (evaluation at the failing input): after SET_COOKIE cells carrying
the same cookie on circuit 0, on circuit 1 and on circuit 0 again, session 1
has `cookie_state = VALID` and still stores that cookie, but it is not in the
cookie index: a lookup of its cookie returns session 0. -/
theorem C17_valid_session_missing_from_index :
    split_process_set_cookie 1 world0 0 cookieA false = .ok (0, world1) ∧
    split_process_set_cookie 1 world1 1 cookieA false = .ok (0, world2) ∧
    split_process_set_cookie 1 world2 0 cookieA false = .ok (0, world3) ∧
    (get_split_data world3 1).map (fun sd => (sd.cookie_state, sd.cookie))
      = .ok (split_cookie_state_t.SPLIT_COOKIE_STATE_VALID, cookieA) ∧
    split_get_split_data_by_cookie world3 cookieA = .ok (some 0) ∧
    world3.split_data_or_cookie_map = [0] := by
  decide

/-- C18 (evaluation at a refuting input): in `world2` session 1 has taken
over the cookie of session 0, whose `cookie_state` is INVALID.  A JOIN cell
carrying that cookie on circuit 2 is answered with JOINED(ok, 1) and circuit 2
becomes sub-circuit 1 of session 1. -/
theorem C18_join_after_collision_is_accepted :
    (get_split_data world2 0).map (fun sd => (sd.cookie_state, sd.cookie))
      = .ok (split_cookie_state_t.SPLIT_COOKIE_STATE_INVALID, cookieA) ∧
    (get_split_data world2 1).map (fun sd => (sd.cookie_state, sd.cookie))
      = .ok (split_cookie_state_t.SPLIT_COOKIE_STATE_VALID, cookieA) ∧
    split_process_join 1 world2 2 cookieA false = .ok (0, world2_joined) ∧
    world2_joined.sent.getLast? =
      some ⟨2, relay_command_t.RELAY_COMMAND_SPLIT_JOINED, [0x01, 1]⟩ ∧
    (get_circ world2_joined 2).map (fun c => c.split_data) = .ok (some 1) := by
  decide

/-- C18 (as amended): a JOIN cell on a circuit without a session is looked up
by the cookie it carries, whoever sent it.  If no session is indexed under the
cookie, JOINED(fail) is sent and nothing else changes: the circuit is attached
to no session.  If a session `h2` is indexed under it (after a collision, the
session that took the cookie over) and the call succeeds, the circuit is
attached to `h2` at the next ID `k`, JOINED(ok, k) is sent, and every other
session, in particular the previous holder of the cookie, is unchanged. -/
theorem C18_join_is_looked_up_by_cookie (idBytes : Nat) (w w' : World) (circ : Nat)
    (payload : List Nat) (fails : Bool) (oc : or_circuit_t)
    (hc : get_circ w circ = .ok oc) (hfresh : oc.split_data = none)
    (hnosub : oc.subcirc = none) (hlen : payload.length = SPLIT_COOKIE_LEN) :
    (split_get_split_data_by_cookie w payload = .ok none → fails = false →
      split_process_join idBytes w circ payload fails
        = .ok (0, { w with sent := w.sent ++
            [⟨circ, relay_command_t.RELAY_COMMAND_SPLIT_JOINED, [0x00]⟩] })) ∧
    (∀ h2 sd2, split_get_split_data_by_cookie w payload = .ok (some h2) →
      get_split_data w h2 = .ok sd2 → sd2.split_data_client = none →
      split_process_join idBytes w circ payload fails = .ok (0, w') →
      (get_circ w' circ).map (fun c => c.split_data) = .ok (some h2) ∧
      w'.sent = w.sent ++ [⟨circ, relay_command_t.RELAY_COMMAND_SPLIT_JOINED,
        0x01 :: subcirc_id_wire idBytes sd2.subcircs.num_elements⟩] ∧
      ∀ h1, h1 ≠ h2 → get_split_data w' h1 = get_split_data w h1) := by
  have hclt := get_circ_lt w circ oc hc
  constructor
  · intro hnone hf
    subst hf
    unfold split_process_join
    have hl : ¬ payload.length ≠ SPLIT_COOKIE_LEN := by simp [hlen]
    simp only [hl, if_false, hc, hfresh, hnosub, hnone, bind, Except.bind, tor_assert,
      Option.isNone_none, if_true, split_send_join_response, relay_send_command_from_edge,
      Bool.false_eq_true, pure, Except.pure, ne_eq, not_true_eq_false]
  · intro h2 sd2 hfound hsd hcl hrun
    obtain ⟨subcircs, -, hw'⟩ :=
      join_step idBytes w w' circ payload fails oc h2 sd2 hc hfresh hfound hsd hcl hrun
    refine ⟨?_, by rw [hw'], ?_⟩
    · rw [hw']
      unfold get_circ
      simp [set_circ, set_split_data, List.get?_eq_getElem?, List.getElem?_set, hclt, Except.map]
    · intro h1 hne
      rw [hw']
      unfold get_split_data
      simp [set_circ, set_split_data, List.get?_eq_getElem?, List.getElem?_set, Ne.symm hne]

/-- C18 at `world0` (no session indexed: JOINED(fail)) and at `world2` (the
cookie was taken over by session 1: the JOIN on circuit 2 joins session 1
and leaves session 0 as it was). -/
theorem C18_join_is_looked_up_by_cookie_witness :
    split_process_join 1 world0 0 cookieA false
      = .ok (0, { world0 with sent := world0.sent ++
          [⟨0, relay_command_t.RELAY_COMMAND_SPLIT_JOINED, [0x00]⟩] }) ∧
    ((get_circ world2_joined 2).map (fun c => c.split_data) = .ok (some 1) ∧
      world2_joined.sent = world2.sent ++ [⟨2, relay_command_t.RELAY_COMMAND_SPLIT_JOINED,
        0x01 :: subcirc_id_wire 1 1⟩] ∧
      ∀ h1, h1 ≠ 1 → get_split_data world2_joined h1 = get_split_data world2 h1) :=
  ⟨(C18_join_is_looked_up_by_cookie 1 world0 world0 0 cookieA false (ex_circ none none)
      rfl rfl rfl rfl).1 (by decide) rfl,
   (C18_join_is_looked_up_by_cookie 1 world2 world2_joined 2 cookieA false (ex_circ none none)
      rfl rfl rfl rfl).2 1
      (ex_session 1 split_cookie_state_t.SPLIT_COOKIE_STATE_VALID (ex_list1 1) none [] [])
      (by decide) rfl rfl (by decide)⟩

theorem subcirc_list_get_ok (sl : subcirc_list_t) (id : Nat) (hlen : sl.list.length = sl.capacity)
    (hid : id < sl.capacity) : subcirc_list_get sl id = .ok (sl.list.getD id none) := by
  unfold subcirc_list_get
  simp only [tor_assert, hid, decide_True, if_true, bind, Except.bind,
    rdp_ok sl.list id (by omega)]

theorem rr_next_found (idBytes : Nat) (sl : subcirc_list_t) (M : Nat)
    (hM : M < 2 ^ (8 * idBytes))
    (hget : ∀ id, id ≤ M → subcirc_list_get sl id = .ok (sl.list.getD id none)) :
    ∀ (d fuel c : Nat), c + 1 + d ≤ M →
      (∀ j, c < j → j < c + 1 + d → (sl.list.getD j none).isSome = false) →
      (sl.list.getD (c + 1 + d) none).isSome = true → d + 1 ≤ fuel →
      rr_next idBytes sl M fuel c = .ok (c + 1 + d) := by
  intro d
  induction d with
  | zero =>
    intro fuel c hle _ hocc hf
    obtain ⟨f, rfl⟩ : ∃ f, fuel = f + 1 := ⟨fuel - 1, by omega⟩
    have e1 : (c + 1) % (M + 1) % 2 ^ (8 * idBytes) = c + 1 := by
      rw [Nat.mod_eq_of_lt (show c + 1 < M + 1 by omega),
        Nat.mod_eq_of_lt (show c + 1 < 2 ^ (8 * idBytes) by omega)]
    have hn : (sl.list.getD (c + 1) none).isNone = false := by
      have := hocc
      simp only [Nat.add_zero] at this
      cases hx : sl.list.getD (c + 1) none with
      | none => rw [hx] at this; cases this
      | some v => rfl
    unfold rr_next
    simp only [e1, hget (c + 1) (by omega), bind, Except.bind, hn, Bool.false_eq_true,
      if_false, pure, Except.pure, Nat.add_zero]
  | succ d ih =>
    intro fuel c hle hemp hocc hf
    obtain ⟨f, rfl⟩ : ∃ f, fuel = f + 1 := ⟨fuel - 1, by omega⟩
    have e1 : (c + 1) % (M + 1) % 2 ^ (8 * idBytes) = c + 1 := by
      rw [Nat.mod_eq_of_lt (show c + 1 < M + 1 by omega),
        Nat.mod_eq_of_lt (show c + 1 < 2 ^ (8 * idBytes) by omega)]
    have hn : (sl.list.getD (c + 1) none).isNone = true := by
      have := hemp (c + 1) (by omega) (by omega)
      cases hx : sl.list.getD (c + 1) none with
      | none => rfl
      | some v => rw [hx] at this; cases this
    have hrec := ih f (c + 1) (by omega) (fun j h1 h2 => hemp j (by omega) (by omega))
      (by rw [show c + 1 + 1 + d = c + 1 + (d + 1) by omega]; exact hocc) (by omega)
    unfold rr_next
    simp only [e1, hget (c + 1) (by omega), bind, Except.bind, hn, if_true]
    rw [hrec]
    congr 1
    omega

theorem rr_next_wrap (idBytes : Nat) (sl : subcirc_list_t) (M fuel : Nat)
    (hget : ∀ id, id ≤ M → subcirc_list_get sl id = .ok (sl.list.getD id none))
    (h0 : (sl.list.getD 0 none).isSome = true) (hf : 1 ≤ fuel) :
    rr_next idBytes sl M fuel M = .ok 0 := by
  obtain ⟨f, rfl⟩ : ∃ f, fuel = f + 1 := ⟨fuel - 1, by omega⟩
  have hn : (sl.list.getD 0 none).isNone = false := by
    cases hx : sl.list.getD 0 none with
    | none => rw [hx] at h0; cases h0
    | some v => rfl
  unfold rr_next
  simp only [Nat.mod_self, Nat.zero_mod, hget 0 (Nat.zero_le _), bind, Except.bind, hn,
    Bool.false_eq_true, if_false, pure, Except.pure]

/-- The occupied indices below `m`, in ascending order: consecutive entries
have no occupied index between them. -/
theorem filter_range_structure (p : Nat → Bool) (m : Nat) :
    List.Sorted (· < ·) ((List.range m).filter p) ∧
    (∀ j, j ∈ (List.range m).filter p ↔ j < m ∧ p j = true) := by
  refine ⟨(List.sorted_lt_range m).filter _, fun j => ?_⟩
  simp [List.mem_filter]

theorem sorted_getD_lt (e : List Nat) (hs : List.Sorted (· < ·) e) (i j : Nat) (hij : i < j)
    (hj : j < e.length) : e.getD i 0 < e.getD j 0 := by
  have hi : i < e.length := by omega
  rw [List.getD_eq_getElem _ _ hi, List.getD_eq_getElem _ _ hj]
  exact List.pairwise_iff_getElem.mp hs i j hi hj hij

theorem sorted_getD_inj (e : List Nat) (hs : List.Sorted (· < ·) e) (i j : Nat)
    (hi : i < e.length) (hj : j < e.length) (h : e.getD i 0 = e.getD j 0) : i = j := by
  rcases Nat.lt_trichotomy i j with hlt | heq | hgt
  · have := sorted_getD_lt e hs i j hlt hj; omega
  · exact heq
  · have := sorted_getD_lt e hs j i hgt hi; omega

theorem mem_getD (e : List Nat) (x : Nat) (hx : x ∈ e) : ∃ t, t < e.length ∧ e.getD t 0 = x := by
  obtain ⟨t, ht, rfl⟩ := List.getElem_of_mem hx
  exact ⟨t, ht, List.getD_eq_getElem _ _ ht⟩

theorem getD_mem (e : List Nat) (t : Nat) (ht : t < e.length) : e.getD t 0 ∈ e := by
  rw [List.getD_eq_getElem _ _ ht]
  exact List.getElem_mem _

theorem rr_step (idBytes : Nat) (sl : subcirc_list_t) (M fuel : Nat)
    (hM : M < 2 ^ (8 * idBytes))
    (hget : ∀ id, id ≤ M → subcirc_list_get sl id = .ok (sl.list.getD id none))
    (h0 : (sl.list.getD 0 none).isSome = true) (hMocc : (sl.list.getD M none).isSome = true)
    (hfuel : M + 1 ≤ fuel) (e : List Nat)
    (he : e = (List.range (M + 1)).filter (fun i => (sl.list.getD i none).isSome)) :
    0 < e.length ∧ e.getD 0 0 = 0 ∧ e.getD (e.length - 1) 0 = M ∧
    ∀ i, i < e.length →
      rr_next idBytes sl M fuel (e.getD i 0) = .ok (e.getD ((i + 1) % e.length) 0) := by
  obtain ⟨hs, hmem⟩ := filter_range_structure (fun i => (sl.list.getD i none).isSome) (M + 1)
  rw [← he] at hs hmem
  have hm0 : 0 ∈ e := (hmem 0).2 ⟨by omega, h0⟩
  have hmM : M ∈ e := (hmem M).2 ⟨by omega, hMocc⟩
  have hpos : 0 < e.length := List.length_pos_of_mem hm0
  have hle : ∀ t, t < e.length → e.getD t 0 ≤ M := by
    intro t ht
    have := (hmem _).1 (getD_mem e t ht)
    omega
  have hocc : ∀ t, t < e.length → (sl.list.getD (e.getD t 0) none).isSome = true := by
    intro t ht
    exact ((hmem _).1 (getD_mem e t ht)).2
  have hfirst : e.getD 0 0 = 0 := by
    obtain ⟨t, ht, hte⟩ := mem_getD e 0 hm0
    rcases Nat.eq_zero_or_pos t with h | h
    · rw [h] at hte; exact hte
    · have := sorted_getD_lt e hs 0 t h ht
      omega
  have hlast : e.getD (e.length - 1) 0 = M := by
    obtain ⟨t, ht, hte⟩ := mem_getD e M hmM
    rcases Nat.lt_or_ge t (e.length - 1) with h | h
    · have h1 := sorted_getD_lt e hs t (e.length - 1) h (by omega)
      have h2 := hle (e.length - 1) (by omega)
      omega
    · have : t = e.length - 1 := by omega
      rw [← this]; exact hte
  refine ⟨hpos, hfirst, hlast, ?_⟩
  intro i hi
  rcases Nat.lt_or_ge (i + 1) e.length with hnext | hnext
  · rw [Nat.mod_eq_of_lt hnext]
    have hlt := sorted_getD_lt e hs i (i + 1) (by omega) hnext
    have hle' := hle (i + 1) hnext
    have key := rr_next_found idBytes sl M hM hget (e.getD (i + 1) 0 - e.getD i 0 - 1) fuel
      (e.getD i 0) (by omega)
      (by
        intro j h1 h2
        by_contra hcon
        have hp : (sl.list.getD j none).isSome = true := by
          cases hx : (sl.list.getD j none).isSome with
          | true => rfl
          | false => exact absurd hx hcon
        obtain ⟨t, ht, hte⟩ := mem_getD e j ((hmem j).2 ⟨by omega, hp⟩)
        rcases Nat.lt_trichotomy t i with a | a | a
        · have := sorted_getD_lt e hs t i a hi; omega
        · rw [a] at hte; omega
        · rcases Nat.lt_or_ge t (i + 1) with b | b
          · omega
          · rcases Nat.eq_or_lt_of_le b with c | c
            · rw [← c] at hte; omega
            · have := sorted_getD_lt e hs (i + 1) t c ht; omega)
      (by
        rw [show e.getD i 0 + 1 + (e.getD (i + 1) 0 - e.getD i 0 - 1) = e.getD (i + 1) 0 by omega]
        exact hocc (i + 1) hnext)
      (by omega)
    rw [key]
    congr 1
    omega
  · have hie : i = e.length - 1 := by omega
    have : (i + 1) % e.length = 0 := by
      rw [show i + 1 = e.length by omega, Nat.mod_self]
    rw [this, hfirst, hie, hlast]
    exact rr_next_wrap idBytes sl M fuel hget h0 (by omega)

theorem rr_loop_ok (idBytes : Nat) (sl : subcirc_list_t) (M fuel : Nat) (e : List Nat)
    (hpos : 0 < e.length)
    (hstep : ∀ i, i < e.length →
      rr_next idBytes sl M fuel (e.getD i 0) = .ok (e.getD ((i + 1) % e.length) 0)) :
    ∀ (r k : Nat), rr_loop idBytes sl M fuel r (e.getD (k % e.length) 0)
      = .ok ((List.range r).map (fun j => e.getD ((k + j) % e.length) 0)) := by
  intro r
  induction r with
  | zero => intro k; rfl
  | succ r ih =>
    intro k
    have h1 := hstep (k % e.length) (Nat.mod_lt _ hpos)
    have h2 : (k % e.length + 1) % e.length = (k + 1) % e.length := by
      rw [Nat.add_mod k 1, Nat.add_mod (k % e.length) 1, Nat.mod_mod]
    rw [h2] at h1
    unfold rr_loop
    simp only [h1, bind, Except.bind, ih (k + 1), pure, Except.pure, List.range_succ_eq_map,
      List.map_cons, List.map_map, Nat.add_zero]
    congr 2
    apply List.map_congr_left
    intro j _
    simp only [Function.comp, Nat.succ_eq_add_one]
    congr 2
    omega

theorem get_max_ids_generic_ok (P max_id : Nat) :
    get_max_ids_generic P max_id = .ok ((P - 2) * 8 / subcirc_id_get_width max_id) := by
  unfold get_max_ids_generic
  have h := subcirc_id_get_width_pos max_id
  have : (subcirc_id_get_width max_id != 0) = true := by
    simp only [bne_iff_ne, ne_eq]
    omega
  simp only [this, tor_assert, if_true, bind, Except.bind, pure, Except.pure]

/-- The run of the ROUND_ROBIN strategy on a well-formed list. -/
theorem round_robin_run (RELAY_PAYLOAD_SIZE idBytes fuel : Nat) (sl : subcirc_list_t)
    (hlen : sl.list.length = sl.capacity) (hnum : 0 < sl.num_elements)
    (hmax : max_index_ok sl) (hcap : sl.max_index < (sl.capacity : Int))
    (hrep : sl.max_index.toNat < 2 ^ (8 * idBytes))
    (h0 : (sl.list.getD 0 none).isSome = true) (hfuel : sl.max_index.toNat + 1 ≤ fuel) :
    get_instruction_round_robin RELAY_PAYLOAD_SIZE idBytes sl fuel
      = .ok (new_generic_instruction idBytes
          ((List.range ((RELAY_PAYLOAD_SIZE - 2) * 8 / subcirc_id_get_width sl.max_index.toNat)).map
            (fun k => (occupied_ids sl).getD (k % (occupied_ids sl).length) 0))) ∧
    (occupied_ids sl).getD 0 0 = 0 ∧
    (occupied_ids sl).getD ((occupied_ids sl).length - 1) 0 = sl.max_index.toNat ∧
    0 ≤ sl.max_index ∧ ∀ i : Nat, sl.max_index < (i : Int) → sl.list.getD i none = none := by
  have hne : ∀ x : Option Nat, x.isSome = true → x ≠ none := by
    intro x hx hcon; rw [hcon] at hx; cases hx
  obtain ⟨hmi, hMocc, habove⟩ : 0 ≤ sl.max_index ∧
      (sl.list.getD sl.max_index.toNat none).isSome = true ∧
      ∀ i : Nat, sl.max_index < (i : Int) → sl.list.getD i none = none := by
    rcases hmax with ⟨-, hall⟩ | ⟨h1, h2, h3⟩
    · exact absurd (hall 0) (hne _ h0)
    · refine ⟨h1, ?_, h3⟩
      cases hx : sl.list.getD sl.max_index.toNat none with
      | none => exact absurd hx h2
      | some v => rfl
  have hget : ∀ id, id ≤ sl.max_index.toNat →
      subcirc_list_get sl id = .ok (sl.list.getD id none) := by
    intro id hid
    exact subcirc_list_get_ok sl id hlen (by omega)
  obtain ⟨hpos, hfirst, hlast, hstep⟩ := rr_step idBytes sl sl.max_index.toNat fuel hrep hget h0
    hMocc hfuel (occupied_ids sl) rfl
  refine ⟨?_, hfirst, hlast, hmi, habove⟩
  have hloop := rr_loop_ok idBytes sl sl.max_index.toNat fuel (occupied_ids sl) hpos hstep
    ((RELAY_PAYLOAD_SIZE - 2) * 8 / subcirc_id_get_width sl.max_index.toNat) 0
  rw [Nat.zero_mod, hfirst] at hloop
  simp only [Nat.zero_add] at hloop
  have h0n : (sl.list.getD 0 none).isSome = true := h0
  unfold get_instruction_round_robin
  simp only [subcirc_list_get_num, gt_iff_lt, hnum, decide_True, tor_assert, if_true, ge_iff_le,
    hmi, bind, Except.bind, Nat.mod_eq_of_lt hrep, get_max_ids_generic_ok,
    hget 0 (Nat.zero_le _), h0n, hloop, pure, Except.pure]

theorem subcirc_list_get_inv (sl : subcirc_list_t) (id : Nat) (s : Option Nat)
    (h : subcirc_list_get sl id = .ok s) : sl.list.getD id none = s := by
  unfold subcirc_list_get at h
  obtain ⟨u, -, h⟩ := bind_ok _ _ _ h
  unfold rdp at h
  cases hx : sl.list.get? id with
  | none => rw [hx] at h; cases h
  | some v =>
    rw [hx] at h
    injection h with h
    rw [List.getD_eq_getElem?_getD, ← List.get?_eq_getElem?, hx, ← h]
    rfl

theorem isSome_of_not_isNone (x : Option Nat) (h : ¬ x.isNone = true) : x.isSome = true := by
  cases x with
  | none => exact absurd rfl h
  | some v => rfl

theorem rr_next_occupied (idBytes : Nat) (sl : subcirc_list_t) (M : Nat) :
    ∀ (fuel c r : Nat), rr_next idBytes sl M fuel c = .ok r →
      (sl.list.getD r none).isSome = true := by
  intro fuel
  induction fuel with
  | zero => intro c r h; cases h
  | succ fuel ih =>
    intro c r h
    unfold rr_next at h
    obtain ⟨s, hs, h⟩ := bind_ok _ _ _ h
    have hsv := subcirc_list_get_inv sl _ s hs
    by_cases hn : s.isNone = true
    · rw [if_pos hn] at h
      exact ih _ r h
    · rw [if_neg hn] at h
      injection h with h
      rw [← h, hsv]
      exact isSome_of_not_isNone s hn

theorem rr_loop_occupied (idBytes : Nat) (sl : subcirc_list_t) (M fuel : Nat) :
    ∀ (n c : Nat) (l : List Nat), rr_loop idBytes sl M fuel n c = .ok l →
      (sl.list.getD c none).isSome = true →
      ∀ id ∈ l, (sl.list.getD id none).isSome = true := by
  intro n
  induction n with
  | zero =>
    intro c l h _ id hid
    injection h with h
    rw [← h] at hid
    cases hid
  | succ n ih =>
    intro c l h hc id hid
    unfold rr_loop at h
    obtain ⟨next, hnext, h⟩ := bind_ok _ _ _ h
    obtain ⟨rest, hrest, h⟩ := bind_ok _ _ _ h
    injection h with h
    rw [← h] at hid
    rcases List.mem_cons.mp hid with h1 | h1
    · rw [h1]; exact hc
    · exact ih next rest hrest (rr_next_occupied idBytes sl M fuel c next hnext) id h1

theorem ru_pick_occupied (idBytes : Nat) (sl : subcirc_list_t) (M : Nat) (env : strategy_env) :
    ∀ (fuel k r k' : Nat), ru_pick idBytes sl M env fuel k = .ok (r, k') →
      (sl.list.getD r none).isSome = true := by
  intro fuel
  induction fuel with
  | zero => intro k r k' h; cases h
  | succ fuel ih =>
    intro k r k' h
    unfold ru_pick at h
    obtain ⟨s, hs, h⟩ := bind_ok _ _ _ h
    have hsv := subcirc_list_get_inv sl _ s hs
    by_cases hn : s.isNone = true
    · rw [if_pos hn] at h
      exact ih _ r k' h
    · rw [if_neg hn] at h
      injection h with h
      injection h with h1 h2
      rw [← h1, hsv]
      exact isSome_of_not_isNone s hn

theorem ru_loop_occupied (idBytes : Nat) (sl : subcirc_list_t) (M : Nat) (env : strategy_env) :
    ∀ (n k : Nat) (l : List Nat), ru_loop idBytes sl M env n k = .ok l →
      ∀ id ∈ l, (sl.list.getD id none).isSome = true := by
  intro n
  induction n with
  | zero =>
    intro k l h id hid
    injection h with h
    rw [← h] at hid
    cases hid
  | succ n ih =>
    intro k l h id hid
    unfold ru_loop at h
    obtain ⟨⟨c, k1⟩, hpick, h⟩ := bind_ok _ _ _ h
    obtain ⟨rest, hrest, h⟩ := bind_ok _ _ _ h
    injection h with h
    rw [← h] at hid
    rcases List.mem_cons.mp hid with h1 | h1
    · rw [h1]; exact ru_pick_occupied idBytes sl M env _ k c k1 hpick
    · exact ih k1 rest hrest id h1

theorem wr_pick_occupied (idBytes : Nat) (sl : subcirc_list_t) (wp : List Nat)
    (env : strategy_env) :
    ∀ (fuel k r k' : Nat), wr_pick idBytes sl wp env fuel k = .ok (r, k') →
      (sl.list.getD r none).isSome = true := by
  intro fuel
  induction fuel with
  | zero => intro k r k' h; cases h
  | succ fuel ih =>
    intro k r k' h
    unfold wr_pick at h
    obtain ⟨v, -, h⟩ := bind_ok _ _ _ h
    obtain ⟨s, hs, h⟩ := bind_ok _ _ _ h
    have hsv := subcirc_list_get_inv sl _ s hs
    by_cases hn : s.isNone = true
    · rw [if_pos hn] at h
      exact ih _ r k' h
    · rw [if_neg hn] at h
      injection h with h
      injection h with h1 h2
      rw [← h1, hsv]
      exact isSome_of_not_isNone s hn

theorem wr_loop_occupied (idBytes : Nat) (sl : subcirc_list_t) (wp : List Nat)
    (env : strategy_env) :
    ∀ (n k : Nat) (l : List Nat), wr_loop idBytes sl wp env n k = .ok l →
      ∀ id ∈ l, (sl.list.getD id none).isSome = true := by
  intro n
  induction n with
  | zero =>
    intro k l h id hid
    injection h with h
    rw [← h] at hid
    cases hid
  | succ n ih =>
    intro k l h id hid
    unfold wr_loop at h
    obtain ⟨⟨c, k1⟩, hpick, h⟩ := bind_ok _ _ _ h
    obtain ⟨rest, hrest, h⟩ := bind_ok _ _ _ h
    injection h with h
    rw [← h] at hid
    rcases List.mem_cons.mp hid with h1 | h1
    · rw [h1]; exact wr_pick_occupied idBytes sl wp env _ k c k1 hpick
    · exact ih k1 rest hrest id h1

theorem bwr_pick_occupied (idBytes : Nat) (sl : subcirc_list_t) (wp : List Nat)
    (env : strategy_env) (pos : Nat) :
    ∀ (fuel c k r k' : Nat), bwr_pick idBytes sl wp env pos fuel c k = .ok (r, k') →
      (sl.list.getD r none).isSome = true := by
  intro fuel
  induction fuel with
  | zero => intro c k r k' h; cases h
  | succ fuel ih =>
    intro c k r k' h
    unfold bwr_pick at h
    obtain ⟨⟨c1, k1⟩, -, h⟩ := bind_ok _ _ _ h
    obtain ⟨s, hs, h⟩ := bind_ok _ _ _ h
    have hsv := subcirc_list_get_inv sl _ s hs
    by_cases hn : s.isNone = true
    · rw [if_pos hn] at h
      exact ih _ _ r k' h
    · rw [if_neg hn] at h
      injection h with h
      injection h with h1 h2
      rw [← h1, hsv]
      exact isSome_of_not_isNone s hn

theorem bwr_loop_occupied (idBytes : Nat) (sl : subcirc_list_t) (wp : List Nat)
    (env : strategy_env) :
    ∀ (n pos c k : Nat) (l : List Nat), bwr_loop idBytes sl wp env n pos c k = .ok l →
      ∀ id ∈ l, (sl.list.getD id none).isSome = true := by
  intro n
  induction n with
  | zero =>
    intro pos c k l h id hid
    injection h with h
    rw [← h] at hid
    cases hid
  | succ n ih =>
    intro pos c k l h id hid
    unfold bwr_loop at h
    obtain ⟨⟨c1, k1⟩, hpick, h⟩ := bind_ok _ _ _ h
    obtain ⟨rest, hrest, h⟩ := bind_ok _ _ _ h
    injection h with h
    rw [← h] at hid
    rcases List.mem_cons.mp hid with h1 | h1
    · rw [h1]; exact bwr_pick_occupied idBytes sl wp env pos _ c k c1 k1 hpick
    · exact ih (pos + 1) c1 k1 rest hrest id h1

theorem min_id_occupied (P idBytes : Nat) (sl : subcirc_list_t) (inst : split_instruction_t)
    (h : get_instruction_min_id P idBytes sl = .ok inst) :
    ∀ id ∈ inst.data, (sl.list.getD id none).isSome = true := by
  unfold get_instruction_min_id at h
  obtain ⟨u, -, h⟩ := bind_ok _ _ _ h
  obtain ⟨s0, hs0, h⟩ := bind_ok _ _ _ h
  obtain ⟨u2, ha, h⟩ := bind_ok _ _ _ h
  obtain ⟨num, -, h⟩ := bind_ok _ _ _ h
  injection h with h
  intro id hid
  rw [← h] at hid
  have : id = 0 := List.eq_of_mem_replicate hid
  rw [this, subcirc_list_get_inv sl 0 s0 hs0]
  exact tor_assert_ok _ _ ha

theorem max_id_occupied (P idBytes : Nat) (sl : subcirc_list_t) (inst : split_instruction_t)
    (hmax : max_index_ok sl) (hrep : sl.max_index.toNat < 2 ^ (8 * idBytes))
    (h : get_instruction_max_id P idBytes sl = .ok inst) :
    ∀ id ∈ inst.data, (sl.list.getD id none).isSome = true := by
  unfold get_instruction_max_id at h
  obtain ⟨u, -, h⟩ := bind_ok _ _ _ h
  obtain ⟨u2, ha, h⟩ := bind_ok _ _ _ h
  obtain ⟨num, -, h⟩ := bind_ok _ _ _ h
  injection h with h
  have hmi : 0 ≤ sl.max_index := by
    have := tor_assert_ok _ _ ha
    simpa using this
  intro id hid
  rw [← h] at hid
  have : id = sl.max_index.toNat % 2 ^ (8 * idBytes) := List.eq_of_mem_replicate hid
  rw [this, Nat.mod_eq_of_lt hrep]
  rcases hmax with ⟨h1, -⟩ | ⟨-, h2, -⟩
  · omega
  · cases hx : sl.list.getD sl.max_index.toNat none with
    | none => exact absurd hx h2
    | some v => rfl

theorem round_robin_occupied (P idBytes fuel : Nat) (sl : subcirc_list_t)
    (inst : split_instruction_t)
    (h : get_instruction_round_robin P idBytes sl fuel = .ok inst) :
    ∀ id ∈ inst.data, (sl.list.getD id none).isSome = true := by
  unfold get_instruction_round_robin at h
  obtain ⟨u, -, h⟩ := bind_ok _ _ _ h
  obtain ⟨u2, -, h⟩ := bind_ok _ _ _ h
  obtain ⟨num, -, h⟩ := bind_ok _ _ _ h
  obtain ⟨s0, hs0, h⟩ := bind_ok _ _ _ h
  obtain ⟨u3, ha, h⟩ := bind_ok _ _ _ h
  obtain ⟨list, hl, h⟩ := bind_ok _ _ _ h
  injection h with h
  intro id hid
  rw [← h] at hid
  refine rr_loop_occupied idBytes sl _ fuel num 0 list hl ?_ id hid
  rw [subcirc_list_get_inv sl 0 s0 hs0]
  exact tor_assert_ok _ _ ha

theorem random_uniform_occupied (P idBytes : Nat) (sl : subcirc_list_t) (env : strategy_env)
    (inst : split_instruction_t)
    (h : get_instruction_random_uniform P idBytes sl env = .ok inst) :
    ∀ id ∈ inst.data, (sl.list.getD id none).isSome = true := by
  unfold get_instruction_random_uniform at h
  obtain ⟨u, -, h⟩ := bind_ok _ _ _ h
  obtain ⟨u2, -, h⟩ := bind_ok _ _ _ h
  obtain ⟨num, -, h⟩ := bind_ok _ _ _ h
  obtain ⟨list, hl, h⟩ := bind_ok _ _ _ h
  injection h with h
  intro id hid
  rw [← h] at hid
  exact ru_loop_occupied idBytes sl _ env num 0 list hl id hid

theorem weighted_random_occupied (P idBytes : Nat) (sl : subcirc_list_t) (use_prev : Bool)
    (prev_data prev : List Int) (env : strategy_env) (inst : split_instruction_t)
    (h : get_instruction_weighted_random P idBytes sl use_prev prev_data env = .ok (inst, prev)) :
    ∀ id ∈ inst.data, (sl.list.getD id none).isSome = true := by
  unfold get_instruction_weighted_random at h
  obtain ⟨u, -, h⟩ := bind_ok _ _ _ h
  obtain ⟨u2, -, h⟩ := bind_ok _ _ _ h
  obtain ⟨num, -, h⟩ := bind_ok _ _ _ h
  obtain ⟨⟨theta, pd⟩, -, h⟩ := bind_ok _ _ _ h
  obtain ⟨wp, -, h⟩ := bind_ok _ _ _ h
  obtain ⟨list, hl, h⟩ := bind_ok _ _ _ h
  injection h with h
  injection h with h1 h2
  intro id hid
  rw [← h1] at hid
  exact wr_loop_occupied idBytes sl wp env num 0 list hl id hid

theorem batched_weighted_random_occupied (P idBytes : Nat) (sl : subcirc_list_t)
    (use_prev : Bool) (prev_data prev : List Int) (env : strategy_env)
    (inst : split_instruction_t)
    (h : get_instruction_batched_weighted_random P idBytes sl use_prev prev_data env
      = .ok (inst, prev)) :
    ∀ id ∈ inst.data, (sl.list.getD id none).isSome = true := by
  unfold get_instruction_batched_weighted_random at h
  obtain ⟨u, -, h⟩ := bind_ok _ _ _ h
  obtain ⟨u2, -, h⟩ := bind_ok _ _ _ h
  obtain ⟨num, -, h⟩ := bind_ok _ _ _ h
  obtain ⟨⟨theta, pd⟩, -, h⟩ := bind_ok _ _ _ h
  obtain ⟨wp, -, h⟩ := bind_ok _ _ _ h
  obtain ⟨first, -, h⟩ := bind_ok _ _ _ h
  obtain ⟨list, hl, h⟩ := bind_ok _ _ _ h
  injection h with h
  injection h with h1 h2
  intro id hid
  rw [← h1] at hid
  exact bwr_loop_occupied idBytes sl wp env num 0 _ 1 list hl id hid

/-- Every ID of an instruction that a strategy returns names an occupied
slot. -/
theorem new_instruction_occupied (P idBytes strategy : Nat) (sl : subcirc_list_t)
    (use_prev : Bool) (prev_data prev : List Int) (env : strategy_env)
    (inst : split_instruction_t)
    (hmax : max_index_ok sl) (hrep : sl.max_index.toNat < 2 ^ (8 * idBytes))
    (h : split_get_new_instruction P idBytes strategy sl use_prev prev_data env
      = .ok (inst, prev)) :
    ∀ id ∈ inst.data, (sl.list.getD id none).isSome = true := by
  unfold split_get_new_instruction at h
  split at h
  · obtain ⟨i, hi, h⟩ := bind_ok _ _ _ h
    injection h with h
    injection h with h1 h2
    rw [← h1]
    exact min_id_occupied P idBytes sl i hi
  · split at h
    · obtain ⟨i, hi, h⟩ := bind_ok _ _ _ h
      injection h with h
      injection h with h1 h2
      rw [← h1]
      exact max_id_occupied P idBytes sl i hmax hrep hi
    · split at h
      · obtain ⟨i, hi, h⟩ := bind_ok _ _ _ h
        injection h with h
        injection h with h1 h2
        rw [← h1]
        exact round_robin_occupied P idBytes _ sl i hi
      · split at h
        · obtain ⟨i, hi, h⟩ := bind_ok _ _ _ h
          injection h with h
          injection h with h1 h2
          rw [← h1]
          exact random_uniform_occupied P idBytes sl env i hi
        · split at h
          · exact weighted_random_occupied P idBytes sl use_prev prev_data prev env inst h
          · split at h
            · exact batched_weighted_random_occupied P idBytes sl use_prev prev_data prev env
                inst h
            · cases h

/-- C16: for every sub-circuit list with slot 0 occupied that satisfies the
list invariant (`occupied_ids` are then exactly its occupied indices
`e_0 < ... < e_{n-1}`, with `e_0 = 0` and `e_{n-1} = max_index`), the
ROUND_ROBIN strategy returns, given `max_index + 1` iterations for its inner
loop, the instruction whose `k`-th ID is `e_(k mod n)` for every position
`k`. -/
theorem C16_round_robin (RELAY_PAYLOAD_SIZE idBytes fuel : Nat) (sl : subcirc_list_t)
    (hlen : sl.list.length = sl.capacity) (hnum : 0 < sl.num_elements)
    (hmax : max_index_ok sl) (hcap : sl.max_index < (sl.capacity : Int))
    (hrep : sl.max_index.toNat < 2 ^ (8 * idBytes))
    (h0 : (sl.list.getD 0 none).isSome = true) (hfuel : sl.max_index.toNat + 1 ≤ fuel) :
    get_instruction_round_robin RELAY_PAYLOAD_SIZE idBytes sl fuel
      = .ok (new_generic_instruction idBytes
          ((List.range ((RELAY_PAYLOAD_SIZE - 2) * 8 / subcirc_id_get_width sl.max_index.toNat)).map
            (fun k => (occupied_ids sl).getD (k % (occupied_ids sl).length) 0))) ∧
    List.Sorted (· < ·) (occupied_ids sl) ∧
    (∀ j, j ∈ occupied_ids sl ↔ (sl.list.getD j none).isSome = true) ∧
    (occupied_ids sl).getD 0 0 = 0 ∧
    ((occupied_ids sl).getD ((occupied_ids sl).length - 1) 0 : Int) = sl.max_index := by
  obtain ⟨hrun, hfirst, hlast, hmi, habove⟩ :=
    round_robin_run RELAY_PAYLOAD_SIZE idBytes fuel sl hlen hnum hmax hcap hrep h0 hfuel
  obtain ⟨hs, hmem⟩ := filter_range_structure (fun i => (sl.list.getD i none).isSome)
    (sl.max_index.toNat + 1)
  refine ⟨hrun, hs, ?_, hfirst, ?_⟩
  · intro j
    constructor
    · intro hj
      exact ((hmem j).1 hj).2
    · intro hj
      refine (hmem j).2 ⟨?_, hj⟩
      by_contra hcon
      have := habove j (by omega)
      rw [this] at hj
      cases hj
  · rw [hlast]
    omega

/-- C16 at the list holding the sub-circuits 0 and 1 (the IDs are
`0, 1, 0, 1, ...`, 3968 of them in a payload of 498 bytes) and at a list with
the occupied slots 0 and 3 (`0, 3, 0, 3, ...`). -/
theorem C16_round_robin_witness :
    (get_instruction_round_robin 498 1 ex_list2 2
        = .ok (new_generic_instruction 1 ((List.range 3968).map (fun k => [0, 1].getD (k % 2) 0))) ∧
      get_instruction_round_robin 4 1 ex_list2 2
        = .ok (new_generic_instruction 1 [0, 1, 0, 1, 0, 1, 0, 1, 0, 1, 0, 1, 0, 1, 0, 1])) ∧
    get_instruction_round_robin 4 1
        { list := [some 10, none, none, some 12, none], capacity := 5, num_elements := 2,
          max_index := 3 } 4
      = .ok (new_generic_instruction 1 [0, 3, 0, 3, 0, 3, 0, 3]) :=
  ⟨⟨(C16_round_robin 498 1 2 ex_list2 rfl (by decide) (Or.inr ⟨by decide, by decide, by
        intro i hi
        have : 2 ≤ i := by
          have h1 : (1 : Int) < (i : Int) := hi
          omega
        rcases i with _ | _ | i
        · omega
        · omega
        · rcases i with _ | _ | _ | i <;> rfl⟩) (by decide) (by decide) rfl (by decide)).1,
    by decide⟩, by decide⟩

/-- C15: for each of the six strategies, every sub-circuit list that
satisfies the list invariant and every outcome of the random draws: every ID
of the instruction that `split_get_new_instruction` returns names an occupied
slot of the list.  The three strategies without random draws (MIN_ID, MAX_ID,
ROUND_ROBIN) do return an instruction when the list is non-empty and has
slot 0 occupied. -/
theorem C15_strategies_emit_occupied_ids (RELAY_PAYLOAD_SIZE idBytes strategy : Nat)
    (sl : subcirc_list_t) (use_prev : Bool) (prev_data : List Int) (env : strategy_env)
    (hlen : sl.list.length = sl.capacity) (hnum : 0 < sl.num_elements)
    (hmax : max_index_ok sl) (hcap : sl.max_index < (sl.capacity : Int))
    (hrep : sl.max_index.toNat < 2 ^ (8 * idBytes))
    (h0 : (sl.list.getD 0 none).isSome = true) :
    (∀ inst prev, split_get_new_instruction RELAY_PAYLOAD_SIZE idBytes strategy sl use_prev
        prev_data env = .ok (inst, prev) →
      ∀ id ∈ inst.data, (sl.list.getD id none).isSome = true) ∧
    ((strategy = SPLIT_STRATEGY_MIN_ID ∨ strategy = SPLIT_STRATEGY_MAX_ID ∨
        strategy = SPLIT_STRATEGY_ROUND_ROBIN) → sl.max_index.toNat + 1 ≤ env.fuel →
      ∃ inst, split_get_new_instruction RELAY_PAYLOAD_SIZE idBytes strategy sl use_prev
        prev_data env = .ok (inst, prev_data)) := by
  constructor
  · intro inst prev h
    exact new_instruction_occupied RELAY_PAYLOAD_SIZE idBytes strategy sl use_prev prev_data prev
      env inst hmax hrep h
  · intro hs hfuel
    obtain ⟨-, -, -, hmi, -⟩ := round_robin_run RELAY_PAYLOAD_SIZE idBytes env.fuel sl hlen hnum
      hmax hcap hrep h0 hfuel
    have hc0 : 0 < sl.capacity := by omega
    rcases hs with hs | hs | hs
    · subst hs
      refine ⟨new_generic_instruction idBytes
        (List.replicate ((RELAY_PAYLOAD_SIZE - 2) * 8 / subcirc_id_get_width 0) 0), ?_⟩
      unfold split_get_new_instruction get_instruction_min_id
      simp only [if_true, subcirc_list_get_num, gt_iff_lt, hnum, decide_True, tor_assert, bind,
        Except.bind, subcirc_list_get_ok sl 0 hlen hc0, h0, get_max_ids_generic_ok, pure,
        Except.pure]
    · subst hs
      refine ⟨new_generic_instruction idBytes
        (List.replicate ((RELAY_PAYLOAD_SIZE - 2) * 8 /
            subcirc_id_get_width (sl.max_index.toNat % 2 ^ (8 * idBytes)))
          (sl.max_index.toNat % 2 ^ (8 * idBytes))), ?_⟩
      unfold split_get_new_instruction get_instruction_max_id
      simp only [SPLIT_STRATEGY_MAX_ID, SPLIT_STRATEGY_MIN_ID, one_ne_zero, if_false, if_true,
        subcirc_list_get_num, gt_iff_lt, hnum, decide_True, tor_assert, ge_iff_le, hmi, bind,
        Except.bind, get_max_ids_generic_ok, pure, Except.pure]
    · subst hs
      obtain ⟨hrun, -⟩ := round_robin_run RELAY_PAYLOAD_SIZE idBytes env.fuel sl hlen hnum
        hmax hcap hrep h0 hfuel
      refine ⟨new_generic_instruction idBytes
          ((List.range ((RELAY_PAYLOAD_SIZE - 2) * 8 /
              subcirc_id_get_width sl.max_index.toNat)).map
            (fun k => (occupied_ids sl).getD (k % (occupied_ids sl).length) 0)), ?_⟩
      unfold split_get_new_instruction
      simp only [SPLIT_STRATEGY_ROUND_ROBIN, SPLIT_STRATEGY_MAX_ID, SPLIT_STRATEGY_MIN_ID,
        OfNat.ofNat_ne_zero, OfNat.ofNat_ne_one, if_false, if_true, hrun, bind, Except.bind,
        pure, Except.pure]

set_option maxRecDepth 100000 in
/-- C15 at the list holding the sub-circuits 0 and 1, for the outcome
`ex_env` of the random draws: the WEIGHTED_RANDOM strategy, the
BATCHED_WEIGHTED_RANDOM strategy and the RANDOM_UNIFORM strategy return
instructions, whose IDs are occupied, and ROUND_ROBIN returns. -/
theorem C15_strategies_emit_occupied_ids_witness :
    (split_get_new_instruction 4 1 SPLIT_STRATEGY_WEIGHTED_RANDOM ex_list2 false
        [0, 0, 0, 0, 0] ex_env
      = .ok (new_generic_instruction 1 [0, 0, 0, 0, 1, 1, 1, 1, 1, 1, 1, 1, 1, 1, 0, 0],
          [30, 70, 0, 0, 0]) ∧
      ∀ id ∈ [0, 0, 0, 0, 1, 1, 1, 1, 1, 1, 1, 1, 1, 1, 0, 0],
        (ex_list2.list.getD id none).isSome = true) ∧
    (split_get_new_instruction 4 1 SPLIT_STRATEGY_RANDOM_UNIFORM ex_list2 false [] ex_env
      = .ok (new_generic_instruction 1 [1, 0, 1, 0, 1, 0, 1, 0, 1, 0, 1, 0, 1, 0, 1, 0], []) ∧
      ∀ id ∈ [1, 0, 1, 0, 1, 0, 1, 0, 1, 0, 1, 0, 1, 0, 1, 0],
        (ex_list2.list.getD id none).isSome = true) ∧
    (∃ inst, split_get_new_instruction 4 1 SPLIT_STRATEGY_ROUND_ROBIN ex_list2 false [] ex_env
      = .ok (inst, [])) :=
  have hok : max_index_ok ex_list2 := Or.inr ⟨by decide, by decide, by
    intro i hi
    have h1 : (1 : Int) < (i : Int) := hi
    rcases i with _ | _ | i
    · omega
    · omega
    · rcases i with _ | _ | _ | i <;> rfl⟩
  ⟨⟨by decide,
    (C15_strategies_emit_occupied_ids 4 1 SPLIT_STRATEGY_WEIGHTED_RANDOM ex_list2 false
      [0, 0, 0, 0, 0] ex_env rfl (by decide) hok (by decide) (by decide) rfl).1
      (new_generic_instruction 1 [0, 0, 0, 0, 1, 1, 1, 1, 1, 1, 1, 1, 1, 1, 0, 0])
      [30, 70, 0, 0, 0] (by decide)⟩,
   ⟨by decide,
    (C15_strategies_emit_occupied_ids 4 1 SPLIT_STRATEGY_RANDOM_UNIFORM ex_list2 false
      [] ex_env rfl (by decide) hok (by decide) (by decide) rfl).1
      (new_generic_instruction 1 [1, 0, 1, 0, 1, 0, 1, 0, 1, 0, 1, 0, 1, 0, 1, 0]) []
      (by decide)⟩,
   (C15_strategies_emit_occupied_ids 4 1 SPLIT_STRATEGY_ROUND_ROBIN ex_list2 false
      [] ex_env rfl (by decide) hok (by decide) (by decide) rfl).2 (Or.inr (Or.inr rfl))
      (by decide)⟩

theorem get_origin_lt (w : World) (c : Nat) (oc : origin_circuit_t)
    (hg : get_origin w c = .ok oc) : c < w.origin_circuits.length := by
  unfold get_origin at hg
  by_contra hcon
  rw [List.get?_eq_getElem?, List.getElem?_eq_none (by omega)] at hg
  simp at hg

theorem get_set_origin (w : World) (c : Nat) (x : origin_circuit_t)
    (hlt : c < w.origin_circuits.length) : get_origin (set_origin w c x) c = .ok x := by
  unfold get_origin set_origin
  simp [List.get?_eq_getElem?, List.getElem?_set, hlt]

theorem get_set_origin_ne (w : World) (c a : Nat) (x : origin_circuit_t) (hne : a ≠ c) :
    get_origin (set_origin w c x) a = get_origin w a := by
  unfold get_origin set_origin
  simp [List.get?_eq_getElem?, List.getElem?_set, Ne.symm hne]

theorem origin_frame_refl (w : World) : origin_frame w w :=
  fun _ oc hc => ⟨oc, hc, rfl, rfl⟩

theorem origin_frame_trans (w1 w2 w3 : World) (h12 : origin_frame w1 w2)
    (h23 : origin_frame w2 w3) : origin_frame w1 w3 := by
  intro c oc hc
  obtain ⟨oc2, h2, hp2, hc2⟩ := h12 c oc hc
  obtain ⟨oc3, h3, hp3, hc3⟩ := h23 c oc2 h2
  exact ⟨oc3, h3, hp3.trans hp2, hc3.trans hc2⟩

theorem origin_frame_of_eq (w w' : World) (h : w'.origin_circuits = w.origin_circuits) :
    origin_frame w w' := by
  intro c oc hc
  refine ⟨oc, ?_, rfl, rfl⟩
  unfold get_origin at hc ⊢
  rw [h]; exact hc

theorem mark_origin_ok (w : World) (c : Nat) (oc : origin_circuit_t)
    (reason : end_circ_reason_t) (hc : get_origin w c = .ok oc) :
    ∃ w', circuit_mark_for_close_origin w c reason = .ok w' ∧
      (∃ oc', get_origin w' c = .ok oc' ∧ oc'.marked_for_close = true) ∧
      w'.split_datas = w.split_datas ∧ w'.subcircuits = w.subcircuits ∧
      w'.circuits = w.circuits ∧ w'.sent = w.sent ∧
      w'.split_data_or_cookie_map = w.split_data_or_cookie_map ∧ origin_frame w w' := by
  unfold circuit_mark_for_close_origin
  simp only [hc, bind, Except.bind, pure, Except.pure]
  by_cases hm : oc.marked_for_close = true
  · simp only [hm, if_true]
    exact ⟨w, rfl, ⟨oc, hc, hm⟩, rfl, rfl, rfl, rfl, rfl, origin_frame_refl w⟩
  · simp only [hm, Bool.false_eq_true, if_false]
    refine ⟨_, rfl, ⟨_, get_set_origin _ _ _ (get_origin_lt w c oc hc), rfl⟩, rfl, rfl, rfl, rfl,
      rfl, ?_⟩
    intro a oa ha
    by_cases hac : a = c
    · subst hac
      rw [hc] at ha
      injection ha with ha
      subst ha
      exact ⟨_, get_set_origin _ _ _ (get_origin_lt w a oc hc), rfl, rfl⟩
    · exact ⟨oa, by rw [get_set_origin_ne _ _ _ _ hac]; exact ha, rfl, rfl⟩

theorem send_origin_ok (w : World) (c : Nat) (command : relay_command_t) (payload : List Nat)
    (fails : Bool) (oc : origin_circuit_t) (hc : get_origin w c = .ok oc) :
    ∃ r w', relay_send_command_from_edge_origin w c command payload fails = .ok (r, w') ∧
      w'.split_datas = w.split_datas ∧ w'.subcircuits = w.subcircuits ∧
      w'.circuits = w.circuits ∧
      w'.split_data_or_cookie_map = w.split_data_or_cookie_map ∧ origin_frame w w' ∧
      (fails = false → r = 0 ∧ w'.origin_circuits = w.origin_circuits ∧
        w'.sent = w.sent ++ [{ circ := c, command := command, payload := payload }]) ∧
      (fails = true → r = -1 ∧ w'.sent = w.sent ∧
        ∃ oc', get_origin w' c = .ok oc' ∧ oc'.marked_for_close = true) := by
  unfold relay_send_command_from_edge_origin
  cases fails with
  | true =>
    obtain ⟨w', hm, hmk, h1, h2, h3, h4, h5, h6⟩ := mark_origin_ok w c oc
      end_circ_reason_t.END_CIRC_REASON_INTERNAL hc
    simp only [if_true, hm, bind, Except.bind, pure, Except.pure]
    exact ⟨-1, w', rfl, h1, h2, h3, h5, h6, by simp, fun _ => ⟨rfl, h4, hmk⟩⟩
  | false =>
    simp only [Bool.false_eq_true, if_false, pure, Except.pure]
    exact ⟨0, _, rfl, rfl, rfl, rfl, rfl, origin_frame_of_eq _ _ rfl, fun _ => ⟨rfl, rfl, rfl⟩,
      by simp⟩

theorem get_subcirc_congr (w w' : World) (p : Nat) (heq : w'.subcircuits = w.subcircuits) :
    get_subcirc w' p = get_subcirc w p := by
  unfold get_subcirc; rw [heq]

theorem base_origin_frame (w w' : World) (h : Nat) (sd sd' : split_data_t) (b : Bool)
    (hsd : get_split_data w h = .ok sd) (hsd' : get_split_data w' h = .ok sd')
    (hb : sd'.base = sd.base) (hs : sd'.subcircs = sd.subcircs)
    (hsub : w'.subcircuits = w.subcircuits) (hof : origin_frame w w') (base : Nat)
    (hbase : split_data_get_base_origin w h b = .ok base) :
    split_data_get_base_origin w' h b = .ok base := by
  unfold split_data_get_base_origin at hbase ⊢
  rw [hsd] at hbase
  rw [hsd']
  simp only [bind, Except.bind] at hbase ⊢
  rw [hb]
  cases hbs : sd.base with
  | none => rw [hbs] at hbase; cases hbase
  | some b0 =>
    rw [hbs] at hbase
    simp only at hbase ⊢
    cases ho : get_origin w b0 with
    | error e => rw [ho] at hbase; cases hbase
    | ok oc =>
      obtain ⟨oc', ho', hp, -⟩ := hof b0 oc ho
      rw [ho] at hbase
      rw [ho']
      simp only at hbase ⊢
      rw [hp]
      have hgs : split_data_get_subcirc sd' 0 = split_data_get_subcirc sd 0 := by
        unfold split_data_get_subcirc split_data_get_num_subcircs_added
        rw [hs]
      rw [hgs]
      simp only [get_subcirc_congr w w' _ hsub]
      exact hbase

theorem middle_cpath_frame (w w' : World) (h : Nat) (hof : origin_frame w w') (base m : Nat)
    (hm : split_data_get_middle_cpath w h base = .ok m) :
    split_data_get_middle_cpath w' h base = .ok m := by
  unfold split_data_get_middle_cpath at hm ⊢
  cases ho : get_origin w base with
  | error e => rw [ho] at hm; cases hm
  | ok oc =>
    obtain ⟨oc', ho', -, hc⟩ := hof base oc ho
    rw [ho] at hm
    rw [ho']
    simp only [bind, Except.bind] at hm ⊢
    rw [hc]
    exact hm

theorem client_ready_frame (w w' : World) (h : Nat) (sd sd' : split_data_t)
    (client client' : split_data_client_t) (base : Nat) (hr : client_ready w h sd client base)
    (hsd' : get_split_data w' h = .ok sd') (hcl' : sd'.split_data_client = some client')
    (hb : sd'.base = sd.base) (hs : sd'.subcircs = sd.subcircs)
    (hsub : w'.subcircuits = w.subcircuits) (hof : origin_frame w w') :
    client_ready w' h sd' client' base := by
  obtain ⟨hsd, -, hbase, m, hm⟩ := hr
  exact ⟨hsd', hcl', base_origin_frame w w' h sd sd' true hsd hsd' hb hs hsub hof base hbase,
    m, middle_cpath_frame w w' h hof base m hm⟩

theorem base_origin_get (w : World) (h : Nat) (b : Bool) (base : Nat)
    (hbase : split_data_get_base_origin w h b = .ok base) :
    ∃ oc, get_origin w base = .ok oc := by
  unfold split_data_get_base_origin at hbase
  obtain ⟨sd, -, hrest⟩ := bind_ok _ _ _ hbase
  split at hrest
  · cases hrest
  · rename_i b0 hb0
    obtain ⟨oc, hoc, hrest⟩ := bind_ok _ _ _ hrest
    obtain ⟨_, -, hrest⟩ := bind_ok _ _ _ hrest
    obtain ⟨sub, -, hrest⟩ := bind_ok _ _ _ hrest
    have : b0 = base := by
      split at hrest
      · split at hrest
        · cases hrest
        · obtain ⟨_, -, hrest⟩ := bind_ok _ _ _ hrest
          obtain ⟨_, -, hrest⟩ := bind_ok _ _ _ hrest
          obtain ⟨_, -, hrest⟩ := bind_ok _ _ _ hrest
          injection hrest
      · split at hrest
        · injection hrest
        · obtain ⟨_, -, hrest⟩ := bind_ok _ _ _ hrest
          obtain ⟨_, -, hrest⟩ := bind_ok _ _ _ hrest
          injection hrest
    subst this
    exact ⟨oc, hoc⟩

theorem instruction_with_client (sd : split_data_t) (client : split_data_client_t)
    (d : cell_direction_t) : instruction (with_client sd client) d = instruction sd d := by
  cases d <;> rfl

theorem instruction_set_other (sd : split_data_t) (d : cell_direction_t)
    (q : List split_instruction_t) :
    instruction (set_instruction sd d q) (other_direction d) = instruction sd (other_direction d) := by
  cases d <;> rfl

theorem generate_run (P idBytes : Nat) (env : client_env) (w : World) (h : Nat)
    (d : cell_direction_t) (sd : split_data_t) (client : split_data_client_t) (base : Nat)
    (hr : client_ready w h sd client base)
    (hlen : (instruction sd d).length < MAX_NUM_SPLIT_INSTRUCTIONS)
    (inst : split_instruction_t) (prev' : List Int) (payload : List Nat)
    (hnew : split_get_new_instruction P idBytes client.strategy sd.subcircs
      (use_previous_data client d) (previous_data client d) (env.draws w) = .ok (inst, prev'))
    (hpay : split_instruction_to_payload P idBytes inst = .ok (some payload))
    (hne : payload ≠ []) :
    ∃ r w', split_data_generate_instruction P idBytes env w h d = .ok (r, w') ∧
      client_ready w' h (session_generated sd client d inst prev')
        (set_previous_data client d prev') base ∧
      w'.subcircuits = w.subcircuits ∧ w'.circuits = w.circuits ∧ origin_frame w w' ∧
      w'.split_data_or_cookie_map = w.split_data_or_cookie_map ∧
      w'.split_datas = w.split_datas.set h (some (session_generated sd client d inst prev')) ∧
      (env.send_fails (set_split_data w h (with_client sd (set_previous_data client d prev')))
          = false →
        r = 0 ∧ w'.origin_circuits = w.origin_circuits ∧
        w'.sent = w.sent ++ [{ circ := base, command := instruction_command d,
                               payload := payload }]) ∧
      (env.send_fails (set_split_data w h (with_client sd (set_previous_data client d prev')))
          = true → r = -1 ∧ w'.sent = w.sent) := by
  obtain ⟨hsd, hcl, hbase, m, hm⟩ := hr
  have hlt := get_split_data_lt w h sd hsd
  obtain ⟨oc, hoc⟩ := base_origin_get w h true base hbase
  have hsd1 := get_set_split_data w h (with_client sd (set_previous_data client d prev')) hlt
  have hof1 : origin_frame w
      (set_split_data w h (with_client sd (set_previous_data client d prev'))) :=
    origin_frame_of_eq _ _ rfl
  have hm1 := middle_cpath_frame w _ h hof1 base m hm
  have hoc1 : get_origin (set_split_data w h (with_client sd (set_previous_data client d prev')))
      base = .ok oc := hoc
  obtain ⟨r, w2, hsend, h1, h2, h3, h4, h5, h6, h7⟩ := send_origin_ok
    (set_split_data w h (with_client sd (set_previous_data client d prev'))) base
    (instruction_command d) payload
    (env.send_fails (set_split_data w h (with_client sd (set_previous_data client d prev')))) oc
    hoc1
  have hsd2 : get_split_data w2 h = .ok (with_client sd (set_previous_data client d prev')) := by
    rw [get_split_data_congr _ _ h h1]; exact hsd1
  have hlt2 : h < w2.split_datas.length := get_split_data_lt _ _ _ hsd2
  have hpl : decide (payload.length > 0) = true := by
    cases payload with
    | nil => exact absurd rfl hne
    | cons a l => simp
  have hnl : ¬ split_instruction_list_length (instruction sd d) ≥ MAX_NUM_SPLIT_INSTRUCTIONS := by
    unfold split_instruction_list_length; omega
  have hrun : split_data_generate_instruction P idBytes env w h d
      = .ok (r, set_split_data w2 h (session_generated sd client d inst prev')) := by
    unfold split_data_generate_instruction
    simp only [with_client] at hm1 hsend hsd2
    simp only [hsd, bind, Except.bind, get_client, hcl, hbase, hnl, if_false, hnew, hpay, tor_assert,
      hpl, if_true, hm1, hsend, hsd2, pure, Except.pure, instruction_with_client,
      split_instruction_append]
    rfl
  have hof : origin_frame w (set_split_data w2 h (session_generated sd client d inst prev')) :=
    origin_frame_trans _ _ _ hof1 (origin_frame_trans _ _ _ h5 (origin_frame_of_eq _ _ rfl))
  have hsdf := get_set_split_data w2 h (session_generated sd client d inst prev') hlt2
  refine ⟨r, _, hrun, ?_, ?_, ?_, hof, ?_, ?_, ?_, ?_⟩
  · refine client_ready_frame w _ h sd _ client _ base ⟨hsd, hcl, hbase, m, hm⟩ hsdf ?_ ?_ ?_ ?_ hof
    · cases d <;> rfl
    · cases d <;> rfl
    · cases d <;> rfl
    · exact h2
  · exact h2
  · exact h3
  · exact h4
  · show w2.split_datas.set h _ = _
    rw [h1]
    show (w.split_datas.set h _).set h _ = _
    rw [List.set_set]
  · intro hf
    obtain ⟨hr0, ho, hs⟩ := h6 hf
    exact ⟨hr0, ho, hs⟩
  · intro hf
    obtain ⟨hr0, hs, -⟩ := h7 hf
    exact ⟨hr0, hs⟩

theorem store_use_previous_ok (w : World) (h : Nat) (d : cell_direction_t) (v : Bool)
    (sd : split_data_t) (client : split_data_client_t) (base : Nat)
    (hr : client_ready w h sd client base) :
    store_use_previous_data w h d v
        = .ok (set_split_data w h (with_client sd (set_use_previous_data client d v))) ∧
      client_ready (set_split_data w h (with_client sd (set_use_previous_data client d v))) h
        (with_client sd (set_use_previous_data client d v)) (set_use_previous_data client d v)
        base := by
  have hlt := get_split_data_lt w h sd hr.1
  refine ⟨?_, ?_⟩
  · unfold store_use_previous_data
    simp only [hr.1, bind, Except.bind, get_client, hr.2.1, pure, Except.pure]
    rfl
  · exact client_ready_frame w _ h sd _ client _ base hr (get_set_split_data w h _ hlt) rfl rfl rfl
      rfl (origin_frame_of_eq _ _ rfl)

theorem generate_full (P idBytes : Nat) (env : client_env) (w : World) (h : Nat)
    (d : cell_direction_t) (sd : split_data_t) (client : split_data_client_t) (base : Nat)
    (hr : client_ready w h sd client base)
    (hlen : MAX_NUM_SPLIT_INSTRUCTIONS ≤ (instruction sd d).length) :
    split_data_generate_instruction P idBytes env w h d = .ok (-1, w) := by
  obtain ⟨hsd, hcl, hbase, -⟩ := hr
  have hnl : split_instruction_list_length (instruction sd d) ≥ MAX_NUM_SPLIT_INSTRUCTIONS := hlen
  unfold split_data_generate_instruction
  simp only [hsd, bind, Except.bind, get_client, hcl, hbase, hnl, if_true, pure, Except.pure]

theorem strategy_set_previous (client : split_data_client_t) (d : cell_direction_t)
    (v : List Int) : (set_previous_data client d v).strategy = client.strategy := by
  cases d <;> rfl

theorem strategy_set_use_previous (client : split_data_client_t) (d : cell_direction_t)
    (v : Bool) : (set_use_previous_data client d v).strategy = client.strategy := by
  cases d <;> rfl

theorem subcircs_generated (sd : split_data_t) (client : split_data_client_t)
    (d : cell_direction_t) (inst : split_instruction_t) (prev : List Int) :
    (session_generated sd client d inst prev).subcircs = sd.subcircs := by
  cases d <;> rfl

/-- What `generation_succeeds` says about a session whose queue has room. -/
theorem generation_succeeds_spec (P idBytes : Nat) (env : client_env) (w : World) (h : Nat)
    (d : cell_direction_t) (sd : split_data_t) (client : split_data_client_t)
    (hsd : get_split_data w h = .ok sd) (hcl : sd.split_data_client = some client)
    (hlen : (instruction sd d).length < MAX_NUM_SPLIT_INSTRUCTIONS)
    (hg : generation_succeeds P idBytes env w h d = true) :
    ∃ inst prev' payload, split_get_new_instruction P idBytes client.strategy sd.subcircs
        (use_previous_data client d) (previous_data client d) (env.draws w) = .ok (inst, prev') ∧
      split_instruction_to_payload P idBytes inst = .ok (some payload) ∧ payload ≠ [] := by
  have hnl : ¬ split_instruction_list_length (instruction sd d) ≥ MAX_NUM_SPLIT_INSTRUCTIONS := by
    unfold split_instruction_list_length; omega
  unfold generation_succeeds at hg
  rw [hsd] at hg
  simp only [hcl, hnl, if_false] at hg
  cases hnew : split_get_new_instruction P idBytes client.strategy sd.subcircs
      (use_previous_data client d) (previous_data client d) (env.draws w) with
  | error e => rw [hnew] at hg; cases hg
  | ok r =>
    obtain ⟨inst, prev'⟩ := r
    rw [hnew] at hg
    simp only at hg
    cases hpay : split_instruction_to_payload P idBytes inst with
    | error e => rw [hpay] at hg; cases hg
    | ok o =>
      cases o with
      | none => rw [hpay] at hg; cases hg
      | some payload =>
        rw [hpay] at hg
        refine ⟨inst, prev', payload, rfl, hpay, ?_⟩
        intro hp
        subst hp
        cases hg

/-- One round of a loop of `split_data_finalise`. -/
theorem finalise_loop_one (P idBytes : Nat) (env : client_env) (h : Nat) (d : cell_direction_t)
    (w w1 w2 : World) (r : Int)
    (hrun : split_data_generate_instruction P idBytes env w h d = .ok (r, w1))
    (hstore : store_use_previous_data w1 h d true = .ok w2) :
    finalise_loop P idBytes env h d 1 w = .ok w2 := by
  show (split_data_generate_instruction P idBytes env w h d >>= fun x =>
    store_use_previous_data x.2 h d true >>= fun w =>
      finalise_loop P idBytes env h d 0 w) = _
  rw [hrun]
  show (store_use_previous_data w1 h d true >>= fun w =>
      finalise_loop P idBytes env h d 0 w) = _
  rw [hstore]
  rfl

/-- Success in `n + 1` rounds is success at the start and in the `n` rounds
after the first one. -/
theorem loop_generation_succeeds_succ (P idBytes : Nat) (env : client_env) (h : Nat)
    (d : cell_direction_t) (n : Nat) (w w2 : World)
    (hround : finalise_loop P idBytes env h d 1 w = .ok w2)
    (hg : loop_generation_succeeds P idBytes env h d (n + 1) w = true) :
    loop_generation_succeeds P idBytes env h d n w2 = true := by
  rw [loop_generation_succeeds, hround] at hg
  exact (Bool.and_eq_true _ _ ▸ hg).2

theorem loop_generation_succeeds_head (P idBytes : Nat) (env : client_env) (h : Nat)
    (d : cell_direction_t) (n : Nat) (w : World)
    (hg : loop_generation_succeeds P idBytes env h d (n + 1) w = true) :
    generation_succeeds P idBytes env w h d = true := by
  rw [loop_generation_succeeds] at hg
  exact (Bool.and_eq_true _ _ ▸ hg).1

/-- Whatever the length of the queue is, generating an instruction returns
and keeps the session ready. -/
theorem generate_any (P idBytes : Nat) (env : client_env) (w : World) (h : Nat)
    (d : cell_direction_t) (sd : split_data_t) (client : split_data_client_t) (base : Nat)
    (hr : client_ready w h sd client base)
    (hg : generation_succeeds P idBytes env w h d = true) :
    ∃ r w' sd' client', split_data_generate_instruction P idBytes env w h d = .ok (r, w') ∧
      client_ready w' h sd' client' base ∧ sd'.subcircs = sd.subcircs ∧
      client'.strategy = client.strategy := by
  by_cases hlen : (instruction sd d).length < MAX_NUM_SPLIT_INSTRUCTIONS
  · obtain ⟨inst, prev', payload, hnew, hpay, hne⟩ :=
      generation_succeeds_spec P idBytes env w h d sd client hr.1 hr.2.1 hlen hg
    obtain ⟨r, w', hrun, hr', -⟩ := generate_run P idBytes env w h d sd client base hr hlen inst
      prev' payload hnew hpay hne
    exact ⟨r, w', _, _, hrun, hr', subcircs_generated _ _ _ _ _, strategy_set_previous _ _ _⟩
  · exact ⟨-1, w, sd, client, generate_full P idBytes env w h d sd client base hr (by omega), hr,
      rfl, rfl⟩

theorem finalise_loop_any (P idBytes : Nat) (env : client_env) (h : Nat) (d : cell_direction_t)
    (base : Nat) (n : Nat) : ∀ (w : World) (sd : split_data_t) (client : split_data_client_t),
    client_ready w h sd client base →
    loop_generation_succeeds P idBytes env h d n w = true →
    ∃ w' sd' client', finalise_loop P idBytes env h d n w = .ok w' ∧
      client_ready w' h sd' client' base ∧ sd'.subcircs = sd.subcircs ∧
      client'.strategy = client.strategy := by
  induction n with
  | zero =>
    intro w sd client hr _
    exact ⟨w, sd, client, rfl, hr, rfl, rfl⟩
  | succ n ih =>
    intro w sd client hr hg
    obtain ⟨r, w1, sd1, c1, hrun, hr1, hs1, hst1⟩ := generate_any P idBytes env w h d sd client
      base hr (loop_generation_succeeds_head P idBytes env h d n w hg)
    obtain ⟨hstore, hr2⟩ := store_use_previous_ok w1 h d true sd1 c1 base hr1
    have hg2 := loop_generation_succeeds_succ P idBytes env h d n w _
      (finalise_loop_one P idBytes env h d w w1 _ r hrun hstore) hg
    obtain ⟨w', sd', c', hloop, hr', hs', hst'⟩ := ih _ _ _ hr2 hg2
    refine ⟨w', sd', c', ?_, hr', ?_, ?_⟩
    · show (split_data_generate_instruction P idBytes env w h d >>= fun x =>
        store_use_previous_data x.2 h d true >>= fun w =>
          finalise_loop P idBytes env h d n w) = _
      rw [hrun]
      show (store_use_previous_data w1 h d true >>= fun w =>
          finalise_loop P idBytes env h d n w) = _
      rw [hstore]
      exact hloop
    · rw [hs']; exact hs1
    · rw [hst', strategy_set_use_previous]; exact hst1

/-- The test of `split_data_finalise` that keeps a session from being
finalised. -/
theorem finalise_noop (P idBytes : Nat) (env : client_env) (w : World) (h : Nat)
    (sd : split_data_t) (client : split_data_client_t) (hsd : get_split_data w h = .ok sd)
    (hcl : sd.split_data_client = some client)
    (hc : client.is_final = true ∨
      (split_data_get_num_subcircs_added sd < split_get_subcircs_per_circ env ∧
       (split_data_get_num_subcircs_pending sd + client.launch_on_cookie) % 2 ^ 32 > 0)) :
    split_data_finalise P idBytes env w h = .ok w := by
  unfold split_data_finalise
  simp only [hsd, bind, Except.bind, get_client, hcl, pure, Except.pure]
  rcases hc with hc | hc
  · simp only [hc, if_true]
  · by_cases hf : client.is_final = true
    · simp only [hf, if_true]
    · simp only [hf, Bool.false_eq_true, if_false, hc, and_self, if_true]

/-- What `finalise_generation_succeeds` says about the two loops. -/
theorem finalise_generation_succeeds_spec (P idBytes : Nat) (env : client_env) (w w1 w2 : World)
    (h : Nat)
    (hs1 : store_use_previous_data w h cell_direction_t.CELL_DIRECTION_IN false = .ok w1)
    (hs2 : store_use_previous_data w1 h cell_direction_t.CELL_DIRECTION_OUT false = .ok w2)
    (hg : finalise_generation_succeeds P idBytes env w h = true) :
    loop_generation_succeeds P idBytes env h cell_direction_t.CELL_DIRECTION_IN
        NUM_SPLIT_INSTRUCTIONS w2 = true ∧
    ∀ w3, finalise_loop P idBytes env h cell_direction_t.CELL_DIRECTION_IN
        NUM_SPLIT_INSTRUCTIONS w2 = .ok w3 →
      loop_generation_succeeds P idBytes env h cell_direction_t.CELL_DIRECTION_OUT
        NUM_SPLIT_INSTRUCTIONS w3 = true := by
  unfold finalise_generation_succeeds at hg
  simp only [hs1, hs2, bind, Except.bind] at hg
  have hg' := Bool.and_eq_true _ _ ▸ hg
  refine ⟨hg'.1, fun w3 h3 => ?_⟩
  have h4 := hg'.2
  rw [h3] at h4
  exact h4

theorem finalise_any (P idBytes : Nat) (env : client_env) (w : World) (h : Nat)
    (sd : split_data_t) (client : split_data_client_t) (base : Nat)
    (hr : client_ready w h sd client base)
    (hg : finalise_generation_succeeds P idBytes env w h = true)
    (hnf : client.is_final = false)
    (hc : ¬ (split_data_get_num_subcircs_added sd < split_get_subcircs_per_circ env ∧
       (split_data_get_num_subcircs_pending sd + client.launch_on_cookie) % 2 ^ 32 > 0)) :
    ∃ w' sd' client', split_data_finalise P idBytes env w h = .ok w' ∧
      client_ready w' h sd' client' base ∧ client'.is_final = true ∧
      sd'.subcircs = sd.subcircs ∧ client'.strategy = client.strategy := by
  obtain ⟨hs1, hr1⟩ := store_use_previous_ok w h cell_direction_t.CELL_DIRECTION_IN false sd
    client base hr
  obtain ⟨hs2, hr2⟩ := store_use_previous_ok _ h cell_direction_t.CELL_DIRECTION_OUT false _ _
    base hr1
  obtain ⟨hgin, hgout⟩ := finalise_generation_succeeds_spec P idBytes env w _ _ h hs1 hs2 hg
  obtain ⟨w3, sd3, c3, hl3, hr3, hsub3, hst3⟩ := finalise_loop_any P idBytes env h
    cell_direction_t.CELL_DIRECTION_IN base NUM_SPLIT_INSTRUCTIONS _ _ _ hr2 hgin
  have hg3 := hgout w3 hl3
  obtain ⟨w4, sd4, c4, hl4, hr4, hsub4, hst4⟩ := finalise_loop_any P idBytes env h
    cell_direction_t.CELL_DIRECTION_OUT base NUM_SPLIT_INSTRUCTIONS _ _ _ hr3 hg3
  have hlt4 := get_split_data_lt w4 h sd4 hr4.1
  refine ⟨set_split_data w4 h { sd4 with split_data_client := some { c4 with is_final := true } },
    { sd4 with split_data_client := some { c4 with is_final := true } },
    { c4 with is_final := true }, ?_, ?_, rfl, ?_, ?_⟩
  · unfold split_data_finalise
    simp only [hr.1, bind, Except.bind, get_client, hr.2.1, hnf, Bool.false_eq_true, if_false, hc,
      hs1, hs2, hl3, hl4, hr4.1, hr4.2.1, pure, Except.pure]
  · exact client_ready_frame w4 _ h sd4 _ c4 _ base hr4 (get_set_split_data w4 h _ hlt4) rfl rfl
      rfl rfl (origin_frame_of_eq _ _ rfl)
  · show sd4.subcircs = sd.subcircs
    rw [hsub4, hsub3]; rfl
  · show c4.strategy = client.strategy
    rw [hst4, hst3]; rfl

theorem with_client_self (sd : split_data_t) (client : split_data_client_t)
    (hcl : sd.split_data_client = some client) : with_client sd client = sd := by
  cases sd
  simp only [with_client] at hcl ⊢
  subst hcl
  rfl

theorem set_instruction_self (sd : split_data_t) (d : cell_direction_t) :
    set_instruction sd d (instruction sd d) = sd := by
  cases d <;> rfl

theorem set_previous_self (client : split_data_client_t) (d : cell_direction_t) :
    set_previous_data client d (previous_data client d) = client := by
  cases d <;> rfl

theorem set_use_previous_self (client : split_data_client_t) (d : cell_direction_t) :
    set_use_previous_data client d (use_previous_data client d) = client := by
  cases d <;> rfl

/-- The loop of `split_data_finalise` for one direction, when the queue has
room: it appends `n` instructions, generated one after the other, and sets
the flag of the direction when `n > 0`. -/
theorem finalise_loop_run (P idBytes : Nat) (env : client_env) (h : Nat) (d : cell_direction_t)
    (base : Nat) (n : Nat) : ∀ (w : World) (sd : split_data_t) (client : split_data_client_t),
    client_ready w h sd client base →
    loop_generation_succeeds P idBytes env h d n w = true →
    (instruction sd d).length + n ≤ MAX_NUM_SPLIT_INSTRUCTIONS →
    ∃ w' insts last, finalise_loop P idBytes env h d n w = .ok w' ∧ insts.length = n ∧
      generated_chain P idBytes env client.strategy sd.subcircs (use_previous_data client d)
        (previous_data client d) insts last ∧
      client_ready w' h
        (set_instruction (with_client sd (set_use_previous_data (set_previous_data client d last)
          d (use_previous_data client d || decide (n > 0)))) d (instruction sd d ++ insts))
        (set_use_previous_data (set_previous_data client d last) d
          (use_previous_data client d || decide (n > 0))) base ∧
      w'.subcircuits = w.subcircuits ∧ w'.circuits = w.circuits ∧ origin_frame w w' ∧
      w'.split_data_or_cookie_map = w.split_data_or_cookie_map ∧
      (∀ k, k ≠ h → get_split_data w' k = get_split_data w k) := by
  induction n with
  | zero =>
    intro w sd client hr _ _
    refine ⟨w, [], previous_data client d, rfl, rfl, rfl, ?_, rfl, rfl, origin_frame_refl w, rfl,
      fun _ _ => rfl⟩
    have e1 : set_use_previous_data (set_previous_data client d (previous_data client d)) d
        (use_previous_data client d || decide (0 > 0)) = client := by
      rw [set_previous_self]
      simp only [gt_iff_lt, Nat.lt_irrefl, decide_False, Bool.or_false]
      exact set_use_previous_self client d
    rw [e1, with_client_self sd client hr.2.1, List.append_nil, set_instruction_self]
    exact hr
  | succ n ih =>
    intro w sd client hr hg hlen
    obtain ⟨inst, p1, payload, hnew, hpay, hne⟩ :=
      generation_succeeds_spec P idBytes env w h d sd client hr.1 hr.2.1 (by omega)
        (loop_generation_succeeds_head P idBytes env h d n w hg)
    obtain ⟨r, w1, hrun, hr1, hsub1, hci1, hof1, hmap1, hsds1, -, -⟩ := generate_run P idBytes env
      w h d sd client base hr (by omega) inst p1 payload hnew hpay hne
    obtain ⟨hstore, hr2⟩ := store_use_previous_ok w1 h d true _ _ base hr1
    have hg2 := loop_generation_succeeds_succ P idBytes env h d n w _
      (finalise_loop_one P idBytes env h d w w1 _ r hrun hstore) hg
    have hi2 : instruction (with_client (session_generated sd client d inst p1)
        (set_use_previous_data (set_previous_data client d p1) d true)) d
        = instruction sd d ++ [inst] := by
      cases d <;> rfl
    obtain ⟨w', insts, last, hloop, hlen', hchain, hr', hsub', hci', hof', hmap', hother'⟩ :=
      ih _ _ _ hr2 hg2 (by rw [hi2, List.length_append]; simp only [List.length_singleton]; omega)
    have hst2 : (set_use_previous_data (set_previous_data client d p1) d true).strategy
        = client.strategy := by
      rw [strategy_set_use_previous, strategy_set_previous]
    have hsc2 : (with_client (session_generated sd client d inst p1)
          (set_use_previous_data (set_previous_data client d p1) d true)).subcircs
        = sd.subcircs := by
      cases d <;> rfl
    have hu2 : use_previous_data (set_use_previous_data (set_previous_data client d p1) d true) d
        = true := by cases d <;> rfl
    have hp2 : previous_data (set_use_previous_data (set_previous_data client d p1) d true) d
        = p1 := by cases d <;> rfl
    rw [hst2, hsc2, hu2, hp2] at hchain
    refine ⟨w', inst :: insts, last, ?_, by simp [hlen'], ⟨w, p1, hnew, hchain⟩, ?_, ?_, ?_, ?_, ?_,
      ?_⟩
    · show (split_data_generate_instruction P idBytes env w h d >>= fun x =>
        store_use_previous_data x.2 h d true >>= fun w =>
          finalise_loop P idBytes env h d n w) = _
      rw [hrun]
      show (store_use_previous_data w1 h d true >>= fun w =>
          finalise_loop P idBytes env h d n w) = _
      rw [hstore]
      exact hloop
    · have e1 : set_use_previous_data (set_previous_data
          (set_use_previous_data (set_previous_data client d p1) d true) d last) d
          (use_previous_data (set_use_previous_data (set_previous_data client d p1) d true) d
            || decide (n > 0))
          = set_use_previous_data (set_previous_data client d last) d
            (use_previous_data client d || decide (n + 1 > 0)) := by
        cases d <;> simp [set_use_previous_data, set_previous_data, use_previous_data]
      have e2 : ∀ c, set_instruction (with_client (with_client (session_generated sd client d inst p1)
            (set_use_previous_data (set_previous_data client d p1) d true)) c) d
            (instruction (with_client (session_generated sd client d inst p1)
              (set_use_previous_data (set_previous_data client d p1) d true)) d ++ insts)
          = set_instruction (with_client sd c) d (instruction sd d ++ inst :: insts) := by
        intro c
        cases d <;>
          simp [set_instruction, with_client, session_generated, instruction]
      rw [e1, e2] at hr'
      exact hr'
    · rw [hsub']; show w1.subcircuits = _; exact hsub1
    · rw [hci']; show w1.circuits = _; exact hci1
    · exact origin_frame_trans _ _ _ hof1 (origin_frame_trans _ _ _ (origin_frame_of_eq _ _ rfl) hof')
    · rw [hmap']; show w1.split_data_or_cookie_map = _; exact hmap1
    · intro k hk
      rw [hother' k hk, get_split_data_set_ne _ _ _ _ (Ne.symm hk)]
      unfold get_split_data
      rw [hsds1, List.get?_eq_getElem?, List.get?_eq_getElem?, List.getElem?_set_ne (Ne.symm hk)]

/-- A session that `split_data_finalise` finalises while both queues have
room: the result, in full. -/
theorem finalise_run (P idBytes : Nat) (env : client_env) (w : World) (h : Nat)
    (sd : split_data_t) (client : split_data_client_t) (base : Nat)
    (hr : client_ready w h sd client base)
    (hg : finalise_generation_succeeds P idBytes env w h = true)
    (hnf : client.is_final = false)
    (hc : ¬ (split_data_get_num_subcircs_added sd < split_get_subcircs_per_circ env ∧
       (split_data_get_num_subcircs_pending sd + client.launch_on_cookie) % 2 ^ 32 > 0))
    (hin : sd.instruction_in.length + NUM_SPLIT_INSTRUCTIONS ≤ MAX_NUM_SPLIT_INSTRUCTIONS)
    (hout : sd.instruction_out.length + NUM_SPLIT_INSTRUCTIONS ≤ MAX_NUM_SPLIT_INSTRUCTIONS) :
    ∃ w' ins outs lin lout, split_data_finalise P idBytes env w h = .ok w' ∧
      ins.length = NUM_SPLIT_INSTRUCTIONS ∧ outs.length = NUM_SPLIT_INSTRUCTIONS ∧
      generated_chain P idBytes env client.strategy sd.subcircs false client.previous_data_in
        ins lin ∧
      generated_chain P idBytes env client.strategy sd.subcircs false client.previous_data_out
        outs lout ∧
      client_ready w' h (session_finalised sd client ins outs lin lout)
        (client_finalised client lin lout) base ∧
      w'.subcircuits = w.subcircuits ∧ w'.circuits = w.circuits ∧ origin_frame w w' ∧
      w'.split_data_or_cookie_map = w.split_data_or_cookie_map ∧
      (∀ k, k ≠ h → get_split_data w' k = get_split_data w k) := by
  obtain ⟨hs1, hr1⟩ := store_use_previous_ok w h cell_direction_t.CELL_DIRECTION_IN false sd
    client base hr
  obtain ⟨hs2, hr2⟩ := store_use_previous_ok _ h cell_direction_t.CELL_DIRECTION_OUT false _ _
    base hr1
  obtain ⟨hgin, hgout⟩ := finalise_generation_succeeds_spec P idBytes env w _ _ h hs1 hs2 hg
  obtain ⟨w3, ins, lin, hl3, hlen3, hch3, hr3, hsub3, hci3, hof3, hmap3, hoth3⟩ :=
    finalise_loop_run P idBytes env h cell_direction_t.CELL_DIRECTION_IN base
      NUM_SPLIT_INSTRUCTIONS _ _ _ hr2 hgin hin
  obtain ⟨w4, outs, lout, hl4, hlen4, hch4, hr4, hsub4, hci4, hof4, hmap4, hoth4⟩ :=
    finalise_loop_run P idBytes env h cell_direction_t.CELL_DIRECTION_OUT base
      NUM_SPLIT_INSTRUCTIONS _ _ _ hr3 (hgout w3 hl3) hout
  have hlt := get_split_data_lt w h sd hr.1
  have hlt4 := get_split_data_lt w4 h _ hr4.1
  refine ⟨set_split_data w4 h (session_finalised sd client ins outs lin lout), ins, outs, lin, lout, ?_, hlen3, hlen4, hch3, hch4, ?_, ?_, ?_,
    ?_, ?_, ?_⟩
  · unfold split_data_finalise
    simp only [hr.1, bind, Except.bind, get_client, hr.2.1, hnf, Bool.false_eq_true, if_false, hc,
      hs1, hs2, hl3, hl4, hr4.1, hr4.2.1, pure, Except.pure]
    rfl
  · exact client_ready_frame w4 _ h _ _ _ _ base hr4 (get_set_split_data w4 h _ hlt4) rfl rfl
      rfl rfl (origin_frame_of_eq _ _ rfl)
  · show w4.subcircuits = _
    rw [hsub4, hsub3]; rfl
  · show w4.circuits = _
    rw [hci4, hci3]; rfl
  · exact origin_frame_trans _ _ _ (origin_frame_of_eq _ _ rfl)
      (origin_frame_trans _ _ _ hof3 (origin_frame_trans _ _ _ hof4 (origin_frame_of_eq _ _ rfl)))
  · show w4.split_data_or_cookie_map = _
    rw [hmap4, hmap3]; rfl
  · intro k hk
    rw [get_split_data_set_ne _ _ _ _ (Ne.symm hk), hoth4 k hk, hoth3 k hk,
      get_split_data_set_ne _ _ _ _ (Ne.symm hk), get_split_data_set_ne _ _ _ _ (Ne.symm hk)]

theorem middle_cpath_hop (w : World) (h base m : Nat)
    (hm : split_data_get_middle_cpath w h base = .ok m) :
    ∃ oc hop, get_origin w base = .ok oc ∧ oc.cpath.get? m = some hop ∧
      hop.split_data = some h := by
  unfold split_data_get_middle_cpath at hm
  obtain ⟨oc, hoc, hrest⟩ := bind_ok _ _ _ hm
  obtain ⟨_, -, hrest⟩ := bind_ok _ _ _ hrest
  split at hrest
  · rename_i i hi
    injection hrest with hrest
    subst hrest
    obtain ⟨hlt, hp, -⟩ := List.findIdx?_eq_some_iff_getElem.mp hi
    refine ⟨oc, oc.cpath[i], hoc, ?_, ?_⟩
    · rw [List.get?_eq_getElem?, List.getElem?_eq_getElem hlt]
    · simpa using hp
  · cases hrest

theorem crypto_rand_cookie_length (env : client_env) (w : World) :
    (crypto_rand_cookie env w).length = SPLIT_COOKIE_LEN := by
  unfold crypto_rand_cookie
  simp

/-- The function `split_data_send_new_cookie` on a session that can reach its
middle. -/
theorem send_new_cookie_run (env : client_env) (w : World) (h : Nat) (sd : split_data_t)
    (client : split_data_client_t) (base : Nat) (hr : client_ready w h sd client base) :
    ∃ r w', split_data_send_new_cookie env w h = .ok (r, w') ∧
      w'.subcircuits = w.subcircuits ∧ w'.circuits = w.circuits ∧ origin_frame w w' ∧
      w'.split_data_or_cookie_map = w.split_data_or_cookie_map ∧
      (sd.cookie_state = split_cookie_state_t.SPLIT_COOKIE_STATE_PENDING → r = 0 ∧ w' = w) ∧
      (sd.cookie_state ≠ split_cookie_state_t.SPLIT_COOKIE_STATE_PENDING →
        w'.split_datas = w.split_datas.set h (some (session_new_cookie sd (crypto_rand_cookie env w))) ∧
        (env.send_fails (set_split_data w h (session_new_cookie sd (crypto_rand_cookie env w))) = false →
          r = 0 ∧ w'.origin_circuits = w.origin_circuits ∧
          w'.sent = w.sent ++ [⟨base, relay_command_t.RELAY_COMMAND_SPLIT_SET_COOKIE,
            crypto_rand_cookie env w⟩]) ∧
        (env.send_fails (set_split_data w h (session_new_cookie sd (crypto_rand_cookie env w))) = true →
          r = -1 ∧ w'.sent = w.sent ∧
          ∃ oc', get_origin w' base = .ok oc' ∧ oc'.marked_for_close = true)) := by
  obtain ⟨hsd, hcl, hbase, m, hm⟩ := hr
  by_cases hp : sd.cookie_state = split_cookie_state_t.SPLIT_COOKIE_STATE_PENDING
  · refine ⟨0, w, ?_, rfl, rfl, origin_frame_refl w, rfl, fun _ => ⟨rfl, rfl⟩,
      fun hn => absurd hp hn⟩
    unfold split_data_send_new_cookie
    simp only [hsd, bind, Except.bind, hp, if_true, pure, Except.pure]
  · obtain ⟨oc, hop, hoc, hhop, hhs⟩ := middle_cpath_hop w h base m hm
    have hoc1 : get_origin (set_split_data w h (session_new_cookie sd (crypto_rand_cookie env w))) base = .ok oc := hoc
    obtain ⟨r, w2, hsend, h1, h2, h3, h4, h5, h6, h7⟩ := send_origin_ok
      (set_split_data w h (session_new_cookie sd (crypto_rand_cookie env w))) base
      relay_command_t.RELAY_COMMAND_SPLIT_SET_COOKIE (crypto_rand_cookie env w)
      (env.send_fails (set_split_data w h (session_new_cookie sd (crypto_rand_cookie env w)))) oc hoc1
    refine ⟨r, w2, ?_, h2, h3, origin_frame_trans _ _ _ (origin_frame_of_eq _ _ rfl) h5, h4,
      fun hc => absurd hc hp, fun _ => ⟨h1, ?_, h7⟩⟩
    · unfold split_data_send_new_cookie split_send_new_cookie
      simp only [hsd, bind, Except.bind, hp, if_false, hbase, hm, hoc, hhop, hhs, pure,
        Except.pure]
      exact hsend
    · intro hf
      exact h6 hf

theorem change_state_run (w : World) (p : Nat) (sub : subcircuit_t) (c : Nat)
    (new_state : subcirc_state_t) (hsub : get_subcirc w p = .ok sub) (hc : sub.circ = some c)
    (hn : new_state ≠ subcirc_state_t.SUBCIRC_STATE_ADDED) :
    subcirc_change_state w p new_state
      = .ok (set_subcirc w p (subcirc_in_state sub new_state)) := by
  unfold subcirc_change_state
  have hne : (new_state != subcirc_state_t.SUBCIRC_STATE_ADDED) = true := by
    simpa using hn
  simp only [hsub, bind, Except.bind, tor_assert, hne, if_true, hc, pure, Except.pure]
  rw [← hc]
  rfl

theorem get_subcirc_set (w : World) (p : Nat) (x : subcircuit_t) (hlt : p < w.subcircuits.length) :
    get_subcirc (set_subcirc w p x) p = .ok x := by
  unfold get_subcirc set_subcirc
  simp [List.get?_eq_getElem?, List.getElem?_set, hlt]

theorem get_subcirc_set_ne (w : World) (p q : Nat) (x : subcircuit_t) (hne : q ≠ p) :
    get_subcirc (set_subcirc w p x) q = get_subcirc w q := by
  unfold get_subcirc set_subcirc
  simp [List.get?_eq_getElem?, List.getElem?_set, Ne.symm hne]

/-- C12 (as stated, refuted): a session with one added sub-circuit where
three are configured, no pending sub-circuit and `launch_on_cookie = 0`, is
finalised: `is_final` is set and two INSTRUCTION and two INFO cells are
sent, although the number of added sub-circuits is below the configured
one. -/
theorem C12_finalised_below_configured_count :
    get_split_data client_world_single 0 = .ok (ex_client_session
        split_cookie_state_t.SPLIT_COOKIE_STATE_VALID (ex_list1 0) (ex_client [] false) [] []) ∧
    split_data_get_num_subcircs_added (ex_client_session
        split_cookie_state_t.SPLIT_COOKIE_STATE_VALID (ex_list1 0) (ex_client [] false) [] []) = 1 ∧
    split_get_subcircs_per_circ (ex_client_env 3) = 3 ∧
    (ex_client [] false).is_final = false ∧
    split_data_finalise 4 1 (ex_client_env 3) client_world_single 0
      = .ok client_world_single_final ∧
    get_split_data client_world_single_final 0 = .ok (ex_client_session
        split_cookie_state_t.SPLIT_COOKIE_STATE_VALID (ex_list1 0) (ex_client_final [])
        [ex_inst_zero, ex_inst_zero] [ex_inst_zero, ex_inst_zero]) ∧
    (ex_client_final []).is_final = true ∧
    client_world_single_final.sent.map (fun c => c.command)
      = [relay_command_t.RELAY_COMMAND_SPLIT_INSTRUCTION,
         relay_command_t.RELAY_COMMAND_SPLIT_INSTRUCTION,
         relay_command_t.RELAY_COMMAND_SPLIT_INFO, relay_command_t.RELAY_COMMAND_SPLIT_INFO] := by
  decide!

/-- C12 (amended): for a session that can reach its middle,
`split_data_finalise` changes nothing and sends nothing when the session is
already final or when the number of added sub-circuits is below the
configured number while the (unsigned) sum of the number of pending
sub-circuits and `launch_on_cookie` is positive; in every other state, that
is when the session is not final and the added sub-circuits reach the
configured number or that sum is zero, and instruction generation succeeds
during the call, it returns and has set `is_final`, and if both queues had
room for them it has appended `NUM_SPLIT_INSTRUCTIONS` instructions to each
queue. -/
theorem C12_finalise_condition (RELAY_PAYLOAD_SIZE idBytes : Nat) (env : client_env) (w : World)
    (h : Nat) (sd : split_data_t) (client : split_data_client_t) (base : Nat)
    (hr : client_ready w h sd client base) :
    ((client.is_final = true ∨
        (split_data_get_num_subcircs_added sd < split_get_subcircs_per_circ env ∧
         (split_data_get_num_subcircs_pending sd + client.launch_on_cookie) % 2 ^ 32 > 0)) →
      split_data_finalise RELAY_PAYLOAD_SIZE idBytes env w h = .ok w) ∧
    (client.is_final = false →
      (split_get_subcircs_per_circ env ≤ split_data_get_num_subcircs_added sd ∨
       (split_data_get_num_subcircs_pending sd + client.launch_on_cookie) % 2 ^ 32 = 0) →
      finalise_generation_succeeds RELAY_PAYLOAD_SIZE idBytes env w h = true →
      ∃ w' sd' client', split_data_finalise RELAY_PAYLOAD_SIZE idBytes env w h = .ok w' ∧
        get_split_data w' h = .ok sd' ∧ sd'.split_data_client = some client' ∧
        client'.is_final = true ∧
        (sd.instruction_in.length + NUM_SPLIT_INSTRUCTIONS ≤ MAX_NUM_SPLIT_INSTRUCTIONS →
          sd.instruction_out.length + NUM_SPLIT_INSTRUCTIONS ≤ MAX_NUM_SPLIT_INSTRUCTIONS →
          sd'.instruction_in.length = sd.instruction_in.length + NUM_SPLIT_INSTRUCTIONS ∧
          sd'.instruction_out.length = sd.instruction_out.length + NUM_SPLIT_INSTRUCTIONS)) := by
  refine ⟨fun hc => finalise_noop RELAY_PAYLOAD_SIZE idBytes env w h sd client hr.1 hr.2.1 hc,
    fun hnf hc hg => ?_⟩
  by_cases hroom : sd.instruction_in.length + NUM_SPLIT_INSTRUCTIONS ≤ MAX_NUM_SPLIT_INSTRUCTIONS ∧
      sd.instruction_out.length + NUM_SPLIT_INSTRUCTIONS ≤ MAX_NUM_SPLIT_INSTRUCTIONS
  · obtain ⟨w', ins, outs, lin, lout, hrun, hli, hlo, -, -, hr', -⟩ := finalise_run
      RELAY_PAYLOAD_SIZE idBytes env w h sd client base hr hg hnf (by omega) hroom.1 hroom.2
    refine ⟨w', _, _, hrun, hr'.1, hr'.2.1, rfl, fun _ _ => ⟨?_, ?_⟩⟩
    · show (sd.instruction_in ++ ins).length = _
      rw [List.length_append, hli]
    · show (sd.instruction_out ++ outs).length = _
      rw [List.length_append, hlo]
  · obtain ⟨w', sd', client', hrun, hr', hf, -⟩ := finalise_any RELAY_PAYLOAD_SIZE idBytes env w
      h sd client base hr hg hnf (by omega)
    exact ⟨w', sd', client', hrun, hr'.1, hr'.2.1, hf, fun h1 h2 => absurd ⟨h1, h2⟩ hroom⟩

/-- C12 (amended) at four states.  The session of `client_world_single`
(round robin) has one added sub-circuit where three are configured and
nothing pending: it is finalised.  The session of `client_world_pending` has
one added sub-circuit where two are configured and one pending sub-circuit:
it is left as it is.  The sessions of `client_world_strategy` with the
strategies WEIGHTED_RANDOM and BATCHED_WEIGHTED_RANDOM have two added
sub-circuits where two are configured; instruction generation succeeds
during the call, with weights that differ from draw to draw, and they are
finalised with two instructions in each queue. -/
theorem C12_finalise_condition_witness :
    (∃ w' sd' client', split_data_finalise 4 1 (ex_client_env 3) client_world_single 0 = .ok w' ∧
        get_split_data w' 0 = .ok sd' ∧ sd'.split_data_client = some client' ∧
        client'.is_final = true ∧ sd'.instruction_in.length = 2 ∧
        sd'.instruction_out.length = 2) ∧
    split_data_finalise 4 1 (ex_client_env 2)
        (client_world_pending split_cookie_state_t.SPLIT_COOKIE_STATE_VALID) 0
      = .ok (client_world_pending split_cookie_state_t.SPLIT_COOKIE_STATE_VALID) ∧
    finalise_generation_succeeds 4 1 ex_client_env_varying
      (client_world_strategy SPLIT_STRATEGY_WEIGHTED_RANDOM) 0 = true ∧
    (∃ w' sd' client', split_data_finalise 4 1 ex_client_env_varying
          (client_world_strategy SPLIT_STRATEGY_WEIGHTED_RANDOM) 0 = .ok w' ∧
        get_split_data w' 0 = .ok sd' ∧ sd'.split_data_client = some client' ∧
        client'.is_final = true ∧ sd'.instruction_in.length = 2 ∧
        sd'.instruction_out.length = 2) ∧
    finalise_generation_succeeds 4 1 ex_client_env_varying
      (client_world_strategy SPLIT_STRATEGY_BATCHED_WEIGHTED_RANDOM) 0 = true ∧
    (∃ w' sd' client', split_data_finalise 4 1 ex_client_env_varying
          (client_world_strategy SPLIT_STRATEGY_BATCHED_WEIGHTED_RANDOM) 0 = .ok w' ∧
        get_split_data w' 0 = .ok sd' ∧ sd'.split_data_client = some client' ∧
        client'.is_final = true ∧ sd'.instruction_in.length = 2 ∧
        sd'.instruction_out.length = 2) :=
  ⟨match (C12_finalise_condition 4 1 (ex_client_env 3) client_world_single 0
      (ex_client_session split_cookie_state_t.SPLIT_COOKIE_STATE_VALID (ex_list1 0)
        (ex_client [] false) [] [])
      (ex_client [] false) 0 ⟨rfl, rfl, rfl, 1, rfl⟩).2
      rfl (Or.inr (by decide)) (by decide!) with
    | ⟨w', sd', client', hrun, hget, hcl, hf, hlen⟩ =>
      ⟨w', sd', client', hrun, hget, hcl, hf, (hlen (by decide) (by decide)).1,
        (hlen (by decide) (by decide)).2⟩,
   (C12_finalise_condition 4 1 (ex_client_env 2)
      (client_world_pending split_cookie_state_t.SPLIT_COOKIE_STATE_VALID) 0
      (ex_client_session split_cookie_state_t.SPLIT_COOKIE_STATE_VALID (ex_list1 0)
        (ex_client [1] false) [] [])
      (ex_client [1] false) 0 ⟨rfl, rfl, rfl, 1, rfl⟩).1
      (Or.inr (by decide)),
   by decide!,
   match (C12_finalise_condition 4 1 ex_client_env_varying
      (client_world_strategy SPLIT_STRATEGY_WEIGHTED_RANDOM) 0
      (ex_client_session split_cookie_state_t.SPLIT_COOKIE_STATE_VALID ex_list2
        (ex_client_strategy SPLIT_STRATEGY_WEIGHTED_RANDOM false false
          (List.replicate MAX_SUBCIRCS 0)) [] [])
      (ex_client_strategy SPLIT_STRATEGY_WEIGHTED_RANDOM false false
        (List.replicate MAX_SUBCIRCS 0)) 0 ⟨rfl, rfl, rfl, 1, rfl⟩).2
      rfl (Or.inl (by decide)) (by decide!) with
    | ⟨w', sd', client', hrun, hget, hcl, hf, hlen⟩ =>
      ⟨w', sd', client', hrun, hget, hcl, hf, (hlen (by decide) (by decide)).1,
        (hlen (by decide) (by decide)).2⟩,
   by decide!,
   match (C12_finalise_condition 4 1 ex_client_env_varying
      (client_world_strategy SPLIT_STRATEGY_BATCHED_WEIGHTED_RANDOM) 0
      (ex_client_session split_cookie_state_t.SPLIT_COOKIE_STATE_VALID ex_list2
        (ex_client_strategy SPLIT_STRATEGY_BATCHED_WEIGHTED_RANDOM false false
          (List.replicate MAX_SUBCIRCS 0)) [] [])
      (ex_client_strategy SPLIT_STRATEGY_BATCHED_WEIGHTED_RANDOM false false
        (List.replicate MAX_SUBCIRCS 0)) 0 ⟨rfl, rfl, rfl, 1, rfl⟩).2
      rfl (Or.inl (by decide)) (by decide!) with
    | ⟨w', sd', client', hrun, hget, hcl, hf, hlen⟩ =>
      ⟨w', sd', client', hrun, hget, hcl, hf, (hlen (by decide) (by decide)).1,
        (hlen (by decide) (by decide)).2⟩⟩

/-- C13: when `split_data_finalise` finalises a session (the session is not
final and the test that postpones finalisation fails) whose two instruction
queues are empty, and instruction generation succeeds during the call, it
returns, and afterwards `instruction_in` and `instruction_out` each hold exactly
`NUM_SPLIT_INSTRUCTIONS` instructions; in each direction they were generated
one after the other, the first with `use_prev = 0` and the weights stored
before, every later one with `use_prev = 1` and the weights stored by the one
before it; `is_final`, `use_previous_data_in` and `use_previous_data_out`
are set; and a further call of `split_data_finalise` changes nothing. -/
theorem C13_finalise_emits (RELAY_PAYLOAD_SIZE idBytes : Nat) (env : client_env) (w : World)
    (h : Nat) (sd : split_data_t) (client : split_data_client_t) (base : Nat)
    (hr : client_ready w h sd client base)
    (hg : finalise_generation_succeeds RELAY_PAYLOAD_SIZE idBytes env w h = true)
    (hnf : client.is_final = false)
    (hc : split_get_subcircs_per_circ env ≤ split_data_get_num_subcircs_added sd ∨
      (split_data_get_num_subcircs_pending sd + client.launch_on_cookie) % 2 ^ 32 = 0)
    (hin : sd.instruction_in = []) (hout : sd.instruction_out = []) :
    ∃ w' sd' client', split_data_finalise RELAY_PAYLOAD_SIZE idBytes env w h = .ok w' ∧
      get_split_data w' h = .ok sd' ∧ sd'.split_data_client = some client' ∧
      sd'.instruction_in.length = NUM_SPLIT_INSTRUCTIONS ∧
      sd'.instruction_out.length = NUM_SPLIT_INSTRUCTIONS ∧
      generated_chain RELAY_PAYLOAD_SIZE idBytes env client.strategy sd.subcircs false
        client.previous_data_in sd'.instruction_in client'.previous_data_in ∧
      generated_chain RELAY_PAYLOAD_SIZE idBytes env client.strategy sd.subcircs false
        client.previous_data_out sd'.instruction_out client'.previous_data_out ∧
      client'.is_final = true ∧ client'.use_previous_data_in = true ∧
      client'.use_previous_data_out = true ∧
      split_data_finalise RELAY_PAYLOAD_SIZE idBytes env w' h = .ok w' := by
  obtain ⟨w', ins, outs, lin, lout, hrun, hli, hlo, hci, hco, hr', -⟩ := finalise_run
    RELAY_PAYLOAD_SIZE idBytes env w h sd client base hr hg hnf (by omega)
    (by rw [hin]; decide) (by rw [hout]; decide)
  refine ⟨w', _, _, hrun, hr'.1, hr'.2.1, ?_, ?_, ?_, ?_, rfl, rfl, rfl, ?_⟩
  · show (sd.instruction_in ++ ins).length = _
    rw [hin]; exact hli
  · show (sd.instruction_out ++ outs).length = _
    rw [hout]; exact hlo
  · show generated_chain _ _ _ _ _ _ _ (sd.instruction_in ++ ins) lin
    rw [hin]; exact hci
  · show generated_chain _ _ _ _ _ _ _ (sd.instruction_out ++ outs) lout
    rw [hout]; exact hco
  · exact finalise_noop RELAY_PAYLOAD_SIZE idBytes env w' h _ _ hr'.1 hr'.2.1 (Or.inl rfl)

/-- C13 at the session of `client_world_strategy` with the strategy
WEIGHTED_RANDOM and with BATCHED_WEIGHTED_RANDOM, two sub-circuits configured
and weights that differ from draw to draw (0.3 and 0.7 at the first call,
0.4 and 0.6 at the second, 0.5 and 0.5 at the third, 0.6 and 0.4 at the
fourth): instruction generation succeeds during the call, the call returns,
and the session is final with two instructions in each queue.  The stored
weights are those of the first call in each direction (0.3, 0.7 and
0.5, 0.5), and the second instruction of a direction is generated from
them. -/
theorem C13_finalise_emits_witness :
    finalise_generation_succeeds 4 1 ex_client_env_varying
      (client_world_strategy SPLIT_STRATEGY_WEIGHTED_RANDOM) 0 = true ∧
    (∃ w' sd' client', split_data_finalise 4 1 ex_client_env_varying
          (client_world_strategy SPLIT_STRATEGY_WEIGHTED_RANDOM) 0 = .ok w' ∧
      get_split_data w' 0 = .ok sd' ∧ sd'.split_data_client = some client' ∧
      sd'.instruction_in.length = NUM_SPLIT_INSTRUCTIONS ∧
      sd'.instruction_out.length = NUM_SPLIT_INSTRUCTIONS ∧
      generated_chain 4 1 ex_client_env_varying SPLIT_STRATEGY_WEIGHTED_RANDOM ex_list2 false
        [0, 0, 0, 0, 0] sd'.instruction_in client'.previous_data_in ∧
      generated_chain 4 1 ex_client_env_varying SPLIT_STRATEGY_WEIGHTED_RANDOM ex_list2 false
        [0, 0, 0, 0, 0] sd'.instruction_out client'.previous_data_out ∧
      client'.is_final = true ∧ client'.use_previous_data_in = true ∧
      client'.use_previous_data_out = true ∧
      split_data_finalise 4 1 ex_client_env_varying w' 0 = .ok w') ∧
    (split_data_finalise 4 1 ex_client_env_varying
        (client_world_strategy SPLIT_STRATEGY_WEIGHTED_RANDOM) 0 >>= session_summary)
      = .ok ([[30, 70, 0, 0, 0], [50, 50, 0, 0, 0]], [true, true, true],
          [[0, 0, 0, 0, 1, 1, 1, 1, 1, 1, 1, 1, 1, 1, 0, 0],
           [0, 0, 0, 0, 1, 1, 1, 1, 1, 1, 1, 1, 1, 1, 0, 0]],
          [[0, 0, 0, 0, 0, 0, 0, 1, 1, 1, 1, 1, 1, 1, 0, 0],
           [0, 0, 0, 0, 0, 0, 0, 1, 1, 1, 1, 1, 1, 1, 0, 0]]) ∧
    finalise_generation_succeeds 4 1 ex_client_env_varying
      (client_world_strategy SPLIT_STRATEGY_BATCHED_WEIGHTED_RANDOM) 0 = true ∧
    (∃ w' sd' client', split_data_finalise 4 1 ex_client_env_varying
          (client_world_strategy SPLIT_STRATEGY_BATCHED_WEIGHTED_RANDOM) 0 = .ok w' ∧
      get_split_data w' 0 = .ok sd' ∧ sd'.split_data_client = some client' ∧
      sd'.instruction_in.length = NUM_SPLIT_INSTRUCTIONS ∧
      sd'.instruction_out.length = NUM_SPLIT_INSTRUCTIONS ∧
      generated_chain 4 1 ex_client_env_varying SPLIT_STRATEGY_BATCHED_WEIGHTED_RANDOM ex_list2
        false [0, 0, 0, 0, 0] sd'.instruction_in client'.previous_data_in ∧
      generated_chain 4 1 ex_client_env_varying SPLIT_STRATEGY_BATCHED_WEIGHTED_RANDOM ex_list2
        false [0, 0, 0, 0, 0] sd'.instruction_out client'.previous_data_out ∧
      client'.is_final = true ∧ client'.use_previous_data_in = true ∧
      client'.use_previous_data_out = true ∧
      split_data_finalise 4 1 ex_client_env_varying w' 0 = .ok w') :=
  ⟨by decide!,
   C13_finalise_emits 4 1 ex_client_env_varying
    (client_world_strategy SPLIT_STRATEGY_WEIGHTED_RANDOM) 0
    (ex_client_session split_cookie_state_t.SPLIT_COOKIE_STATE_VALID ex_list2
      (ex_client_strategy SPLIT_STRATEGY_WEIGHTED_RANDOM false false
        (List.replicate MAX_SUBCIRCS 0)) [] [])
    (ex_client_strategy SPLIT_STRATEGY_WEIGHTED_RANDOM false false
      (List.replicate MAX_SUBCIRCS 0)) 0 ⟨rfl, rfl, rfl, 1, rfl⟩
    (by decide!) rfl (Or.inl (by decide)) rfl rfl,
   by decide!,
   by decide!,
   C13_finalise_emits 4 1 ex_client_env_varying
    (client_world_strategy SPLIT_STRATEGY_BATCHED_WEIGHTED_RANDOM) 0
    (ex_client_session split_cookie_state_t.SPLIT_COOKIE_STATE_VALID ex_list2
      (ex_client_strategy SPLIT_STRATEGY_BATCHED_WEIGHTED_RANDOM false false
        (List.replicate MAX_SUBCIRCS 0)) [] [])
    (ex_client_strategy SPLIT_STRATEGY_BATCHED_WEIGHTED_RANDOM false false
      (List.replicate MAX_SUBCIRCS 0)) 0 ⟨rfl, rfl, rfl, 1, rfl⟩
    (by decide!) rfl (Or.inl (by decide)) rfl rfl⟩

/-- C19: the client receives JOINED(fail), the one-byte payload `0`, on the
hop `middle` of the circuit `circ`; the hop belongs to the session `h`, which
can reach its middle, and its sub-circuit `p` is in state PENDING_JOIN and
passes the check of the code (`split_data_check_subcirc` returns 1).  Then
`split_process_joined` returns 0; the sub-circuit `p` is in state
PENDING_COOKIE and otherwise unchanged, and so are all other sub-circuits and
sessions; the client part of the session, so its list of pending
sub-circuits, and its list of added sub-circuits are unchanged.  If the
cookie state was PENDING, the session is unchanged and nothing is sent.
Otherwise the session stores a freshly generated cookie of
`SPLIT_COOKIE_LEN` bytes with state PENDING, and that cookie is sent in a
SET_COOKIE cell on the base circuit (if sending fails, no cell is recorded and
the base circuit is marked for close). -/
theorem C19_joined_fail (RELAY_PAYLOAD_SIZE idBytes : Nat) (env : client_env) (w : World)
    (circ middle h p : Nat) (oc : origin_circuit_t) (hop : crypt_path_t) (sub : subcircuit_t)
    (sd : split_data_t) (client : split_data_client_t) (base : Nat)
    (hoc : get_origin w circ = .ok oc) (hhop : oc.cpath.get? middle = some hop)
    (hhs : hop.split_data = some h) (hhp : hop.subcirc = some p)
    (hsub : get_subcirc w p = .ok sub)
    (hstate : sub.state = subcirc_state_t.SUBCIRC_STATE_PENDING_JOIN)
    (hcirc : sub.circ = some circ)
    (hchk : split_data_check_subcirc_origin w h circ = .ok 1)
    (hr : client_ready w h sd client base) :
    ∃ w' sd', split_process_joined RELAY_PAYLOAD_SIZE idBytes env w circ middle [0] = .ok (0, w') ∧
      get_subcirc w' p
        = .ok (subcirc_in_state sub subcirc_state_t.SUBCIRC_STATE_PENDING_COOKIE) ∧
      (∀ q, q ≠ p → get_subcirc w' q = get_subcirc w q) ∧
      (∀ k, k ≠ h → get_split_data w' k = get_split_data w k) ∧
      get_split_data w' h = .ok sd' ∧ sd'.split_data_client = some client ∧
      sd'.subcircs = sd.subcircs ∧
      (sd.cookie_state = split_cookie_state_t.SPLIT_COOKIE_STATE_PENDING →
        sd' = sd ∧ w'.sent = w.sent ∧ w'.origin_circuits = w.origin_circuits) ∧
      (sd.cookie_state ≠ split_cookie_state_t.SPLIT_COOKIE_STATE_PENDING →
        sd' = session_new_cookie sd (crypto_rand_cookie env w) ∧
        (crypto_rand_cookie env w).length = SPLIT_COOKIE_LEN ∧
        (env.send_fails (set_split_data w h (session_new_cookie sd (crypto_rand_cookie env w)))
            = false →
          w'.sent = w.sent ++ [⟨base, relay_command_t.RELAY_COMMAND_SPLIT_SET_COOKIE,
            crypto_rand_cookie env w⟩]) ∧
        (env.send_fails (set_split_data w h (session_new_cookie sd (crypto_rand_cookie env w)))
            = true →
          w'.sent = w.sent ∧
          ∃ oc', get_origin w' base = .ok oc' ∧ oc'.marked_for_close = true)) := by
  obtain ⟨r, w2, hsend, hsub2, -, hof2, -, hpend, hnew⟩ := send_new_cookie_run env w h sd client
    base hr
  have hsub2' : get_subcirc w2 p = .ok sub := by
    rw [get_subcirc_congr w w2 p hsub2]; exact hsub
  have hchg := change_state_run w2 p sub circ subcirc_state_t.SUBCIRC_STATE_PENDING_COOKIE hsub2'
    hcirc (by decide)
  have hplt : p < w2.subcircuits.length := get_subcirc_lt w2 p sub hsub2'
  have hrun : split_process_joined RELAY_PAYLOAD_SIZE idBytes env w circ middle [0]
      = .ok (0, (set_subcirc w2 p (subcirc_in_state sub subcirc_state_t.SUBCIRC_STATE_PENDING_COOKIE))) := by
    unfold split_process_joined
    have hl : ¬ (([0] : List Nat).length ≠ 1 ∧ ([0] : List Nat).length ≠ 1 + idBytes) := by
      simp
    have hrd : rd [0] 0 = .ok 0 := rfl
    have hl1 : (([0] : List Nat).length == 1) = true := rfl
    simp only [hoc, bind, Except.bind, hhop, hl, if_false, hrd, hhs, hhp, hsub, hstate, ne_eq,
      not_true_eq_false, hchk, tor_assert, beq_self_eq_true, if_true, hl1, hsend, hchg, pure,
      Except.pure]
  have hother : ∀ q, q ≠ p → get_subcirc (set_subcirc w2 p (subcirc_in_state sub subcirc_state_t.SUBCIRC_STATE_PENDING_COOKIE)) q
      = get_subcirc w q := by
    intro q hq
    rw [get_subcirc_set_ne w2 p q _ hq, get_subcirc_congr w w2 q hsub2]
  have hlt := get_split_data_lt w h sd hr.1
  by_cases hp : sd.cookie_state = split_cookie_state_t.SPLIT_COOKIE_STATE_PENDING
  · obtain ⟨-, hw⟩ := hpend hp
    subst hw
    refine ⟨_, sd, hrun, get_subcirc_set w2 p _ hplt, hother, fun _ _ => rfl, hr.1, hr.2.1, rfl,
      fun _ => ⟨rfl, rfl, rfl⟩, fun hn => absurd hp hn⟩
  · obtain ⟨hsds, hok, hfail⟩ := hnew hp
    have hget : get_split_data (set_subcirc w2 p (subcirc_in_state sub subcirc_state_t.SUBCIRC_STATE_PENDING_COOKIE)) h
        = .ok (session_new_cookie sd (crypto_rand_cookie env w)) := by
      unfold get_split_data
      show (match w2.split_datas.get? h with
        | some (some x) => Except.ok x
        | _ => Except.error Fault.memory) = _
      rw [hsds]
      simp [List.get?_eq_getElem?, List.getElem?_set, hlt]
    refine ⟨_, session_new_cookie sd (crypto_rand_cookie env w), hrun,
      get_subcirc_set w2 p _ hplt, hother, ?_, hget, hr.2.1, rfl, fun hc => absurd hc hp,
      fun _ => ⟨rfl, crypto_rand_cookie_length env w, fun hf => (hok hf).2.2, fun hf => ?_⟩⟩
    · intro k hk
      unfold get_split_data
      show (match w2.split_datas.get? k with
        | some (some x) => Except.ok x
        | _ => Except.error Fault.memory) = _
      rw [hsds, List.get?_eq_getElem?, List.get?_eq_getElem?, List.getElem?_set_ne (Ne.symm hk)]
      try rfl
    · obtain ⟨-, hs, oc', ho', hm'⟩ := hfail hf
      exact ⟨hs, oc', ho', hm'⟩

/-- C19 at the client of `client_world_pending`, whose circuit 1 waits for
the answer to its JOIN.  With a VALID cookie, JOINED(fail) moves sub-circuit 1
to PENDING_COOKIE, and the client stores the new cookie `9, 9, ...` in state
PENDING and sends it in SET_COOKIE on the base circuit 0; with a PENDING
cookie nothing is sent and the session is unchanged. -/
theorem C19_joined_fail_witness :
    (∃ w' sd', split_process_joined 4 1 (ex_client_env 2)
          (client_world_pending split_cookie_state_t.SPLIT_COOKIE_STATE_VALID) 1 1 [0]
        = .ok (0, w') ∧
      get_subcirc w' 1 = .ok (ex_sub_pending 1 subcirc_state_t.SUBCIRC_STATE_PENDING_COOKIE) ∧
      get_split_data w' 0 = .ok sd' ∧
      sd' = session_new_cookie (ex_client_session split_cookie_state_t.SPLIT_COOKIE_STATE_VALID
        (ex_list1 0) (ex_client [1] false) [] []) (List.replicate 20 9) ∧
      w'.sent = [⟨0, relay_command_t.RELAY_COMMAND_SPLIT_SET_COOKIE, List.replicate 20 9⟩]) ∧
    (∃ w' sd', split_process_joined 4 1 (ex_client_env 2)
          (client_world_pending split_cookie_state_t.SPLIT_COOKIE_STATE_PENDING) 1 1 [0]
        = .ok (0, w') ∧
      get_subcirc w' 1 = .ok (ex_sub_pending 1 subcirc_state_t.SUBCIRC_STATE_PENDING_COOKIE) ∧
      get_split_data w' 0 = .ok sd' ∧
      sd' = ex_client_session split_cookie_state_t.SPLIT_COOKIE_STATE_PENDING (ex_list1 0)
        (ex_client [1] false) [] [] ∧
      w'.sent = []) :=
  ⟨match C19_joined_fail 4 1 (ex_client_env 2)
      (client_world_pending split_cookie_state_t.SPLIT_COOKIE_STATE_VALID) 1 1 0 1
      (ex_origin true [ex_hop none none, ex_hop (some 0) (some 1)]) (ex_hop (some 0) (some 1))
      (ex_sub_pending 1 subcirc_state_t.SUBCIRC_STATE_PENDING_JOIN)
      (ex_client_session split_cookie_state_t.SPLIT_COOKIE_STATE_VALID (ex_list1 0)
        (ex_client [1] false) [] [])
      (ex_client [1] false) 0 rfl rfl rfl rfl rfl rfl rfl (by decide!) ⟨rfl, rfl, rfl, 1, rfl⟩ with
    | ⟨w', sd', hrun, hsubp, _, _, hget, _, _, _, hnew⟩ =>
      ⟨w', sd', hrun, hsubp, hget, (hnew (by decide)).1, (hnew (by decide)).2.2.1 rfl⟩,
   match C19_joined_fail 4 1 (ex_client_env 2)
      (client_world_pending split_cookie_state_t.SPLIT_COOKIE_STATE_PENDING) 1 1 0 1
      (ex_origin true [ex_hop none none, ex_hop (some 0) (some 1)]) (ex_hop (some 0) (some 1))
      (ex_sub_pending 1 subcirc_state_t.SUBCIRC_STATE_PENDING_JOIN)
      (ex_client_session split_cookie_state_t.SPLIT_COOKIE_STATE_PENDING (ex_list1 0)
        (ex_client [1] false) [] [])
      (ex_client [1] false) 0 rfl rfl rfl rfl rfl rfl rfl (by decide!) ⟨rfl, rfl, rfl, 1, rfl⟩ with
    | ⟨w', sd', hrun, hsubp, _, _, hget, _, _, hpend, _⟩ =>
      ⟨w', sd', hrun, hsubp, hget, (hpend rfl).1, (hpend rfl).2.1⟩⟩

theorem sum_map_set_add {α : Type} (f : α → Nat) :
    ∀ (l : List α) (i : Nat) (x y : α), l.get? i = some y →
      ((l.set i x).map f).sum + f y = (l.map f).sum + f x := by
  intro l
  induction l with
  | nil => intro i x y h; simp at h
  | cons a t ih =>
    intro i x y h
    cases i with
    | zero =>
      simp only [List.get?_cons_zero, Option.some.injEq] at h
      subst h
      simp only [List.set_cons_zero, List.map_cons, List.sum_cons]
      omega
    | succ i =>
      simp only [List.get?_cons_succ] at h
      have := ih i x y h
      simp only [List.set_cons_succ, List.map_cons, List.sum_cons]
      omega

theorem get_subcirc_get (w : World) (p : Nat) (sub : subcircuit_t)
    (hsub : get_subcirc w p = .ok sub) : w.subcircuits.get? p = some (some sub) := by
  unfold get_subcirc at hsub
  split at hsub
  · rename_i x hx
    injection hsub with hsub
    subst hsub
    exact hx
  · cases hsub

theorem total_buffered_pop (w : World) (p : Nat) (sub : subcircuit_t) (cell : buffered_cell_t)
    (rest : List buffered_cell_t) (n : Int) (hsub : get_subcirc w p = .ok sub)
    (hhead : sub.cell_buf.head = cell :: rest) :
    total_buffered (set_subcirc w p { sub with cell_buf := { head := rest, num := n } }) + 1
      = total_buffered w := by
  have hget := get_subcirc_get w p sub hsub
  have := sum_map_set_add buffered_count w.subcircuits p
    (some { sub with cell_buf := { head := rest, num := n } }) (some sub) hget
  have e1 : buffered_count (some sub) = rest.length + 1 := by
    show sub.cell_buf.head.length = _
    rw [hhead]; rfl
  have e2 : buffered_count (some { sub with cell_buf := { head := rest, num := n } })
      = rest.length := rfl
  rw [e1, e2] at this
  unfold total_buffered set_subcirc
  simp only
  omega

theorem total_buffered_congr (w w' : World) (h : w'.subcircuits = w.subcircuits) :
    total_buffered w' = total_buffered w := by
  unfold total_buffered; rw [h]

theorem get_next_subcircuits (idBytes : Nat)
    (generate : World → Nat → cell_direction_t → Run World)
    (hgen : ∀ w h d w', generate w h d = .ok w' → w'.subcircuits = w.subcircuits)
    (w w' : World) (h : Nat) (d : cell_direction_t) (r : Option Nat)
    (hrun : split_data_get_next_subcirc idBytes generate w h d = .ok (r, w')) :
    w'.subcircuits = w.subcircuits := by
  unfold split_data_get_next_subcirc at hrun
  obtain ⟨sd, hsd, hrun⟩ := bind_ok _ _ _ hrun
  split at hrun
  · obtain ⟨x, -, hrun⟩ := bind_ok _ _ _ hrun
    injection hrun with hrun
    injection hrun with h1 h2
    rw [← h2]
  · split at hrun
    · injection hrun with hrun
      injection hrun with h1 h2
      rw [← h2]
    · split at hrun
      · injection hrun with hrun
        injection hrun with h1 h2
        rw [← h2]
      · obtain ⟨⟨next_id, queue⟩, -, hrun⟩ := bind_ok _ _ _ hrun
        obtain ⟨w1, hw1, hrun⟩ := bind_ok _ _ _ hrun
        have hs1 : w1.subcircuits = w.subcircuits := by
          split at hw1
          · have := hgen _ _ _ _ hw1
            exact this
          · injection hw1 with hw1
            rw [← hw1]; rfl
        obtain ⟨sd1, -, hrun⟩ := bind_ok _ _ _ hrun
        obtain ⟨next, -, hrun⟩ := bind_ok _ _ _ hrun
        obtain ⟨_, -, hrun⟩ := bind_ok _ _ _ hrun
        split at hrun
        · cases hrun
        · obtain ⟨sub, -, hrun⟩ := bind_ok _ _ _ hrun
          obtain ⟨_, -, hrun⟩ := bind_ok _ _ _ hrun
          injection hrun with hrun
          injection hrun with h1 h2
          rw [← h2]
          exact hs1

theorem split_get_next_subcircuits (idBytes : Nat)
    (generate : World → Nat → cell_direction_t → Run World)
    (hgen : ∀ w h d w', generate w h d = .ok w' → w'.subcircuits = w.subcircuits)
    (w w' : World) (base : Nat) (d : cell_direction_t) (r : Option Nat)
    (hrun : split_get_next_subcirc idBytes generate w base d = .ok (r, w')) :
    w'.subcircuits = w.subcircuits := by
  unfold split_get_next_subcirc at hrun
  obtain ⟨oc, -, hrun⟩ := bind_ok _ _ _ hrun
  split at hrun
  · cases hrun
  · exact get_next_subcircuits idBytes generate hgen _ _ _ _ _ hrun

theorem used_circuit_subcircuits (w w' : World) (base : Nat) (d : cell_direction_t)
    (hrun : split_used_circuit w base d = .ok w') : w'.subcircuits = w.subcircuits := by
  unfold split_used_circuit at hrun
  obtain ⟨oc, -, hrun⟩ := bind_ok _ _ _ hrun
  split at hrun
  · cases hrun
  · obtain ⟨sd, -, hrun⟩ := bind_ok _ _ _ hrun
    injection hrun with hrun
    rw [← hrun]; rfl

theorem cell_buffer_pop_some (buf buf' : cell_buffer_t) (cell : buffered_cell_t)
    (h : cell_buffer_pop buf = .ok (some cell, buf')) :
    ∃ rest, buf.head = cell :: rest ∧ buf' = { head := rest, num := buf.num - 1 } := by
  unfold cell_buffer_pop at h
  split at h
  · injection h with h
    injection h with h1 h2
    cases h1
  · rename_i c rest hc
    obtain ⟨_, -, h⟩ := bind_ok _ _ _ h
    injection h with h
    injection h with h1 h2
    injection h1 with h1
    subst h1
    exact ⟨rest, hc, h2.symm⟩

/-! ### Runs that do not run out of fuel -/

theorem no_fuel_ok {α : Type} (a : α) : no_fuel (Except.ok a : Run α) := by
  intro h; cases h

theorem no_fuel_pure {α : Type} (a : α) : no_fuel (pure a : Run α) := by
  intro h; cases h

theorem no_fuel_assertion {α : Type} : no_fuel (Except.error Fault.assertion : Run α) := by
  intro h; cases h

theorem no_fuel_memory {α : Type} : no_fuel (Except.error Fault.memory : Run α) := by
  intro h; cases h

theorem no_fuel_bind {α β : Type} (x : Run α) (f : α → Run β) (hx : no_fuel x)
    (hf : ∀ a, x = .ok a → no_fuel (f a)) : no_fuel (x >>= f) := by
  cases x with
  | error e =>
    intro h
    apply hx
    simp only [bind, Except.bind] at h
    injection h with h
    rw [h]
  | ok a => exact hf a rfl

theorem no_fuel_tor_assert (c : Bool) : no_fuel (tor_assert c) := by
  unfold tor_assert
  split
  · exact no_fuel_ok _
  · exact no_fuel_assertion

theorem no_fuel_get_subcirc (w : World) (p : Nat) : no_fuel (get_subcirc w p) := by
  unfold get_subcirc
  split
  · exact no_fuel_ok _
  · exact no_fuel_memory

theorem no_fuel_get_circ (w : World) (c : Nat) : no_fuel (get_circ w c) := by
  unfold get_circ
  split
  · exact no_fuel_ok _
  · exact no_fuel_memory

theorem no_fuel_get_split_data (w : World) (h : Nat) : no_fuel (get_split_data w h) := by
  unfold get_split_data
  split
  · exact no_fuel_ok _
  · exact no_fuel_memory

theorem no_fuel_rd (buf : List Nat) (i : Nat) : no_fuel (rd buf i) := by
  unfold rd
  split
  · exact no_fuel_ok _
  · exact no_fuel_memory

theorem no_fuel_rdp (buf : List (Option Nat)) (i : Nat) : no_fuel (rdp buf i) := by
  unfold rdp
  split
  · exact no_fuel_ok _
  · exact no_fuel_memory

theorem no_fuel_subcirc_list_get (sl : subcirc_list_t) (id : Nat) :
    no_fuel (subcirc_list_get sl id) := by
  unfold subcirc_list_get
  exact no_fuel_bind _ _ (no_fuel_tor_assert _) (fun _ _ => no_fuel_rdp _ _)

theorem no_fuel_cell_buffer_pop (buf : cell_buffer_t) : no_fuel (cell_buffer_pop buf) := by
  unfold cell_buffer_pop
  split
  · exact no_fuel_pure _
  · exact no_fuel_bind _ _ (no_fuel_tor_assert _) (fun _ _ => no_fuel_pure _)

theorem no_fuel_get_next_id (idBytes : Nat) (queue : List split_instruction_t) :
    no_fuel (split_instruction_get_next_id idBytes queue) := by
  unfold split_instruction_get_next_id
  split
  · exact no_fuel_assertion
  · refine no_fuel_bind _ _ (no_fuel_tor_assert _) (fun _ _ => ?_)
    refine no_fuel_bind _ _ (no_fuel_tor_assert _) (fun _ _ => ?_)
    split
    · refine no_fuel_bind _ _ (no_fuel_tor_assert _) (fun _ _ => ?_)
      split
      · exact no_fuel_memory
      · refine no_fuel_bind _ _ (no_fuel_rd _ _) (fun _ _ => ?_)
        dsimp only
        split
        · exact no_fuel_pure _
        · exact no_fuel_pure _
    · exact no_fuel_assertion

theorem no_fuel_used_circuit (w : World) (base : Nat) (d : cell_direction_t) :
    no_fuel (split_used_circuit w base d) := by
  unfold split_used_circuit
  refine no_fuel_bind _ _ (no_fuel_get_circ _ _) (fun oc _ => ?_)
  split
  · exact no_fuel_assertion
  · exact no_fuel_bind _ _ (no_fuel_get_split_data _ _) (fun _ _ => no_fuel_pure _)

theorem no_fuel_data_get_next (idBytes : Nat)
    (generate : World → Nat → cell_direction_t → Run World)
    (hgenf : ∀ w h d, no_fuel (generate w h d)) (w : World) (h : Nat) (d : cell_direction_t) :
    no_fuel (split_data_get_next_subcirc idBytes generate w h d) := by
  unfold split_data_get_next_subcirc
  refine no_fuel_bind _ _ (no_fuel_get_split_data _ _) (fun sd _ => ?_)
  split
  · exact no_fuel_bind _ _ (no_fuel_subcirc_list_get _ _) (fun _ _ => no_fuel_pure _)
  · split
    · exact no_fuel_pure _
    · split
      · exact no_fuel_pure _
      · refine no_fuel_bind _ _ (no_fuel_get_next_id _ _) (fun r _ => ?_)
        refine no_fuel_bind _ _ ?_ (fun w1 _ => ?_)
        · split
          · exact hgenf _ _ _
          · exact no_fuel_pure _
        · refine no_fuel_bind _ _ (no_fuel_get_split_data _ _) (fun sd1 _ => ?_)
          refine no_fuel_bind _ _ (no_fuel_subcirc_list_get _ _) (fun next _ => ?_)
          refine no_fuel_bind _ _ (no_fuel_tor_assert _) (fun _ _ => ?_)
          split
          · exact no_fuel_assertion
          · refine no_fuel_bind _ _ (no_fuel_get_subcirc _ _) (fun _ _ => ?_)
            exact no_fuel_bind _ _ (no_fuel_tor_assert _) (fun _ _ => no_fuel_pure _)

theorem no_fuel_get_next (idBytes : Nat)
    (generate : World → Nat → cell_direction_t → Run World)
    (hgenf : ∀ w h d, no_fuel (generate w h d)) (w : World) (base : Nat)
    (d : cell_direction_t) : no_fuel (split_get_next_subcirc idBytes generate w base d) := by
  unfold split_get_next_subcirc
  refine no_fuel_bind _ _ (no_fuel_get_circ _ _) (fun oc _ => ?_)
  split
  · exact no_fuel_assertion
  · exact no_fuel_data_get_next idBytes generate hgenf _ _ _

/-- The drain loop stops: with more fuel than there are buffered cells it
never runs out of fuel, whatever the state is. -/
theorem handle_buffered_loop_fuel (idBytes : Nat)
    (generate : World → Nat → cell_direction_t → Run World)
    (hgen : ∀ w h d w', generate w h d = .ok w' → w'.subcircuits = w.subcircuits)
    (hgenf : ∀ w h d, no_fuel (generate w h d))
    (base : Nat) : ∀ (fuel : Nat) (w : World) (next : Option Nat),
    total_buffered w < fuel →
    no_fuel (handle_buffered_loop idBytes generate base fuel w next) := by
  intro fuel
  induction fuel with
  | zero => intro w next h; omega
  | succ fuel ih =>
    intro w next hfuel
    unfold handle_buffered_loop
    cases next with
    | none => exact no_fuel_ok _
    | some p =>
      simp only
      refine no_fuel_bind _ _ (no_fuel_get_subcirc _ _) (fun sub hsub => ?_)
      split
      · refine no_fuel_bind _ _ (no_fuel_cell_buffer_pop _) (fun r hpop => ?_)
        obtain ⟨buf_cell, buf⟩ := r
        cases buf_cell with
        | none => exact no_fuel_assertion
        | some cell =>
          simp only
          obtain ⟨rest, hhead, hbuf⟩ := cell_buffer_pop_some _ _ _ hpop
          subst hbuf
          have htot := total_buffered_pop w p sub cell rest (sub.cell_buf.num - 1) hsub hhead
          refine no_fuel_bind _ _ (no_fuel_get_circ _ _) (fun bc _ => ?_)
          refine no_fuel_bind _ _ (no_fuel_tor_assert _) (fun _ _ => ?_)
          refine no_fuel_bind _ _ (no_fuel_used_circuit _ _ _) (fun w3 hused => ?_)
          refine no_fuel_bind _ _ (no_fuel_get_next idBytes generate hgenf _ _ _)
            (fun r2 hnext => ?_)
          obtain ⟨next2, w4⟩ := r2
          have h3 := used_circuit_subcircuits _ _ _ _ hused
          have h4 := split_get_next_subcircuits idBytes generate hgen _ _ _ _ _ hnext
          refine ih w4 next2 ?_
          rw [total_buffered_congr _ w4 (h4.trans h3)]
          have : total_buffered (append_cell_to_circuit_queue (set_subcirc w p
              { sub with cell_buf := { head := rest, num := sub.cell_buf.num - 1 } })
              base cell.cell) = total_buffered (set_subcirc w p
              { sub with cell_buf := { head := rest, num := sub.cell_buf.num - 1 } }) :=
            rfl
          omega
      · exact no_fuel_pure _

/-- The function `split_handle_buffered_cells` stops, whatever the state
is. -/
theorem handle_buffered_cells_fuel (idBytes : Nat)
    (generate : World → Nat → cell_direction_t → Run World)
    (hgen : ∀ w h d w', generate w h d = .ok w' → w'.subcircuits = w.subcircuits)
    (hgenf : ∀ w h d, no_fuel (generate w h d))
    (fuel : Nat) (w : World) (circ : Nat) (hfuel : total_buffered w < fuel) :
    no_fuel (split_handle_buffered_cells idBytes generate fuel w circ) := by
  unfold split_handle_buffered_cells
  refine no_fuel_bind _ _ ?_ (fun base _ => ?_)
  · unfold split_get_base_
    refine no_fuel_bind _ _ (no_fuel_get_circ _ _) (fun oc _ => ?_)
    split
    · exact no_fuel_pure _
    · split
      · exact no_fuel_assertion
      · refine no_fuel_bind _ _ (no_fuel_get_subcirc _ _) (fun sub _ => ?_)
        split
        · refine no_fuel_bind _ _ ?_ (fun _ _ => no_fuel_pure _)
          unfold split_data_get_base
          refine no_fuel_bind _ _ (no_fuel_get_split_data _ _) (fun sd _ => ?_)
          split
          · exact no_fuel_assertion
          · refine no_fuel_bind _ _ (no_fuel_get_circ _ _) (fun _ _ => ?_)
            refine no_fuel_bind _ _ ?_ (fun s0 _ => ?_)
            · unfold split_data_get_subcirc
              split
              · exact no_fuel_pure _
              · refine no_fuel_bind _ _ (no_fuel_tor_assert _) (fun _ _ => ?_)
                split
                · exact no_fuel_pure _
                · exact no_fuel_subcirc_list_get _ _
            · split
              · split
                · exact no_fuel_assertion
                · refine no_fuel_bind _ _ (no_fuel_get_subcirc _ _) (fun _ _ => ?_)
                  refine no_fuel_bind _ _ (no_fuel_tor_assert _) (fun _ _ => ?_)
                  exact no_fuel_bind _ _ (no_fuel_tor_assert _) (fun _ _ => no_fuel_pure _)
              · split
                · exact no_fuel_pure _
                · refine no_fuel_bind _ _ (no_fuel_get_subcirc _ _) (fun _ _ => ?_)
                  exact no_fuel_bind _ _ (no_fuel_tor_assert _) (fun _ _ => no_fuel_pure _)
        · exact no_fuel_pure _
  · cases base with
    | none => exact no_fuel_pure _
    | some b =>
      simp only
      refine no_fuel_bind _ _ (no_fuel_get_next idBytes generate hgenf _ _ _) (fun r hnext => ?_)
      obtain ⟨next, w1⟩ := r
      have h1 := split_get_next_subcircuits idBytes generate hgen _ _ _ _ _ hnext
      exact handle_buffered_loop_fuel idBytes generate hgen hgenf b fuel w1 next
        (by rw [total_buffered_congr w w1 h1]; exact hfuel)

/-- One call of `split_data_get_next_subcirc` at the middle, on a session
without sticky pick whose queue is not empty. -/
theorem middle_next_run (idBytes : Nat) (generate : World → Nat → cell_direction_t → Run World)
    (hid : 1 ≤ idBytes) (w : World) (h : Nat) (d : cell_direction_t) (sd : split_data_t)
    (hsd : get_split_data w h = .ok sd) (hcl : sd.split_data_client = none)
    (hnm : sd.marked_for_close = false) (hst : next_subcirc sd d = none)
    (hwf : ∀ inst ∈ instruction sd d, WFInst idBytes inst)
    (id : Nat) (ids : List Nat) (hids : queue_ids idBytes (instruction sd d) = id :: ids)
    (hname : names_subcirc w sd.subcircs id) :
    ∃ p q', sd.subcircs.list.getD id none = some p ∧
      split_data_get_next_subcirc idBytes generate w h d
        = .ok (some p, set_split_data (set_split_data w h (set_instruction sd d q')) h
            (set_next_subcirc (set_instruction sd d q') d (some p))) ∧
      queue_ids idBytes q' = ids ∧ (∀ inst ∈ q', WFInst idBytes inst) ∧
      (∃ sub, get_subcirc w p = .ok sub) := by
  have hlt := get_split_data_lt w h sd hsd
  cases hq : instruction sd d with
  | nil => rw [hq] at hids; cases hids
  | cons inst rest =>
    rw [hq] at hwf hids
    obtain ⟨id', q', hnext, hqids, hq', hcons⟩ := get_next_id_ok idBytes hid inst rest
      (hwf inst (List.mem_cons_self _ _))
    rw [hids] at hqids
    injection hqids with h1 h2
    subst h1
    obtain ⟨hcap, p, sub, hslot, hsub, hcirc⟩ := hname
    have hgetD : sd.subcircs.list.getD id none = some p := by
      rw [List.getD_eq_getElem?_getD, ← List.get?_eq_getElem?, hslot]; rfl
    have hrdp : rdp sd.subcircs.list id = .ok (some p) := by
      unfold rdp; rw [hslot]
    have hsubc : (set_instruction sd d q').subcircs = sd.subcircs := by cases d <;> rfl
    have hngen : ¬ (q'.length ≠ (inst :: rest).length ∧ sd.split_data_client.isSome = true) := by
      rw [hcl]; simp
    refine ⟨p, q', hgetD, ?_, h2.symm, ?_, sub, hsub⟩
    · unfold split_data_get_next_subcirc
      simp only [hsd, bind, Except.bind, hnm, Bool.false_eq_true, if_false, hst, hq, hnext, hngen,
        pure, Except.pure, get_set_split_data w h _ hlt, subcirc_list_get, tor_assert, hsubc, hcap,
        decide_True, if_true, hrdp, Option.isSome_some, get_subcirc_set_split_data, hsub, hcirc]
    · rcases hq' with hq' | ⟨inst', hq', hwf'⟩
      · rw [hq']; exact fun x hx => hwf x (List.mem_cons_of_mem _ hx)
      · rw [hq']
        intro x hx
        rcases List.mem_cons.mp hx with hx | hx
        · rw [hx]; exact hwf'
        · exact hwf x (List.mem_cons_of_mem _ hx)

theorem buffers_of_set (w : World) (p : Nat) (x : subcircuit_t) :
    buffers_of (set_subcirc w p x) = (buffers_of w).set p (buffered_cells (some x)) := by
  unfold buffers_of set_subcirc
  simp only [List.map_set]

theorem buffers_of_getD (w : World) (p : Nat) (sub : subcircuit_t)
    (hsub : get_subcirc w p = .ok sub) :
    (buffers_of w).getD p [] = sub.cell_buf.head.map (fun c => c.cell) := by
  have hget := get_subcirc_get w p sub hsub
  unfold buffers_of
  rw [List.getD_eq_getElem?_getD, List.getElem?_map, ← List.get?_eq_getElem?, hget]
  rfl

theorem set_set_split_data (w : World) (h : Nat) (x y : split_data_t) :
    set_split_data (set_split_data w h x) h y = set_split_data w h y := by
  unfold set_split_data
  simp only [List.set_set]

theorem names_subcirc_congr (w w' : World) (sl : subcirc_list_t) (id : Nat)
    (hsub : ∀ p sub, get_subcirc w p = .ok sub →
      ∃ sub', get_subcirc w' p = .ok sub' ∧ sub'.circ = sub.circ)
    (hn : names_subcirc w sl id) : names_subcirc w' sl id := by
  obtain ⟨hcap, p, sub, hslot, hs, hcirc⟩ := hn
  obtain ⟨sub', hs', hc'⟩ := hsub p sub hs
  exact ⟨hcap, p, sub', hslot, hs', by rw [hc']; exact hcirc⟩

theorem drain_spec_empty (bufs : List (List Nat)) (p : Nat) (picks : List Nat)
    (hb : bufs.getD p [] = []) : drain_spec bufs (p :: picks) = ([], bufs) := by
  unfold drain_spec
  rw [hb]

theorem drain_spec_cons (bufs : List (List Nat)) (p : Nat) (picks : List Nat) (c : Nat)
    (rest : List Nat) (hb : bufs.getD p [] = c :: rest) :
    drain_spec bufs (p :: picks)
      = ((p, c) :: (drain_spec (bufs.set p rest) picks).1,
         (drain_spec (bufs.set p rest) picks).2) := by
  conv => lhs; unfold drain_spec
  rw [hb]

theorem drain_spec_nil (bufs : List (List Nat)) : drain_spec bufs [] = ([], bufs) := by
  unfold drain_spec; rfl

/-- The drain loop at the middle passes on the cells that the specification
of the drain names, in that order, and leaves the buffers it names. -/
theorem drain_loop_run (idBytes : Nat) (generate : World → Nat → cell_direction_t → Run World)
    (hid : 1 ≤ idBytes) (h base : Nat) : ∀ (ids : List Nat) (w : World) (sd : split_data_t),
    drain_ready idBytes w h base sd → queue_ids idBytes sd.instruction_out = ids →
    (sd.next_subcirc_out = none → sd.instruction_out = []) →
    ∀ fuel, total_buffered w < fuel →
    ∃ w', handle_buffered_loop idBytes generate base fuel w sd.next_subcirc_out = .ok w' ∧
      w'.relayed = w.relayed ++
        (drain_spec (buffers_of w) (picks_of idBytes sd)).1.map (fun pc => (base, pc.2)) ∧
      buffers_of w' = (drain_spec (buffers_of w) (picks_of idBytes sd)).2 ∧
      w'.circuits = w.circuits ∧ w'.sent = w.sent := by
  intro ids
  induction ids with
  | nil =>
    intro w sd hr hids hhead fuel hfuel
    obtain ⟨hsd, hcl, hnm, hwf, hnames, hsticky, hnum, bc, hbc, hbh, hbn⟩ := hr
    have hq : sd.instruction_out = [] := queue_ids_nil_of_wf idBytes _ hwf hid hids
    cases hst : sd.next_subcirc_out with
    | none =>
      refine ⟨w, ?_, ?_, ?_, rfl, rfl⟩
      · unfold handle_buffered_loop; rfl
      · simp [picks_of, hst, hq, queue_ids, drain_spec]
      · simp [picks_of, hst, hq, queue_ids, drain_spec]
    | some p =>
      obtain ⟨sub, hsub⟩ := hsticky p hst
      have hbuf := buffers_of_getD w p sub hsub
      have hpicks : picks_of idBytes sd = [p] := by
        simp [picks_of, hst, hq, queue_ids]
      rw [hpicks]
      cases hhd : sub.cell_buf.head with
      | nil =>
        have hn0 : ¬ sub.cell_buf.num > 0 := by
          rw [hnum p sub hsub, hhd]; simp
        rw [hhd, List.map_nil] at hbuf
        refine ⟨w, ?_, ?_, ?_, rfl, rfl⟩
        · unfold handle_buffered_loop
          simp only [hsub, bind, Except.bind, hn0, if_false, pure, Except.pure]
        · rw [drain_spec_empty _ _ _ hbuf]; simp
        · rw [drain_spec_empty _ _ _ hbuf]
      | cons c rest =>
        have hnpos : sub.cell_buf.num > 0 := by
          rw [hnum p sub hsub, hhd]; simp
        rw [hhd, List.map_cons] at hbuf
        obtain ⟨f, hf⟩ : ∃ f, fuel = f + 1 := ⟨fuel - 1, by omega⟩
        subst hf
        have hpop : cell_buffer_pop sub.cell_buf
            = .ok (some c, { head := rest, num := sub.cell_buf.num - 1 }) := by
          unfold cell_buffer_pop
          have : decide (sub.cell_buf.num - 1 ≥ 0) = true := by
            simp only [decide_eq_true_eq]; omega
          simp only [hhd, bind, Except.bind, tor_assert, this, if_true, pure, Except.pure]
        have hlt := get_split_data_lt w h sd hsd
        have hused : split_used_circuit (append_cell_to_circuit_queue (set_subcirc w p
            { sub with cell_buf := { head := rest, num := sub.cell_buf.num - 1 } }) base c.cell)
            base cell_direction_t.CELL_DIRECTION_OUT
            = .ok (set_split_data (append_cell_to_circuit_queue (set_subcirc w p
              { sub with cell_buf := { head := rest, num := sub.cell_buf.num - 1 } }) base c.cell)
              h (split_data_used_subcirc sd cell_direction_t.CELL_DIRECTION_OUT)) := by
          unfold split_used_circuit
          have hbc' : get_circ (append_cell_to_circuit_queue (set_subcirc w p
              { sub with cell_buf := { head := rest, num := sub.cell_buf.num - 1 } }) base c.cell)
              base = .ok bc := hbc
          have hsd' : get_split_data (append_cell_to_circuit_queue (set_subcirc w p
              { sub with cell_buf := { head := rest, num := sub.cell_buf.num - 1 } }) base c.cell)
              h = .ok sd := hsd
          simp only [hbc', bind, Except.bind, hbh, hsd', pure, Except.pure]
        have hnext : split_get_next_subcirc idBytes generate
            (set_split_data (append_cell_to_circuit_queue (set_subcirc w p
              { sub with cell_buf := { head := rest, num := sub.cell_buf.num - 1 } }) base c.cell)
              h (split_data_used_subcirc sd cell_direction_t.CELL_DIRECTION_OUT))
            base cell_direction_t.CELL_DIRECTION_OUT
            = .ok (none, set_split_data (append_cell_to_circuit_queue (set_subcirc w p
              { sub with cell_buf := { head := rest, num := sub.cell_buf.num - 1 } }) base c.cell)
              h (split_data_used_subcirc sd cell_direction_t.CELL_DIRECTION_OUT)) := by
          unfold split_get_next_subcirc split_data_get_next_subcirc
          have hbc' : get_circ (set_split_data (append_cell_to_circuit_queue (set_subcirc w p
              { sub with cell_buf := { head := rest, num := sub.cell_buf.num - 1 } }) base c.cell)
              h (split_data_used_subcirc sd cell_direction_t.CELL_DIRECTION_OUT))
              base = .ok bc := hbc
          have hsd' := get_set_split_data (append_cell_to_circuit_queue (set_subcirc w p
              { sub with cell_buf := { head := rest, num := sub.cell_buf.num - 1 } }) base c.cell)
              h (split_data_used_subcirc sd cell_direction_t.CELL_DIRECTION_OUT) hlt
          have hm' : (split_data_used_subcirc sd cell_direction_t.CELL_DIRECTION_OUT).marked_for_close
              = false := hnm
          have hs' : next_subcirc (split_data_used_subcirc sd cell_direction_t.CELL_DIRECTION_OUT)
              cell_direction_t.CELL_DIRECTION_OUT = none := rfl
          have hq' : instruction (split_data_used_subcirc sd cell_direction_t.CELL_DIRECTION_OUT)
              cell_direction_t.CELL_DIRECTION_OUT = [] := hq
          simp only [hbc', bind, Except.bind, hbh, hsd', hm', Bool.false_eq_true, if_false, hs', hq',
            pure, Except.pure]
        have hbc1 : get_circ (set_subcirc w p
            { sub with cell_buf := { head := rest, num := sub.cell_buf.num - 1 } }) base
            = .ok bc := hbc
        refine ⟨set_split_data (append_cell_to_circuit_queue (set_subcirc w p
              { sub with cell_buf := { head := rest, num := sub.cell_buf.num - 1 } }) base c.cell)
              h (split_data_used_subcirc sd cell_direction_t.CELL_DIRECTION_OUT),
          ?_, ?_, ?_, rfl, rfl⟩
        · unfold handle_buffered_loop
          simp only [hsub, bind, Except.bind, hnpos, if_true, hpop, hbc1, tor_assert, hbn, hused,
            hnext]
          unfold handle_buffered_loop
          rfl
        · show w.relayed ++ [(base, c.cell)] = _
          rw [drain_spec_cons _ _ _ _ _ hbuf, drain_spec_nil]
          rfl
        · show buffers_of (set_subcirc w p
            { sub with cell_buf := { head := rest, num := sub.cell_buf.num - 1 } }) = _
          rw [buffers_of_set, drain_spec_cons _ _ _ _ _ hbuf, drain_spec_nil]
          rfl
  | cons id ids ih =>
    intro w sd hr hids hhead fuel hfuel
    obtain ⟨hsd, hcl, hnm, hwf, hnames, hsticky, hnum, bc, hbc, hbh, hbn⟩ := hr
    cases hst : sd.next_subcirc_out with
    | none =>
      have := hhead hst
      rw [this] at hids
      cases hids
    | some p =>
      obtain ⟨sub, hsub⟩ := hsticky p hst
      have hbuf := buffers_of_getD w p sub hsub
      have hname_id : names_subcirc w sd.subcircs id :=
        hnames id (by rw [hids]; exact List.mem_cons_self _ _)
      obtain ⟨hcap0, p0, sub0, hslot0, hsub0, hcirc0⟩ := hname_id
      have hgetD0 : sd.subcircs.list.getD id none = some p0 := by
        rw [List.getD_eq_getElem?_getD, ← List.get?_eq_getElem?, hslot0]; rfl
      have hpicks : picks_of idBytes sd = p :: p0 ::
          ids.filterMap (fun id => sd.subcircs.list.getD id none) := by
        unfold picks_of
        rw [hst, hids, List.filterMap_cons]
        simp only [hgetD0]
        rfl
      cases hhd : sub.cell_buf.head with
      | nil =>
        have hn0 : ¬ sub.cell_buf.num > 0 := by
          rw [hnum p sub hsub, hhd]; simp
        rw [hhd, List.map_nil] at hbuf
        rw [hpicks]
        refine ⟨w, ?_, ?_, ?_, rfl, rfl⟩
        · unfold handle_buffered_loop
          simp only [hsub, bind, Except.bind, hn0, if_false, pure, Except.pure]
        · rw [drain_spec_empty _ _ _ hbuf]; simp
        · rw [drain_spec_empty _ _ _ hbuf]
      | cons c rest =>
        have hnpos : sub.cell_buf.num > 0 := by
          rw [hnum p sub hsub, hhd]; simp
        rw [hhd, List.map_cons] at hbuf
        obtain ⟨f, hf⟩ : ∃ f, fuel = f + 1 := ⟨fuel - 1, by omega⟩
        subst hf
        have hpop : cell_buffer_pop sub.cell_buf
            = .ok (some c, { head := rest, num := sub.cell_buf.num - 1 }) := by
          unfold cell_buffer_pop
          have : decide (sub.cell_buf.num - 1 ≥ 0) = true := by
            simp only [decide_eq_true_eq]; omega
          simp only [hhd, bind, Except.bind, tor_assert, this, if_true, pure, Except.pure]
        have hlt := get_split_data_lt w h sd hsd
        -- the state after the cell was passed on and the pick was committed
        have hw3 : ∃ w3, w3 = set_split_data (append_cell_to_circuit_queue (set_subcirc w p
              { sub with cell_buf := { head := rest, num := sub.cell_buf.num - 1 } }) base c.cell)
              h (split_data_used_subcirc sd cell_direction_t.CELL_DIRECTION_OUT) := ⟨_, rfl⟩
        obtain ⟨w3, hw3⟩ := hw3
        have hused : split_used_circuit (append_cell_to_circuit_queue (set_subcirc w p
            { sub with cell_buf := { head := rest, num := sub.cell_buf.num - 1 } }) base c.cell)
            base cell_direction_t.CELL_DIRECTION_OUT = .ok w3 := by
          unfold split_used_circuit
          have hbc' : get_circ (append_cell_to_circuit_queue (set_subcirc w p
              { sub with cell_buf := { head := rest, num := sub.cell_buf.num - 1 } }) base c.cell)
              base = .ok bc := hbc
          have hsd' : get_split_data (append_cell_to_circuit_queue (set_subcirc w p
              { sub with cell_buf := { head := rest, num := sub.cell_buf.num - 1 } }) base c.cell)
              h = .ok sd := hsd
          simp only [hbc', bind, Except.bind, hbh, hsd', pure, Except.pure, hw3]
        have hsd3 : get_split_data w3 h
            = .ok (split_data_used_subcirc sd cell_direction_t.CELL_DIRECTION_OUT) := by
          rw [hw3]; exact get_set_split_data _ h _ hlt
        have hbc3 : get_circ w3 base = .ok bc := by rw [hw3]; exact hbc
        have hsubs3 : w3.subcircuits = (set_subcirc w p
            { sub with cell_buf := { head := rest, num := sub.cell_buf.num - 1 } }).subcircuits := by
          rw [hw3]; rfl
        have hplt : p < w.subcircuits.length := get_subcirc_lt w p sub hsub
        have hsubframe : ∀ q s, get_subcirc w q = .ok s →
            ∃ s', get_subcirc w3 q = .ok s' ∧ s'.circ = s.circ ∧
              s'.cell_buf.num = (s'.cell_buf.head.length : Int) := by
          intro q s hs
          by_cases hqp : q = p
          · subst hqp
            rw [hsub] at hs
            injection hs with hs
            subst hs
            refine ⟨{ sub with cell_buf := { head := rest, num := sub.cell_buf.num - 1 } }, ?_,
              rfl, ?_⟩
            · rw [get_subcirc_congr _ w3 q hsubs3]
              exact get_subcirc_set w q _ hplt
            · show sub.cell_buf.num - 1 = (rest.length : Int)
              rw [hnum q sub hsub, hhd]
              simp
          · refine ⟨s, ?_, rfl, hnum q s hs⟩
            rw [get_subcirc_congr _ w3 q hsubs3, get_subcirc_set_ne w p q _ hqp]
            exact hs
        have hnames3 : ∀ i ∈ queue_ids idBytes sd.instruction_out,
            names_subcirc w3 sd.subcircs i := by
          intro i hi
          refine names_subcirc_congr w w3 _ _ ?_ (hnames i hi)
          intro q s hs
          obtain ⟨s', h1, h2, -⟩ := hsubframe q s hs
          exact ⟨s', h1, h2⟩
        obtain ⟨p1, q', hslot1, hnext, hq'ids, hq'wf, sub1, hsub1⟩ := middle_next_run idBytes
          generate hid w3 h cell_direction_t.CELL_DIRECTION_OUT
          (split_data_used_subcirc sd cell_direction_t.CELL_DIRECTION_OUT) hsd3 hcl hnm rfl hwf
          id ids hids (hnames3 id (by rw [hids]; exact List.mem_cons_self _ _))
        have hp1 : p1 = p0 := by
          have : (split_data_used_subcirc sd cell_direction_t.CELL_DIRECTION_OUT).subcircs
              = sd.subcircs := rfl
          rw [this, hgetD0] at hslot1
          injection hslot1 with hslot1
          exact hslot1.symm
        subst hp1
        rw [set_set_split_data] at hnext
        have hnext' : split_get_next_subcirc idBytes generate w3 base
            cell_direction_t.CELL_DIRECTION_OUT
            = .ok (some p1, set_split_data w3 h (set_next_subcirc (set_instruction
                (split_data_used_subcirc sd cell_direction_t.CELL_DIRECTION_OUT)
                cell_direction_t.CELL_DIRECTION_OUT q') cell_direction_t.CELL_DIRECTION_OUT
                (some p1))) := by
          unfold split_get_next_subcirc
          simp only [hbc3, bind, Except.bind, hbh]
          exact hnext
        have hlt3 : h < w3.split_datas.length := get_split_data_lt w3 h _ hsd3
        have hr4 : drain_ready idBytes (set_split_data w3 h (set_next_subcirc (set_instruction
              (split_data_used_subcirc sd cell_direction_t.CELL_DIRECTION_OUT)
              cell_direction_t.CELL_DIRECTION_OUT q') cell_direction_t.CELL_DIRECTION_OUT
              (some p1))) h base
            (set_next_subcirc (set_instruction
              (split_data_used_subcirc sd cell_direction_t.CELL_DIRECTION_OUT)
              cell_direction_t.CELL_DIRECTION_OUT q') cell_direction_t.CELL_DIRECTION_OUT
              (some p1)) := by
          refine ⟨get_set_split_data w3 h _ hlt3, hcl, hnm, hq'wf, ?_, ?_, ?_, bc, hbc3, hbh, hbn⟩
          · intro i hi
            have hi' : i ∈ queue_ids idBytes sd.instruction_out := by
              rw [hids]
              exact List.mem_cons_of_mem _ (by
                have : queue_ids idBytes q' = ids := hq'ids
                rw [← this]; exact hi)
            exact names_subcirc_congr w3 _ _ _ (fun q s hs => ⟨s, hs, rfl⟩) (hnames3 i hi')
          · intro q hq
            have : q = p1 := by
              injection hq with hq
              exact hq.symm
            subst this
            exact ⟨sub1, hsub1⟩
          · intro q s hs
            have hs3 : get_subcirc w3 q = .ok s := hs
            by_cases hqp : q = p
            · subst hqp
              rw [get_subcirc_congr _ w3 q hsubs3, get_subcirc_set w q _ hplt] at hs3
              injection hs3 with hs3
              subst hs3
              show sub.cell_buf.num - 1 = (rest.length : Int)
              rw [hnum q sub hsub, hhd]
              simp
            · rw [get_subcirc_congr _ w3 q hsubs3, get_subcirc_set_ne w p q _ hqp] at hs3
              exact hnum q s hs3
        have htot := total_buffered_pop w p sub c rest (sub.cell_buf.num - 1) hsub hhd
        have htot4 : total_buffered (set_split_data w3 h (set_next_subcirc (set_instruction
              (split_data_used_subcirc sd cell_direction_t.CELL_DIRECTION_OUT)
              cell_direction_t.CELL_DIRECTION_OUT q') cell_direction_t.CELL_DIRECTION_OUT
              (some p1))) < f := by
          have : total_buffered (set_split_data w3 h (set_next_subcirc (set_instruction
              (split_data_used_subcirc sd cell_direction_t.CELL_DIRECTION_OUT)
              cell_direction_t.CELL_DIRECTION_OUT q') cell_direction_t.CELL_DIRECTION_OUT
              (some p1))) = total_buffered (set_subcirc w p
              { sub with cell_buf := { head := rest, num := sub.cell_buf.num - 1 } }) :=
            total_buffered_congr _ _ hsubs3
          omega
        obtain ⟨w', hloop, hrel, hbufs, hcirc', hsent'⟩ := ih _ _ hr4 hq'ids
          (fun hcon => by cases hcon) f htot4
        have hbc1 : get_circ (set_subcirc w p
            { sub with cell_buf := { head := rest, num := sub.cell_buf.num - 1 } }) base
            = .ok bc := hbc
        have hpicks4 : picks_of idBytes (set_next_subcirc (set_instruction
              (split_data_used_subcirc sd cell_direction_t.CELL_DIRECTION_OUT)
              cell_direction_t.CELL_DIRECTION_OUT q') cell_direction_t.CELL_DIRECTION_OUT
              (some p1))
            = p1 :: ids.filterMap (fun id => sd.subcircs.list.getD id none) := by
          unfold picks_of
          show [p1] ++ (queue_ids idBytes q').filterMap _ = _
          rw [hq'ids]
          rfl
        have hbuf4 : buffers_of (set_split_data w3 h (set_next_subcirc (set_instruction
              (split_data_used_subcirc sd cell_direction_t.CELL_DIRECTION_OUT)
              cell_direction_t.CELL_DIRECTION_OUT q') cell_direction_t.CELL_DIRECTION_OUT
              (some p1)))
            = (buffers_of w).set p (rest.map (fun c => c.cell)) := by
          show w3.subcircuits.map buffered_cells = _
          rw [hsubs3]
          exact buffers_of_set w p _
        have hrel4 : (set_split_data w3 h (set_next_subcirc (set_instruction
              (split_data_used_subcirc sd cell_direction_t.CELL_DIRECTION_OUT)
              cell_direction_t.CELL_DIRECTION_OUT q') cell_direction_t.CELL_DIRECTION_OUT
              (some p1))).relayed = w.relayed ++ [(base, c.cell)] := by
          show w3.relayed = _
          rw [hw3]; rfl
        rw [hpicks4, hbuf4, hrel4] at hrel
        rw [hpicks4, hbuf4] at hbufs
        rw [hpicks]
        refine ⟨w', ?_, ?_, ?_, ?_, ?_⟩
        · unfold handle_buffered_loop
          simp only [hsub, bind, Except.bind, hnpos, if_true, hpop, hbc1, tor_assert, hbn, hused,
            hnext']
          exact hloop
        · rw [hrel, drain_spec_cons _ _ _ _ _ hbuf]
          simp
        · rw [hbufs, drain_spec_cons _ _ _ _ _ hbuf]
        · rw [hcirc']; show w3.circuits = _; rw [hw3]; rfl
        · rw [hsent']; show w3.sent = _; rw [hw3]; rfl

/-- Nothing is dropped or reordered by the drain of the specification: the
cells that a buffer held are those passed on from it, in order, followed by
those it still holds. -/
theorem drain_spec_fifo : ∀ (picks : List Nat) (bufs : List (List Nat)) (q : Nat),
    bufs.getD q [] = ((drain_spec bufs picks).1.filter (fun pc => decide (pc.1 = q))).map Prod.snd
      ++ (drain_spec bufs picks).2.getD q [] := by
  intro picks
  induction picks with
  | nil => intro bufs q; rw [drain_spec_nil]; rfl
  | cons p picks ih =>
    intro bufs q
    cases hb : bufs.getD p [] with
    | nil => rw [drain_spec_empty _ _ _ hb]; rfl
    | cons c rest =>
      rw [drain_spec_cons _ _ _ _ _ hb]
      have hplt : p < bufs.length := by
        by_contra hcon
        rw [List.getD_eq_getElem?_getD, List.getElem?_eq_none (by omega)] at hb
        cases hb
      have hih := ih (bufs.set p rest) q
      by_cases hqp : p = q
      · subst hqp
        have hset : (bufs.set p rest).getD p [] = rest := by
          rw [List.getD_eq_getElem?_getD, List.getElem?_set_self hplt]
          rfl
        rw [hset] at hih
        simp only [List.filter_cons, decide_True, if_true, List.map_cons, List.cons_append]
        rw [← hih, hb]
      · have hset : (bufs.set p rest).getD q [] = bufs.getD q [] := by
          rw [List.getD_eq_getElem?_getD, List.getD_eq_getElem?_getD, List.getElem?_set_ne hqp]
        rw [hset] at hih
        have hd : decide (p = q) = false := by simpa using hqp
        simp only [List.filter_cons, hd, Bool.false_eq_true, if_false]
        exact hih

theorem sticky_next_run (idBytes : Nat) (generate : World → Nat → cell_direction_t → Run World)
    (w : World) (h : Nat) (d : cell_direction_t) (sd : split_data_t) (p : Nat)
    (hsd : get_split_data w h = .ok sd) (hnm : sd.marked_for_close = false)
    (hst : next_subcirc sd d = some p) :
    split_data_get_next_subcirc idBytes generate w h d = .ok (some p, w) := by
  unfold split_data_get_next_subcirc
  simp only [hsd, bind, Except.bind, hnm, Bool.false_eq_true, if_false, hst, pure, Except.pure]

theorem empty_next_run (idBytes : Nat) (generate : World → Nat → cell_direction_t → Run World)
    (w : World) (h : Nat) (d : cell_direction_t) (sd : split_data_t)
    (hsd : get_split_data w h = .ok sd) (hnm : sd.marked_for_close = false)
    (hst : next_subcirc sd d = none) (hq : instruction sd d = []) :
    split_data_get_next_subcirc idBytes generate w h d = .ok (none, w) := by
  unfold split_data_get_next_subcirc
  simp only [hsd, bind, Except.bind, hnm, Bool.false_eq_true, if_false, hst, hq, pure,
    Except.pure]

/-- The function `split_handle_buffered_cells` at the middle passes on the
cells that the specification of the drain names, in that order, and leaves
the buffers it names. -/
theorem handle_buffered_cells_run (idBytes : Nat)
    (generate : World → Nat → cell_direction_t → Run World) (hid : 1 ≤ idBytes) (w : World)
    (circ h base : Nat) (sd : split_data_t)
    (hbase : split_get_base_ w circ = .ok (some base))
    (hr : drain_ready idBytes w h base sd) (fuel : Nat) (hfuel : total_buffered w < fuel) :
    ∃ w', split_handle_buffered_cells idBytes generate fuel w circ = .ok w' ∧
      w'.relayed = w.relayed ++
        (drain_spec (buffers_of w) (picks_of idBytes sd)).1.map (fun pc => (base, pc.2)) ∧
      buffers_of w' = (drain_spec (buffers_of w) (picks_of idBytes sd)).2 ∧
      w'.circuits = w.circuits ∧ w'.sent = w.sent := by
  have hr0 := hr
  obtain ⟨hsd, hcl, hnm, hwf, hnames, hsticky, hnum, bc, hbc, hbh, hbn⟩ := hr
  have hlt := get_split_data_lt w h sd hsd
  cases hst : sd.next_subcirc_out with
  | some p =>
    have hnext : split_get_next_subcirc idBytes generate w base
        cell_direction_t.CELL_DIRECTION_OUT = .ok (some p, w) := by
      unfold split_get_next_subcirc
      simp only [hbc, bind, Except.bind, hbh]
      exact sticky_next_run idBytes generate w h _ sd p hsd hnm hst
    obtain ⟨w', hloop, hrel, hbufs, hc, hs⟩ := drain_loop_run idBytes generate hid h base _ w sd
      hr0 rfl (fun hcon => by rw [hst] at hcon; cases hcon) fuel hfuel
    refine ⟨w', ?_, hrel, hbufs, hc, hs⟩
    unfold split_handle_buffered_cells
    simp only [hbase, bind, Except.bind, hnext]
    rw [hst] at hloop
    exact hloop
  | none =>
    cases hids : queue_ids idBytes sd.instruction_out with
    | nil =>
      have hq : sd.instruction_out = [] := queue_ids_nil_of_wf idBytes _ hwf hid hids
      have hnext : split_get_next_subcirc idBytes generate w base
          cell_direction_t.CELL_DIRECTION_OUT = .ok (none, w) := by
        unfold split_get_next_subcirc
        simp only [hbc, bind, Except.bind, hbh]
        exact empty_next_run idBytes generate w h _ sd hsd hnm hst hq
      obtain ⟨w', hloop, hrel, hbufs, hc, hs⟩ := drain_loop_run idBytes generate hid h base _ w
        sd hr0 rfl (fun _ => hq) fuel hfuel
      refine ⟨w', ?_, hrel, hbufs, hc, hs⟩
      unfold split_handle_buffered_cells
      simp only [hbase, bind, Except.bind, hnext]
      rw [hst] at hloop
      exact hloop
    | cons id ids =>
      obtain ⟨p1, q', hslot1, hnext, hq'ids, hq'wf, sub1, hsub1⟩ := middle_next_run idBytes
        generate hid w h cell_direction_t.CELL_DIRECTION_OUT sd hsd hcl hnm hst hwf id ids hids
        (hnames id (by rw [hids]; exact List.mem_cons_self _ _))
      rw [set_set_split_data] at hnext
      have hnext' : split_get_next_subcirc idBytes generate w base
          cell_direction_t.CELL_DIRECTION_OUT
          = .ok (some p1, set_split_data w h (set_next_subcirc (set_instruction sd
              cell_direction_t.CELL_DIRECTION_OUT q') cell_direction_t.CELL_DIRECTION_OUT
              (some p1))) := by
        unfold split_get_next_subcirc
        simp only [hbc, bind, Except.bind, hbh]
        exact hnext
      have hr1 : drain_ready idBytes (set_split_data w h (set_next_subcirc (set_instruction sd
            cell_direction_t.CELL_DIRECTION_OUT q') cell_direction_t.CELL_DIRECTION_OUT
            (some p1))) h base
          (set_next_subcirc (set_instruction sd cell_direction_t.CELL_DIRECTION_OUT q')
            cell_direction_t.CELL_DIRECTION_OUT (some p1)) := by
        refine ⟨get_set_split_data w h _ hlt, hcl, hnm, hq'wf, ?_, ?_, hnum, bc, hbc, hbh, hbn⟩
        · intro i hi
          have hi' : i ∈ queue_ids idBytes sd.instruction_out := by
            rw [hids]
            exact List.mem_cons_of_mem _ (by
              have : queue_ids idBytes q' = ids := hq'ids
              rw [← this]; exact hi)
          exact names_subcirc_congr w _ _ _ (fun q s hs => ⟨s, hs, rfl⟩) (hnames i hi')
        · intro q hq
          have : q = p1 := by
            injection hq with hq
            exact hq.symm
          subst this
          exact ⟨sub1, hsub1⟩
      obtain ⟨w', hloop, hrel, hbufs, hc, hs⟩ := drain_loop_run idBytes generate hid h base ids _
        _ hr1 hq'ids (fun hcon => by cases hcon) fuel hfuel
      have hpicks1 : picks_of idBytes (set_next_subcirc (set_instruction sd
            cell_direction_t.CELL_DIRECTION_OUT q') cell_direction_t.CELL_DIRECTION_OUT
            (some p1)) = picks_of idBytes sd := by
        unfold picks_of
        show [p1] ++ (queue_ids idBytes q').filterMap _ = _
        rw [hq'ids, hst, hids, List.filterMap_cons]
        simp only [hslot1]
        rfl
      rw [hpicks1] at hrel hbufs
      refine ⟨w', ?_, hrel, hbufs, hc, hs⟩
      unfold split_handle_buffered_cells
      simp only [hbase, bind, Except.bind, hnext']
      exact hloop

/-- C11: the drain of `split_handle_buffered_cells` at the middle (direction
OUT), for a `generate` callback that leaves the sub-circuits alone and stops.
First, it terminates for every state: with more fuel than there are buffered
cells the run never ends for lack of fuel.  Second, for a session that is
ready for the drain (not marked for close, OUT instructions well formed and
naming sub-circuits, buffer counters in step with the buffers, base with a
next channel) the run returns, and the cells it passes on for the base circuit
are, in order, exactly those that the specification of the drain names for
the sub-circuits picked one after the other (the sticky pick, then the
sub-circuits of the IDs left in `instruction_out`): the head of the buffer of
each pick, until a pick has an empty buffer or no pick is left; the buffers
left are those of the specification; and for every sub-circuit the cells its
buffer held before are the cells passed on from it, in order, followed by
the cells it still holds, so none is dropped or reordered. -/
theorem C11_drain_order (idBytes : Nat) (generate : World → Nat → cell_direction_t → Run World)
    (hgen : ∀ w h d w', generate w h d = .ok w' → w'.subcircuits = w.subcircuits)
    (hgenf : ∀ w h d, generate w h d ≠ .error Fault.fuel) :
    (∀ (fuel : Nat) (w : World) (circ : Nat), total_buffered w < fuel →
      split_handle_buffered_cells idBytes generate fuel w circ ≠ .error Fault.fuel) ∧
    (∀ (w : World) (circ h base : Nat) (sd : split_data_t) (fuel : Nat), 1 ≤ idBytes →
      split_get_base_ w circ = .ok (some base) → drain_ready idBytes w h base sd →
      total_buffered w < fuel →
      ∃ w', split_handle_buffered_cells idBytes generate fuel w circ = .ok w' ∧
        w'.relayed = w.relayed ++
          (drain_spec (buffers_of w) (picks_of idBytes sd)).1.map (fun pc => (base, pc.2)) ∧
        buffers_of w' = (drain_spec (buffers_of w) (picks_of idBytes sd)).2 ∧
        ∀ q, (buffers_of w).getD q []
          = ((drain_spec (buffers_of w) (picks_of idBytes sd)).1.filter
              (fun pc => decide (pc.1 = q))).map Prod.snd ++ (buffers_of w').getD q []) := by
  refine ⟨fun fuel w circ hfuel =>
    handle_buffered_cells_fuel idBytes generate hgen hgenf fuel w circ hfuel, ?_⟩
  intro w circ h base sd fuel hid hbase hr hfuel
  obtain ⟨w', hrun, hrel, hbufs, -, -⟩ := handle_buffered_cells_run idBytes generate hid w circ h
    base sd hbase hr fuel hfuel
  refine ⟨w', hrun, hrel, hbufs, fun q => ?_⟩
  rw [hbufs]
  exact drain_spec_fifo _ _ q

/-- C11 at the session with the sub-circuits 0 and 1 whose remaining OUT
instruction IDs are `[1, 1]`, with the two cells 10 and 11 buffered on
sub-circuit 1: the drain passes on cell 10 and then cell 11 for the base
circuit 0, and both buffers are empty afterwards. -/
theorem C11_drain_order_witness :
    ∃ w', split_handle_buffered_cells 1 no_generate 3
        (world_buffered none [ex_inst [1, 1] 0] [] [10, 11] []) 1 = .ok w' ∧
      w'.relayed = [(0, 10), (0, 11)] ∧ buffers_of w' = [[], []] :=
  match (C11_drain_order 1 no_generate
      (fun _ _ _ _ hw => by injection hw with hw; rw [← hw])
      (fun _ _ _ hw => by cases hw)).2
      (world_buffered none [ex_inst [1, 1] 0] [] [10, 11] []) 1 0 0
      (ex_session 0 split_cookie_state_t.SPLIT_COOKIE_STATE_VALID ex_list2 none
        [ex_inst [1, 1] 0] [])
      3 (by decide) (by decide!)
      ⟨rfl, rfl, rfl,
        (fun inst hi => by
          rw [List.mem_singleton.mp hi]
          exact ⟨rfl, rfl, rfl, by decide⟩),
        (fun id hi => by
          have h1 : id = 1 := by
            have : id ∈ [1, 1] := hi
            simpa using this
          rw [h1]
          exact ⟨by decide, 1, ex_sub_buffered 1 1 [10, 11], rfl, rfl, rfl⟩),
        (fun p hp => by cases hp),
        (fun p sub hs => by
          rcases p with _ | _ | p
          · injection hs with hs; rw [← hs]; rfl
          · injection hs with hs; rw [← hs]; rfl
          · cases hs),
        ex_circ (some 0) (some 0), rfl, rfl, rfl⟩
      (by decide) with
  | ⟨w', hrun, hrel, hbufs, _⟩ => ⟨w', hrun, hrel, hbufs⟩

/-- What `subcirc_list_remove` leaves behind when it returns: the capacity is
kept, and the array is the old one with slot `id` emptied. -/
theorem subcirc_list_remove_inv (sl sl' : subcirc_list_t) (id : Nat)
    (hlen : sl.list.length = sl.capacity)
    (h : subcirc_list_remove sl id = .ok sl') :
    sl'.capacity = sl.capacity ∧ sl'.list.length = sl.list.length ∧
    ∀ j, sl'.list.getD j none = if id = j then none else sl.list.getD j none := by
  unfold subcirc_list_remove at h
  by_cases hidc : id < sl.capacity
  · have hidl : id < sl.list.length := by omega
    rw [if_pos hidc] at h
    obtain ⟨old, hold, h⟩ := bind_ok _ _ _ h
    rw [rdp_ok sl.list id hidl] at hold
    injection hold with hold
    by_cases hocc : old.isSome = true
    · rw [if_pos hocc] at h
      obtain ⟨list, hlist, h⟩ := bind_ok _ _ _ h
      rw [wrp_ok sl.list id none hidl] at hlist
      injection hlist with hlist
      obtain ⟨u, -, h⟩ := bind_ok _ _ _ h
      have key : ∀ j, list.getD j none = if id = j then none else sl.list.getD j none := by
        intro j
        rw [← hlist]
        exact getD_set_eq sl.list id j none hidl
      have hl : list.length = sl.list.length := by rw [← hlist]; simp
      dsimp only at h
      split at h
      · injection h with h
        rw [← h]
        exact ⟨rfl, hl, key⟩
      · split at h
        · obtain ⟨index, -, h⟩ := bind_ok _ _ _ h
          obtain ⟨u2, -, h⟩ := bind_ok _ _ _ h
          injection h with h
          rw [← h]
          exact ⟨rfl, hl, key⟩
        · injection h with h
          rw [← h]
          exact ⟨rfl, hl, key⟩
    · rw [if_neg hocc] at h
      injection h with h
      rw [← h]
      refine ⟨rfl, rfl, fun j => ?_⟩
      by_cases hj : id = j
      · rw [if_pos hj, ← hj]
        cases hx : sl.list.getD id none with
        | none => rfl
        | some v => rw [← hold, hx] at hocc; exact absurd rfl hocc
      · rw [if_neg hj]
  · rw [if_neg hidc] at h
    injection h with h
    rw [← h]
    refine ⟨rfl, rfl, fun j => ?_⟩
    by_cases hj : id = j
    · rw [if_pos hj, ← hj]
      exact getD_none_of_le _ _ (by omega)
    · rw [if_neg hj]

/-- The loop of `subcirc_list_contains` finds a pointer stored at an index up
to `max_index`. -/
theorem contains_loop_found (sl : subcirc_list_t) (sc id : Nat)
    (hlen : ∀ j, j ≤ id → j < sl.list.length) (hid : (id : Int) ≤ sl.max_index)
    (hsc : sl.list.getD id none = some sc) :
    ∀ (d fuel start : Nat), start + d = id → d + 1 ≤ fuel →
      contains_loop sl sc fuel start = .ok true := by
  intro d
  induction d with
  | zero =>
    intro fuel start hs hf
    obtain ⟨f, rfl⟩ : ∃ f, fuel = f + 1 := ⟨fuel - 1, by omega⟩
    have hsid : start = id := by omega
    subst hsid
    unfold contains_loop
    simp only [hid, if_true, bind, Except.bind, rdp_ok sl.list start (hlen start (le_refl _)), hsc,
      pure, Except.pure]
  | succ d ih =>
    intro fuel start hs hf
    obtain ⟨f, rfl⟩ : ∃ f, fuel = f + 1 := ⟨fuel - 1, by omega⟩
    have hle : (start : Int) ≤ sl.max_index := by
      have : (start : Int) ≤ (id : Int) := by exact_mod_cast (by omega : start ≤ id)
      omega
    unfold contains_loop
    simp only [hle, if_true, bind, Except.bind, rdp_ok sl.list start (hlen start (by omega)),
      pure, Except.pure]
    by_cases hv : sl.list.getD start none = some sc
    · simp only [hv, if_true]
    · simp only [hv, if_false]
      exact ih f (start + 1) (by omega) (by omega)

/-- C26: for every sub-circuit list made by the list operations, every
`id < MAX_SUBCIRCS` whose slot is empty and every sub-circuit `sc`:
`subcirc_list_add` returns a list in which `subcirc_list_get` at `id` returns
`sc`, `subcirc_list_get` at every other index within the capacity returns what
it returned before, and `subcirc_list_contains` of `sc` is true; a following
`subcirc_list_remove` of `id` returns a list of the same capacity in which
`subcirc_list_get` at `id` returns the null pointer and at every other index
what it returned before the removal. -/
theorem C26_list_add_get_remove (sl : subcirc_list_t) (h : ListReachable sl) (sc id : Nat)
    (hid : id < MAX_SUBCIRCS) (hempty : sl.list.getD id none = none) :
    ∃ sl', subcirc_list_add sl sc id = .ok sl' ∧
      subcirc_list_get sl' id = .ok (some sc) ∧
      (∀ j, j < sl.capacity → j ≠ id → subcirc_list_get sl' j = subcirc_list_get sl j) ∧
      subcirc_list_contains sl' sc = .ok true ∧
      ∃ sl'', subcirc_list_remove sl' id = .ok sl'' ∧
        subcirc_list_get sl'' id = .ok none ∧
        (∀ j, j < sl'.capacity → j ≠ id →
          subcirc_list_get sl'' j = subcirc_list_get sl' j) ∧
        sl''.capacity = sl'.capacity := by
  obtain ⟨hcap, hlen, -, -, -⟩ := list_invariant sl h
  obtain ⟨sl', hadd⟩ := subcirc_list_add_total sl h sc id hid hempty
  obtain ⟨-, -, hr', hnum', hget', hframe'⟩ := subcirc_list_add_inv sl sl' h sc id hadd
  obtain ⟨hcap', hlen', -, hmax', hlt'⟩ := list_invariant sl' hr'
  have hidc' : id < sl'.capacity := by rw [hcap']; exact hid
  have hidmax : (id : Int) ≤ sl'.max_index := by
    rcases hmax' with ⟨-, hall⟩ | ⟨-, -, habove⟩
    · rw [hall id] at hget'; cases hget'
    · by_contra hcon
      rw [habove id (by omega)] at hget'; cases hget'
  obtain ⟨sl'', hrem⟩ := subcirc_list_remove_total sl' hr' id
  obtain ⟨hcap'', hlen'', hget''⟩ := subcirc_list_remove_inv sl' sl'' id hlen' hrem
  have hl'' : sl''.list.length = sl''.capacity := by omega
  refine ⟨sl', hadd, ?_, ?_, ?_, sl'', hrem, ?_, ?_, hcap''⟩
  · rw [subcirc_list_get_ok sl' id hlen' hidc', hget']
  · intro j hj hne
    rw [subcirc_list_get_ok sl' j hlen' (by omega), subcirc_list_get_ok sl j hlen hj,
      hframe' j hne]
  · unfold subcirc_list_contains
    have hn0 : ¬ sl'.num_elements = 0 := by omega
    have hm0 : sl'.max_index ≥ 0 := by omega
    simp only [hn0, if_false, tor_assert, hm0, decide_True, if_true, bind, Except.bind]
    refine contains_loop_found sl' sc id (fun j hj => by omega) hidmax hget' id _ 0 (by omega) ?_
    omega
  · rw [subcirc_list_get_ok sl'' id hl'' (by omega), hget'' id, if_pos rfl]
  · intro j hj hne
    rw [subcirc_list_get_ok sl'' j hl'' (by omega), subcirc_list_get_ok sl' j hlen' hj,
      hget'' j, if_neg (fun e => hne e.symm)]

/-- C26 at the list of the unit test after the removal of index 3: adding
the sub-circuit 13 at the free index 3. -/
theorem C26_list_add_get_remove_witness :
    ListReachable list_after_remove ∧
    ∃ sl', subcirc_list_add list_after_remove 13 3 = .ok sl' ∧
      subcirc_list_get sl' 3 = .ok (some 13) ∧
      (∀ j, j < list_after_remove.capacity → j ≠ 3 →
        subcirc_list_get sl' j = subcirc_list_get list_after_remove j) ∧
      subcirc_list_contains sl' 13 = .ok true ∧
      ∃ sl'', subcirc_list_remove sl' 3 = .ok sl'' ∧
        subcirc_list_get sl'' 3 = .ok none ∧
        (∀ j, j < sl'.capacity → j ≠ 3 →
          subcirc_list_get sl'' j = subcirc_list_get sl' j) ∧
        sl''.capacity = sl'.capacity :=
  have hr : ListReachable list_after_remove :=
    ListReachable.remove
      { list := [some 10, some 12, none, some 11, none], capacity := 5, num_elements := 3,
        max_index := 3 } _ 3
      (ListReachable.add
        { list := [some 10, none, none, some 11, none], capacity := 5, num_elements := 2,
          max_index := 3 } _ 12 1
        (ListReachable.add
          { list := [some 10, none, none, none, none], capacity := 5, num_elements := 1,
            max_index := 0 } _ 11 3
          (ListReachable.add subcirc_list_new _ 10 0 ListReachable.new (by decide) rfl rfl)
          (by decide) rfl rfl)
        (by decide) rfl rfl)
      rfl
  ⟨hr, C26_list_add_get_remove list_after_remove hr 13 3 (by decide) rfl⟩

theorem final_frame_refl (w : World) : final_frame w w :=
  ⟨origin_frame_refl w, fun _ hf => hf⟩

theorem final_frame_trans (w1 w2 w3 : World) (h12 : final_frame w1 w2)
    (h23 : final_frame w2 w3) : final_frame w1 w3 :=
  ⟨origin_frame_trans w1 w2 w3 h12.1 h23.1, fun h hf => h23.2 h (h12.2 h hf)⟩

theorem final_frame_of_eq (w w' : World) (ho : origin_frame w w')
    (hs : w'.split_datas = w.split_datas) : final_frame w w' := by
  refine ⟨ho, ?_⟩
  rintro h ⟨sd, client, hsd, hcl, hf⟩
  exact ⟨sd, client, by rw [get_split_data_congr w w' h hs]; exact hsd, hcl, hf⟩

/-- Storing a session whose client part keeps a set `is_final`. -/
theorem final_frame_set (w : World) (h : Nat) (sd sd' : split_data_t)
    (hsd : get_split_data w h = .ok sd)
    (hmono : ∀ c, sd.split_data_client = some c → c.is_final = true →
      ∃ c', sd'.split_data_client = some c' ∧ c'.is_final = true) :
    final_frame w (set_split_data w h sd') := by
  refine ⟨origin_frame_of_eq _ _ rfl, ?_⟩
  rintro a ⟨sda, client, hsda, hcl, hf⟩
  by_cases hah : h = a
  · subst hah
    rw [hsd] at hsda
    injection hsda with hsda
    subst hsda
    obtain ⟨c', hc', hf'⟩ := hmono client hcl hf
    exact ⟨sd', c', get_set_split_data w h sd' (get_split_data_lt w h sd hsd), hc', hf'⟩
  · exact ⟨sda, client, by rw [get_split_data_set_ne w h a sd' hah]; exact hsda, hcl, hf⟩

theorem mark_origin_final_frame (w w' : World) (c : Nat) (reason : end_circ_reason_t)
    (h : circuit_mark_for_close_origin w c reason = .ok w') : final_frame w w' := by
  have h0 := h
  unfold circuit_mark_for_close_origin at h0
  obtain ⟨oc, hoc, -⟩ := bind_ok _ _ _ h0
  obtain ⟨w2, hm, -, hs, -, -, -, -, hof⟩ := mark_origin_ok w c oc reason hoc
  rw [hm] at h
  injection h with h
  subst h
  exact final_frame_of_eq _ _ hof hs

theorem send_origin_final_frame (w w' : World) (c : Nat) (command : relay_command_t)
    (payload : List Nat) (fails : Bool) (r : Int)
    (h : relay_send_command_from_edge_origin w c command payload fails = .ok (r, w')) :
    final_frame w w' := by
  unfold relay_send_command_from_edge_origin at h
  cases fails with
  | true =>
    simp only [if_true] at h
    obtain ⟨w2, hm, h⟩ := bind_ok _ _ _ h
    injection h with h
    injection h with _ h
    subst h
    exact mark_origin_final_frame _ _ _ _ hm
  | false =>
    simp only [Bool.false_eq_true, if_false, pure, Except.pure] at h
    injection h with h
    injection h with _ h
    subst h
    exact final_frame_of_eq _ _ (origin_frame_of_eq _ _ rfl) rfl

theorem store_use_previous_final_frame (w w' : World) (h : Nat) (d : cell_direction_t)
    (v : Bool) (hs : store_use_previous_data w h d v = .ok w') : final_frame w w' := by
  unfold store_use_previous_data at hs
  obtain ⟨sd, hsd, hs⟩ := bind_ok _ _ _ hs
  obtain ⟨client, hcl, hs⟩ := bind_ok _ _ _ hs
  injection hs with hs
  subst hs
  refine final_frame_set w h sd _ hsd ?_
  intro c hc hf
  unfold get_client at hcl
  rw [hc] at hcl
  injection hcl with hcl
  subst hcl
  refine ⟨_, rfl, ?_⟩
  cases d <;> exact hf

theorem generate_final_frame (P idBytes : Nat) (env : client_env) (w w' : World) (h : Nat)
    (d : cell_direction_t) (r : Int)
    (hg : split_data_generate_instruction P idBytes env w h d = .ok (r, w')) :
    final_frame w w' := by
  unfold split_data_generate_instruction at hg
  obtain ⟨sd, hsd, hg⟩ := bind_ok _ _ _ hg
  obtain ⟨client, hcl, hg⟩ := bind_ok _ _ _ hg
  obtain ⟨base, -, hg⟩ := bind_ok _ _ _ hg
  dsimp only at hg
  have hclient : sd.split_data_client = some client := by
    unfold get_client at hcl
    cases hx : sd.split_data_client with
    | none => rw [hx] at hcl; cases hcl
    | some c => rw [hx] at hcl; injection hcl with hcl; rw [hcl]
  split at hg
  · injection hg with hg
    injection hg with _ hg
    subst hg
    exact final_frame_refl w
  · obtain ⟨⟨inst, prev⟩, -, hg⟩ := bind_ok _ _ _ hg
    dsimp only at hg
    have hf1 : final_frame w (set_split_data w h
        { sd with split_data_client := some (set_previous_data client d prev) }) := by
      refine final_frame_set w h sd _ hsd ?_
      intro c hc hf
      rw [hclient] at hc
      injection hc with hc
      subst hc
      refine ⟨_, rfl, ?_⟩
      cases d <;> exact hf
    obtain ⟨payload, -, hg⟩ := bind_ok _ _ _ hg
    cases payload with
    | none =>
      injection hg with hg
      injection hg with _ hg
      subst hg
      exact hf1
    | some payload =>
      dsimp only at hg
      obtain ⟨u, -, hg⟩ := bind_ok _ _ _ hg
      obtain ⟨m, -, hg⟩ := bind_ok _ _ _ hg
      obtain ⟨⟨retval, w2⟩, hsend, hg⟩ := bind_ok _ _ _ hg
      dsimp only at hg
      obtain ⟨sd2, hsd2, hg⟩ := bind_ok _ _ _ hg
      injection hg with hg
      injection hg with _ hg
      subst hg
      have hf2 := send_origin_final_frame _ _ _ _ _ _ _ hsend
      have hf3 : final_frame w2 (set_split_data w2 h (set_instruction sd2 d
          (split_instruction_append (instruction sd2 d) inst))) := by
        refine final_frame_set w2 h sd2 _ hsd2 ?_
        intro c hc hf
        refine ⟨c, ?_, hf⟩
        cases d <;> exact hc
      exact final_frame_trans _ _ _ hf1 (final_frame_trans _ _ _ hf2 hf3)

theorem finalise_loop_final_frame (P idBytes : Nat) (env : client_env) (h : Nat)
    (d : cell_direction_t) :
    ∀ (n : Nat) (w w' : World), finalise_loop P idBytes env h d n w = .ok w' →
      final_frame w w' := by
  intro n
  induction n with
  | zero =>
    intro w w' hl
    injection hl with hl
    subst hl
    exact final_frame_refl w
  | succ n ih =>
    intro w w' hl
    unfold finalise_loop at hl
    obtain ⟨⟨r, w1⟩, hgen, hl⟩ := bind_ok _ _ _ hl
    dsimp only at hl
    obtain ⟨w2, hst, hl⟩ := bind_ok _ _ _ hl
    exact final_frame_trans _ _ _ (generate_final_frame P idBytes env w w1 h d r hgen)
      (final_frame_trans _ _ _ (store_use_previous_final_frame _ _ _ _ _ hst) (ih _ _ hl))

/-- A returning `split_data_finalise` keeps the origin circuits' purpose and
hops and keeps every final session final. -/
theorem finalise_final_frame (P idBytes : Nat) (env : client_env) (w w' : World) (h : Nat)
    (hf : split_data_finalise P idBytes env w h = .ok w') : final_frame w w' := by
  unfold split_data_finalise at hf
  obtain ⟨sd, hsd, hf⟩ := bind_ok _ _ _ hf
  obtain ⟨client, hcl, hf⟩ := bind_ok _ _ _ hf
  split at hf
  · injection hf with hf
    subst hf
    exact final_frame_refl w
  · split at hf
    · injection hf with hf
      subst hf
      exact final_frame_refl w
    · obtain ⟨w1, h1, hf⟩ := bind_ok _ _ _ hf
      obtain ⟨w2, h2, hf⟩ := bind_ok _ _ _ hf
      obtain ⟨w3, h3, hf⟩ := bind_ok _ _ _ hf
      obtain ⟨w4, h4, hf⟩ := bind_ok _ _ _ hf
      obtain ⟨sd4, hsd4, hf⟩ := bind_ok _ _ _ hf
      obtain ⟨c4, hc4, hf⟩ := bind_ok _ _ _ hf
      injection hf with hf
      subst hf
      have hlast : final_frame w4 (set_split_data w4 h
          { sd4 with split_data_client := some { c4 with is_final := true } }) :=
        final_frame_set w4 h sd4 _ hsd4 (fun c _ _ => ⟨_, rfl, rfl⟩)
      exact final_frame_trans _ _ _ (store_use_previous_final_frame _ _ _ _ _ h1)
        (final_frame_trans _ _ _ (store_use_previous_final_frame _ _ _ _ _ h2)
          (final_frame_trans _ _ _ (finalise_loop_final_frame P idBytes env h _ _ _ _ h3)
            (final_frame_trans _ _ _ (finalise_loop_final_frame P idBytes env h _ _ _ _ h4)
              hlast)))

/-- When the loop of `split_may_attach_stream` returns true, every hop it
walked over that carries a session carries a final one. -/
theorem may_attach_loop_final (P idBytes : Nat) (env : client_env) :
    ∀ (cpath : List crypt_path_t) (w w' : World),
      may_attach_loop P idBytes env cpath w = .ok (true, w') →
      final_frame w w' ∧ hops_final w' cpath := by
  intro cpath
  induction cpath with
  | nil =>
    intro w w' hl
    injection hl with hl
    injection hl with _ hl
    subst hl
    exact ⟨final_frame_refl w, fun hop hm => by cases hm⟩
  | cons hop rest ih =>
    intro w w' hl
    unfold may_attach_loop at hl
    cases hsd : hop.split_data with
    | none =>
      rw [hsd] at hl
      dsimp only at hl
      obtain ⟨hfr, hfin⟩ := ih w w' hl
      refine ⟨hfr, ?_⟩
      intro x hx a ha
      rcases List.mem_cons.mp hx with rfl | hx
      · rw [hsd] at ha; cases ha
      · exact hfin x hx a ha
    | some h =>
      rw [hsd] at hl
      dsimp only at hl
      obtain ⟨u, -, hl⟩ := bind_ok _ _ _ hl
      obtain ⟨sd0, -, hl⟩ := bind_ok _ _ _ hl
      obtain ⟨c0, -, hl⟩ := bind_ok _ _ _ hl
      obtain ⟨w1, hfinal, hl⟩ := bind_ok _ _ _ hl
      obtain ⟨sd1, hsd1, hl⟩ := bind_ok _ _ _ hl
      obtain ⟨c1, hc1, hl⟩ := bind_ok _ _ _ hl
      have hclient : sd1.split_data_client = some c1 := by
        unfold get_client at hc1
        cases hx : sd1.split_data_client with
        | none => rw [hx] at hc1; cases hc1
        | some c => rw [hx] at hc1; injection hc1 with hc1; rw [hc1]
      by_cases hfn : c1.is_final = true
      · simp only [hfn, Bool.not_true, Bool.false_eq_true, if_false] at hl
        obtain ⟨hfr, hfin⟩ := ih w1 w' hl
        have hfr1 := finalise_final_frame P idBytes env w w1 h hfinal
        refine ⟨final_frame_trans _ _ _ hfr1 hfr, ?_⟩
        intro x hx a ha
        rcases List.mem_cons.mp hx with rfl | hx
        · rw [hsd] at ha
          injection ha with ha
          subst ha
          exact hfr.2 h ⟨sd1, c1, hsd1, hclient, hfn⟩
        · exact hfin x hx a ha
      · simp only [hfn, Bool.not_false, if_true, pure, Except.pure] at hl
        injection hl with hl
        injection hl with hl _
        cases hl

/-- C23 (as amended): whenever `split_may_attach_stream(circ, must_be_open)`
returns true, `circ` is not a SPLIT_JOIN circuit, at the call and at the
return, and its hops are the same; with `must_be_open` set, every hop of
`circ` that carries a split session carries one whose `is_final` is set at
the time of return; with `must_be_open` clear, nothing is looked at beyond
the purpose and nothing is changed.  And with `must_be_open` clear the
function returns true on every circuit that is not a SPLIT_JOIN circuit, in
every state. -/
theorem C23_may_attach_stream (RELAY_PAYLOAD_SIZE idBytes : Nat) (env : client_env)
    (w w' : World) (circ : Nat) (must_be_open : Bool)
    (h : split_may_attach_stream RELAY_PAYLOAD_SIZE idBytes env w circ must_be_open
      = .ok (true, w')) :
    (∃ oc oc', get_origin w circ = .ok oc ∧ get_origin w' circ = .ok oc' ∧
      oc.purpose_split_join = false ∧ oc'.purpose_split_join = false ∧ oc'.cpath = oc.cpath ∧
      (must_be_open = true → hops_final w' oc'.cpath) ∧
      (must_be_open = false → w' = w)) ∧
    (∀ (w0 : World) (c0 : Nat) (oc0 : origin_circuit_t), get_origin w0 c0 = .ok oc0 →
      oc0.purpose_split_join = false →
      split_may_attach_stream RELAY_PAYLOAD_SIZE idBytes env w0 c0 false = .ok (true, w0)) := by
  refine ⟨?_, fun w0 c0 oc0 h0 hp0 => by
    unfold split_may_attach_stream
    simp only [h0, bind, Except.bind, hp0, Bool.false_eq_true, if_false, Bool.not_false, if_true,
      pure, Except.pure]⟩
  unfold split_may_attach_stream at h
  obtain ⟨oc, hoc, h⟩ := bind_ok _ _ _ h
  by_cases hp : oc.purpose_split_join = true
  · simp only [hp, if_true, pure, Except.pure] at h
    injection h with h
    injection h with h _
    cases h
  · have hpf : oc.purpose_split_join = false := by
      cases hx : oc.purpose_split_join with
      | true => exact absurd hx hp
      | false => rfl
    simp only [hp, Bool.false_eq_true, if_false] at h
    cases must_be_open with
    | false =>
      simp only [Bool.not_false, if_true, pure, Except.pure] at h
      injection h with h
      injection h with _ h
      subst h
      exact ⟨oc, oc, hoc, hoc, hpf, hpf, rfl, fun hc => absurd hc (by decide), fun _ => rfl⟩
    | true =>
      simp only [Bool.not_true, Bool.false_eq_true, if_false] at h
      obtain ⟨u, -, h⟩ := bind_ok _ _ _ h
      obtain ⟨hfr, hfin⟩ := may_attach_loop_final RELAY_PAYLOAD_SIZE idBytes env oc.cpath w w' h
      obtain ⟨oc', hoc', hp', hc'⟩ := hfr.1 circ oc hoc
      refine ⟨oc, oc', hoc, hoc', hpf, by rw [hp']; exact hpf, hc', fun _ => ?_,
        fun hc => absurd hc (by decide)⟩
      rw [hc']
      exact hfin

/-- C23 at the circuit 0 of `client_world_single` with `must_be_open` set:
the call finalises session 0 and returns true. -/
theorem C23_may_attach_stream_witness :
    split_may_attach_stream 4 1 (ex_client_env 3) client_world_single 0 true
      = .ok (true, client_world_single_final) ∧
    ∃ oc oc', get_origin client_world_single 0 = .ok oc ∧
      get_origin client_world_single_final 0 = .ok oc' ∧
      oc.purpose_split_join = false ∧ oc'.purpose_split_join = false ∧ oc'.cpath = oc.cpath ∧
      (true = true → hops_final client_world_single_final oc'.cpath) ∧
      (true = false → client_world_single_final = client_world_single) :=
  have hrun : split_may_attach_stream 4 1 (ex_client_env 3) client_world_single 0 true
      = .ok (true, client_world_single_final) := by decide!
  ⟨hrun, (C23_may_attach_stream 4 1 (ex_client_env 3) client_world_single
    client_world_single_final 0 true hrun).1⟩

/-- C23 as stated fails for `must_be_open = 0`: on the base circuit of
`client_world_pending`, whose hop 1 carries the session 0 that is not final,
`split_may_attach_stream` returns true and leaves the session as it is. -/
theorem C23_attach_without_final :
    split_may_attach_stream 4 1 (ex_client_env 3)
        (client_world_pending split_cookie_state_t.SPLIT_COOKIE_STATE_VALID) 0 false
      = .ok (true, client_world_pending split_cookie_state_t.SPLIT_COOKIE_STATE_VALID) ∧
    get_origin (client_world_pending split_cookie_state_t.SPLIT_COOKIE_STATE_VALID) 0
      = .ok (ex_origin false [ex_hop none none, ex_hop (some 0) (some 0), ex_hop none none]) ∧
    ¬ hops_final (client_world_pending split_cookie_state_t.SPLIT_COOKIE_STATE_VALID)
        [ex_hop none none, ex_hop (some 0) (some 0), ex_hop none none] := by
  refine ⟨rfl, rfl, ?_⟩
  intro hf
  obtain ⟨sd, client, hsd, hcl, hfin⟩ := hf (ex_hop (some 0) (some 0)) (by simp) 0 rfl
  have e : get_split_data (client_world_pending split_cookie_state_t.SPLIT_COOKIE_STATE_VALID) 0
      = .ok (ex_client_session split_cookie_state_t.SPLIT_COOKIE_STATE_VALID (ex_list1 0)
          (ex_client [1] false) [] []) := rfl
  rw [e] at hsd
  injection hsd with hsd
  subst hsd
  injection hcl with hcl
  subst hcl
  cases hfin

theorem wrap_int32_succ (n : Nat) (h : n + 1 < 2 ^ 31) : wrap_int32 ((n : Int) + 1) = n + 1 := by
  unfold wrap_int32
  have h' : n + 1 < 2147483648 := by simpa using h
  norm_num
  omega

theorem peak_queued_ge (ops : List buffer_op) : ∀ n, n ≤ peak_queued ops n := by
  induction ops with
  | nil => intro n; exact le_refl n
  | cons op rest ih =>
    intro n
    cases op with
    | append c => exact le_max_left _ _
    | pop => exact le_max_left _ _

/-- Running any sequence of calls on a buffer whose counter is the number of
its cells. -/
theorem run_buffer_ops_ok (ops : List buffer_op) :
    ∀ (buf : cell_buffer_t), buf.num = buf.head.length →
      peak_queued ops buf.head.length < 2 ^ 31 →
      ∃ buf' out, run_buffer_ops ops buf = .ok (buf', out) ∧
        buf'.num = buf'.head.length ∧ (buf'.head, out) = fifo_spec ops buf.head ∧
        buf.head ++ appended_cells ops = out.filterMap id ++ buf'.head := by
  induction ops with
  | nil =>
    intro buf hnum _
    exact ⟨buf, [], rfl, hnum, rfl, by simp [appended_cells]⟩
  | cons op rest ih =>
    intro buf hnum hpeak
    cases op with
    | append c =>
      have hp : peak_queued rest (buf.head.length + 1) < 2 ^ 31 :=
        lt_of_le_of_lt (le_max_right _ _) hpeak
      have hlt : buf.head.length + 1 < 2 ^ 31 :=
        lt_of_le_of_lt (peak_queued_ge rest _) hp
      have hnum' : (cell_buffer_append buf c).num = (cell_buffer_append buf c).head.length := by
        unfold cell_buffer_append
        simp only [List.length_append, List.length_singleton, hnum]
        rw [wrap_int32_succ _ hlt]
        push_cast
        rfl
      have hl : (cell_buffer_append buf c).head.length = buf.head.length + 1 := by
        unfold cell_buffer_append
        simp
      obtain ⟨buf', out, hrun, hn, hspec, happ⟩ := ih (cell_buffer_append buf c) hnum'
        (by rw [hl]; exact hp)
      refine ⟨buf', out, hrun, hn, hspec, ?_⟩
      rw [← happ]
      simp [cell_buffer_append, appended_cells]
    | pop =>
      have hp : peak_queued rest (buf.head.length - 1) < 2 ^ 31 :=
        lt_of_le_of_lt (le_max_right _ _) hpeak
      cases hh : buf.head with
      | nil =>
        have hpop : cell_buffer_pop buf = .ok (none, buf) := by
          unfold cell_buffer_pop
          rw [hh]
          rfl
        obtain ⟨buf', out, hrun, hn, hspec, happ⟩ := ih buf hnum
          (by rw [hh] at hp ⊢; exact hp)
        refine ⟨buf', none :: out, ?_, hn, ?_, ?_⟩
        · unfold run_buffer_ops
          simp only [hpop, bind, Except.bind, hrun, pure, Except.pure]
        · rw [hh] at hspec
          unfold fifo_spec
          simp only [List.tail_nil, List.head?_nil, ← hspec]
        · rw [hh] at happ
          simpa [appended_cells] using happ
      | cons cell tl =>
        have hlen : buf.head.length = tl.length + 1 := by rw [hh]; rfl
        have hnum1 : buf.num - 1 = (tl.length : Int) := by rw [hnum, hlen]; push_cast; omega
        have hpop : cell_buffer_pop buf = .ok (some cell, { head := tl, num := buf.num - 1 }) := by
          unfold cell_buffer_pop
          rw [hh]
          have : (buf.num - 1 ≥ 0) := by rw [hnum1]; exact Int.ofNat_nonneg _
          simp only [tor_assert, this, decide_True, if_true, bind, Except.bind, pure, Except.pure]
        obtain ⟨buf', out, hrun, hn, hspec, happ⟩ :=
          ih { head := tl, num := buf.num - 1 } hnum1 (by rw [hlen] at hp; exact hp)
        refine ⟨buf', some cell :: out, ?_, hn, ?_, ?_⟩
        · unfold run_buffer_ops
          simp only [hpop, bind, Except.bind, hrun, pure, Except.pure]
        · unfold fifo_spec
          simp only [List.tail_cons, List.head?_cons, ← hspec]
        · simp only [appended_cells, List.filterMap_cons, id, List.cons_append] at happ ⊢
          rw [happ]

theorem wrap_int32_add (x y : Int) : wrap_int32 (wrap_int32 x + y) = wrap_int32 (x + y) := by
  unfold wrap_int32
  norm_num
  omega

theorem wrap_int32_of_range (x : Int) (h1 : -2 ^ 31 ≤ x) (h2 : x < 2 ^ 31) : wrap_int32 x = x := by
  unfold wrap_int32
  norm_num at h1 h2 ⊢
  omega

/-- The buffer after `n` calls of `cell_buffer_append` with the cell `c`. -/
theorem run_appends (c : buffered_cell_t) (n : Nat) : ∀ buf : cell_buffer_t,
    wrap_int32 buf.num = buf.num →
    run_buffer_ops (List.replicate n (buffer_op.append c)) buf
      = .ok ({ head := buf.head ++ List.replicate n c, num := wrap_int32 (buf.num + n) }, []) := by
  induction n with
  | zero =>
    intro buf hb
    simp only [List.replicate_zero, List.append_nil, Nat.cast_zero, Int.add_zero, hb]
    rfl
  | succ n ih =>
    intro buf hb
    rw [List.replicate_succ]
    show run_buffer_ops (List.replicate n (buffer_op.append c)) (cell_buffer_append buf c) = _
    rw [ih (cell_buffer_append buf c) (by
      show wrap_int32 (wrap_int32 (buf.num + 1)) = wrap_int32 (buf.num + 1)
      have := wrap_int32_add (buf.num + 1) 0
      simpa using this)]
    have h1 : (cell_buffer_append buf c).head = buf.head ++ [c] := rfl
    have h2 : (cell_buffer_append buf c).num = wrap_int32 (buf.num + 1) := rfl
    have e : buf.num + 1 + (n : Int) = buf.num + ((n + 1 : Nat) : Int) := by push_cast; ring
    rw [h1, h2, wrap_int32_add, List.append_assoc, e]
    rfl

/-- C27 as stated fails beyond `2 ^ 31 - 1` queued cells: after `2 ^ 31`
calls of `cell_buffer_append` on an initialised buffer the calls have
returned and `2 ^ 31` cells are queued, but the `int` counter `num`, which
`++buf->num` has taken past `INT_MAX`, holds `-2 ^ 31` and is not the number
of cells queued. -/
theorem C27_counter_wraps_at_int_max :
    ∃ buf out, run_buffer_ops (List.replicate (2 ^ 31) (buffer_op.append (ex_cell 7 0)))
        cell_buffer_new = .ok (buf, out) ∧
      buf.head.length = 2 ^ 31 ∧ buf.num = -2 ^ 31 ∧ buf.num ≠ (buf.head.length : Int) := by
  refine ⟨_, _, run_appends (ex_cell 7 0) (2 ^ 31) cell_buffer_new (by decide), ?_, ?_, ?_⟩
  · show (cell_buffer_new.head ++ List.replicate (2 ^ 31) (ex_cell 7 0)).length = 2 ^ 31
    rw [List.length_append, List.length_replicate]
    rfl
  · show wrap_int32 (cell_buffer_new.num + ((2 ^ 31 : Nat) : Int)) = -2 ^ 31
    unfold wrap_int32 cell_buffer_new
    norm_num
  · show wrap_int32 (cell_buffer_new.num + ((2 ^ 31 : Nat) : Int))
      ≠ ((cell_buffer_new.head ++ List.replicate (2 ^ 31) (ex_cell 7 0)).length : Int)
    rw [List.length_append, List.length_replicate]
    unfold wrap_int32 cell_buffer_new
    norm_num

/-- C27 (amended): the cell buffer is a FIFO while fewer than `2 ^ 31` cells
are queued.  For every sequence of calls of `cell_buffer_append` and
`cell_buffer_pop` on an initialised buffer, during which fewer than `2 ^ 31`
cells are queued at any time (the counter is an `int`): the calls return; afterwards `num` is the number of cells queued; the
queue and the results of the pops are those of the FIFO of the
specification; the cells appended are, in the order of their appends, the
cells that the pops returned followed by the cells still queued; and a pop on
an empty buffer returns NULL and leaves the buffer as it is. -/
theorem C27_cell_buffer_fifo (ops : List buffer_op) (hpeak : peak_queued ops 0 < 2 ^ 31) :
    (∃ buf out, run_buffer_ops ops cell_buffer_new = .ok (buf, out) ∧
      buf.num = buf.head.length ∧ (buf.head, out) = fifo_spec ops [] ∧
      appended_cells ops = out.filterMap id ++ buf.head) ∧
    ∀ buf : cell_buffer_t, buf.head = [] → cell_buffer_pop buf = .ok (none, buf) := by
  constructor
  · obtain ⟨buf, out, hrun, hn, hspec, happ⟩ := run_buffer_ops_ok ops cell_buffer_new rfl hpeak
    exact ⟨buf, out, hrun, hn, hspec, by simpa [cell_buffer_new] using happ⟩
  · intro buf hh
    unfold cell_buffer_pop
    rw [hh]
    rfl

/-- C27 (amended) at the calls append 1, append 2, pop, append 3, pop, pop,
pop, during which at most two cells are queued. -/
theorem C27_cell_buffer_fifo_witness :
    peak_queued [buffer_op.append (ex_cell 1 0), buffer_op.append (ex_cell 2 0), buffer_op.pop,
      buffer_op.append (ex_cell 3 0), buffer_op.pop, buffer_op.pop, buffer_op.pop] 0 = 2 ∧
    run_buffer_ops [buffer_op.append (ex_cell 1 0), buffer_op.append (ex_cell 2 0), buffer_op.pop,
      buffer_op.append (ex_cell 3 0), buffer_op.pop, buffer_op.pop, buffer_op.pop] cell_buffer_new
      = .ok (cell_buffer_new, [some (ex_cell 1 0), some (ex_cell 2 0), some (ex_cell 3 0), none]) ∧
    ((∃ buf out, run_buffer_ops [buffer_op.append (ex_cell 1 0), buffer_op.append (ex_cell 2 0),
        buffer_op.pop, buffer_op.append (ex_cell 3 0), buffer_op.pop, buffer_op.pop,
        buffer_op.pop] cell_buffer_new = .ok (buf, out) ∧
      buf.num = buf.head.length ∧
      (buf.head, out) = fifo_spec [buffer_op.append (ex_cell 1 0), buffer_op.append (ex_cell 2 0),
        buffer_op.pop, buffer_op.append (ex_cell 3 0), buffer_op.pop, buffer_op.pop,
        buffer_op.pop] [] ∧
      appended_cells [buffer_op.append (ex_cell 1 0), buffer_op.append (ex_cell 2 0),
        buffer_op.pop, buffer_op.append (ex_cell 3 0), buffer_op.pop, buffer_op.pop,
        buffer_op.pop] = out.filterMap id ++ buf.head) ∧
    ∀ buf : cell_buffer_t, buf.head = [] → cell_buffer_pop buf = .ok (none, buf)) :=
  ⟨by decide, by decide, C27_cell_buffer_fifo _ (by decide)⟩

/-- The three cases of `cell_buffer_max_buffered_age(buf, now)`: it returns 0
for an empty buffer; for a buffer whose head cell was stamped `t` and every
32-bit `now` that is not smaller than `t` it returns `now - t`, which is
`(now - t) mod 2 ^ 32`; for `now` smaller than `t` its assertion
`now >= first->inserted_timestamp` fails. -/
theorem max_buffered_age_cases (buf : cell_buffer_t) (now : Nat) (hnow : now < 2 ^ 32) :
    (buf.head = [] → cell_buffer_max_buffered_age buf now = .ok 0) ∧
    (∀ first rest, buf.head = first :: rest → first.inserted_timestamp ≤ now →
      cell_buffer_max_buffered_age buf now = .ok (now - first.inserted_timestamp) ∧
      ((now - first.inserted_timestamp : Nat) : Int)
        = ((now : Int) - (first.inserted_timestamp : Int)) % 2 ^ 32) ∧
    (∀ first rest, buf.head = first :: rest → now < first.inserted_timestamp →
      cell_buffer_max_buffered_age buf now = .error Fault.assertion) := by
  refine ⟨?_, ?_, ?_⟩
  · intro hh
    unfold cell_buffer_max_buffered_age
    rw [hh]
    rfl
  · intro first rest hh hle
    have hnow' : now < 4294967296 := by simpa using hnow
    constructor
    · unfold cell_buffer_max_buffered_age
      rw [hh]
      have hge : now ≥ first.inserted_timestamp := hle
      simp only [tor_assert, hge, decide_True, if_true, bind, Except.bind, pure, Except.pure]
      congr 1
      norm_num
      omega
    · norm_num
      omega
  · intro first rest hh hlt
    unfold cell_buffer_max_buffered_age
    rw [hh]
    have hge : ¬ now ≥ first.inserted_timestamp := by omega
    simp only [tor_assert, hge, decide_False, Bool.false_eq_true, if_false, bind, Except.bind]

/-- C28 (code defect): when `now` is smaller than the stamp of the head cell,
as after a wrap of the 32-bit coarse clock, `cell_buffer_max_buffered_age`
does not return `(now - t) mod 2 ^ 32`.  With the head stamped `4294967295`
and `now = 3` that value is 4, the age of the cell; the function fails its
assertion `now >= first->inserted_timestamp` and returns nothing, whereas
its comment speaks of incorrect results only for cells older than
`2 ^ 32` msec.  At `now = 4294967295`, before the wrap, the same buffer gives
the age 0. -/
theorem C28_age_after_wrap_asserts :
    (((3 : Int) - 4294967295) % 2 ^ 32).toNat = 4 ∧
    cell_buffer_max_buffered_age { head := [ex_cell 7 4294967295], num := 1 } 3
      = .error Fault.assertion ∧
    cell_buffer_max_buffered_age { head := [ex_cell 7 4294967295], num := 1 } 3 ≠ .ok 4 ∧
    cell_buffer_max_buffered_age { head := [ex_cell 7 4294967295], num := 1 } 4294967295
      = .ok 0 := by
  refine ⟨by decide, by decide, by decide, by decide⟩

theorem rr_loop_length (idBytes : Nat) (sl : subcirc_list_t) (M fuel : Nat) :
    ∀ (n c : Nat) (l : List Nat), rr_loop idBytes sl M fuel n c = .ok l → l.length = n := by
  intro n
  induction n with
  | zero => intro c l h; injection h with h; rw [← h]; rfl
  | succ n ih =>
    intro c l h
    unfold rr_loop at h
    obtain ⟨next, -, h⟩ := bind_ok _ _ _ h
    obtain ⟨rest, hr, h⟩ := bind_ok _ _ _ h
    injection h with h
    rw [← h, List.length_cons, ih next rest hr]

theorem ru_loop_length (idBytes : Nat) (sl : subcirc_list_t) (M : Nat) (env : strategy_env) :
    ∀ (n k : Nat) (l : List Nat), ru_loop idBytes sl M env n k = .ok l → l.length = n := by
  intro n
  induction n with
  | zero => intro k l h; injection h with h; rw [← h]; rfl
  | succ n ih =>
    intro k l h
    unfold ru_loop at h
    obtain ⟨⟨c1, k1⟩, -, h⟩ := bind_ok _ _ _ h
    obtain ⟨rest, hr, h⟩ := bind_ok _ _ _ h
    injection h with h
    rw [← h, List.length_cons, ih k1 rest hr]

theorem wr_loop_length (idBytes : Nat) (sl : subcirc_list_t) (wp : List Nat)
    (env : strategy_env) :
    ∀ (n k : Nat) (l : List Nat), wr_loop idBytes sl wp env n k = .ok l → l.length = n := by
  intro n
  induction n with
  | zero => intro k l h; injection h with h; rw [← h]; rfl
  | succ n ih =>
    intro k l h
    unfold wr_loop at h
    obtain ⟨⟨c1, k1⟩, -, h⟩ := bind_ok _ _ _ h
    obtain ⟨rest, hr, h⟩ := bind_ok _ _ _ h
    injection h with h
    rw [← h, List.length_cons, ih k1 rest hr]

theorem bwr_loop_length (idBytes : Nat) (sl : subcirc_list_t) (wp : List Nat)
    (env : strategy_env) :
    ∀ (n pos c k : Nat) (l : List Nat), bwr_loop idBytes sl wp env n pos c k = .ok l →
      l.length = n := by
  intro n
  induction n with
  | zero => intro pos c k l h; injection h with h; rw [← h]; rfl
  | succ n ih =>
    intro pos c k l h
    unfold bwr_loop at h
    obtain ⟨⟨c1, k1⟩, -, h⟩ := bind_ok _ _ _ h
    obtain ⟨rest, hr, h⟩ := bind_ok _ _ _ h
    injection h with h
    rw [← h, List.length_cons, ih _ c1 k1 rest hr]

theorem get_max_ids_generic_inv (P max_id num : Nat)
    (h : get_max_ids_generic P max_id = .ok num) :
    num = (P - 2) * 8 / subcirc_id_get_width max_id := by
  rw [get_max_ids_generic_ok] at h
  injection h with h
  exact h.symm

/-- The shape of an instruction that a strategy returns: a generic
instruction whose `length` is that of its array, with as many IDs as
`get_max_ids_generic` allows for the maximum `m` the strategy used. -/
theorem new_instruction_shape (P idBytes strategy : Nat) (sl : subcirc_list_t)
    (use_prev : Bool) (prev_data prev : List Int) (env : strategy_env)
    (inst : split_instruction_t)
    (h : split_get_new_instruction P idBytes strategy sl use_prev prev_data env
      = .ok (inst, prev)) :
    inst = new_generic_instruction idBytes inst.data ∧
    ((inst.data.length = (P - 2) * 8 / subcirc_id_get_width 0 ∧ ∀ id ∈ inst.data, id = 0) ∨
      inst.data.length
        = (P - 2) * 8 / subcirc_id_get_width (sl.max_index.toNat % 2 ^ (8 * idBytes))) := by
  unfold split_get_new_instruction at h
  split at h
  · obtain ⟨i, hi, h⟩ := bind_ok _ _ _ h
    injection h with h
    injection h with h1 h2
    subst h1
    unfold get_instruction_min_id at hi
    obtain ⟨u, -, hi⟩ := bind_ok _ _ _ hi
    obtain ⟨s0, -, hi⟩ := bind_ok _ _ _ hi
    obtain ⟨u2, -, hi⟩ := bind_ok _ _ _ hi
    obtain ⟨num, hnum, hi⟩ := bind_ok _ _ _ hi
    injection hi with hi
    subst hi
    refine ⟨rfl, Or.inl ⟨?_, ?_⟩⟩
    · simp only [new_generic_instruction, List.length_replicate]
      exact get_max_ids_generic_inv _ _ _ hnum
    · intro id hid
      exact List.eq_of_mem_replicate hid
  · split at h
    · obtain ⟨i, hi, h⟩ := bind_ok _ _ _ h
      injection h with h
      injection h with h1 h2
      subst h1
      unfold get_instruction_max_id at hi
      obtain ⟨u, -, hi⟩ := bind_ok _ _ _ hi
      obtain ⟨u2, -, hi⟩ := bind_ok _ _ _ hi
      obtain ⟨num, hnum, hi⟩ := bind_ok _ _ _ hi
      injection hi with hi
      subst hi
      refine ⟨rfl, Or.inr ?_⟩
      simp only [new_generic_instruction, List.length_replicate]
      exact get_max_ids_generic_inv _ _ _ hnum
    · split at h
      · obtain ⟨i, hi, h⟩ := bind_ok _ _ _ h
        injection h with h
        injection h with h1 h2
        subst h1
        unfold get_instruction_round_robin at hi
        obtain ⟨u, -, hi⟩ := bind_ok _ _ _ hi
        obtain ⟨u2, -, hi⟩ := bind_ok _ _ _ hi
        obtain ⟨num, hnum, hi⟩ := bind_ok _ _ _ hi
        obtain ⟨s0, -, hi⟩ := bind_ok _ _ _ hi
        obtain ⟨u3, -, hi⟩ := bind_ok _ _ _ hi
        obtain ⟨list, hl, hi⟩ := bind_ok _ _ _ hi
        injection hi with hi
        subst hi
        refine ⟨rfl, Or.inr ?_⟩
        simp only [new_generic_instruction]
        rw [rr_loop_length _ _ _ _ _ _ _ hl]
        exact get_max_ids_generic_inv _ _ _ hnum
      · split at h
        · obtain ⟨i, hi, h⟩ := bind_ok _ _ _ h
          injection h with h
          injection h with h1 h2
          subst h1
          unfold get_instruction_random_uniform at hi
          obtain ⟨u, -, hi⟩ := bind_ok _ _ _ hi
          obtain ⟨u2, -, hi⟩ := bind_ok _ _ _ hi
          obtain ⟨num, hnum, hi⟩ := bind_ok _ _ _ hi
          obtain ⟨list, hl, hi⟩ := bind_ok _ _ _ hi
          injection hi with hi
          subst hi
          refine ⟨rfl, Or.inr ?_⟩
          simp only [new_generic_instruction]
          rw [ru_loop_length _ _ _ _ _ _ _ hl]
          exact get_max_ids_generic_inv _ _ _ hnum
        · split at h
          · unfold get_instruction_weighted_random at h
            obtain ⟨u, -, h⟩ := bind_ok _ _ _ h
            obtain ⟨u2, -, h⟩ := bind_ok _ _ _ h
            obtain ⟨num, hnum, h⟩ := bind_ok _ _ _ h
            obtain ⟨⟨theta, pd⟩, -, h⟩ := bind_ok _ _ _ h
            obtain ⟨wp, -, h⟩ := bind_ok _ _ _ h
            obtain ⟨list, hl, h⟩ := bind_ok _ _ _ h
            injection h with h
            injection h with h1 h2
            subst h1
            refine ⟨rfl, Or.inr ?_⟩
            simp only [new_generic_instruction]
            rw [wr_loop_length _ _ _ _ _ _ _ hl]
            exact get_max_ids_generic_inv _ _ _ hnum
          · split at h
            · unfold get_instruction_batched_weighted_random at h
              obtain ⟨u, -, h⟩ := bind_ok _ _ _ h
              obtain ⟨u2, -, h⟩ := bind_ok _ _ _ h
              obtain ⟨num, hnum, h⟩ := bind_ok _ _ _ h
              obtain ⟨⟨theta, pd⟩, -, h⟩ := bind_ok _ _ _ h
              obtain ⟨wp, -, h⟩ := bind_ok _ _ _ h
              obtain ⟨first, -, h⟩ := bind_ok _ _ _ h
              obtain ⟨list, hl, h⟩ := bind_ok _ _ _ h
              injection h with h
              injection h with h1 h2
              subst h1
              refine ⟨rfl, Or.inr ?_⟩
              simp only [new_generic_instruction]
              rw [bwr_loop_length _ _ _ _ _ _ _ _ _ hl]
              exact get_max_ids_generic_inv _ _ _ hnum
            · cases h

theorem enc_width_le (data : List Nat) (m : Nat) (h : ∀ id ∈ data, id ≤ m) :
    enc_width data ≤ subcirc_id_get_width m := by
  unfold enc_width
  apply subcirc_id_get_width_le _ _ (subcirc_id_get_width_pos m)
  have h1 : data.foldr max 0 < m + 1 :=
    foldr_max_lt data (m + 1) (Nat.succ_pos m) (fun x hx => Nat.lt_succ_of_le (h x hx))
  have h2 := lt_two_pow_subcirc_id_get_width m
  omega

/-- A list of at most `get_max_ids_generic(max_id)` IDs up to `max_id` is
encoded into at most `RELAY_PAYLOAD_SIZE` bytes. -/
theorem encode_fits (P idBytes : Nat) (hP : 2 ≤ P) (hid1 : 1 ≤ idBytes) (hid2 : idBytes ≤ 2)
    (max_id : Nat) (hmax : max_id < 2 ^ (8 * idBytes)) (data : List Nat) (hne : data ≠ [])
    (hids : ∀ id ∈ data, id ≤ max_id)
    (hlen : data.length ≤ (P - 2) * 8 / subcirc_id_get_width max_id) :
    ∃ payload, parse_to_payload_generic P idBytes data = .ok (some payload) ∧
      payload.length ≤ P := by
  have hw := enc_width_le data max_id hids
  have hwpos := subcirc_id_get_width_pos max_id
  have h1 : data.length * subcirc_id_get_width max_id ≤ (P - 2) * 8 :=
    le_trans (Nat.mul_le_mul_right _ hlen) (Nat.div_mul_le_self _ _)
  have h2 : data.length * enc_width data ≤ (P - 2) * 8 :=
    le_trans (Nat.mul_le_mul_left _ hw) h1
  have hfit : 2 + (data.length * enc_width data + 7) / 8 ≤ P := by omega
  obtain ⟨bytes, hrun, hinv⟩ := parse_to_payload_generic_ok P idBytes data hne hid1 hid2
    (fun id hid => lt_of_le_of_lt (hids id hid) hmax) hfit
  refine ⟨_, hrun, ?_⟩
  have hbl : bytes.length = (data.length * enc_width data + 7) / 8 := hinv.1
  simp only [List.length_cons, hbl]
  omega

theorem foldr_max_replicate (n m : Nat) : (List.replicate (n + 1) m).foldr max 0 = m := by
  induction n with
  | zero => simp [List.replicate]
  | succ n ih =>
    rw [List.replicate_succ, List.foldr_cons, ih]
    exact max_self m

/-- One ID more than `get_max_ids_generic(max_id)` allows, each of the width
of `max_id`, is refused by the encoder. -/
theorem encode_one_more_fails (P idBytes : Nat) (hP : 2 ≤ P) (hid1 : 1 ≤ idBytes)
    (hid2 : idBytes ≤ 2) (max_id : Nat) (hmax : max_id < 2 ^ (8 * idBytes)) :
    parse_to_payload_generic P idBytes
      (List.replicate ((P - 2) * 8 / subcirc_id_get_width max_id + 1) max_id) = .ok none := by
  have hwpos := subcirc_id_get_width_pos max_id
  have hwle : subcirc_id_get_width max_id ≤ 8 * idBytes :=
    subcirc_id_get_width_le _ _ (by omega) hmax
  set w := subcirc_id_get_width max_id with hw
  set M := (P - 2) * 8 / w with hM
  have hbig : (P - 2) * 8 < (M + 1) * w := by
    have := Nat.lt_succ_iff.mpr (le_refl M)
    rw [hM] at this ⊢
    exact (Nat.div_lt_iff_lt_mul hwpos).mp (Nat.lt_succ_self _)
  unfold parse_to_payload_generic
  have hlen : (List.replicate (M + 1) max_id).length = M + 1 := List.length_replicate _ _
  have hdl : (M + 1) * idBytes > 0 := Nat.mul_pos (Nat.succ_pos _) (by omega)
  have hmod : ((M + 1) * idBytes % idBytes == 0) = true := by
    simp [Nat.mul_mod_left]
  have hnum : (M + 1) * idBytes / idBytes = M + 1 := Nat.mul_div_cancel _ (by omega)
  have hmaxid : find_max_id (List.replicate (M + 1) max_id) 0 = max_id := by
    rw [find_max_id_eq, foldr_max_replicate]
    exact Nat.zero_max _
  have hw64 : ¬ (w ≥ 1 <<< 6) := by
    have : (1 <<< 6 : Nat) = 64 := by decide
    rw [this]
    omega
  simp only [hlen, tor_assert, hdl, decide_True, if_true, bind, Except.bind, hmod, hnum,
    List.take_of_length_le (le_of_eq hlen), hmaxid, ← hw, hw64, if_false, hwle]
  have hover : (M + 1) * w / 8 + (if (if (M + 1) * w % 8 ≠ 0 then 8 - (M + 1) * w % 8 else 0) ≠ 0
      then 1 else 0) + 2 > P := by
    by_cases h8 : (M + 1) * w % 8 = 0
    · simp only [h8, ne_eq, not_true_eq_false, if_false]
      omega
    · have h9 : 8 - (M + 1) * w % 8 ≠ 0 := by omega
      simp only [h8, ne_eq, not_false_eq_true, if_true, h9]
      omega
  rw [if_pos hover]
  rfl

theorem occupied_le_max_index (sl : subcirc_list_t) (hmax : max_index_ok sl) (id : Nat)
    (hocc : (sl.list.getD id none).isSome = true) : id ≤ sl.max_index.toNat := by
  rcases hmax with ⟨-, hall⟩ | ⟨h0, -, habove⟩
  · rw [hall id] at hocc; cases hocc
  · by_contra hcon
    rw [habove id (by omega)] at hocc
    cases hocc

/-- The payload of an instruction that a strategy returns. -/
theorem new_instruction_encodes (P idBytes : Nat) (hP : idBytes + 2 ≤ P) (hid1 : 1 ≤ idBytes)
    (hid2 : idBytes ≤ 2) (strategy : Nat) (sl : subcirc_list_t) (use_prev : Bool)
    (prev_data prev : List Int) (env : strategy_env) (inst : split_instruction_t)
    (hmax : max_index_ok sl) (hrep : sl.max_index.toNat < 2 ^ (8 * idBytes))
    (h : split_get_new_instruction P idBytes strategy sl use_prev prev_data env
      = .ok (inst, prev)) :
    ∃ payload, split_instruction_to_payload P idBytes inst = .ok (some payload) ∧
      payload.length ≤ P ∧ payload ≠ [] := by
  obtain ⟨hshape, hlen⟩ := new_instruction_shape P idBytes strategy sl use_prev prev_data prev env
    inst h
  have hocc := new_instruction_occupied P idBytes strategy sl use_prev prev_data prev env inst
    hmax hrep h
  have key : ∃ m, m < 2 ^ (8 * idBytes) ∧ (∀ id ∈ inst.data, id ≤ m) ∧
      inst.data.length = (P - 2) * 8 / subcirc_id_get_width m := by
    rcases hlen with ⟨hl, hz⟩ | hl
    · exact ⟨0, Nat.two_pow_pos _, fun id hid => le_of_eq (hz id hid), hl⟩
    · rw [Nat.mod_eq_of_lt hrep] at hl
      exact ⟨_, hrep, fun id hid => occupied_le_max_index sl hmax id (hocc id hid), hl⟩
  obtain ⟨m, hm, hids, hl⟩ := key
  have hwle : subcirc_id_get_width m ≤ 8 * idBytes :=
    subcirc_id_get_width_le _ _ (by omega) hm
  have hwpos := subcirc_id_get_width_pos m
  have hpos : 0 < inst.data.length := by
    rw [hl]
    exact Nat.div_pos (by omega) hwpos
  have hne : inst.data ≠ [] := List.length_pos.mp hpos
  obtain ⟨payload, hrun, hfit⟩ := encode_fits P idBytes (by omega) hid1 hid2 m hm inst.data hne
    hids (le_of_eq hl)
  refine ⟨payload, ?_, hfit, ?_⟩
  · rw [hshape]
    unfold split_instruction_to_payload
    have hdl : inst.data.length * idBytes > 0 := Nat.mul_pos hpos (by omega)
    have hmod : (inst.data.length * idBytes % idBytes == 0) = true := by
      simp [Nat.mul_mod_left]
    have hnum : inst.data.length * idBytes / idBytes = inst.data.length :=
      Nat.mul_div_cancel _ (by omega)
    simp only [new_generic_instruction, tor_assert, hdl, decide_True, if_true, bind, Except.bind,
      hmod, hnum, gt_iff_lt, lt_self_iff_false, if_false, List.take_length, hrun]
  · obtain ⟨bytes, hrun2, -⟩ := parse_to_payload_generic_ok P idBytes inst.data hne hid1 hid2
      (fun id hid => lt_of_le_of_lt (hids id hid) hm) (by
        have hw := enc_width_le inst.data m hids
        have h1 : inst.data.length * subcirc_id_get_width m ≤ (P - 2) * 8 := by
          rw [hl]; exact Nat.div_mul_le_self _ _
        have h2 : inst.data.length * enc_width inst.data ≤ (P - 2) * 8 :=
          le_trans (Nat.mul_le_mul_left _ hw) h1
        omega)
    rw [hrun2] at hrun
    injection hrun with hrun
    injection hrun with hrun
    rw [← hrun]
    exact List.cons_ne_nil _ _

/-- C25: `get_max_ids_generic(max_id)` returns
`floor(8 * (RELAY_PAYLOAD_SIZE - 2) / width(max_id))`; every list of at most
that many IDs whose values are at most `max_id` is encoded by
`parse_to_payload_generic` into at most `RELAY_PAYLOAD_SIZE` bytes, while one
ID more of that width is refused (the number is the largest that fits); and
for every instruction that `split_get_new_instruction` returns, whatever the
strategy and the random draws, `split_instruction_to_payload` succeeds with a
payload of at most `RELAY_PAYLOAD_SIZE` bytes. -/
theorem C25_max_ids_fit (RELAY_PAYLOAD_SIZE idBytes : Nat) (hP : idBytes + 2 ≤ RELAY_PAYLOAD_SIZE)
    (hid1 : 1 ≤ idBytes) (hid2 : idBytes ≤ 2) :
    (∀ max_id, get_max_ids_generic RELAY_PAYLOAD_SIZE max_id
      = .ok (8 * (RELAY_PAYLOAD_SIZE - 2) / subcirc_id_get_width max_id)) ∧
    (∀ max_id data, max_id < 2 ^ (8 * idBytes) → data ≠ [] → (∀ id ∈ data, id ≤ max_id) →
      data.length ≤ 8 * (RELAY_PAYLOAD_SIZE - 2) / subcirc_id_get_width max_id →
      ∃ payload, parse_to_payload_generic RELAY_PAYLOAD_SIZE idBytes data = .ok (some payload) ∧
        payload.length ≤ RELAY_PAYLOAD_SIZE) ∧
    (∀ max_id, max_id < 2 ^ (8 * idBytes) →
      parse_to_payload_generic RELAY_PAYLOAD_SIZE idBytes
        (List.replicate (8 * (RELAY_PAYLOAD_SIZE - 2) / subcirc_id_get_width max_id + 1) max_id)
        = .ok none) ∧
    (∀ strategy sl use_prev prev_data env inst prev, max_index_ok sl →
      sl.max_index.toNat < 2 ^ (8 * idBytes) →
      split_get_new_instruction RELAY_PAYLOAD_SIZE idBytes strategy sl use_prev prev_data env
        = .ok (inst, prev) →
      ∃ payload, split_instruction_to_payload RELAY_PAYLOAD_SIZE idBytes inst
          = .ok (some payload) ∧ payload.length ≤ RELAY_PAYLOAD_SIZE) := by
  have hc : 8 * (RELAY_PAYLOAD_SIZE - 2) = (RELAY_PAYLOAD_SIZE - 2) * 8 := Nat.mul_comm _ _
  refine ⟨?_, ?_, ?_, ?_⟩
  · intro max_id
    rw [hc]
    exact get_max_ids_generic_ok _ _
  · intro max_id data hm hne hids hlen
    rw [hc] at hlen
    exact encode_fits _ _ (by omega) hid1 hid2 max_id hm data hne hids hlen
  · intro max_id hm
    rw [hc]
    exact encode_one_more_fails _ _ (by omega) hid1 hid2 max_id hm
  · intro strategy sl use_prev prev_data env inst prev hmax hrep h
    obtain ⟨payload, hrun, hfit, -⟩ := new_instruction_encodes _ _ hP hid1 hid2 strategy sl
      use_prev prev_data prev env inst hmax hrep h
    exact ⟨payload, hrun, hfit⟩

/-- C25 at the payload size 498 of a relay cell with one-byte IDs: 3968 IDs
for `max_id = 1`, 1322 IDs for `max_id = 4`, and the instruction of the
round-robin strategy on the list holding the sub-circuits 0 and 1. -/
theorem C25_max_ids_fit_witness :
    498 - 2 = 496 ∧ subcirc_id_get_width 1 = 1 ∧ subcirc_id_get_width 4 = 3 ∧
    get_max_ids_generic 498 1 = .ok 3968 ∧ get_max_ids_generic 498 4 = .ok 1322 ∧
    (∃ payload, parse_to_payload_generic 498 1 (List.replicate 1322 4) = .ok (some payload) ∧
      payload.length ≤ 498) ∧
    parse_to_payload_generic 498 1 (List.replicate 1323 4) = .ok none :=
  have h := C25_max_ids_fit 498 1 (by decide) (by decide) (by decide)
  ⟨rfl, by decide, by decide, h.1 1, h.1 4,
    h.2.1 4 (List.replicate 1322 4) (by decide)
      (fun hnil => by
        have hl := congrArg List.length hnil
        rw [List.length_replicate] at hl
        cases hl)
      (fun id hid => le_of_eq (List.eq_of_mem_replicate hid))
      (by rw [List.length_replicate]; decide),
    h.2.2.1 4 (by decide)⟩

theorem ru_count_eq (idBytes max_id i : Nat) (hm : max_id < 2 ^ (8 * idBytes))
    (hi : i ≤ max_id) :
    ru_count idBytes max_id i = 2 ^ (8 * idBytes) / (max_id + 1)
      + if i < 2 ^ (8 * idBytes) % (max_id + 1) then 1 else 0 := by
  have h := @Nat.count_modEq_card (2 ^ (8 * idBytes)) (max_id + 1) (Nat.succ_pos _) i
  rw [Nat.mod_eq_of_lt (by omega : i < max_id + 1)] at h
  rw [← h]
  unfold ru_count
  rw [Nat.count_eq_card_filter_range, Nat.count_eq_card_filter_range]
  congr 1
  apply Finset.filter_congr
  intro r _
  unfold ru_candidate Nat.ModEq
  have h1 : r % (max_id + 1) < max_id + 1 := Nat.mod_lt _ (Nat.succ_pos _)
  rw [Nat.mod_eq_of_lt (by omega : r % (max_id + 1) < 2 ^ (8 * idBytes)),
    Nat.mod_eq_of_lt (by omega : i < max_id + 1)]

/-- The loop of `get_instruction_random_uniform` takes its candidate from the
draw by `ru_candidate`. -/
theorem ru_pick_candidate (idBytes : Nat) (sl : subcirc_list_t) (max_id : Nat)
    (env : strategy_env) (fuel k : Nat) (s : Nat)
    (h : subcirc_list_get sl (ru_candidate idBytes max_id (crypto_rand idBytes env k))
      = .ok (some s)) :
    ru_pick idBytes sl max_id env (fuel + 1) k
      = .ok (ru_candidate idBytes max_id (crypto_rand idBytes env k), k + 1) := by
  unfold ru_pick
  unfold ru_candidate at h
  simp only [h, bind, Except.bind, Option.isNone_some, Bool.false_eq_true, if_false, pure,
    Except.pure, ru_candidate]

/-- The candidates of RANDOM_UNIFORM, counted: for every `max_index` that
fits the ID type and any two candidates `i`, `j` in `[0, max_index]`, the
number of values `r` of the
random `subcirc_id_t` with `r mod (max_index + 1) = i` is
`floor(N / (max_index + 1))`, plus one when `i < N mod (max_index + 1)`,
where `N = 2 ^ (8 * sizeof(subcirc_id_t))`; the numbers for `i` and `j`
differ by at most one, they are equal when `max_index + 1` divides `N`, and
otherwise the candidate 0 has one value more than the candidate
`max_index`. -/
theorem ru_count_cases (idBytes max_index i j : Nat)
    (hm : max_index < 2 ^ (8 * idBytes)) (hi : i ≤ max_index) (hj : j ≤ max_index) :
    ru_count idBytes max_index i = 2 ^ (8 * idBytes) / (max_index + 1)
      + (if i < 2 ^ (8 * idBytes) % (max_index + 1) then 1 else 0) ∧
    ru_count idBytes max_index i ≤ ru_count idBytes max_index j + 1 ∧
    ((max_index + 1) ∣ 2 ^ (8 * idBytes) →
      ru_count idBytes max_index i = ru_count idBytes max_index j) ∧
    (¬ (max_index + 1) ∣ 2 ^ (8 * idBytes) →
      ru_count idBytes max_index 0 = ru_count idBytes max_index max_index + 1) := by
  have ei := ru_count_eq idBytes max_index i hm hi
  have ej := ru_count_eq idBytes max_index j hm hj
  have e0 := ru_count_eq idBytes max_index 0 hm (Nat.zero_le _)
  have em := ru_count_eq idBytes max_index max_index hm (le_refl _)
  have hlt : 2 ^ (8 * idBytes) % (max_index + 1) < max_index + 1 := Nat.mod_lt _ (Nat.succ_pos _)
  refine ⟨ei, ?_, ?_, ?_⟩
  · rw [ei, ej]
    split <;> split <;> omega
  · intro hd
    have hz : 2 ^ (8 * idBytes) % (max_index + 1) = 0 := Nat.mod_eq_zero_of_dvd hd
    rw [ei, ej, hz]
    simp
  · intro hd
    have hz : 2 ^ (8 * idBytes) % (max_index + 1) ≠ 0 := fun h => hd (Nat.dvd_of_mod_eq_zero h)
    rw [e0, em]
    have h1 : 0 < 2 ^ (8 * idBytes) % (max_index + 1) := Nat.pos_of_ne_zero hz
    have h2 : ¬ max_index < 2 ^ (8 * idBytes) % (max_index + 1) := by omega
    rw [if_pos h1, if_neg h2]

/-- C29 (code defect): the candidates of RANDOM_UNIFORM are not equally
likely.  For `max_index = 2` with one-byte IDs, of the 256 values of the
random byte 86 give the candidate 0 and 85 give the candidate 1, since 3
does not divide 256: `random % (max_id + 1)` has a modulo bias, although
`splitstrategy.h` describes the strategy as a uniform random distribution.
With all three slots occupied no candidate is rejected, so sub-circuit 0 is
chosen with probability 86/256 and sub-circuit 1 with 85/256. -/
theorem C29_random_uniform_modulo_bias :
    2 ≤ MAX_SUBCIRCS - 1 ∧ ru_count 1 2 0 = 86 ∧ ru_count 1 2 1 = 85 ∧
    ru_count 1 2 0 ≠ ru_count 1 2 1 := by
  have h0 : ru_count 1 2 0 = 86 := by
    rw [ru_count_eq 1 2 0 (by decide) (by decide)]
    decide
  have h1 : ru_count 1 2 1 = 85 := by
    rw [ru_count_eq 1 2 1 (by decide) (by decide)]
    decide
  refine ⟨by decide, h0, h1, ?_⟩
  rw [h0, h1]
  decide

/-- C30 fails on the code: with the two sub-circuits 0 and 1, equal weights
and the draws of `ex_env_batch`, sub-circuit 1 is drawn at position 50 (the
batch size drawn there is 50) and sub-circuit 0 is drawn again at position
51 (the batch size drawn there is 51), so the ID chosen at position 50 is
held for a run of length 1; the steps at both positions consume a weighted
choice (two draws each). -/
theorem C30_batch_run_of_one :
    get_instruction_batched_weighted_random 498 1 ex_list2 false [0, 0, 0, 0, 0] ex_env_batch
      = .ok (new_generic_instruction 1 (List.replicate 50 0 ++ 1 :: List.replicate 3917 0),
          [50, 50, 0, 0, 0]) ∧
    make_weighted_paths 2 [50, 50] = .ok (List.replicate 50 0 ++ List.replicate 50 1) ∧
    bwr_pick 1 ex_list2 (List.replicate 50 0 ++ List.replicate 50 1) ex_env_batch 50 10 0 52
      = .ok (1, 54) ∧
    bwr_pick 1 ex_list2 (List.replicate 50 0 ++ List.replicate 50 1) ex_env_batch 51 10 1 54
      = .ok (0, 56) ∧
    ¬ (C_MIN ≤ 51 - 50) := by
  refine ⟨by decide!, by decide!, by decide!, by decide!, by decide⟩

theorem mark_spec_or : mark_spec circuit_mark_for_close circ_live is_marked := by
  refine ⟨?_, fun w h x c hl => hl, fun w h x c hm => hm⟩
  intro w c r ⟨oc, hoc⟩
  unfold circuit_mark_for_close
  simp only [hoc, bind, Except.bind, pure, Except.pure]
  by_cases hm : oc.marked_for_close = true
  · simp only [hm, if_true]
    exact ⟨w, rfl, ⟨oc, hoc, hm⟩, fun _ h => h, fun _ h => h, rfl, rfl⟩
  · simp only [hm, Bool.false_eq_true, if_false]
    have hlt := get_circ_lt w c oc hoc
    have hget : ∀ c' x, get_circ w c' = .ok x → ∃ x', get_circ (set_circ w c
        { oc with marked_for_close := true, marked_for_close_reason := some r }) c' = .ok x' ∧
        (x.marked_for_close = true → x'.marked_for_close = true) := by
      intro c' x hx
      by_cases hcc : c' = c
      · subst hcc
        exact ⟨_, get_set_circ _ _ _ hlt, fun _ => rfl⟩
      · refine ⟨x, ?_, fun h => h⟩
        unfold get_circ set_circ at *
        simp only [List.get?_eq_getElem?, List.getElem?_set, Ne.symm hcc, if_false] at hx ⊢
        exact hx
    refine ⟨_, rfl, ⟨_, get_set_circ _ _ _ hlt, rfl⟩, ?_, ?_, rfl, rfl⟩
    · rintro c' ⟨x, hx, hxm⟩
      obtain ⟨x', hx', himp⟩ := hget c' x hx
      exact ⟨x', hx', himp hxm⟩
    · rintro c' ⟨x, hx⟩
      obtain ⟨x', hx', -⟩ := hget c' x hx
      exact ⟨x', hx'⟩

theorem mark_spec_origin : mark_spec circuit_mark_for_close_origin origin_live origin_marked := by
  refine ⟨?_, fun w h x c hl => hl, fun w h x c hm => hm⟩
  intro w c r ⟨oc, hoc⟩
  unfold circuit_mark_for_close_origin
  simp only [hoc, bind, Except.bind, pure, Except.pure]
  by_cases hm : oc.marked_for_close = true
  · simp only [hm, if_true]
    exact ⟨w, rfl, ⟨oc, hoc, hm⟩, fun _ h => h, fun _ h => h, rfl, rfl⟩
  · simp only [hm, Bool.false_eq_true, if_false]
    have hlt := get_origin_lt w c oc hoc
    have hget : ∀ c' x, get_origin w c' = .ok x → ∃ x', get_origin (set_origin w c
        { oc with marked_for_close := true, marked_for_close_reason := some r }) c' = .ok x' ∧
        (x.marked_for_close = true → x'.marked_for_close = true) := by
      intro c' x hx
      by_cases hcc : c' = c
      · subst hcc
        exact ⟨_, get_set_origin _ _ _ hlt, fun _ => rfl⟩
      · exact ⟨x, by rw [get_set_origin_ne _ _ _ _ hcc]; exact hx, fun h => h⟩
    refine ⟨_, rfl, ⟨_, get_set_origin _ _ _ hlt, rfl⟩, ?_, ?_, rfl, rfl⟩
    · rintro c' ⟨x, hx, hxm⟩
      obtain ⟨x', hx', himp⟩ := hget c' x hx
      exact ⟨x', hx', himp hxm⟩
    · rintro c' ⟨x, hx⟩
      obtain ⟨x', hx', -⟩ := hget c' x hx
      exact ⟨x', hx'⟩

/-- The first loop of `split_data_mark_for_close`. -/
theorem mark_added_loop_run (mark : World → Nat → end_circ_reason_t → Run World)
    (live marked : World → Nat → Prop) (hmark : mark_spec mark live marked)
    (subcircs : subcirc_list_t) (reason : end_circ_reason_t)
    (hlen : subcircs.list.length = subcircs.capacity) :
    ∀ (n id : Nat) (w : World), id + n ≤ subcircs.capacity →
      (∀ j p, id ≤ j → j < id + n → subcircs.list.getD j none = some p →
        ∃ s c, get_subcirc w p = .ok s ∧ s.state = subcirc_state_t.SUBCIRC_STATE_ADDED ∧
          s.circ = some c ∧ live w c) →
      ∃ w', mark_added_loop mark subcircs reason n id w = .ok w' ∧
        (∀ j p s c, id ≤ j → j < id + n → subcircs.list.getD j none = some p →
          get_subcirc w p = .ok s → s.circ = some c → marked w' c) ∧
        (∀ c, marked w c → marked w' c) ∧ (∀ c, live w c → live w' c) ∧
        w'.subcircuits = w.subcircuits ∧ w'.split_datas = w.split_datas := by
  intro n
  induction n with
  | zero =>
    intro id w _ _
    exact ⟨w, rfl, fun j p s c h1 h2 => (by omega), fun _ h => h, fun _ h => h, rfl, rfl⟩
  | succ n ih =>
    intro id w hcap hsubs
    have hget := subcirc_list_get_ok subcircs id hlen (by omega)
    unfold mark_added_loop
    simp only [hget, bind, Except.bind]
    cases hslot : subcircs.list.getD id none with
    | none =>
      simp only []
      obtain ⟨w', hrun, hm, hkeep, hlive, hsub, hsd⟩ := ih (id + 1) w (by omega)
        (fun j p h1 h2 hp => hsubs j p (by omega) (by omega) hp)
      refine ⟨w', hrun, ?_, hkeep, hlive, hsub, hsd⟩
      intro j p s c h1 h2 hp hs hc
      by_cases hj : j = id
      · subst hj
        rw [hslot] at hp
        cases hp
      · exact hm j p s c (by omega) (by omega) hp hs hc
    | some p =>
      obtain ⟨s, c, hs, hst, hc, hl⟩ := hsubs id p (le_refl _) (by omega) hslot
      obtain ⟨w1, hm1, hmarked1, hkeep1, hlive1, hsub1, hsd1⟩ := hmark.1 w c reason hl
      have hstb : (s.state == subcirc_state_t.SUBCIRC_STATE_ADDED) = true := by
        rw [hst]; rfl
      simp only [hs, tor_assert, hstb, if_true, hc, hm1]
      obtain ⟨w', hrun, hm, hkeep, hlive, hsub, hsd⟩ := ih (id + 1) w1 (by omega)
        (fun j q h1 h2 hq => by
          obtain ⟨s', c', hs', hst', hc', hl'⟩ := hsubs j q (by omega) (by omega) hq
          exact ⟨s', c', by rw [get_subcirc_congr w w1 q hsub1]; exact hs', hst', hc',
            hlive1 c' hl'⟩)
      refine ⟨w', hrun, ?_, fun c' h => hkeep c' (hkeep1 c' h), fun c' h => hlive c' (hlive1 c' h),
        hsub.trans hsub1, hsd.trans hsd1⟩
      intro j q s' c' h1 h2 hq hs' hc'
      by_cases hj : j = id
      · subst hj
        rw [hslot] at hq
        injection hq with hq
        subst hq
        rw [hs] at hs'
        injection hs' with hs'
        subst hs'
        rw [hc] at hc'
        injection hc' with hc'
        subst hc'
        exact hkeep c hmarked1
      · exact hm j q s' c' (by omega) (by omega) hq
          (by rw [get_subcirc_congr w w1 q hsub1]; exact hs') hc'

/-- The second loop of `split_data_mark_for_close`. -/
theorem mark_pending_loop_run (mark : World → Nat → end_circ_reason_t → Run World)
    (live marked : World → Nat → Prop) (hmark : mark_spec mark live marked)
    (reason : end_circ_reason_t) :
    ∀ (pending : List Nat) (w : World),
      (∀ p ∈ pending, ∃ s c, get_subcirc w p = .ok s ∧ s.circ = some c ∧ live w c) →
      ∃ w', mark_pending_loop mark reason pending w = .ok w' ∧
        (∀ p ∈ pending, ∀ s c, get_subcirc w p = .ok s → s.circ = some c → marked w' c) ∧
        (∀ c, marked w c → marked w' c) ∧ (∀ c, live w c → live w' c) ∧
        w'.subcircuits = w.subcircuits ∧ w'.split_datas = w.split_datas := by
  intro pending
  induction pending with
  | nil =>
    intro w _
    exact ⟨w, rfl, fun p hp => absurd hp (List.not_mem_nil p), fun _ h => h, fun _ h => h, rfl,
      rfl⟩
  | cons p rest ih =>
    intro w hsubs
    obtain ⟨s, c, hs, hc, hl⟩ := hsubs p (List.mem_cons_self _ _)
    obtain ⟨w1, hm1, hmarked1, hkeep1, hlive1, hsub1, hsd1⟩ := hmark.1 w c reason hl
    unfold mark_pending_loop
    simp only [hs, bind, Except.bind, hc, hm1]
    obtain ⟨w', hrun, hm, hkeep, hlive, hsub, hsd⟩ := ih w1 (fun q hq => by
      obtain ⟨s', c', hs', hc', hl'⟩ := hsubs q (List.mem_cons_of_mem _ hq)
      exact ⟨s', c', by rw [get_subcirc_congr w w1 q hsub1]; exact hs', hc', hlive1 c' hl'⟩)
    refine ⟨w', hrun, ?_, fun c' h => hkeep c' (hkeep1 c' h), fun c' h => hlive c' (hlive1 c' h),
      hsub.trans hsub1, hsd.trans hsd1⟩
    intro q hq s' c' hs' hc'
    rcases List.mem_cons.mp hq with rfl | hq
    · rw [hs] at hs'
      injection hs' with hs'
      subst hs'
      rw [hc] at hc'
      injection hc' with hc'
      subst hc'
      exact hkeep c hmarked1
    · exact hm q hq s' c' (by rw [get_subcirc_congr w w1 q hsub1]; exact hs') hc'

theorem mem_session_subcircs (sd : split_data_t) (p : Nat) (hp : p ∈ session_subcircs sd) :
    (∃ id, id < (sd.subcircs.max_index + 1).toNat ∧ sd.subcircs.list.getD id none = some p) ∨
    (∃ client, sd.split_data_client = some client ∧ p ∈ client.pending_subcircs) := by
  unfold session_subcircs at hp
  rcases List.mem_append.mp hp with h | h
  · left
    obtain ⟨id, hid, hget⟩ := List.mem_filterMap.mp h
    exact ⟨id, List.mem_range.mp hid, hget⟩
  · right
    cases hc : sd.split_data_client with
    | none => rw [hc] at h; cases h
    | some client => rw [hc] at h; exact ⟨client, rfl, h⟩

theorem session_subcircs_added (sd : split_data_t) (id p : Nat)
    (hid : id < (sd.subcircs.max_index + 1).toNat)
    (hp : sd.subcircs.list.getD id none = some p) : p ∈ session_subcircs sd := by
  unfold session_subcircs
  exact List.mem_append_left _ (List.mem_filterMap.mpr ⟨id, List.mem_range.mpr hid, hp⟩)

theorem session_subcircs_pending (sd : split_data_t) (client : split_data_client_t) (p : Nat)
    (hc : sd.split_data_client = some client) (hp : p ∈ client.pending_subcircs) :
    p ∈ session_subcircs sd := by
  unfold session_subcircs
  rw [hc]
  exact List.mem_append_right _ hp

/-- The run of `split_data_mark_for_close` on a session that is not marked:
the session is marked and so are the circuits of all its sub-circuits. -/
theorem split_data_mark_for_close_run (mark : World → Nat → end_circ_reason_t → Run World)
    (live marked : World → Nat → Prop) (hmark : mark_spec mark live marked) (w : World) (h : Nat)
    (reason : end_circ_reason_t) (sd : split_data_t) (hsd : get_split_data w h = .ok sd)
    (hnm : sd.marked_for_close = false) (hwalk : session_walkable live w sd) :
    ∃ w', split_data_mark_for_close mark w h reason = .ok w' ∧
      get_split_data w' h = .ok (session_set_marked sd) ∧
      (∀ p ∈ session_subcircs sd, ∀ s c, get_subcirc w p = .ok s → s.circ = some c →
        marked w' c) ∧
      (∀ c, marked w c → marked w' c) ∧ (∀ c, live w c → live w' c) ∧
      w'.subcircuits = w.subcircuits ∧
      (∀ a, a ≠ h → get_split_data w' a = get_split_data w a) := by
  obtain ⟨hlen, hcap, hadded, hall⟩ := hwalk
  set w0 := set_split_data w h (session_set_marked sd) with hw0
  have hsub0 : w0.subcircuits = w.subcircuits := rfl
  have hn : 0 + (sd.subcircs.max_index + 1).toNat ≤ sd.subcircs.capacity := by omega
  obtain ⟨w1, hrun1, hm1, hkeep1, hlive1, hsub1, hsd1⟩ := mark_added_loop_run mark live marked
    hmark sd.subcircs reason hlen (sd.subcircs.max_index + 1).toNat 0 w0 hn (by
      intro j p _ hj hp
      obtain ⟨s, hs, hst⟩ := hadded j p (by omega) hp
      obtain ⟨s', c, hs', hc, hl⟩ := hall p (session_subcircs_added sd j p (by omega) hp)
      rw [hs] at hs'
      injection hs' with hs'
      subst hs'
      exact ⟨s, c, by rw [get_subcirc_congr w w0 p hsub0]; exact hs, hst, hc,
        hmark.2.1 w h _ c hl⟩)
  have hpend : ∃ w', (match sd.split_data_client with
      | some client => mark_pending_loop mark reason client.pending_subcircs w1
      | none => pure w1) = .ok w' ∧
      (∀ client, sd.split_data_client = some client → ∀ p ∈ client.pending_subcircs,
        ∀ s c, get_subcirc w p = .ok s → s.circ = some c → marked w' c) ∧
      (∀ c, marked w1 c → marked w' c) ∧ (∀ c, live w1 c → live w' c) ∧
      w'.subcircuits = w1.subcircuits ∧ w'.split_datas = w1.split_datas := by
    cases hc : sd.split_data_client with
    | none =>
      exact ⟨w1, rfl, fun client hcl => (by cases hcl), fun _ hx => hx, fun _ hx => hx, rfl, rfl⟩
    | some client =>
      obtain ⟨w2, hrun2, hm2, hkeep2, hlive2, hsub2, hsd2⟩ := mark_pending_loop_run mark live
        marked hmark reason client.pending_subcircs w1 (by
          intro p hp
          obtain ⟨s, c, hs, hcc, hl⟩ := hall p (session_subcircs_pending sd client p hc hp)
          exact ⟨s, c, by rw [get_subcirc_congr w w1 p (hsub1.trans hsub0)]; exact hs, hcc,
            hlive1 c (hmark.2.1 w h _ c hl)⟩)
      refine ⟨w2, hrun2, ?_, hkeep2, hlive2, hsub2, hsd2⟩
      intro client' hcl p hp s c hs hcc
      injection hcl with hcl
      subst hcl
      exact hm2 p hp s c (by rw [get_subcirc_congr w w1 p (hsub1.trans hsub0)]; exact hs) hcc
  obtain ⟨w2, hrun2, hm2, hkeep2, hlive2, hsub2, hsd2⟩ := hpend
  refine ⟨w2, ?_, ?_, ?_, ?_, ?_, ?_, ?_⟩
  · unfold split_data_mark_for_close
    simp only [hsd, bind, Except.bind, hnm, Bool.false_eq_true, if_false]
    have e : set_split_data w h { sd with marked_for_close := true } = w0 := rfl
    rw [e, hrun1]
    exact hrun2
  · rw [get_split_data_congr w0 w2 h (hsd2.trans hsd1)]
    exact get_set_split_data w h _ (get_split_data_lt w h sd hsd)
  · intro p hp s c hs hc
    rcases mem_session_subcircs sd p hp with ⟨id, hid, hget⟩ | ⟨client, hcl, hpc⟩
    · exact hkeep2 c (hm1 id p s c (Nat.zero_le _) (by omega) hget
        (by rw [get_subcirc_congr w w0 p hsub0]; exact hs) hc)
    · exact hm2 client hcl p hpc s c hs hc
  · intro c hc
    exact hkeep2 c (hkeep1 c (hmark.2.2 w h _ c hc))
  · intro c hc
    exact hlive2 c (hlive1 c (hmark.2.1 w h _ c hc))
  · exact hsub2.trans (hsub1.trans hsub0)
  · intro a ha
    rw [get_split_data_congr w0 w2 a (hsd2.trans hsd1)]
    exact get_split_data_set_ne w h a _ (Ne.symm ha)

/-- On a session that is marked already `split_data_mark_for_close` does
nothing. -/
theorem split_data_mark_for_close_marked
    (mark : World → Nat → end_circ_reason_t → Run World) (w : World) (h : Nat)
    (reason : end_circ_reason_t) (sd : split_data_t) (hsd : get_split_data w h = .ok sd)
    (hm : sd.marked_for_close = true) :
    split_data_mark_for_close mark w h reason = .ok w := by
  unfold split_data_mark_for_close
  simp only [hsd, bind, Except.bind, hm, if_true, pure, Except.pure]

/-- The loop of `split_mark_for_close` at the client does nothing on hops
whose session is marked already. -/
theorem mark_hops_loop_marked (circ : Nat) (reason : end_circ_reason_t) (h p : Nat)
    (sub : subcircuit_t) (sdm : split_data_t) :
    ∀ (hops : List crypt_path_t) (w : World),
      (∀ hop ∈ hops, ∀ h', hop.split_data = some h' → h' = h ∧ hop.subcirc = some p) →
      get_subcirc w p = .ok sub → sub.state = subcirc_state_t.SUBCIRC_STATE_ADDED →
      get_split_data w h = .ok sdm → sdm.marked_for_close = true →
      mark_hops_loop circ reason hops w = .ok w := by
  intro hops
  induction hops with
  | nil => intro w _ _ _ _ _; rfl
  | cons hop rest ih =>
    intro w hhops hsub hst hsd hm
    have hrest := ih w (fun x hx => hhops x (List.mem_cons_of_mem _ hx)) hsub hst hsd hm
    unfold mark_hops_loop
    cases hs : hop.split_data with
    | none => simp only []; exact hrest
    | some h' =>
      obtain ⟨hh, hp⟩ := hhops hop (List.mem_cons_self _ _) h' hs
      subst hh
      simp only [hp, hsub, bind, Except.bind, hst, if_true, pure, Except.pure,
        split_data_mark_for_close_marked circuit_mark_for_close_origin w h' reason sdm hsd hm]
      exact hrest

/-- The loop of `split_mark_for_close` at the client does nothing on hops
whose sub-circuit is not added and whose session has another base. -/
theorem mark_hops_loop_pending (circ : Nat) (reason : end_circ_reason_t) (h p : Nat)
    (sub : subcircuit_t) (base : Nat) :
    ∀ (hops : List crypt_path_t) (w : World),
      (∀ hop ∈ hops, ∀ h', hop.split_data = some h' → h' = h ∧ hop.subcirc = some p) →
      get_subcirc w p = .ok sub → sub.state ≠ subcirc_state_t.SUBCIRC_STATE_ADDED →
      split_data_get_base_origin w h false = .ok base → base ≠ circ →
      mark_hops_loop circ reason hops w = .ok w := by
  intro hops
  induction hops with
  | nil => intro w _ _ _ _ _; rfl
  | cons hop rest ih =>
    intro w hhops hsub hst hbase hne
    have hrest := ih w (fun x hx => hhops x (List.mem_cons_of_mem _ hx)) hsub hst hbase hne
    unfold mark_hops_loop
    cases hs : hop.split_data with
    | none => simp only []; exact hrest
    | some h' =>
      obtain ⟨hh, hp⟩ := hhops hop (List.mem_cons_self _ _) h' hs
      subst hh
      have hd : decide (circ = base) = false := by
        simp only [decide_eq_false_iff_not]
        exact fun e => hne e.symm
      simp only [hp, hsub, bind, Except.bind, hst, if_false, hbase, pure, Except.pure, hd,
        Bool.false_eq_true]
      exact hrest

/-- The loop of `split_mark_for_close` at the client on a circuit that is an
added sub-circuit of the session `h`. -/
theorem mark_hops_loop_added (circ : Nat) (reason : end_circ_reason_t) (h p : Nat)
    (sub : subcircuit_t) (sd : split_data_t) :
    ∀ (hops : List crypt_path_t) (w : World),
      (∀ hop ∈ hops, ∀ h', hop.split_data = some h' → h' = h ∧ hop.subcirc = some p) →
      (∃ hop ∈ hops, hop.split_data = some h) →
      get_subcirc w p = .ok sub → sub.state = subcirc_state_t.SUBCIRC_STATE_ADDED →
      get_split_data w h = .ok sd → sd.marked_for_close = false →
      session_walkable origin_live w sd →
      ∃ w', mark_hops_loop circ reason hops w = .ok w' ∧
        get_split_data w' h = .ok (session_set_marked sd) ∧
        (∀ q ∈ session_subcircs sd, ∀ s c, get_subcirc w q = .ok s → s.circ = some c →
          origin_marked w' c) ∧
        w'.subcircuits = w.subcircuits ∧
        (∀ a, a ≠ h → get_split_data w' a = get_split_data w a) := by
  intro hops
  induction hops with
  | nil =>
    intro w _ hex
    obtain ⟨hop, hmem, -⟩ := hex
    cases hmem
  | cons hop rest ih =>
    intro w hhops hex hsub hst hsd hnm hwalk
    unfold mark_hops_loop
    cases hs : hop.split_data with
    | none =>
      simp only []
      refine ih w (fun x hx => hhops x (List.mem_cons_of_mem _ hx)) ?_ hsub hst hsd hnm hwalk
      obtain ⟨x, hx, hxs⟩ := hex
      rcases List.mem_cons.mp hx with rfl | hx
      · rw [hs] at hxs; cases hxs
      · exact ⟨x, hx, hxs⟩
    | some h' =>
      obtain ⟨hh, hp⟩ := hhops hop (List.mem_cons_self _ _) h' hs
      subst hh
      obtain ⟨w1, hrun, hsd1, hmarked, -, -, hsub1, hframe⟩ := split_data_mark_for_close_run
        circuit_mark_for_close_origin origin_live origin_marked mark_spec_origin w h' reason sd
        hsd hnm hwalk
      simp only [hp, hsub, bind, Except.bind, hst, if_true, pure, Except.pure, hrun]
      have hrest := mark_hops_loop_marked circ reason h' p sub (session_set_marked sd) rest w1
        (fun x hx => hhops x (List.mem_cons_of_mem _ hx))
        (by rw [get_subcirc_congr w w1 p hsub1]; exact hsub) hst hsd1 rfl
      exact ⟨w1, hrest, hsd1, hmarked, hsub1, hframe⟩

theorem mark_origin_origin_frame (w w' : World) (c : Nat) (reason : end_circ_reason_t)
    (hm : circuit_mark_for_close_origin w c reason = .ok w') : origin_frame w w' := by
  have h0 := hm
  unfold circuit_mark_for_close_origin at h0
  obtain ⟨oc, hoc, -⟩ := bind_ok _ _ _ h0
  obtain ⟨w2, hm2, -, -, -, -, -, -, hof⟩ := mark_origin_ok w c oc reason hoc
  rw [hm2] at hm
  injection hm with hm
  subst hm
  exact hof

theorem mark_added_loop_origin_frame (subcircs : subcirc_list_t) (reason : end_circ_reason_t) :
    ∀ (n id : Nat) (w w' : World),
      mark_added_loop circuit_mark_for_close_origin subcircs reason n id w = .ok w' →
      origin_frame w w' := by
  intro n
  induction n with
  | zero =>
    intro id w w' hl
    injection hl with hl
    subst hl
    exact origin_frame_refl w
  | succ n ih =>
    intro id w w' hl
    unfold mark_added_loop at hl
    obtain ⟨sub, -, hl⟩ := bind_ok _ _ _ hl
    cases sub with
    | none => exact ih _ _ _ hl
    | some p =>
      dsimp only at hl
      obtain ⟨s, -, hl⟩ := bind_ok _ _ _ hl
      obtain ⟨u, -, hl⟩ := bind_ok _ _ _ hl
      cases hc : s.circ with
      | none => rw [hc] at hl; cases hl
      | some c =>
        rw [hc] at hl
        dsimp only at hl
        obtain ⟨w1, hm, hl⟩ := bind_ok _ _ _ hl
        exact origin_frame_trans _ _ _ (mark_origin_origin_frame _ _ _ _ hm) (ih _ _ _ hl)

theorem mark_pending_loop_origin_frame (reason : end_circ_reason_t) :
    ∀ (pending : List Nat) (w w' : World),
      mark_pending_loop circuit_mark_for_close_origin reason pending w = .ok w' →
      origin_frame w w' := by
  intro pending
  induction pending with
  | nil =>
    intro w w' hl
    injection hl with hl
    subst hl
    exact origin_frame_refl w
  | cons p rest ih =>
    intro w w' hl
    unfold mark_pending_loop at hl
    obtain ⟨s, -, hl⟩ := bind_ok _ _ _ hl
    cases hc : s.circ with
    | none => rw [hc] at hl; cases hl
    | some c =>
      rw [hc] at hl
      dsimp only at hl
      obtain ⟨w1, hm, hl⟩ := bind_ok _ _ _ hl
      exact origin_frame_trans _ _ _ (mark_origin_origin_frame _ _ _ _ hm) (ih _ _ hl)

/-- A returning `split_data_mark_for_close` at the client keeps the origin
circuits, their purposes and their hops. -/
theorem mark_for_close_origin_frame (w w' : World) (h : Nat) (reason : end_circ_reason_t)
    (hm : split_data_mark_for_close circuit_mark_for_close_origin w h reason = .ok w') :
    origin_frame w w' := by
  unfold split_data_mark_for_close at hm
  obtain ⟨sd, hsd, hm⟩ := bind_ok _ _ _ hm
  split at hm
  · injection hm with hm
    subst hm
    exact origin_frame_refl w
  · obtain ⟨w1, h1, hm⟩ := bind_ok _ _ _ hm
    have hf0 : origin_frame w (set_split_data w h { sd with marked_for_close := true }) :=
      origin_frame_of_eq _ _ rfl
    have hf1 := mark_added_loop_origin_frame _ _ _ _ _ _ h1
    cases hcl : sd.split_data_client with
    | none =>
      rw [hcl] at hm
      injection hm with hm
      subst hm
      exact origin_frame_trans _ _ _ hf0 hf1
    | some client =>
      rw [hcl] at hm
      dsimp only at hm
      exact origin_frame_trans _ _ _ hf0
        (origin_frame_trans _ _ _ hf1 (mark_pending_loop_origin_frame _ _ _ _ hm))

/-- The loop of `split_mark_for_close` at the client does nothing on hops
whose session is marked already and whose sub-circuit is not added. -/
theorem mark_hops_loop_marked_pending (circ : Nat) (reason : end_circ_reason_t) (h p : Nat)
    (sub : subcircuit_t) (sdm : split_data_t) (base : Nat) :
    ∀ (hops : List crypt_path_t) (w : World),
      (∀ hop ∈ hops, ∀ h', hop.split_data = some h' → h' = h ∧ hop.subcirc = some p) →
      get_subcirc w p = .ok sub → sub.state ≠ subcirc_state_t.SUBCIRC_STATE_ADDED →
      split_data_get_base_origin w h false = .ok base →
      get_split_data w h = .ok sdm → sdm.marked_for_close = true →
      mark_hops_loop circ reason hops w = .ok w := by
  intro hops
  induction hops with
  | nil => intro w _ _ _ _ _ _; rfl
  | cons hop rest ih =>
    intro w hhops hsub hst hbase hsd hm
    have hrest := ih w (fun x hx => hhops x (List.mem_cons_of_mem _ hx)) hsub hst hbase hsd hm
    unfold mark_hops_loop
    cases hs : hop.split_data with
    | none => simp only []; exact hrest
    | some h' =>
      obtain ⟨hh, hp⟩ := hhops hop (List.mem_cons_self _ _) h' hs
      subst hh
      by_cases hcb : circ = base
      · have hd : decide (circ = base) = true := decide_eq_true hcb
        simp only [hp, hsub, bind, Except.bind, hst, if_false, hbase, pure, Except.pure, hd,
          if_true,
          split_data_mark_for_close_marked circuit_mark_for_close_origin w h' reason sdm hsd hm]
        exact hrest
      · have hd : decide (circ = base) = false := decide_eq_false hcb
        simp only [hp, hsub, bind, Except.bind, hst, if_false, hbase, pure, Except.pure, hd,
          Bool.false_eq_true]
        exact hrest

/-- The loop of `split_mark_for_close` at the client on the base circuit of
the session `h`, whose sub-circuit is not added yet. -/
theorem mark_hops_loop_base (circ : Nat) (reason : end_circ_reason_t) (h p : Nat)
    (sub : subcircuit_t) (sd : split_data_t) :
    ∀ (hops : List crypt_path_t) (w : World),
      (∀ hop ∈ hops, ∀ h', hop.split_data = some h' → h' = h ∧ hop.subcirc = some p) →
      (∃ hop ∈ hops, hop.split_data = some h) →
      get_subcirc w p = .ok sub → sub.state ≠ subcirc_state_t.SUBCIRC_STATE_ADDED →
      split_data_get_base_origin w h false = .ok circ →
      get_split_data w h = .ok sd → sd.marked_for_close = false →
      session_walkable origin_live w sd →
      ∃ w', mark_hops_loop circ reason hops w = .ok w' ∧
        get_split_data w' h = .ok (session_set_marked sd) ∧
        (∀ q ∈ session_subcircs sd, ∀ s c, get_subcirc w q = .ok s → s.circ = some c →
          origin_marked w' c) := by
  intro hops
  induction hops with
  | nil =>
    intro w _ hex
    obtain ⟨hop, hmem, -⟩ := hex
    cases hmem
  | cons hop rest ih =>
    intro w hhops hex hsub hst hbase hsd hnm hwalk
    unfold mark_hops_loop
    cases hs : hop.split_data with
    | none =>
      simp only []
      refine ih w (fun x hx => hhops x (List.mem_cons_of_mem _ hx)) ?_ hsub hst hbase hsd hnm
        hwalk
      obtain ⟨x, hx, hxs⟩ := hex
      rcases List.mem_cons.mp hx with rfl | hx
      · rw [hs] at hxs; cases hxs
      · exact ⟨x, hx, hxs⟩
    | some h' =>
      obtain ⟨hh, hp⟩ := hhops hop (List.mem_cons_self _ _) h' hs
      subst hh
      obtain ⟨w1, hrun, hsd1, hmarked, -, -, hsub1, -⟩ := split_data_mark_for_close_run
        circuit_mark_for_close_origin origin_live origin_marked mark_spec_origin w h' reason sd
        hsd hnm hwalk
      have hof := mark_for_close_origin_frame w w1 h' reason hrun
      have hbase1 : split_data_get_base_origin w1 h' false = .ok circ :=
        base_origin_frame w w1 h' sd (session_set_marked sd) false hsd hsd1 rfl rfl hsub1 hof
          circ hbase
      have hd : decide (circ = circ) = true := decide_eq_true rfl
      simp only [hp, hsub, bind, Except.bind, hst, if_false, hbase, pure, Except.pure, hd,
        if_true, hrun]
      have hrest := mark_hops_loop_marked_pending circ reason h' p sub (session_set_marked sd)
        circ rest w1 (fun x hx => hhops x (List.mem_cons_of_mem _ hx))
        (by rw [get_subcirc_congr w w1 p hsub1]; exact hsub) hst hbase1 hsd1 rfl
      exact ⟨w1, hrest, hsd1, hmarked⟩

/-- C22 (as amended): marking for close a circuit that is an added
sub-circuit of a session, base or not, marks the session and the circuits
of all its sub-circuits.  At the middle: for a circuit that belongs to a
session which is not yet marked, `split_mark_for_close` sets the flag
`marked_for_close` of the session and marks the circuit of every
sub-circuit of the session.  At the client: the same for a circuit whose
hop carries the session with a sub-circuit in the state ADDED, the stored
and the pending sub-circuits alike; only for a circuit whose sub-circuit is
not yet added and which is not the base of the session does
`split_mark_for_close` leave everything as it is; for the base of the
session the session and the circuits of its sub-circuits are marked also
while the sub-circuit of the base is not yet added. -/
theorem C22_added_subcircuit_closes_session (w : World) (circ h : Nat)
    (reason : end_circ_reason_t) (sd : split_data_t) (hsd : get_split_data w h = .ok sd)
    (hnm : sd.marked_for_close = false) :
    (∀ oc, get_circ w circ = .ok oc → oc.split_data = some h → oc.subcirc.isSome = true →
      session_walkable circ_live w sd →
      ∃ w', split_mark_for_close w circ reason = .ok w' ∧
        get_split_data w' h = .ok (session_set_marked sd) ∧
        ∀ q ∈ session_subcircs sd, ∀ s c, get_subcirc w q = .ok s → s.circ = some c →
          is_marked w' c) ∧
    (∀ oc p sub, get_origin w circ = .ok oc →
      (∀ hop ∈ oc.cpath, ∀ h', hop.split_data = some h' → h' = h ∧ hop.subcirc = some p) →
      (∃ hop ∈ oc.cpath, hop.split_data = some h) → get_subcirc w p = .ok sub →
      (sub.state = subcirc_state_t.SUBCIRC_STATE_ADDED → session_walkable origin_live w sd →
        ∃ w', split_mark_for_close_origin w circ reason = .ok w' ∧
          get_split_data w' h = .ok (session_set_marked sd) ∧
          ∀ q ∈ session_subcircs sd, ∀ s c, get_subcirc w q = .ok s → s.circ = some c →
            origin_marked w' c) ∧
      (sub.state ≠ subcirc_state_t.SUBCIRC_STATE_ADDED →
        ∀ base, split_data_get_base_origin w h false = .ok base → base ≠ circ →
          split_mark_for_close_origin w circ reason = .ok w) ∧
      (sub.state ≠ subcirc_state_t.SUBCIRC_STATE_ADDED →
        split_data_get_base_origin w h false = .ok circ → session_walkable origin_live w sd →
        ∃ w', split_mark_for_close_origin w circ reason = .ok w' ∧
          get_split_data w' h = .ok (session_set_marked sd) ∧
          ∀ q ∈ session_subcircs sd, ∀ s c, get_subcirc w q = .ok s → s.circ = some c →
            origin_marked w' c)) := by
  constructor
  · intro oc hoc hs hp hwalk
    obtain ⟨w', hrun, hsd', hmarked, -, -, -, -⟩ := split_data_mark_for_close_run
      circuit_mark_for_close circ_live is_marked mark_spec_or w h reason sd hsd hnm hwalk
    refine ⟨w', ?_, hsd', hmarked⟩
    unfold split_mark_for_close
    simp only [hoc, bind, Except.bind, hs, tor_assert, hp, if_true, hrun]
  · intro oc p sub hoc hhops hex hsub
    refine ⟨?_, ?_, ?_⟩
    · intro hst hwalk
      obtain ⟨w', hrun, hsd', hmarked, -, -⟩ := mark_hops_loop_added circ reason h p sub sd
        oc.cpath w hhops hex hsub hst hsd hnm hwalk
      refine ⟨w', ?_, hsd', hmarked⟩
      unfold split_mark_for_close_origin
      simp only [hoc, bind, Except.bind, hrun]
    · intro hst base hbase hne
      unfold split_mark_for_close_origin
      simp only [hoc, bind, Except.bind]
      exact mark_hops_loop_pending circ reason h p sub base oc.cpath w hhops hsub hst hbase hne
    · intro hst hbase hwalk
      obtain ⟨w', hrun, hsd', hmarked⟩ := mark_hops_loop_base circ reason h p sub sd
        oc.cpath w hhops hex hsub hst hbase hsd hnm hwalk
      refine ⟨w', ?_, hsd', hmarked⟩
      unfold split_mark_for_close_origin
      simp only [hoc, bind, Except.bind, hrun]

/-- C22 as stated fails.  At the middle, in `world_joined`, circuit 1 is the
added sub-circuit 1 of session 0, whose base is circuit 0: marking circuit 1
sets the flag of the session and marks circuit 0.  At the client, in
`client_world_added`, circuit 1 is the added sub-circuit 1 of session 0:
marking it sets the flag of the session and marks the base circuit 0. -/
theorem C22_non_base_marks_session :
    (get_circ (world_joined none [] []) 1 = .ok (ex_circ (some 0) (some 1)) ∧
      get_subcirc (world_joined none [] []) 1 = .ok (ex_sub 1 1) ∧
      (split_data_get_base (world_joined none [] []) 0 true) = .ok 0 ∧
      (split_mark_for_close (world_joined none [] []) 1
          end_circ_reason_t.END_CIRC_REASON_TORPROTOCOL).map
        (fun w => (w.split_datas.map (fun sd => sd.map (fun x => x.marked_for_close)),
          w.circuits.map (fun c => c.marked_for_close)))
        = .ok ([some true], [true, true, false])) ∧
    (get_subcirc (client_world_added ex_list2 (ex_client [] true) [] []) 1 = .ok (ex_sub 1 1) ∧
      split_data_get_base_origin (client_world_added ex_list2 (ex_client [] true) [] []) 0 true
        = .ok 0 ∧
      (split_mark_for_close_origin (client_world_added ex_list2 (ex_client [] true) [] []) 1
          end_circ_reason_t.END_CIRC_REASON_TORPROTOCOL).map
        (fun w => (w.split_datas.map (fun sd => sd.map (fun x => x.marked_for_close)),
          w.origin_circuits.map (fun c => c.marked_for_close)))
        = .ok ([some true], [true, true])) := by
  refine ⟨⟨rfl, rfl, by decide!, by decide!⟩, rfl, by decide!, by decide!⟩

theorem ex_session_walkable :
    session_walkable circ_live (world_joined none [] [])
      (ex_session 0 split_cookie_state_t.SPLIT_COOKIE_STATE_VALID ex_list2 none [] []) := by
  refine ⟨rfl, by decide, ?_, ?_⟩
  · intro id p hid hp
    have hid2 : id < 2 := hid
    interval_cases id
    · have : p = 0 := by injection hp with hp; exact hp.symm
      subst this
      exact ⟨ex_sub 0 0, rfl, rfl⟩
    · have : p = 1 := by injection hp with hp; exact hp.symm
      subst this
      exact ⟨ex_sub 1 1, rfl, rfl⟩
  · intro p hp
    have hl : session_subcircs
        (ex_session 0 split_cookie_state_t.SPLIT_COOKIE_STATE_VALID ex_list2 none [] [])
        = [0, 1] := by decide
    rw [hl] at hp
    simp only [List.mem_cons, List.mem_singleton, List.not_mem_nil, or_false] at hp
    rcases hp with rfl | rfl
    · exact ⟨ex_sub 0 0, 0, rfl, rfl, ⟨_, rfl⟩⟩
    · exact ⟨ex_sub 1 1, 1, rfl, rfl, ⟨_, rfl⟩⟩

theorem ex_client_session_walkable :
    session_walkable origin_live (client_world_added ex_list2 (ex_client [] true) [] [])
      (ex_client_session split_cookie_state_t.SPLIT_COOKIE_STATE_VALID ex_list2
        (ex_client [] true) [] []) := by
  refine ⟨rfl, by decide, ?_, ?_⟩
  · intro id p hid hp
    have hid2 : id < 2 := hid
    interval_cases id
    · have : p = 0 := by injection hp with hp; exact hp.symm
      subst this
      exact ⟨ex_sub 0 0, rfl, rfl⟩
    · have : p = 1 := by injection hp with hp; exact hp.symm
      subst this
      exact ⟨ex_sub 1 1, rfl, rfl⟩
  · intro p hp
    have hl : session_subcircs
        (ex_client_session split_cookie_state_t.SPLIT_COOKIE_STATE_VALID ex_list2
          (ex_client [] true) [] []) = [0, 1] := by decide
    rw [hl] at hp
    simp only [List.mem_cons, List.mem_singleton, List.not_mem_nil, or_false] at hp
    rcases hp with rfl | rfl
    · exact ⟨ex_sub 0 0, 0, rfl, rfl, ⟨_, rfl⟩⟩
    · exact ⟨ex_sub 1 1, 1, rfl, rfl, ⟨_, rfl⟩⟩

theorem ex_waiting_session_walkable :
    session_walkable origin_live client_world_base_waiting
      (ex_client_session split_cookie_state_t.SPLIT_COOKIE_STATE_PENDING subcirc_list_new
        (ex_client [0] false) [] []) := by
  refine ⟨rfl, by decide, ?_, ?_⟩
  · intro id p hid hp
    have hid0 : id < 0 := hid
    omega
  · intro p hp
    have hl : session_subcircs
        (ex_client_session split_cookie_state_t.SPLIT_COOKIE_STATE_PENDING subcirc_list_new
          (ex_client [0] false) [] []) = [0] := by decide
    rw [hl] at hp
    simp only [List.mem_singleton] at hp
    subst hp
    exact ⟨ex_sub_pending 0 subcirc_state_t.SUBCIRC_STATE_PENDING_COOKIE, 0, rfl, rfl, ⟨_, rfl⟩⟩

/-- C22 at the middle state `world_joined` and at the client state
`client_world_added`: marking circuit 1, the added sub-circuit 1 of session
0, returns a state in which the session is marked and the circuits of both
sub-circuits are marked.  And at the client state
`client_world_base_waiting`: marking the base circuit 0, whose sub-circuit
is still pending, returns a state in which the session is marked and
circuit 0 is marked. -/
theorem C22_added_subcircuit_closes_session_witness :
    (∃ w', split_mark_for_close (world_joined none [] []) 1
        end_circ_reason_t.END_CIRC_REASON_TORPROTOCOL = .ok w' ∧
      get_split_data w' 0 = .ok (session_set_marked
        (ex_session 0 split_cookie_state_t.SPLIT_COOKIE_STATE_VALID ex_list2 none [] [])) ∧
      ∀ q ∈ session_subcircs
          (ex_session 0 split_cookie_state_t.SPLIT_COOKIE_STATE_VALID ex_list2 none [] []),
        ∀ s c, get_subcirc (world_joined none [] []) q = .ok s → s.circ = some c →
          is_marked w' c) ∧
    (∃ w', split_mark_for_close_origin (client_world_added ex_list2 (ex_client [] true) [] []) 1
        end_circ_reason_t.END_CIRC_REASON_TORPROTOCOL = .ok w' ∧
      get_split_data w' 0 = .ok (session_set_marked
        (ex_client_session split_cookie_state_t.SPLIT_COOKIE_STATE_VALID ex_list2
          (ex_client [] true) [] [])) ∧
      ∀ q ∈ session_subcircs
          (ex_client_session split_cookie_state_t.SPLIT_COOKIE_STATE_VALID ex_list2
            (ex_client [] true) [] []),
        ∀ s c, get_subcirc (client_world_added ex_list2 (ex_client [] true) [] []) q = .ok s →
          s.circ = some c → origin_marked w' c) ∧
    (∃ w', split_mark_for_close_origin client_world_base_waiting 0
        end_circ_reason_t.END_CIRC_REASON_TORPROTOCOL = .ok w' ∧
      get_split_data w' 0 = .ok (session_set_marked
        (ex_client_session split_cookie_state_t.SPLIT_COOKIE_STATE_PENDING subcirc_list_new
          (ex_client [0] false) [] [])) ∧
      ∀ q ∈ session_subcircs
          (ex_client_session split_cookie_state_t.SPLIT_COOKIE_STATE_PENDING subcirc_list_new
            (ex_client [0] false) [] []),
        ∀ s c, get_subcirc client_world_base_waiting q = .ok s →
          s.circ = some c → origin_marked w' c) :=
  ⟨(C22_added_subcircuit_closes_session (world_joined none [] []) 1 0
      end_circ_reason_t.END_CIRC_REASON_TORPROTOCOL
      (ex_session 0 split_cookie_state_t.SPLIT_COOKIE_STATE_VALID ex_list2 none [] []) rfl rfl).1
      (ex_circ (some 0) (some 1)) rfl rfl rfl ex_session_walkable,
    ((C22_added_subcircuit_closes_session
      (client_world_added ex_list2 (ex_client [] true) [] []) 1 0
      end_circ_reason_t.END_CIRC_REASON_TORPROTOCOL
      (ex_client_session split_cookie_state_t.SPLIT_COOKIE_STATE_VALID ex_list2
        (ex_client [] true) [] []) rfl rfl).2
      (ex_origin true [ex_hop none none, ex_hop (some 0) (some 1), ex_hop none none]) 1
      (ex_sub 1 1) rfl
      (by
        intro hop hmem h' hs
        have hmem : hop ∈ [ex_hop none none, ex_hop (some 0) (some 1), ex_hop none none] := hmem
        simp only [List.mem_cons, List.mem_singleton, List.not_mem_nil, or_false] at hmem
        rcases hmem with rfl | rfl | rfl
        · cases hs
        · injection hs with hs
          exact ⟨hs.symm, rfl⟩
        · cases hs)
      ⟨ex_hop (some 0) (some 1), List.mem_cons_of_mem _ (List.mem_cons_self _ _), rfl⟩ rfl).1 rfl ex_client_session_walkable,
    ((C22_added_subcircuit_closes_session client_world_base_waiting 0 0
      end_circ_reason_t.END_CIRC_REASON_TORPROTOCOL
      (ex_client_session split_cookie_state_t.SPLIT_COOKIE_STATE_PENDING subcirc_list_new
        (ex_client [0] false) [] []) rfl rfl).2
      (ex_origin false [ex_hop none none, ex_hop (some 0) (some 0), ex_hop none none]) 0
      (ex_sub_pending 0 subcirc_state_t.SUBCIRC_STATE_PENDING_COOKIE) rfl
      (by
        intro hop hmem h' hs
        have hmem : hop ∈ [ex_hop none none, ex_hop (some 0) (some 0), ex_hop none none] := hmem
        simp only [List.mem_cons, List.mem_singleton, List.not_mem_nil, or_false] at hmem
        rcases hmem with rfl | rfl | rfl
        · cases hs
        · injection hs with hs
          exact ⟨hs.symm, rfl⟩
        · cases hs)
      ⟨ex_hop (some 0) (some 0), List.mem_cons_of_mem _ (List.mem_cons_self _ _), rfl⟩ rfl).2.2
      (by decide) (by decide!) ex_waiting_session_walkable⟩

/-- The cases in which `split_launch_subcircuit` refuses: the circuit is
marked for close, or its purpose is not C_GENERAL, or `middle` is not an
open hop of the path other than the first and the last.  Nothing is
changed. -/
theorem split_launch_subcircuit_rejects (env : client_env) (w : World) (circ middle : Nat)
    (num : Int) (oc : origin_circuit_t) (hnum : 0 < num) (hoc : get_origin w circ = .ok oc)
    (hbad : oc.marked_for_close = true ∨ oc.purpose_c_general = false ∨
      (oc.cpath ≠ [] ∧ (oc.cpath.length ≤ middle ∨ middle = 0 ∨ middle = oc.cpath.length - 1 ∨
        ∃ hop, oc.cpath.get? middle = some hop ∧ hop.state_open = false))) :
    split_launch_subcircuit env w circ middle num = .ok (-1, w) := by
  unfold split_launch_subcircuit
  have h0 : ¬ num ≤ 0 := by omega
  simp only [h0, if_false]
  by_cases hmax : num ≥ (MAX_SUBCIRCS : Int)
  · simp only [hmax, if_true, pure, Except.pure]
  · simp only [hmax, if_false, hoc, bind, Except.bind]
    by_cases hchk : split_check_origin_circuit oc ≠ 0
    · simp only [hchk, ne_eq, not_false_eq_true, if_true, pure, Except.pure]
    · have hchk0 : split_check_origin_circuit oc = 0 := not_not.mp hchk
      simp only [hchk0, ne_eq, not_true_eq_false, if_false]
      rcases hbad with hm | hp | ⟨hne, hmid⟩
      · unfold split_check_origin_circuit at hchk0
        simp [hm] at hchk0
      · unfold split_check_origin_circuit at hchk0
        simp [hp] at hchk0
      · have hempty : oc.cpath.isEmpty = false := by
          cases hx : oc.cpath with
          | nil => exact absurd hx hne
          | cons a t => rfl
        have key : split_check_circuit_middle oc middle = .ok (-1) := by
          unfold split_check_circuit_middle
          simp only [hempty, Bool.not_false, tor_assert, if_true, bind, Except.bind]
          cases hg : oc.cpath.get? middle with
          | none => rfl
          | some hop =>
            simp only []
            rcases hmid with hlen | h0 | hl | ⟨hop', hg', hst⟩
            · rw [List.get?_eq_getElem?, List.getElem?_eq_none hlen] at hg
              cases hg
            · simp only [h0, true_or, if_true, pure, Except.pure]
            · simp only [hl, or_true, if_true, pure, Except.pure]
            · rw [hg] at hg'
              injection hg' with hg'
              subst hg'
              by_cases hc : middle = 0 ∨ middle = oc.cpath.length - 1
              · simp only [hc, if_true, pure, Except.pure]
              · simp only [hc, if_false, hst, Bool.not_false, if_true, pure, Except.pure]
        simp only [key]
        rfl

/-- C24 fails on the code for a one-hop tunnel.  For the circuit of
`client_world_fresh true`, which is not marked, has the purpose C_GENERAL
and has `onehop_tunnel` set, `split_check_origin_circuit` returns 0.  With
the open hop 1 as middle, `split_create_split_data` then creates a session
and sends a SET_COOKIE cell, and `split_launch_subcircuit` ends in the
assertion `!build_state->onehop_tunnel` of `split_data_launch_join_circuit`
instead of returning -1.  The same call on the circuit without the flag
returns 0. -/
theorem C24_onehop_tunnel_not_refused :
    ((client_world_fresh true).origin_circuits.map
        (fun c => (c.marked_for_close, c.purpose_c_general, c.onehop_tunnel,
          c.cpath.map (fun hop => hop.state_open)))
      = [(false, true, true, [true, true, true])]) ∧
    (client_world_fresh true).origin_circuits.map split_check_origin_circuit = [0] ∧
    (split_create_split_data ex_launch_env (client_world_fresh true) 0 1).map
        (fun r => (r.1, r.2.split_datas.length, r.2.sent.map (fun c => c.command)))
      = .ok (0, 1, [relay_command_t.RELAY_COMMAND_SPLIT_SET_COOKIE]) ∧
    split_launch_subcircuit ex_launch_env (client_world_fresh true) 0 1 2
      = .error Fault.assertion ∧
    (split_launch_subcircuit ex_launch_env (client_world_fresh false) 0 1 2).map
        (fun r => (r.1, r.2.split_datas.length, r.2.origin_circuits.length))
      = .ok (0, 1, 3) := by
  refine ⟨by decide, by decide, by decide!, by decide!, by decide!⟩

theorem chunk_eq_bits_msb_first (bytes : List Nat) (hb : ∀ b ∈ bytes, b < 256) (off : Nat) :
    ∀ k, off + k ≤ 8 * bytes.length →
      chunk (beVal bytes) (8 * bytes.length) off k = bits_msb_first bytes off k := by
  intro k
  induction k with
  | zero => intro _; simp [chunk, bits_msb_first, Nat.mod_one]
  | succ k ih =>
    intro h
    rw [chunk_concat _ _ off k 1 (by omega), ih (by omega), bits_msb_first,
      streamBit_eq_chunk bytes hb (off + k) (by omega)]
    norm_num

theorem bits_msb_first_congr (xs ys : List Nat) (off : Nat) :
    ∀ k, (∀ j, j < k → streamBit xs (off + j) = streamBit ys (off + j)) →
      bits_msb_first xs off k = bits_msb_first ys off k := by
  intro k
  induction k with
  | zero => intro _; rfl
  | succ k ih =>
    intro h
    rw [bits_msb_first, bits_msb_first, ih (fun j hj => h j (by omega)), h k (by omega)]

/-- Two byte strings that agree except in the low `E` bits of the last byte
have the same bits at every offset before the last `E`. -/
theorem streamBit_ignores_trailing (xs ys : List Nat) (E : Nat) (hE : E < 8)
    (htake : ys.take (xs.length - 1) = xs.take (xs.length - 1))
    (hlast : ys.getD (xs.length - 1) 0 / 2 ^ E = xs.getD (xs.length - 1) 0 / 2 ^ E)
    (p : Nat) (hp : p + E < 8 * xs.length) :
    streamBit ys p = streamBit xs p := by
  unfold streamBit
  by_cases hq : p / 8 < xs.length - 1
  · have e : ys.getD (p / 8) 0 = xs.getD (p / 8) 0 := by
      have h1 := congrArg (fun l => l.getD (p / 8) 0) htake
      simp only [List.getD_eq_getElem?_getD, List.getElem?_take, hq, if_true] at h1
      simpa [List.getD_eq_getElem?_getD] using h1
    rw [e]
  · have hq2 : p / 8 = xs.length - 1 := by omega
    have hs : 7 - p % 8 = E + (7 - p % 8 - E) := by omega
    rw [hq2, hs, pow_add, ← Nat.div_div_eq_div_mul, ← Nat.div_div_eq_div_mul, hlast]

/-- A successful decode pins down the header and the result. -/
theorem parse_from_payload_generic_some (RELAY_PAYLOAD_SIZE idBytes : Nat)
    (payload data : List Nat) (hid : 1 ≤ idBytes) (hb : ∀ b ∈ payload, b < 256)
    (h : parse_from_payload_generic RELAY_PAYLOAD_SIZE idBytes payload = .ok (some data)) :
    payload.length ≤ RELAY_PAYLOAD_SIZE ∧ 3 ≤ payload.length ∧ payload.getD 0 0 = 0 ∧
      payload.getD 1 0 / 8 ≠ 0 ∧
      (8 * (payload.length - 2) - payload.getD 1 0 % 8) % (payload.getD 1 0 / 8) = 0 ∧
      data = decoded_ids idBytes (payload.getD 1 0 / 8)
          ((8 * (payload.length - 2) - payload.getD 1 0 % 8) / (payload.getD 1 0 / 8))
          (payload.drop 2) := by
  have hP : payload.length ≤ RELAY_PAYLOAD_SIZE := by
    by_contra hn
    unfold parse_from_payload_generic at h
    simp [tor_assert, hn, bind, Except.bind] at h
  by_cases hbad : payload.length < 3 ∨ payload.getD 0 0 ≠ 0 ∨ payload.getD 1 0 / 8 = 0 ∨
      (8 * (payload.length - 2) - payload.getD 1 0 % 8) % (payload.getD 1 0 / 8) ≠ 0
  · rw [parse_from_payload_generic_fail _ _ _ hb hP hbad] at h
    cases h
  · simp only [not_or, not_lt, ne_eq, not_not] at hbad
    obtain ⟨h3, h0, hw, hal⟩ := hbad
    rw [parse_from_payload_generic_ok _ _ _ hb hid hP h3 h0 hw hal] at h
    injection h with h
    injection h with h
    exact ⟨hP, h3, h0, hw, hal, h.symm⟩

theorem decoded_ids_getD (idBytes width num : Nat) (bytes : List Nat) (i : Nat) (hi : i < num) :
    (decoded_ids idBytes width num bytes).getD i 0
      = chunk (beVal bytes) (8 * bytes.length) (i * width) width % 2 ^ (8 * idBytes) := by
  simp [decoded_ids, List.getD_eq_getElem?_getD, hi]

theorem decoded_ids_length (idBytes width num : Nat) (bytes : List Nat) :
    (decoded_ids idBytes width num bytes).length = num := by
  simp [decoded_ids]

/-- The decoded list only depends on the bits before the padding. -/
theorem decoded_ids_congr (idBytes width num E : Nat) (xs ys : List Nat)
    (hx : ∀ b ∈ xs, b < 256) (hy : ∀ b ∈ ys, b < 256) (hlen : ys.length = xs.length)
    (hfit : num * width + E ≤ 8 * xs.length)
    (hbits : ∀ p, p + E < 8 * xs.length → streamBit ys p = streamBit xs p) :
    decoded_ids idBytes width num ys = decoded_ids idBytes width num xs := by
  unfold decoded_ids
  apply List.map_congr_left
  intro i hi
  have hi : i < num := List.mem_range.mp hi
  have hnext : i * width + width ≤ num * width := by
    calc i * width + width = (i + 1) * width := by ring
      _ ≤ num * width := Nat.mul_le_mul_right _ (by omega)
  rw [chunk_eq_bits_msb_first ys hy _ _ (by omega), chunk_eq_bits_msb_first xs hx _ _ (by omega),
    bits_msb_first_congr ys xs _ _ (fun j hj => hbits _ (by omega))]

/-- C31: on every payload on which `parse_from_payload_generic` succeeds,
with width field `W`, padding field `E` and `b = 8 * sizeof(subcirc_id_t)`,
the result has `n = (8 * (len - 2) - E) / W` entries and entry `i` is the
number spelled MSB-first by the `W` bits at bit offsets `i * W .. (i + 1) * W - 1`
of the bytes after the two header bytes, reduced modulo `2 ^ b`; a payload
that differs only in the low `E` bits of its last byte decodes to the same
list; and the payload `00 2C 00 FF 10` decodes to `[0, 3, 31, 17]` for both
ID sizes. -/
theorem C31_decoded_bit_fields (RELAY_PAYLOAD_SIZE idBytes : Nat) (payload data : List Nat)
    (hid : 1 ≤ idBytes) (hb : ∀ b ∈ payload, b < 256)
    (h : parse_from_payload_generic RELAY_PAYLOAD_SIZE idBytes payload = .ok (some data)) :
    data.length = (8 * (payload.length - 2) - payload.getD 1 0 % 8) / (payload.getD 1 0 / 8) ∧
    (∀ i, i < data.length →
      data.getD i 0
        = bits_msb_first (payload.drop 2) (i * (payload.getD 1 0 / 8)) (payload.getD 1 0 / 8)
            % 2 ^ (8 * idBytes)) ∧
    (∀ other : List Nat, other.length = payload.length → (∀ b ∈ other, b < 256) →
      other.take (payload.length - 1) = payload.take (payload.length - 1) →
      other.getD (payload.length - 1) 0 / 2 ^ (payload.getD 1 0 % 8)
        = payload.getD (payload.length - 1) 0 / 2 ^ (payload.getD 1 0 % 8) →
      parse_from_payload_generic RELAY_PAYLOAD_SIZE idBytes other = .ok (some data)) ∧
    parse_from_payload_generic 498 1 [0x00, 0x2C, 0x00, 0xFF, 0x10] = .ok (some [0, 3, 31, 17]) ∧
    parse_from_payload_generic 498 2 [0x00, 0x2C, 0x00, 0xFF, 0x10] = .ok (some [0, 3, 31, 17]) := by
  obtain ⟨hP, h3, h0, hw, hal, hd⟩ :=
    parse_from_payload_generic_some RELAY_PAYLOAD_SIZE idBytes payload data hid hb h
  have hElt : payload.getD 1 0 % 8 < 8 := Nat.mod_lt _ (by norm_num)
  have hbd : ∀ b ∈ payload.drop 2, b < 256 := fun b hbm => hb b (List.mem_of_mem_drop hbm)
  have hdl : (payload.drop 2).length = payload.length - 2 := by simp
  have hfit : (8 * (payload.length - 2) - payload.getD 1 0 % 8) / (payload.getD 1 0 / 8)
      * (payload.getD 1 0 / 8) + payload.getD 1 0 % 8 ≤ 8 * (payload.drop 2).length := by
    rw [Nat.div_mul_cancel (Nat.dvd_of_mod_eq_zero hal), hdl]
    omega
  refine ⟨by rw [hd, decoded_ids_length], ?_, ?_, by decide, by decide⟩
  · intro i hi
    rw [hd, decoded_ids_length] at hi
    have hnext : i * (payload.getD 1 0 / 8) + payload.getD 1 0 / 8
        ≤ (8 * (payload.length - 2) - payload.getD 1 0 % 8) / (payload.getD 1 0 / 8)
          * (payload.getD 1 0 / 8) := by
      calc i * (payload.getD 1 0 / 8) + payload.getD 1 0 / 8
          = (i + 1) * (payload.getD 1 0 / 8) := by ring
        _ ≤ _ := Nat.mul_le_mul_right _ (by omega)
    rw [hd, decoded_ids_getD _ _ _ _ _ hi, chunk_eq_bits_msb_first _ hbd _ _ (by omega)]
  · intro other hlen hob htake hlast
    have hget : ∀ k, k < payload.length - 1 → other.getD k 0 = payload.getD k 0 := by
      intro k hk
      have h1 := congrArg (fun l => l.getD k 0) htake
      simp only [List.getD_eq_getElem?_getD, List.getElem?_take, hk, if_true] at h1
      simpa [List.getD_eq_getElem?_getD] using h1
    have hod : ∀ b ∈ other.drop 2, b < 256 := fun b hbm => hob b (List.mem_of_mem_drop hbm)
    have hbits : ∀ p, p + payload.getD 1 0 % 8 < 8 * (payload.drop 2).length →
        streamBit (other.drop 2) p = streamBit (payload.drop 2) p := by
      intro p hp
      apply streamBit_ignores_trailing (payload.drop 2) (other.drop 2) _ hElt _ _ p hp
      · rw [hdl, List.take_drop, List.take_drop,
          show 2 + (payload.length - 2 - 1) = payload.length - 1 by omega, htake]
      · rw [hdl]
        simp only [List.getD_eq_getElem?_getD, List.getElem?_drop,
          show 2 + (payload.length - 2 - 1) = payload.length - 1 by omega] at hlast ⊢
        exact hlast
    have e := decoded_ids_congr idBytes (payload.getD 1 0 / 8)
      ((8 * (payload.length - 2) - payload.getD 1 0 % 8) / (payload.getD 1 0 / 8))
      (payload.getD 1 0 % 8) (payload.drop 2) (other.drop 2) hbd hod (by simp [hlen]) hfit hbits
    rw [parse_from_payload_generic_ok _ _ other hob hid (by omega) (by omega)
      (by rw [hget 0 (by omega)]; exact h0) (by rw [hget 1 (by omega)]; exact hw)
      (by rw [hget 1 (by omega), hlen]; exact hal), hget 1 (by omega), hlen, e, hd]

/-- C31 at the payload `00 2C 00 FF 10` with 16-bit IDs and at its variant
`00 2C 00 FF 1F`, whose four padding bits are set. -/
theorem C31_decoded_bit_fields_witness :
    [0, 3, 31, 17].length = (8 * ([0x00, 0x2C, 0x00, 0xFF, 0x10].length - 2) - 0x2C % 8) / (0x2C / 8) ∧
    [0, 3, 31, 17].getD 2 0 = bits_msb_first [0x00, 0xFF, 0x10] (2 * 5) 5 % 2 ^ (8 * 2) ∧
    parse_from_payload_generic 498 2 [0x00, 0x2C, 0x00, 0xFF, 0x1F] = .ok (some [0, 3, 31, 17]) :=
  have h := C31_decoded_bit_fields 498 2 [0x00, 0x2C, 0x00, 0xFF, 0x10] [0, 3, 31, 17]
    (by decide) (by decide) (by decide)
  ⟨h.1, h.2.1 2 (by decide), h.2.2.1 [0x00, 0x2C, 0x00, 0xFF, 0x1F] rfl (by decide) rfl
    (by decide)⟩

/-- With fewer than `num - count` iterations allowed the decoder loop is still
running when the allowance ends. -/
theorem dec_loop_short_fuel (idBytes width total_bits num : Nat) (payload : List Nat)
    (hb : ∀ b ∈ payload, b < 256) (hid : 1 ≤ idBytes) (hw : 1 ≤ width)
    (hT : total_bits = num * width) (hlen : total_bits ≤ 8 * payload.length) :
    ∀ (fuel : Nat) (data : List Nat) (count : Nat), fuel < num - count →
      data.length = num →
      dec_loop idBytes width total_bits num payload fuel data count (count * width)
        (count * width / 8) (count * width % 8) = .error Fault.fuel := by
  intro fuel
  induction fuel with
  | zero =>
    intro data count hf hl
    have hbr : count * width < total_bits := by
      rw [hT]; exact Nat.mul_lt_mul_of_pos_right (by omega) (by omega)
    unfold dec_loop
    rw [if_pos hbr]
  | succ fuel ih =>
    intro data count hf hl
    have hlt : count < num := by omega
    have hbr : count * width < total_bits := by
      rw [hT]; exact Nat.mul_lt_mul_of_pos_right hlt (by omega)
    have hnext : count * width + width ≤ total_bits := by
      rw [hT]
      calc count * width + width = (count + 1) * width := by ring
        _ ≤ num * width := Nat.mul_le_mul_right _ (by omega)
    have hstep := dec_id_ok idBytes width payload hb hid hw (count * width) (by omega)
    have hr := ih (data.set count
      (chunk (beVal payload) (8 * payload.length) (count * width) width % 2 ^ (8 * idBytes)))
      (count + 1) (by omega) (by simp [hl])
    have e : (count + 1) * width = count * width + width := by ring
    rw [e] at hr
    unfold dec_loop
    rw [if_pos hbr]
    simp only [tor_assert, bind, Except.bind, hnext, decide_True, if_true, beq_self_eq_true,
      hstep, hlt, wr_ok data count _ (by omega : count < data.length)]
    exact hr

/-- The decoder loop started on a zeroed array returns the decoded list and
`count = num` as soon as `num` iterations are allowed. -/
theorem dec_loop_run (idBytes width total_bits num : Nat) (payload : List Nat)
    (hb : ∀ b ∈ payload, b < 256) (hid : 1 ≤ idBytes) (hw : 1 ≤ width)
    (hT : total_bits = num * width) (hlen : total_bits ≤ 8 * payload.length)
    (fuel : Nat) (hf : num ≤ fuel) :
    dec_loop idBytes width total_bits num payload fuel (List.replicate num 0) 0 0 0 0
      = .ok (decoded_ids idBytes width num payload, num) := by
  obtain ⟨r, hr, hrl, -, hr2⟩ := dec_loop_ok idBytes width total_bits num payload hb hid hw hT
    hlen fuel (List.replicate num 0) 0 (by omega) (Nat.zero_le _) (by simp)
  simp only [Nat.zero_mul, Nat.zero_div, Nat.zero_mod] at hr
  have hres : r = decoded_ids idBytes width num payload := by
    apply List.ext_getElem
    · simp [decoded_ids, hrl]
    · intro i h1 h2
      have := hr2 i (by omega) (by omega)
      rw [List.getD_eq_getElem?_getD, List.getElem?_eq_getElem h1] at this
      simp only [Option.getD_some] at this
      simp [decoded_ids, this]
  rw [hr, hres]

/-- C40: on every payload of 3 to `RELAY_PAYLOAD_SIZE` bytes, whatever the
bytes are, `parse_from_payload_generic` returns a value: no assertion fails,
no byte outside the payload is read and the loop ends.  On a well-formed
header the loop over the data bytes returns with `count = num` once `num`
iterations are allowed, and is still running when fewer are. -/
theorem C40_decoder_assertions_hold (RELAY_PAYLOAD_SIZE idBytes : Nat) (payload : List Nat)
    (hid : 1 ≤ idBytes) (hb : ∀ b ∈ payload, b < 256) (h3 : 3 ≤ payload.length)
    (hP : payload.length ≤ RELAY_PAYLOAD_SIZE) :
    (∃ r, parse_from_payload_generic RELAY_PAYLOAD_SIZE idBytes payload = .ok r) ∧
    (payload.getD 0 0 = 0 → payload.getD 1 0 / 8 ≠ 0 →
      (8 * (payload.length - 2) - payload.getD 1 0 % 8) % (payload.getD 1 0 / 8) = 0 →
      ∃ data,
        parse_from_payload_generic RELAY_PAYLOAD_SIZE idBytes payload = .ok (some data) ∧
        (∀ fuel, (8 * (payload.length - 2) - payload.getD 1 0 % 8) / (payload.getD 1 0 / 8) ≤ fuel →
          dec_loop idBytes (payload.getD 1 0 / 8) (8 * (payload.length - 2) - payload.getD 1 0 % 8)
            ((8 * (payload.length - 2) - payload.getD 1 0 % 8) / (payload.getD 1 0 / 8))
            (payload.drop 2) fuel
            (List.replicate
              ((8 * (payload.length - 2) - payload.getD 1 0 % 8) / (payload.getD 1 0 / 8)) 0)
            0 0 0 0
          = .ok (data,
              (8 * (payload.length - 2) - payload.getD 1 0 % 8) / (payload.getD 1 0 / 8))) ∧
        (∀ fuel, fuel < (8 * (payload.length - 2) - payload.getD 1 0 % 8) / (payload.getD 1 0 / 8) →
          dec_loop idBytes (payload.getD 1 0 / 8) (8 * (payload.length - 2) - payload.getD 1 0 % 8)
            ((8 * (payload.length - 2) - payload.getD 1 0 % 8) / (payload.getD 1 0 / 8))
            (payload.drop 2) fuel
            (List.replicate
              ((8 * (payload.length - 2) - payload.getD 1 0 % 8) / (payload.getD 1 0 / 8)) 0)
            0 0 0 0
          = .error Fault.fuel)) := by
  have hElt : payload.getD 1 0 % 8 < 8 := Nat.mod_lt _ (by norm_num)
  have hbd : ∀ b ∈ payload.drop 2, b < 256 := fun b hbm => hb b (List.mem_of_mem_drop hbm)
  have hdl : (payload.drop 2).length = payload.length - 2 := by simp
  constructor
  · by_cases hbad : payload.length < 3 ∨ payload.getD 0 0 ≠ 0 ∨ payload.getD 1 0 / 8 = 0 ∨
        (8 * (payload.length - 2) - payload.getD 1 0 % 8) % (payload.getD 1 0 / 8) ≠ 0
    · exact ⟨none, parse_from_payload_generic_fail _ _ _ hb hP hbad⟩
    · simp only [not_or, not_lt, ne_eq, not_not] at hbad
      obtain ⟨-, h0, hw, hal⟩ := hbad
      exact ⟨_, parse_from_payload_generic_ok _ _ _ hb hid hP h3 h0 hw hal⟩
  · intro h0 hw hal
    have hTW : 8 * (payload.length - 2) - payload.getD 1 0 % 8
        = (8 * (payload.length - 2) - payload.getD 1 0 % 8) / (payload.getD 1 0 / 8)
          * (payload.getD 1 0 / 8) := by
      rw [Nat.div_mul_cancel (Nat.dvd_of_mod_eq_zero hal)]
    refine ⟨_, parse_from_payload_generic_ok _ _ _ hb hid hP h3 h0 hw hal, ?_, ?_⟩
    · intro fuel hf
      exact dec_loop_run idBytes _ _ _ (payload.drop 2) hbd hid (Nat.pos_of_ne_zero hw) hTW
        (by rw [hdl]; omega) fuel hf
    · intro fuel hf
      have := dec_loop_short_fuel idBytes _ _ _ (payload.drop 2) hbd hid (Nat.pos_of_ne_zero hw)
        hTW (by rw [hdl]; omega) fuel
        (List.replicate
          ((8 * (payload.length - 2) - payload.getD 1 0 % 8) / (payload.getD 1 0 / 8)) 0)
        0 (by omega) (by rw [List.length_replicate])
      simpa using this

/-- C40 at the payload `00 2C 00 FF 10` (width 5, four padding bits, four
IDs): the loop returns with four iterations allowed and not with three. -/
theorem C40_decoder_assertions_hold_witness :
    (∃ r, parse_from_payload_generic 498 2 [0x00, 0x2C, 0x00, 0xFF, 0x10] = .ok r) ∧
    ∃ data, parse_from_payload_generic 498 2 [0x00, 0x2C, 0x00, 0xFF, 0x10] = .ok (some data) ∧
      dec_loop 2 5 20 4 [0x00, 0xFF, 0x10] 4 (List.replicate 4 0) 0 0 0 0 = .ok (data, 4) ∧
      dec_loop 2 5 20 4 [0x00, 0xFF, 0x10] 3 (List.replicate 4 0) 0 0 0 0 = .error Fault.fuel :=
  have h := C40_decoder_assertions_hold 498 2 [0x00, 0x2C, 0x00, 0xFF, 0x10] (by decide)
    (by decide) (by decide) (by decide)
  ⟨h.1, (h.2 rfl (by decide) (by decide)).elim
    fun data hd => ⟨data, hd.1, hd.2.1 4 (by decide), hd.2.2 3 (by decide)⟩⟩

/-- The loop of `split_instruction_check` stops in the assertion of
`subcirc_list_get` at the first ID that is not below the capacity, when the
IDs before it name occupied slots. -/
theorem check_loop_beyond_capacity (idBytes : Nat) (hid : 1 ≤ idBytes)
    (inst : split_instruction_t) (subcircs : subcirc_list_t)
    (hlen : inst.length = inst.data.length * idBytes)
    (hlist : subcircs.list.length = subcircs.capacity) (j : Nat) (hj : j < inst.data.length)
    (hbig : subcircs.capacity ≤ inst.data.getD j 0)
    (hpre : ∀ i, i < j → inst.data.getD i 0 < subcircs.capacity ∧
      (subcircs.list.getD (inst.data.getD i 0) none).isSome = true) :
    ∀ (fuel k : Nat), k ≤ j → inst.data.length - k ≤ fuel →
      split_instruction_check_loop idBytes inst subcircs fuel (k * idBytes)
        = .error Fault.assertion := by
  intro fuel
  induction fuel with
  | zero => intro k hk hf; omega
  | succ fuel ih =>
    intro k hk hf
    have hlt : k < inst.data.length := by omega
    have hpos : k * idBytes < inst.length := by
      rw [hlen]; exact Nat.mul_lt_mul_of_pos_right hlt (by omega)
    have hmod : k * idBytes % idBytes = 0 := Nat.mul_mod_left _ _
    have hdiv : k * idBytes / idBytes = k := Nat.mul_div_cancel _ (by omega)
    unfold split_instruction_check_loop
    by_cases hkj : k = j
    · subst hkj
      have hn : ¬ inst.data.getD k 0 < subcircs.capacity := by omega
      simp only [hpos, if_true, hmod, ne_eq, not_true_eq_false, if_false, bind, Except.bind, hdiv,
        rd_ok inst.data k hlt, subcirc_list_get, tor_assert, hn, decide_False,
        Bool.false_eq_true]
    · obtain ⟨hidc, hs⟩ := hpre k (by omega)
      have hnone : ∀ x : Option Nat, x.isNone = !x.isSome := fun x => by cases x <;> rfl
      have := ih (k + 1) (by omega) (by omega)
      rw [Nat.add_mul, Nat.one_mul] at this
      simp only [hpos, if_true, hmod, ne_eq, not_true_eq_false, if_false, bind, Except.bind, hdiv,
        rd_ok inst.data k hlt, subcirc_list_get, tor_assert, hidc, decide_True,
        rdp_ok subcircs.list _ (by rw [hlist]; exact hidc), pure, Except.pure, hnone, hs,
        Bool.not_true, Bool.false_eq_true, this]

theorem split_instruction_check_beyond_capacity (idBytes : Nat) (hid : 1 ≤ idBytes)
    (data : List Nat) (subcircs : subcirc_list_t)
    (hlist : subcircs.list.length = subcircs.capacity) (j : Nat) (hj : j < data.length)
    (hbig : subcircs.capacity ≤ data.getD j 0)
    (hpre : ∀ i, i < j → data.getD i 0 < subcircs.capacity ∧
      (subcircs.list.getD (data.getD i 0) none).isSome = true) :
    split_instruction_check idBytes
        { type := SPLIT_INSTRUCTION_TYPE_GENERIC, data := data, position := 0,
          length := data.length * idBytes } subcircs
      = .error Fault.assertion := by
  unfold split_instruction_check
  have hnz : data.length * idBytes ≠ 0 := Nat.mul_ne_zero (by omega) (by omega)
  simp only [if_true, hnz, if_false]
  have := check_loop_beyond_capacity idBytes hid
    { type := SPLIT_INSTRUCTION_TYPE_GENERIC, data := data, position := 0,
      length := data.length * idBytes } subcircs rfl hlist j hj hbig hpre
    (data.length * idBytes) 0 (Nat.zero_le _) (by
      simp only [Nat.sub_zero]
      exact Nat.le_mul_of_pos_right _ (by omega))
  simpa using this

/-- C32 fails on the code for an ID at or beyond the capacity.  On the
five-slot list of `list_after_remove` (slots 0 and 1 occupied) the
instructions `[0, 1]` and `[0, 2]` are answered with TRUE and FALSE, but the
instructions `[7]` and `[0, 7]` end in the assertion `id < sl->capacity` of
`subcirc_list_get` instead of returning FALSE; the same happens with ID 7 on
a fresh list from `subcirc_list_new`. -/
theorem C32_id_beyond_capacity_asserts :
    split_instruction_check 2
        { type := SPLIT_INSTRUCTION_TYPE_GENERIC, data := [0, 1], position := 0, length := 4 }
        list_after_remove = .ok 1 ∧
    split_instruction_check 2
        { type := SPLIT_INSTRUCTION_TYPE_GENERIC, data := [0, 2], position := 0, length := 4 }
        list_after_remove = .ok 0 ∧
    split_instruction_check 2
        { type := SPLIT_INSTRUCTION_TYPE_GENERIC, data := [7], position := 0, length := 2 }
        list_after_remove = .error Fault.assertion ∧
    split_instruction_check 2
        { type := SPLIT_INSTRUCTION_TYPE_GENERIC, data := [0, 7], position := 0, length := 4 }
        list_after_remove = .error Fault.assertion ∧
    split_instruction_check 1
        { type := SPLIT_INSTRUCTION_TYPE_GENERIC, data := [7], position := 0, length := 1 }
        subcirc_list_new = .error Fault.assertion ∧
    MAX_SUBCIRCS = 5 ∧ list_after_remove.capacity = 5 ∧ subcirc_list_new.capacity = 5 := by
  decide

/-- A JOIN whose cookie resolves to a session that already holds
`MAX_SUBCIRCS` sub-circuits ends in the assertion of
`split_get_new_subcirc_id`. -/
theorem split_process_join_full (idBytes : Nat) (w : World) (circ : Nat) (payload : List Nat)
    (fails : Bool) (oc : or_circuit_t) (h : Nat) (sd : split_data_t)
    (hlen : payload.length = SPLIT_COOKIE_LEN) (hc : get_circ w circ = .ok oc)
    (hsd : oc.split_data = none) (hsub : oc.subcirc = none)
    (hfind : split_get_split_data_by_cookie w payload = .ok (some h))
    (hget : get_split_data w h = .ok sd)
    (hfull : MAX_SUBCIRCS ≤ split_data_get_num_subcircs sd) :
    split_process_join idBytes w circ payload fails = .error Fault.assertion := by
  have hget2 : ∀ x, get_split_data (set_circ w circ x) h = .ok sd := fun _ => hget
  have hn : ¬ split_data_get_num_subcircs sd < MAX_SUBCIRCS := by omega
  unfold split_process_join
  simp only [hlen, ne_eq, not_true_eq_false, if_false, hc, bind, Except.bind, hsd, hsub,
    Option.isNone_none, tor_assert, if_true, hfind, hget2, split_get_new_subcirc_id, hn,
    decide_False, Bool.false_eq_true]

/-- A JOIN whose cookie resolves to a session that is marked for close (and
holds fewer than `MAX_SUBCIRCS` sub-circuits) does not return: the call of
`split_data_add_subcirc` gives `NULL`, and the assertion
`split_data_check_subcirc(split_data, circ) == 0` that follows fails, unless
a fault occurs before. -/
theorem split_process_join_marked (idBytes : Nat) (w : World) (circ : Nat) (payload : List Nat)
    (fails : Bool) (oc : or_circuit_t) (h : Nat) (sd : split_data_t)
    (hlen : payload.length = SPLIT_COOKIE_LEN) (hc : get_circ w circ = .ok oc)
    (hsd : oc.split_data = none) (hsub : oc.subcirc = none)
    (hfind : split_get_split_data_by_cookie w payload = .ok (some h))
    (hget : get_split_data w h = .ok sd) (hmark : sd.marked_for_close = true) :
    ∃ e, split_process_join idBytes w circ payload fails = .error e := by
  have hlt := get_circ_lt w circ oc hc
  have hget2 : ∀ x, get_split_data (set_circ w circ x) h = .ok sd := fun _ => hget
  have hget3 : ∀ x y, get_split_data (set_circ (set_circ w circ x) circ y) h = .ok sd :=
    fun _ _ => hget
  have hgc : ∀ (w0 : World) (x : or_circuit_t), circ < w0.circuits.length →
      get_circ (set_circ w0 circ x) circ = .ok x := fun w0 x hl => get_set_circ w0 circ x hl
  have hl2 : ∀ x, circ < (set_circ w circ x).circuits.length := by
    intro x; simp [set_circ, hlt]
  unfold split_process_join
  simp only [hlen, ne_eq, not_true_eq_false, if_false, hc, bind, Except.bind, hsd, hsub,
    Option.isNone_none, tor_assert, if_true, hfind, hget2, split_get_new_subcirc_id]
  by_cases hn : split_data_get_num_subcircs sd < MAX_SUBCIRCS
  · simp only [hn, decide_True, if_true, pure, Except.pure, split_data_add_subcirc, hget2,
      bind, Except.bind, hmark, hgc _ _ hlt, split_data_check_subcirc, hgc _ _ (hl2 _), hget3]
    generalize check_subcirc_loop _ sd circ _ 0 = L
    rcases L with e | found
    · exact ⟨e, rfl⟩
    · cases found with
      | true => exact ⟨Fault.assertion, rfl⟩
      | false =>
        cases hcl : sd.split_data_client with
        | none => exact ⟨Fault.assertion, by simp [hcl]⟩
        | some c => exact ⟨Fault.assertion, by simp [hcl]⟩
  · exact ⟨Fault.assertion, by simp [hn]⟩

/-- C33 fails on the code.  In `world_full`, the state that SET_COOKIE on
circuit 0 and JOIN on the circuits 1 to 4 lead to from `world_six`, the
session indexed under `cookieA` holds `MAX_SUBCIRCS` sub-circuits, and a
further JOIN(`cookieA`) on circuit 5 ends in the assertion
`next_id < MAX_SUBCIRCS` of `split_get_new_subcirc_id` instead of being
rejected with a return value. -/
theorem C33_join_on_full_session_asserts :
    run_to_full = .ok (0, world_full) ∧
    (get_split_data world_full 0).map split_data_get_num_subcircs = .ok MAX_SUBCIRCS ∧
    split_get_split_data_by_cookie world_full cookieA = .ok (some 0) ∧
    split_process_join 1 world_full 5 cookieA false = .error Fault.assertion ∧
    split_process_join 1 world_full 5 cookieA true = .error Fault.assertion := by
  refine ⟨by decide!, by decide, by decide, ?_, ?_⟩ <;>
    exact split_process_join_full 1 world_full 5 cookieA _ (ex_circ none none) 0 _ rfl rfl rfl
      rfl (by decide) rfl (by decide)

/-- C34 fails on the code.  In `world_closing`, the state that
`split_mark_for_close` on circuit 0 leads to from `world_joined`, the session
is marked for close and still indexed under `cookieA`; a JOIN(`cookieA`) on
circuit 2 gets `NULL` from `split_data_add_subcirc` and then ends in the
assertion `split_data_check_subcirc(split_data, circ) == 0`, which sees the
value 2, instead of returning. -/
theorem C34_join_on_marked_session_asserts :
    split_mark_for_close (world_joined none [] []) 0 end_circ_reason_t.END_CIRC_REASON_TORPROTOCOL
      = .ok world_closing ∧
    (get_split_data world_closing 0).map (fun sd => sd.marked_for_close) = .ok true ∧
    split_get_split_data_by_cookie world_closing cookieA = .ok (some 0) ∧
    (split_data_add_subcirc (set_circ world_closing 2 (ex_circ (some 0) none)) 0
        subcirc_state_t.SUBCIRC_STATE_ADDED 2 2).map Prod.fst = .ok none ∧
    split_data_check_subcirc (set_circ world_closing 2 (ex_circ (some 0) none)) 0 2 = .ok 2 ∧
    split_process_join 1 world_closing 2 cookieA false = .error Fault.assertion ∧
    split_process_join 1 world_closing 2 cookieA true = .error Fault.assertion := by
  decide

/-- C35 fails on the code: the client handlers abort on malformed cells of an
accepted length.  With one-byte IDs, on the circuit 1 of
`client_world_pending` that waits for JOINED, `split_process_joined` ends in
an assertion for the payloads `[1]` (success byte set, no ID:
`length == 1 + id_length`), `[0, 0]` (failure with an ID: `length == 1`),
`[1, 0]` (ID 0 for a circuit that is not the base), `[1, 5]` and `[1, 7]`
(IDs not below `MAX_SUBCIRCS`), and in `client_world_two_pending` for a
second JOINED(ok, 1), whose slot is occupied.  On the base circuit of a
session whose cookie is pending, `split_process_cookie_set` ends in an
assertion for `[1]` and `[0, 0]`.  Cells of another length and the
well-formed cells return -1 or 0. -/
theorem C35_malformed_cell_asserts :
    returned (split_process_joined 498 1 (ex_client_env 3)
      (client_world_pending split_cookie_state_t.SPLIT_COOKIE_STATE_VALID) 1 1 [1])
      = .error Fault.assertion ∧
    returned (split_process_joined 498 1 (ex_client_env 3)
      (client_world_pending split_cookie_state_t.SPLIT_COOKIE_STATE_VALID) 1 1 [0, 0])
      = .error Fault.assertion ∧
    returned (split_process_joined 498 1 (ex_client_env 3)
      (client_world_pending split_cookie_state_t.SPLIT_COOKIE_STATE_VALID) 1 1 [1, 0])
      = .error Fault.assertion ∧
    returned (split_process_joined 498 1 (ex_client_env 3)
      (client_world_pending split_cookie_state_t.SPLIT_COOKIE_STATE_VALID) 1 1 [1, 5])
      = .error Fault.assertion ∧
    returned (split_process_joined 498 1 (ex_client_env 3)
      (client_world_pending split_cookie_state_t.SPLIT_COOKIE_STATE_VALID) 1 1 [1, 7])
      = .error Fault.assertion ∧
    returned (do
      let (_, w) ← split_process_joined 498 1 (ex_client_env 3) client_world_two_pending 1 1 [1, 1]
      split_process_joined 498 1 (ex_client_env 3) w 2 1 [1, 1]) = .error Fault.assertion ∧
    returned (split_process_cookie_set 498 1 (ex_client_env 3)
      (client_world_pending split_cookie_state_t.SPLIT_COOKIE_STATE_PENDING) 0 1 [1])
      = .error Fault.assertion ∧
    returned (split_process_cookie_set 498 1 (ex_client_env 3)
      (client_world_pending split_cookie_state_t.SPLIT_COOKIE_STATE_PENDING) 0 1 [0, 0])
      = .error Fault.assertion ∧
    returned (split_process_joined 498 1 (ex_client_env 3)
      (client_world_pending split_cookie_state_t.SPLIT_COOKIE_STATE_VALID) 1 1 [1, 1, 1])
      = .ok (-1) ∧
    returned (split_process_joined 4 1 (ex_client_env 3)
      (client_world_pending split_cookie_state_t.SPLIT_COOKIE_STATE_VALID) 1 1 [1, 1])
      = .ok 0 ∧
    returned (split_process_joined 498 1 (ex_client_env 3)
      (client_world_pending split_cookie_state_t.SPLIT_COOKIE_STATE_VALID) 1 1 [0])
      = .ok 0 ∧
    returned (split_process_cookie_set 498 1 (ex_client_env 3)
      (client_world_pending split_cookie_state_t.SPLIT_COOKIE_STATE_PENDING) 0 1 [1, 2, 3])
      = .ok (-1) ∧
    returned (split_process_cookie_set 498 1 (ex_client_env 3)
      (client_world_pending split_cookie_state_t.SPLIT_COOKIE_STATE_PENDING) 0 1 [1, 0])
      = .ok 0 := by
  refine ⟨?_, ?_, ?_, ?_, ?_, ?_, ?_, ?_, ?_, ?_, ?_, ?_, ?_⟩ <;> decide!

theorem next_subcirc_set_other (sd : split_data_t) (d : cell_direction_t) (v : Option Nat) :
    next_subcirc (set_next_subcirc sd (other_direction d) v) d = next_subcirc sd d := by
  cases d <;> rfl

theorem next_subcirc_set_instruction (sd : split_data_t) (d e : cell_direction_t)
    (q : List split_instruction_t) :
    next_subcirc (set_instruction sd e q) d = next_subcirc sd d := by
  cases d <;> cases e <;> rfl

/-- At the middle (no client part) `split_data_get_next_subcirc` of one
direction leaves the sticky pick of the other direction as it is. -/
theorem get_next_subcirc_other (idBytes : Nat)
    (generate : World → Nat → cell_direction_t → Run World) (w w1 : World) (h : Nat)
    (d : cell_direction_t) (r1 : Option Nat) (sd0 sd1 : split_data_t)
    (hsd0 : get_split_data w h = .ok sd0) (hcl : sd0.split_data_client = none)
    (hrun : split_data_get_next_subcirc idBytes generate w h (other_direction d) = .ok (r1, w1))
    (hsd1 : get_split_data w1 h = .ok sd1) :
    next_subcirc sd1 d = next_subcirc sd0 d := by
  unfold split_data_get_next_subcirc at hrun
  simp only [hsd0, bind, Except.bind] at hrun
  by_cases hm : sd0.marked_for_close = true
  · simp only [hm, if_true] at hrun
    cases hg : subcirc_list_get sd0.subcircs 0 with
    | error e => simp [hg] at hrun
    | ok r =>
      simp only [hg, pure, Except.pure, Except.ok.injEq, Prod.mk.injEq] at hrun
      obtain ⟨_, hw⟩ := hrun
      subst hw
      rw [hsd0] at hsd1
      cases hsd1
      rfl
  · simp only [hm, Bool.false_eq_true, if_false] at hrun
    cases hn : next_subcirc sd0 (other_direction d) with
    | some p =>
      simp only [hn, pure, Except.pure, Except.ok.injEq, Prod.mk.injEq] at hrun
      obtain ⟨_, hw⟩ := hrun
      subst hw
      rw [hsd0] at hsd1
      cases hsd1
      rfl
    | none =>
      simp only [hn] at hrun
      cases hq : instruction sd0 (other_direction d) with
      | nil =>
        simp only [hq, pure, Except.pure, Except.ok.injEq, Prod.mk.injEq] at hrun
        obtain ⟨_, hw⟩ := hrun
        subst hw
        rw [hsd0] at hsd1
        cases hsd1
        rfl
      | cons prev rest =>
        simp only [hq] at hrun
        cases hid : split_instruction_get_next_id idBytes (prev :: rest) with
        | error e => simp [hid] at hrun
        | ok v =>
          obtain ⟨next_id, queue⟩ := v
          have hlt := get_split_data_lt _ _ _ hsd0
          simp only [hid, hcl, Option.isSome_none, Bool.false_eq_true, and_false, if_false, pure,
            Except.pure, get_set_split_data _ _ _ hlt] at hrun
          cases hget : subcirc_list_get (set_instruction sd0 (other_direction d) queue).subcircs
              next_id with
          | error e => simp [hget] at hrun
          | ok next =>
            simp only [hget, tor_assert] at hrun
            cases next with
            | none => simp at hrun
            | some p =>
              simp only [Option.isSome_some, if_true] at hrun
              generalize hsub : get_subcirc _ p = gs at hrun
              cases gs with
              | error e => simp at hrun
              | ok sub =>
                simp only at hrun
                by_cases hc : sub.circ.isSome
                · simp only [hc, if_true, Except.ok.injEq, Prod.mk.injEq] at hrun
                  obtain ⟨_, hw⟩ := hrun
                  subst hw
                  rw [get_set_split_data _ _ _ (by simpa [set_split_data] using hlt)] at hsd1
                  cases hsd1
                  rw [next_subcirc_set_other, next_subcirc_set_instruction]
                · simp [hc] at hrun

/-- Adding a sub-circuit in the state ADDED clears both sticky picks; adding
a pending one keeps them. -/
theorem add_subcirc_origin_picks (w w1 : World) (h circ id : Nat) (state : subcirc_state_t)
    (q : Nat) (sd0 sd1 : split_data_t) (hsd0 : get_split_data w h = .ok sd0)
    (hrun : split_data_add_subcirc_origin w h state circ id = .ok (some q, w1))
    (hsd1 : get_split_data w1 h = .ok sd1) :
    (state = subcirc_state_t.SUBCIRC_STATE_ADDED →
      sd1.next_subcirc_in = none ∧ sd1.next_subcirc_out = none) ∧
    (state ≠ subcirc_state_t.SUBCIRC_STATE_ADDED →
      sd1.next_subcirc_in = sd0.next_subcirc_in ∧ sd1.next_subcirc_out = sd0.next_subcirc_out) := by
  have hlt := get_split_data_lt _ _ _ hsd0
  unfold split_data_add_subcirc_origin at hrun
  simp only [hsd0, bind, Except.bind] at hrun
  by_cases hm : sd0.marked_for_close = true
  · simp [hm, pure, Except.pure] at hrun
  · simp only [hm, Bool.false_eq_true, if_false] at hrun
    cases hchk : split_data_check_subcirc_origin w h circ with
    | error e => simp [hchk] at hrun
    | ok r =>
      simp only [hchk, tor_assert] at hrun
      by_cases hr : (r == 2) = true
      · simp only [hr, if_true] at hrun
        cases state with
        | SUBCIRC_STATE_UNSPEC => simp [pure, Except.pure] at hrun
        | SUBCIRC_STATE_PENDING_COOKIE =>
          cases hcl : sd0.split_data_client with
          | none => simp [hcl] at hrun
          | some client =>
            simp only [hcl, pure, Except.pure, Except.ok.injEq, Prod.mk.injEq] at hrun
            obtain ⟨_, hw⟩ := hrun
            subst hw
            rw [get_set_split_data _ _ _ (by simpa using hlt)] at hsd1
            cases hsd1
            exact ⟨fun hc => (by cases hc), fun _ => ⟨rfl, rfl⟩⟩
        | SUBCIRC_STATE_PENDING_JOIN =>
          cases hcl : sd0.split_data_client with
          | none => simp [hcl] at hrun
          | some client =>
            simp only [hcl, pure, Except.pure, Except.ok.injEq, Prod.mk.injEq] at hrun
            obtain ⟨_, hw⟩ := hrun
            subst hw
            rw [get_set_split_data _ _ _ (by simpa using hlt)] at hsd1
            cases hsd1
            exact ⟨fun hc => (by cases hc), fun _ => ⟨rfl, rfl⟩⟩
        | SUBCIRC_STATE_ADDED =>
          simp only at hrun
          by_cases ha : (id = 0 → some circ = sd0.base)
          · have hd : decide (id = 0 → some circ = sd0.base) = true := decide_eq_true ha
            simp only [hd, if_true] at hrun
            cases hadd : subcirc_list_add sd0.subcircs w.subcircuits.length id with
            | error e => simp [hadd] at hrun
            | ok sl =>
              simp only [hadd, pure, Except.pure, Except.ok.injEq, Prod.mk.injEq] at hrun
              obtain ⟨_, hw⟩ := hrun
              subst hw
              rw [get_set_split_data _ _ _ (by simpa using hlt)] at hsd1
              cases hsd1
              exact ⟨fun _ => ⟨rfl, rfl⟩, fun hc => absurd rfl hc⟩
          · have hd : decide (id = 0 → some circ = sd0.base) = false := decide_eq_false ha
            simp [hd] at hrun
      · simp [hr] at hrun

/-- At the middle, adding a sub-circuit in the state ADDED clears both sticky
picks. -/
theorem add_subcirc_resets_picks (w w1 : World) (h circ id : Nat) (q : Nat)
    (sd0 sd1 : split_data_t) (hsd0 : get_split_data w h = .ok sd0)
    (hrun : split_data_add_subcirc w h subcirc_state_t.SUBCIRC_STATE_ADDED circ id
      = .ok (some q, w1))
    (hsd1 : get_split_data w1 h = .ok sd1) :
    sd1.next_subcirc_in = none ∧ sd1.next_subcirc_out = none := by
  have hlt := get_split_data_lt _ _ _ hsd0
  unfold split_data_add_subcirc at hrun
  simp only [hsd0, bind, Except.bind] at hrun
  by_cases hm : sd0.marked_for_close = true
  · simp [hm, pure, Except.pure] at hrun
  · simp only [hm, Bool.false_eq_true, if_false] at hrun
    cases hchk : split_data_check_subcirc w h circ with
    | error e => simp [hchk] at hrun
    | ok r =>
      simp only [hchk, tor_assert] at hrun
      by_cases hr : (r == 2) = true
      · simp only [hr, if_true] at hrun
        by_cases ha : (id = 0 → some circ = sd0.base)
        · have hd : decide (id = 0 → some circ = sd0.base) = true := decide_eq_true ha
          simp only [hd, if_true] at hrun
          cases hadd : subcirc_list_add sd0.subcircs w.subcircuits.length id with
          | error e => simp [hadd] at hrun
          | ok sl =>
            simp only [hadd, pure, Except.pure, Except.ok.injEq, Prod.mk.injEq] at hrun
            obtain ⟨_, hw⟩ := hrun
            subst hw
            rw [get_set_split_data _ _ _ (by simpa using hlt)] at hsd1
            cases hsd1
            exact ⟨rfl, rfl⟩
        · have hd : decide (id = 0 → some circ = sd0.base) = false := decide_eq_false ha
          simp [hd] at hrun
      · simp [hr] at hrun

/-- What keeps and what clears a sticky pick: while the pick `next_subcirc_d`
of a session that is not marked for close is set, `split_data_get_next_subcirc(d)` returns it and
changes nothing, `split_data_used_subcirc` of the other direction, a change
of an instruction queue, `split_data_get_next_subcirc` of the other direction
(at the middle) and adding a pending sub-circuit (at the client) leave it
unchanged; but adding a sub-circuit in the state ADDED, at the client or at
the middle, runs `split_data_reset_next_subcirc` and leaves both picks
`NULL`. -/
theorem sticky_pick_frame (idBytes : Nat) (w : World) (h : Nat) (sd : split_data_t)
    (d : cell_direction_t) (p : Nat) (hsd : get_split_data w h = .ok sd)
    (hnm : sd.marked_for_close = false) (hpick : next_subcirc sd d = some p) :
    (∀ generate, split_data_get_next_subcirc idBytes generate w h d = .ok (some p, w)) ∧
    next_subcirc (split_data_used_subcirc sd (other_direction d)) d = some p ∧
    (∀ e q, next_subcirc (set_instruction sd e q) d = some p) ∧
    (sd.split_data_client = none → ∀ generate r w1 sd1,
      split_data_get_next_subcirc idBytes generate w h (other_direction d) = .ok (r, w1) →
      get_split_data w1 h = .ok sd1 → next_subcirc sd1 d = some p) ∧
    (∀ state circ id q w1 sd1, state ≠ subcirc_state_t.SUBCIRC_STATE_ADDED →
      split_data_add_subcirc_origin w h state circ id = .ok (some q, w1) →
      get_split_data w1 h = .ok sd1 → next_subcirc sd1 d = some p) ∧
    (∀ circ id q w1 sd1,
      split_data_add_subcirc_origin w h subcirc_state_t.SUBCIRC_STATE_ADDED circ id
        = .ok (some q, w1) →
      get_split_data w1 h = .ok sd1 →
      next_subcirc sd1 cell_direction_t.CELL_DIRECTION_IN = none ∧
      next_subcirc sd1 cell_direction_t.CELL_DIRECTION_OUT = none) ∧
    (∀ circ id q w1 sd1,
      split_data_add_subcirc w h subcirc_state_t.SUBCIRC_STATE_ADDED circ id = .ok (some q, w1) →
      get_split_data w1 h = .ok sd1 →
      next_subcirc sd1 cell_direction_t.CELL_DIRECTION_IN = none ∧
      next_subcirc sd1 cell_direction_t.CELL_DIRECTION_OUT = none) := by
  refine ⟨?_, ?_, ?_, ?_, ?_, ?_, ?_⟩
  · intro generate
    unfold split_data_get_next_subcirc
    simp only [hsd, bind, Except.bind, hnm, Bool.false_eq_true, if_false, hpick, pure,
      Except.pure]
  · rw [← hpick]
    cases d <;> rfl
  · intro e q
    rw [next_subcirc_set_instruction, hpick]
  · intro hcl generate r w1 sd1 hrun hsd1
    rw [get_next_subcirc_other idBytes generate w w1 h d r sd sd1 hsd hcl hrun hsd1, hpick]
  · intro state circ id q w1 sd1 hst hrun hsd1
    obtain ⟨hin, hout⟩ := (add_subcirc_origin_picks w w1 h circ id state q sd sd1 hsd hrun hsd1).2
      hst
    rw [← hpick]
    cases d
    · exact hin
    · exact hout
  · intro circ id q w1 sd1 hrun hsd1
    exact (add_subcirc_origin_picks w w1 h circ id _ q sd sd1 hsd hrun hsd1).1 rfl
  · intro circ id q w1 sd1 hrun hsd1
    exact add_subcirc_resets_picks w w1 h circ id q sd sd1 hsd hrun hsd1

/-- C36 (code defect): adding a further ADDED sub-circuit clears the sticky
pick, so a consumed ID is skipped.  In `world_joined (some 1) [] []` the
session has the OUT pick sub-circuit 1; JOIN(`cookieA`) on circuit 2, which
calls `split_data_add_subcirc` with the state ADDED and so
`split_data_reset_next_subcirc`, returns 0 and leaves the OUT pick `NULL`,
although `split_data_used_subcirc` was not called.  With the OUT instruction
`1, 0` queued and no pick, `split_data_get_next_subcirc(OUT)` returns
sub-circuit 1; after the same JOIN, and without a call of
`split_data_used_subcirc`, the next `split_data_get_next_subcirc(OUT)`
returns sub-circuit 0, whereas the comment of the function says that it
always returns the same sub-circuit until `split_data_used_subcirc` was
called (without the JOIN in between it does return sub-circuit 1 again). -/
theorem C36_added_subcircuit_clears_pick :
    (get_split_data (world_joined (some 1) [] []) 0).map (fun sd => sd.next_subcirc_out)
      = .ok (some 1) ∧
    (do
      let (s, w) ← split_process_join 1 (world_joined (some 1) [] []) 2 cookieA false
      let sd ← get_split_data w 0
      pure (s, sd.next_subcirc_out, split_data_get_num_subcircs sd) : Run (Int × Option Nat × Nat))
      = .ok (0, none, 3) ∧
    (do
      let (first, w) ← split_data_get_next_subcirc 1 no_generate
        (world_joined none [ex_inst [1, 0] 0] []) 0 cell_direction_t.CELL_DIRECTION_OUT
      let (s, w) ← split_process_join 1 w 2 cookieA false
      let (second, _) ← split_data_get_next_subcirc 1 no_generate w 0
        cell_direction_t.CELL_DIRECTION_OUT
      pure (first, s, second) : Run (Option Nat × Int × Option Nat))
      = .ok (some 1, 0, some 0) ∧
    (do
      let (first, w) ← split_data_get_next_subcirc 1 no_generate
        (world_joined none [ex_inst [1, 0] 0] []) 0 cell_direction_t.CELL_DIRECTION_OUT
      let (second, _) ← split_data_get_next_subcirc 1 no_generate w 0
        cell_direction_t.CELL_DIRECTION_OUT
      pure (first, second) : Run (Option Nat × Option Nat))
      = .ok (some 1, some 1) := by
  refine ⟨by decide, by decide, by decide!, by decide!⟩

/-- The inner loop of the bucket filling: it stays inside the table when the
bucket ends at or before its end, and writes outside otherwise. -/
theorem fill_bucket_run (j : Nat) (last_index : Int) (hl : 0 ≤ last_index) :
    ∀ (n : Nat) (g : Int) (wp : List Nat), 0 ≤ g →
      (g + last_index + n ≤ wp.length →
        ∃ wp', fill_bucket j last_index n g wp = .ok wp' ∧ wp'.length = wp.length) ∧
      ((wp.length : Int) < g + last_index + n → 1 ≤ n →
        fill_bucket j last_index n g wp = .error Fault.memory) := by
  intro n
  induction n with
  | zero =>
    intro g wp hg
    exact ⟨fun _ => ⟨wp, rfl, rfl⟩, fun _ h => absurd h (by decide)⟩
  | succ n ih =>
    intro g wp hg
    have hnn : 0 ≤ g + last_index := by omega
    by_cases hin : (g + last_index).toNat < wp.length
    · have hw : wr_at wp (g + last_index) j = .ok (wp.set (g + last_index).toNat j) := by
        simp [wr_at, hnn, wr, hin]
      have hlen : (wp.set (g + last_index).toNat j).length = wp.length := by simp
      obtain ⟨h1, h2⟩ := ih (g + 1) (wp.set (g + last_index).toNat j) (by omega)
      refine ⟨fun hfit => ?_, fun hover _ => ?_⟩
      · obtain ⟨wp', hr, hl'⟩ := h1 (by rw [hlen]; push_cast at hfit ⊢; omega)
        refine ⟨wp', ?_, by rw [hl', hlen]⟩
        simp only [fill_bucket, hw, bind, Except.bind, hr]
      · have hn1 : 1 ≤ n := by
          clear h1 h2 ih
          rcases Nat.eq_zero_or_pos n with hz | hz
          · rw [hz] at hover
            push_cast at hover
            omega
          · exact hz
        have := h2 (by rw [hlen]; push_cast at hover ⊢; omega) hn1
        simp only [fill_bucket, hw, bind, Except.bind, this]
    · have hw : wr_at wp (g + last_index) j = .error Fault.memory := by
        simp [wr_at, hnn, wr, hin]
      refine ⟨fun hfit => ?_, fun _ _ => ?_⟩
      · push_cast at hfit
        omega
      · simp only [fill_bucket, hw, bind, Except.bind]

/-- The bucket-filling loop writes outside the table as soon as the rounded
weights from `j` on, added to `last_index`, exceed its length. -/
theorem fill_buckets_overflow (theta : List Int) (hpos : ∀ t ∈ theta, 0 ≤ t) :
    ∀ (n j : Nat) (last_index : Int) (wp : List Nat), j + n = theta.length →
      0 ≤ last_index → last_index ≤ wp.length →
      (wp.length : Int) < last_index + (theta.drop j).sum →
      fill_buckets theta n j last_index wp = .error Fault.memory := by
  intro n
  induction n with
  | zero =>
    intro j last_index wp hj h0 hle hover
    rw [List.drop_of_length_le (by omega)] at hover
    simp at hover
    omega
  | succ n ih =>
    intro j last_index wp hj h0 hle hover
    have hjl : j < theta.length := by omega
    have hrd : rdi theta j = .ok theta[j] := by
      simp [rdi, List.get?_eq_getElem?, List.getElem?_eq_getElem hjl]
    have ht : 0 ≤ theta[j] := hpos _ (List.getElem_mem _)
    have hdrop : theta.drop j = theta[j] :: theta.drop (j + 1) := List.drop_eq_getElem_cons hjl
    rw [hdrop, List.sum_cons] at hover
    have hcast : ((theta[j].toNat : Nat) : Int) = theta[j] := Int.toNat_of_nonneg ht
    obtain ⟨h1, h2⟩ := fill_bucket_run j last_index h0 theta[j].toNat 0 wp (le_refl _)
    simp only [fill_buckets, hrd, bind, Except.bind]
    by_cases hfit : last_index + theta[j] ≤ wp.length
    · obtain ⟨wp', hr, hl'⟩ := h1 (by rw [hcast]; omega)
      rw [hr]
      exact ih (j + 1) (theta[j] + last_index) wp' (by omega) (by omega) (by rw [hl']; omega)
        (by rw [hl']; omega)
    · have hn1 : 1 ≤ theta[j].toNat := by
        have : 0 < theta[j] := by omega
        omega
      rw [h2 (by rw [hcast]; omega) hn1]

/-- The table `weighted_paths` has 100 entries: rounded weights that are not
negative and sum to more than 100 make the bucket-filling loop write
outside. -/
theorem make_weighted_paths_overflow (theta : List Int) (hpos : ∀ t ∈ theta, 0 ≤ t)
    (hsum : 100 < theta.sum) :
    make_weighted_paths theta.length theta = .error Fault.memory := by
  unfold make_weighted_paths
  exact fill_buckets_overflow theta hpos theta.length 0 0 _ (by omega) (le_refl _)
    (by simp) (by simpa using hsum)

theorem rounded_weights_nonneg (theta : List ℚ) (hpos : ∀ t ∈ theta, 0 ≤ t) :
    ∀ r ∈ rounded_weights theta, 0 ≤ r := by
  intro r hr
  unfold rounded_weights at hr
  obtain ⟨t, ht, rfl⟩ := List.mem_map.mp hr
  have h0 : (0 : ℚ) ≤ 100 * t := mul_nonneg (by norm_num) (hpos t ht)
  unfold tor_lround
  rw [if_pos h0]
  exact Int.floor_nonneg.mpr (by linarith)

/-- C38: the weight vector (1/8, 7/8) has two entries, none negative, that sum
to 1, and its rounded values `tor_lround(100 * θ_j)`, 13 and 88, sum to 101;
and for every weight vector without negative entries whose rounded values sum
to more than 100, the bucket-filling loop of the weighted strategies writes
outside the 100 entries of `weighted_paths`.  With the weights (1/8, 7/8)
`get_instruction_weighted_random` ends in that write. -/
theorem C38_weighted_paths_overflow :
    (∃ theta : List ℚ, theta.length ≤ MAX_SUBCIRCS ∧ (∀ t ∈ theta, 0 ≤ t) ∧ theta.sum = 1 ∧
      100 < (rounded_weights theta).sum) ∧
    (∀ theta : List ℚ, (∀ t ∈ theta, 0 ≤ t) → 100 < (rounded_weights theta).sum →
      make_weighted_paths theta.length (rounded_weights theta) = .error Fault.memory) ∧
    get_instruction_weighted_random 498 1 ex_list2 false (List.replicate MAX_SUBCIRCS 0)
        { draw := fun k => k * 7 + 3, theta := rounded_weights [1 / 8, 7 / 8], fuel := 10 }
      = .error Fault.memory := by
  refine ⟨⟨[1 / 8, 7 / 8], by decide, ?_, by norm_num, by decide!⟩, ?_, by decide!⟩
  · intro t ht
    simp only [List.mem_cons, List.mem_singleton, List.not_mem_nil, or_false] at ht
    rcases ht with h | h <;> rw [h] <;> norm_num
  · intro theta hpos hsum
    have h := make_weighted_paths_overflow (rounded_weights theta)
      (rounded_weights_nonneg theta hpos) hsum
    rw [show (rounded_weights theta).length = theta.length by simp [rounded_weights]] at h
    exact h

/-- C38 at the weights (1/8, 7/8), rounded to 13 and 88. -/
theorem C38_weighted_paths_overflow_witness :
    rounded_weights [1 / 8, 7 / 8] = [13, 88] ∧
    make_weighted_paths 2 (rounded_weights [1 / 8, 7 / 8]) = .error Fault.memory ∧
    (make_weighted_paths 2 [13, 87]).map List.length = .ok 100 :=
  ⟨by decide!, C38_weighted_paths_overflow.2.1 [1 / 8, 7 / 8]
    (fun t ht => by
      simp only [List.mem_cons, List.mem_singleton, List.not_mem_nil, or_false] at ht
      rcases ht with h | h <;> rw [h] <;> norm_num)
    (by decide!), by decide!⟩

/-- C39 fails on the code.  In `world_gap`, the state that SET_COOKIE on
circuit 0, JOIN on the circuits 1 and 2 and the removal of circuit 1 lead to
from `world_six`, the session is not marked for close and holds two
sub-circuits, fewer than `MAX_SUBCIRCS`, in the slots 0 and 2.
`split_get_new_subcirc_id` returns the count 2, the slot 2 is occupied, and
a further JOIN ends in the assertion `sl->list[id] == NULL` of
`subcirc_list_add`. -/
theorem C39_count_names_occupied_slot :
    run_to_gap = .ok world_gap ∧
    (get_split_data world_gap 0).map (fun sd => (sd.marked_for_close,
      split_data_get_num_subcircs sd, sd.subcircs.list.getD 2 none)) = .ok (false, 2, some 2) ∧
    (get_split_data world_gap 0 >>= split_get_new_subcirc_id) = .ok 2 ∧
    (get_split_data world_gap 0 >>= fun sd => subcirc_list_add sd.subcircs 3 2)
      = .error Fault.assertion ∧
    returned (split_process_join 1 world_gap 3 cookieA false) = .error Fault.assertion ∧
    returned (split_process_join 1 world_gap 1 cookieA false) = .error Fault.assertion := by
  refine ⟨by decide!, by decide, by decide!, by decide!, by decide!, by decide!⟩

theorem parts_frame_refl (h : Nat) (w : World) : parts_frame h w w :=
  ⟨rfl, fun sd hsd => ⟨sd, hsd, rfl, rfl⟩⟩

theorem parts_frame_trans (h : Nat) (w1 w2 w3 : World) (h12 : parts_frame h w1 w2)
    (h23 : parts_frame h w2 w3) : parts_frame h w1 w3 := by
  refine ⟨h23.1.trans h12.1, fun sd hsd => ?_⟩
  obtain ⟨sd2, hsd2, hs2, hp2⟩ := h12.2 sd hsd
  obtain ⟨sd3, hsd3, hs3, hp3⟩ := h23.2 sd2 hsd2
  exact ⟨sd3, hsd3, hs3.trans hs2, hp3.trans hp2⟩

theorem parts_frame_of_eq (h : Nat) (w w' : World) (hsub : w'.subcircuits = w.subcircuits)
    (hs : w'.split_datas = w.split_datas) : parts_frame h w w' :=
  ⟨hsub, fun sd hsd => ⟨sd, by rw [get_split_data_congr w w' h hs]; exact hsd, rfl, rfl⟩⟩

/-- Storing a session that keeps both lists. -/
theorem parts_frame_set (h a : Nat) (w : World) (sda sd' : split_data_t)
    (hsda : get_split_data w a = .ok sda) (hs : sd'.subcircs = sda.subcircs)
    (hp : pending_of sd' = pending_of sda) : parts_frame h w (set_split_data w a sd') := by
  refine ⟨rfl, fun sd hsd => ?_⟩
  by_cases hah : a = h
  · subst hah
    rw [hsda] at hsd
    injection hsd with hsd
    subst hsd
    exact ⟨sd', get_set_split_data w a sd' (get_split_data_lt w a sda hsda), hs, hp⟩
  · exact ⟨sd, by rw [get_split_data_set_ne w a h sd' hah]; exact hsd, rfl, rfl⟩

theorem mark_origin_parts_frame (h : Nat) (w w' : World) (c : Nat) (reason : end_circ_reason_t)
    (hm : circuit_mark_for_close_origin w c reason = .ok w') : parts_frame h w w' := by
  have h0 := hm
  unfold circuit_mark_for_close_origin at h0
  obtain ⟨oc, hoc, -⟩ := bind_ok _ _ _ h0
  obtain ⟨w2, hm2, -, hs, hsub, -, -, -, -⟩ := mark_origin_ok w c oc reason hoc
  rw [hm2] at hm
  injection hm with hm
  subst hm
  exact parts_frame_of_eq h _ _ hsub hs

theorem send_origin_parts_frame (h : Nat) (w w' : World) (c : Nat) (command : relay_command_t)
    (payload : List Nat) (fails : Bool) (r : Int)
    (hs : relay_send_command_from_edge_origin w c command payload fails = .ok (r, w')) :
    parts_frame h w w' := by
  unfold relay_send_command_from_edge_origin at hs
  cases fails with
  | true =>
    simp only [if_true] at hs
    obtain ⟨w2, hm, hs⟩ := bind_ok _ _ _ hs
    injection hs with hs
    injection hs with _ hs
    subst hs
    exact mark_origin_parts_frame h _ _ _ _ hm
  | false =>
    simp only [Bool.false_eq_true, if_false, pure, Except.pure] at hs
    injection hs with hs
    injection hs with _ hs
    subst hs
    exact parts_frame_of_eq h _ _ rfl rfl

theorem get_client_some (sd : split_data_t) (client : split_data_client_t)
    (hcl : get_client sd = .ok client) : sd.split_data_client = some client := by
  unfold get_client at hcl
  cases hx : sd.split_data_client with
  | none => rw [hx] at hcl; cases hcl
  | some c => rw [hx] at hcl; injection hcl with hcl; rw [hcl]

theorem pending_of_client (sd : split_data_t) (client : split_data_client_t)
    (hcl : sd.split_data_client = some client) : pending_of sd = client.pending_subcircs := by
  unfold pending_of
  rw [hcl]

theorem store_use_previous_parts_frame (a : Nat) (w w' : World) (h : Nat) (d : cell_direction_t)
    (v : Bool) (hs : store_use_previous_data w h d v = .ok w') : parts_frame a w w' := by
  unfold store_use_previous_data at hs
  obtain ⟨sd, hsd, hs⟩ := bind_ok _ _ _ hs
  obtain ⟨client, hcl, hs⟩ := bind_ok _ _ _ hs
  injection hs with hs
  subst hs
  refine parts_frame_set a h w sd _ hsd rfl ?_
  rw [pending_of_client sd client (get_client_some sd client hcl)]
  cases d <;> rfl

theorem generate_parts_frame (a P idBytes : Nat) (env : client_env) (w w' : World) (h : Nat)
    (d : cell_direction_t) (r : Int)
    (hg : split_data_generate_instruction P idBytes env w h d = .ok (r, w')) :
    parts_frame a w w' := by
  unfold split_data_generate_instruction at hg
  obtain ⟨sd, hsd, hg⟩ := bind_ok _ _ _ hg
  obtain ⟨client, hcl, hg⟩ := bind_ok _ _ _ hg
  obtain ⟨base, -, hg⟩ := bind_ok _ _ _ hg
  dsimp only at hg
  have hclient := get_client_some sd client hcl
  split at hg
  · injection hg with hg
    injection hg with _ hg
    subst hg
    exact parts_frame_refl a w
  · obtain ⟨⟨inst, prev⟩, -, hg⟩ := bind_ok _ _ _ hg
    dsimp only at hg
    have hf1 : parts_frame a w (set_split_data w h
        { sd with split_data_client := some (set_previous_data client d prev) }) := by
      refine parts_frame_set a h w sd _ hsd rfl ?_
      rw [pending_of_client sd client hclient]
      cases d <;> rfl
    obtain ⟨payload, -, hg⟩ := bind_ok _ _ _ hg
    cases payload with
    | none =>
      injection hg with hg
      injection hg with _ hg
      subst hg
      exact hf1
    | some payload =>
      dsimp only at hg
      obtain ⟨u, -, hg⟩ := bind_ok _ _ _ hg
      obtain ⟨m, -, hg⟩ := bind_ok _ _ _ hg
      obtain ⟨⟨retval, w2⟩, hsend, hg⟩ := bind_ok _ _ _ hg
      dsimp only at hg
      obtain ⟨sd2, hsd2, hg⟩ := bind_ok _ _ _ hg
      injection hg with hg
      injection hg with _ hg
      subst hg
      have hf2 := send_origin_parts_frame a _ _ _ _ _ _ _ hsend
      have hf3 : parts_frame a w2 (set_split_data w2 h (set_instruction sd2 d
          (split_instruction_append (instruction sd2 d) inst))) := by
        refine parts_frame_set a h w2 sd2 _ hsd2 ?_ ?_
        · cases d <;> rfl
        · cases d <;> rfl
      exact parts_frame_trans a _ _ _ hf1 (parts_frame_trans a _ _ _ hf2 hf3)

theorem finalise_loop_parts_frame (a P idBytes : Nat) (env : client_env) (h : Nat)
    (d : cell_direction_t) :
    ∀ (n : Nat) (w w' : World), finalise_loop P idBytes env h d n w = .ok w' →
      parts_frame a w w' := by
  intro n
  induction n with
  | zero =>
    intro w w' hl
    injection hl with hl
    subst hl
    exact parts_frame_refl a w
  | succ n ih =>
    intro w w' hl
    unfold finalise_loop at hl
    obtain ⟨⟨r, w1⟩, hgen, hl⟩ := bind_ok _ _ _ hl
    dsimp only at hl
    obtain ⟨w2, hst, hl⟩ := bind_ok _ _ _ hl
    exact parts_frame_trans a _ _ _ (generate_parts_frame a P idBytes env w w1 h d r hgen)
      (parts_frame_trans a _ _ _ (store_use_previous_parts_frame a _ _ _ _ _ hst) (ih _ _ hl))

/-- A returning `split_data_finalise` touches neither the sub-circuit objects
nor the two lists of a session. -/
theorem finalise_parts_frame (a P idBytes : Nat) (env : client_env) (w w' : World) (h : Nat)
    (hf : split_data_finalise P idBytes env w h = .ok w') : parts_frame a w w' := by
  unfold split_data_finalise at hf
  obtain ⟨sd, hsd, hf⟩ := bind_ok _ _ _ hf
  obtain ⟨client, hcl, hf⟩ := bind_ok _ _ _ hf
  split at hf
  · injection hf with hf
    subst hf
    exact parts_frame_refl a w
  · split at hf
    · injection hf with hf
      subst hf
      exact parts_frame_refl a w
    · obtain ⟨w1, h1, hf⟩ := bind_ok _ _ _ hf
      obtain ⟨w2, h2, hf⟩ := bind_ok _ _ _ hf
      obtain ⟨w3, h3, hf⟩ := bind_ok _ _ _ hf
      obtain ⟨w4, h4, hf⟩ := bind_ok _ _ _ hf
      obtain ⟨sd4, hsd4, hf⟩ := bind_ok _ _ _ hf
      obtain ⟨c4, hc4, hf⟩ := bind_ok _ _ _ hf
      injection hf with hf
      subst hf
      have hlast : parts_frame a w4 (set_split_data w4 h
          { sd4 with split_data_client := some { c4 with is_final := true } }) := by
        refine parts_frame_set a h w4 sd4 _ hsd4 rfl ?_
        rw [pending_of_client sd4 c4 (get_client_some sd4 c4 hc4)]
        rfl
      exact parts_frame_trans a _ _ _ (store_use_previous_parts_frame a _ _ _ _ _ h1)
        (parts_frame_trans a _ _ _ (store_use_previous_parts_frame a _ _ _ _ _ h2)
          (parts_frame_trans a _ _ _ (finalise_loop_parts_frame a P idBytes env h _ _ _ _ h3)
            (parts_frame_trans a _ _ _ (finalise_loop_parts_frame a P idBytes env h _ _ _ _ h4)
              hlast)))

theorem mark_added_loop_heaps (subcircs : subcirc_list_t) (reason : end_circ_reason_t) :
    ∀ (n id : Nat) (w w' : World),
      mark_added_loop circuit_mark_for_close_origin subcircs reason n id w = .ok w' →
      w'.subcircuits = w.subcircuits ∧ w'.split_datas = w.split_datas := by
  intro n
  induction n with
  | zero =>
    intro id w w' hl
    injection hl with hl
    subst hl
    exact ⟨rfl, rfl⟩
  | succ n ih =>
    intro id w w' hl
    unfold mark_added_loop at hl
    obtain ⟨sub, -, hl⟩ := bind_ok _ _ _ hl
    cases sub with
    | none => exact ih _ _ _ hl
    | some p =>
      dsimp only at hl
      obtain ⟨s, -, hl⟩ := bind_ok _ _ _ hl
      obtain ⟨u, -, hl⟩ := bind_ok _ _ _ hl
      cases hc : s.circ with
      | none => rw [hc] at hl; cases hl
      | some c =>
        rw [hc] at hl
        dsimp only at hl
        obtain ⟨w1, hm, hl⟩ := bind_ok _ _ _ hl
        have h0 := hm
        unfold circuit_mark_for_close_origin at h0
        obtain ⟨oc, hoc, -⟩ := bind_ok _ _ _ h0
        obtain ⟨w2, hm2, -, hs, hsub, -, -, -, -⟩ := mark_origin_ok w c oc reason hoc
        rw [hm2] at hm
        injection hm with hm
        subst hm
        obtain ⟨e1, e2⟩ := ih _ _ _ hl
        exact ⟨e1.trans hsub, e2.trans hs⟩

theorem mark_pending_loop_heaps (reason : end_circ_reason_t) :
    ∀ (pending : List Nat) (w w' : World),
      mark_pending_loop circuit_mark_for_close_origin reason pending w = .ok w' →
      w'.subcircuits = w.subcircuits ∧ w'.split_datas = w.split_datas := by
  intro pending
  induction pending with
  | nil =>
    intro w w' hl
    injection hl with hl
    subst hl
    exact ⟨rfl, rfl⟩
  | cons p rest ih =>
    intro w w' hl
    unfold mark_pending_loop at hl
    obtain ⟨s, -, hl⟩ := bind_ok _ _ _ hl
    cases hc : s.circ with
    | none => rw [hc] at hl; cases hl
    | some c =>
      rw [hc] at hl
      dsimp only at hl
      obtain ⟨w1, hm, hl⟩ := bind_ok _ _ _ hl
      have h0 := hm
      unfold circuit_mark_for_close_origin at h0
      obtain ⟨oc, hoc, -⟩ := bind_ok _ _ _ h0
      obtain ⟨w2, hm2, -, hs, hsub, -, -, -, -⟩ := mark_origin_ok w c oc reason hoc
      rw [hm2] at hm
      injection hm with hm
      subst hm
      obtain ⟨e1, e2⟩ := ih _ _ hl
      exact ⟨e1.trans hsub, e2.trans hs⟩

/-- A returning `split_data_mark_for_close` at the client touches neither the
sub-circuit objects nor the two lists of a session. -/
theorem mark_for_close_parts_frame (a : Nat) (w w' : World) (h : Nat) (reason : end_circ_reason_t)
    (hm : split_data_mark_for_close circuit_mark_for_close_origin w h reason = .ok w') :
    parts_frame a w w' := by
  unfold split_data_mark_for_close at hm
  obtain ⟨sd, hsd, hm⟩ := bind_ok _ _ _ hm
  split at hm
  · injection hm with hm
    subst hm
    exact parts_frame_refl a w
  · obtain ⟨w1, h1, hm⟩ := bind_ok _ _ _ hm
    have hf0 : parts_frame a w (set_split_data w h { sd with marked_for_close := true }) :=
      parts_frame_set a h w sd _ hsd rfl rfl
    obtain ⟨e1, e2⟩ := mark_added_loop_heaps _ _ _ _ _ _ h1
    have hf1 := parts_frame_of_eq a _ _ e1 e2
    cases hcl : sd.split_data_client with
    | none =>
      rw [hcl] at hm
      injection hm with hm
      subst hm
      exact parts_frame_trans a _ _ _ hf0 hf1
    | some client =>
      rw [hcl] at hm
      dsimp only at hm
      obtain ⟨e3, e4⟩ := mark_pending_loop_heaps _ _ _ _ hm
      exact parts_frame_trans a _ _ _ hf0
        (parts_frame_trans a _ _ _ hf1 (parts_frame_of_eq a _ _ e3 e4))

theorem get_subcirc_iff (w : World) (p : Nat) (sub : subcircuit_t) :
    get_subcirc w p = .ok sub ↔ w.subcircuits.getD p none = some sub := by
  unfold get_subcirc
  rw [List.getD_eq_getElem?_getD, List.get?_eq_getElem?]
  cases hx : w.subcircuits[p]? with
  | none => simp
  | some o =>
    cases o with
    | none => simp
    | some x => simp

theorem getD_append_one {α : Type} (l : List (Option α)) (x : Option α) (q : Nat) :
    (l ++ [x]).getD q none = if q = l.length then x else l.getD q none := by
  simp only [List.getD_eq_getElem?_getD]
  by_cases h1 : q < l.length
  · rw [List.getElem?_append_left h1]
    have : q ≠ l.length := by omega
    simp [this]
  · by_cases h2 : q = l.length
    · subst h2
      simp
    · rw [List.getElem?_eq_none (by simp; omega), List.getElem?_eq_none (by omega)]
      simp [h2]

theorem getD_set_opt {α : Type} (l : List (Option α)) (i j : Nat) (v : Option α) :
    (l.set i v).getD j none = if i = j ∧ i < l.length then v else l.getD j none := by
  simp only [List.getD_eq_getElem?_getD, List.getElem?_set]
  by_cases h : i = j
  · subst h
    by_cases hi : i < l.length
    · simp [hi]
    · simp [hi, List.getElem?_eq_none (Nat.le_of_not_lt hi)]
  · simp [h]

theorem getD_some_lt {α : Type} (l : List (Option α)) (q : Nat) (x : α)
    (h : l.getD q none = some x) : q < l.length := by
  by_contra hc
  rw [List.getD_eq_getElem?_getD, List.getElem?_eq_none (Nat.le_of_not_lt hc)] at h
  cases h

theorem mem_filter_ne (l : List Nat) (p q : Nat) :
    q ∈ l.filter (fun x => x != p) ↔ q ∈ l ∧ q ≠ p := by
  simp [List.mem_filter]

theorem parts_ok_lt (subs : List (Option subcircuit_t)) (pending : List Nat)
    (sl : subcirc_list_t) (S : List Nat) (h : parts_ok subs pending sl S) :
    ∀ p ∈ S, p < subs.length := by
  intro p hp
  obtain ⟨sub, hsub, -⟩ := h.2.2.2 p hp
  exact getD_some_lt subs p sub hsub

/-- A new pending sub-circuit. -/
theorem parts_ok_add_pending (subs : List (Option subcircuit_t)) (pending : List Nat)
    (sl : subcirc_list_t) (S : List Nat) (sub : subcircuit_t) (h : parts_ok subs pending sl S)
    (hst : is_pending sub.state) :
    parts_ok (subs ++ [some sub]) (pending ++ [subs.length]) sl (subs.length :: S) := by
  obtain ⟨hr, hpend, hlist, hall⟩ := h
  have hfresh : subs.length ∉ S := fun hin => by
    obtain ⟨x, hx, -⟩ := hall _ hin
    exact absurd (getD_some_lt subs _ x hx) (Nat.lt_irrefl _)
  refine ⟨hr, ?_, fun id p hp => List.mem_cons_of_mem _ (hlist id p hp), ?_⟩
  · intro p hp
    rcases List.mem_append.mp hp with hp | hp
    · exact List.mem_cons_of_mem _ (hpend p hp)
    · rw [List.mem_singleton.mp hp]
      exact List.mem_cons_self _ _
  · intro p hp
    rcases List.mem_cons.mp hp with rfl | hp
    · refine ⟨sub, by rw [getD_append_one]; simp, Or.inl ⟨hst, by simp, ?_⟩⟩
      intro id hid
      exact hfresh (hlist id _ hid)
    · obtain ⟨x, hx, hcase⟩ := hall p hp
      have hlt := getD_some_lt subs p x hx
      refine ⟨x, by rw [getD_append_one, if_neg (by omega)]; exact hx, ?_⟩
      rcases hcase with ⟨h1, h2, h3⟩ | ⟨h1, h2, h3⟩
      · exact Or.inl ⟨h1, List.mem_append_left _ h2, h3⟩
      · refine Or.inr ⟨h1, ?_, h3⟩
        intro hin
        rcases List.mem_append.mp hin with hin | hin
        · exact h2 hin
        · rw [List.mem_singleton.mp hin] at hlt
          exact Nat.lt_irrefl _ hlt

/-- A new sub-circuit in the state ADDED. -/
theorem parts_ok_add_added (subs : List (Option subcircuit_t)) (pending : List Nat)
    (sl sl' : subcirc_list_t) (S : List Nat) (sub : subcircuit_t)
    (h : parts_ok subs pending sl S) (hst : sub.state = subcirc_state_t.SUBCIRC_STATE_ADDED)
    (hadd : subcirc_list_add sl subs.length sub.id = .ok sl') :
    parts_ok (subs ++ [some sub]) pending sl' (subs.length :: S) := by
  obtain ⟨hr, hpend, hlist, hall⟩ := h
  obtain ⟨-, hempty, hr', -, hnew, hother⟩ := subcirc_list_add_inv sl sl' hr _ _ hadd
  have hfresh : subs.length ∉ S := fun hin => by
    obtain ⟨x, hx, -⟩ := hall _ hin
    exact absurd (getD_some_lt subs _ x hx) (Nat.lt_irrefl _)
  refine ⟨hr', fun p hp => List.mem_cons_of_mem _ (hpend p hp), ?_, ?_⟩
  · intro id p hp
    by_cases hid : id = sub.id
    · rw [hid, hnew] at hp
      injection hp with hp
      rw [← hp]
      exact List.mem_cons_self _ _
    · rw [hother id hid] at hp
      exact List.mem_cons_of_mem _ (hlist id p hp)
  · intro p hp
    rcases List.mem_cons.mp hp with rfl | hp
    · refine ⟨sub, by rw [getD_append_one]; simp, Or.inr ⟨hst, fun hin => hfresh (hpend _ hin), ?_⟩⟩
      intro id
      constructor
      · intro hid
        by_contra hne
        rw [hother id hne] at hid
        exact hfresh (hlist id _ hid)
      · intro hid
        rw [hid, hnew]
    · obtain ⟨x, hx, hcase⟩ := hall p hp
      have hlt := getD_some_lt subs p x hx
      have hne : p ≠ subs.length := by omega
      refine ⟨x, by rw [getD_append_one, if_neg hne]; exact hx, ?_⟩
      have hslot : ∀ id, sl'.list.getD id none = some p ↔ sl.list.getD id none = some p := by
        intro id
        by_cases hid : id = sub.id
        · rw [hid, hnew, hempty]
          constructor
          · intro he
            injection he with he
            exact absurd he.symm hne
          · intro he
            cases he
        · rw [hother id hid]
      rcases hcase with ⟨h1, h2, h3⟩ | ⟨h1, h2, h3⟩
      · exact Or.inl ⟨h1, h2, fun id hid => h3 id ((hslot id).mp hid)⟩
      · exact Or.inr ⟨h1, h2, fun id => (hslot id).trans (h3 id)⟩

/-- A pending sub-circuit is made ADDED with the ID `id`. -/
theorem parts_ok_make_added (subs : List (Option subcircuit_t)) (pending : List Nat)
    (sl sl' : subcirc_list_t) (S : List Nat) (p id : Nat) (sub : subcircuit_t)
    (h : parts_ok subs pending sl S) (hsub : subs.getD p none = some sub)
    (hst : is_pending sub.state) (hin : p ∈ pending)
    (hadd : subcirc_list_add sl p id = .ok sl') :
    parts_ok
      (subs.set p (some { sub with id := id, state := subcirc_state_t.SUBCIRC_STATE_ADDED }))
      (pending.filter (fun q => q != p)) sl' S := by
  obtain ⟨hr, hpend, hlist, hall⟩ := h
  obtain ⟨-, hempty, hr', -, hnew, hother⟩ := subcirc_list_add_inv sl sl' hr _ _ hadd
  have hpS : p ∈ S := hpend p hin
  have hplt := getD_some_lt subs p sub hsub
  have hpnot : ∀ id', sl.list.getD id' none ≠ some p := by
    obtain ⟨x, hx, hcase⟩ := hall p hpS
    rw [hsub] at hx
    injection hx with hx
    subst hx
    rcases hcase with ⟨-, -, h3⟩ | ⟨h1, -, -⟩
    · exact h3
    · rcases hst with hs | hs <;> rw [hs] at h1 <;> cases h1
  refine ⟨hr', fun q hq => hpend q ((mem_filter_ne pending p q).mp hq).1, ?_, ?_⟩
  · intro id' q hq
    by_cases hid : id' = id
    · rw [hid, hnew] at hq
      injection hq with hq
      rw [← hq]
      exact hpS
    · rw [hother id' hid] at hq
      exact hlist id' q hq
  · intro q hq
    by_cases hqp : q = p
    · subst hqp
      refine ⟨{ sub with id := id, state := subcirc_state_t.SUBCIRC_STATE_ADDED },
        by rw [getD_set_opt]; simp [hplt], Or.inr ⟨rfl, ?_, ?_⟩⟩
      · intro hmem
        exact ((mem_filter_ne pending q q).mp hmem).2 rfl
      · intro id'
        constructor
        · intro hid
          by_contra hne
          rw [hother id' hne] at hid
          exact hpnot id' hid
        · intro hid
          rw [hid]
          exact hnew
    · obtain ⟨x, hx, hcase⟩ := hall q hq
      refine ⟨x, by rw [getD_set_opt, if_neg (fun hc => hqp hc.1.symm)]; exact hx, ?_⟩
      have hslot : ∀ id', sl'.list.getD id' none = some q ↔ sl.list.getD id' none = some q := by
        intro id'
        by_cases hid : id' = id
        · rw [hid, hnew, hempty]
          constructor
          · intro he
            injection he with he
            exact absurd he.symm hqp
          · intro he
            cases he
        · rw [hother id' hid]
      rcases hcase with ⟨h1, h2, h3⟩ | ⟨h1, h2, h3⟩
      · exact Or.inl ⟨h1, (mem_filter_ne pending p q).mpr ⟨h2, hqp⟩,
          fun id' hid => h3 id' ((hslot id').mp hid)⟩
      · exact Or.inr ⟨h1, fun hmem => h2 ((mem_filter_ne pending p q).mp hmem).1,
          fun id' => (hslot id').trans (h3 id')⟩

/-- A sub-circuit in a pending state changes to a pending state. -/
theorem parts_ok_change_state (subs : List (Option subcircuit_t)) (pending : List Nat)
    (sl : subcirc_list_t) (S : List Nat) (p : Nat) (sub : subcircuit_t)
    (new_state : subcirc_state_t) (h : parts_ok subs pending sl S)
    (hsub : subs.getD p none = some sub) (hst : is_pending sub.state)
    (hnew : is_pending new_state) :
    parts_ok (subs.set p (some { sub with state := new_state })) pending sl S := by
  obtain ⟨hr, hpend, hlist, hall⟩ := h
  have hplt := getD_some_lt subs p sub hsub
  refine ⟨hr, hpend, hlist, ?_⟩
  intro q hq
  obtain ⟨x, hx, hcase⟩ := hall q hq
  by_cases hqp : q = p
  · subst hqp
    rw [hsub] at hx
    injection hx with hx
    subst hx
    refine ⟨{ sub with state := new_state }, by rw [getD_set_opt]; simp [hplt], ?_⟩
    rcases hcase with ⟨-, h2, h3⟩ | ⟨h1, -, -⟩
    · exact Or.inl ⟨hnew, h2, h3⟩
    · rcases hst with hs | hs <;> rw [hs] at h1 <;> cases h1
  · exact ⟨x, by rw [getD_set_opt, if_neg (fun hc => hqp hc.1.symm)]; exact hx, hcase⟩

/-- A sub-circuit leaves the session: it is taken out of the pending list,
its slot `id` of the added list is cleared when it is stored there, and the
object is freed. -/
theorem parts_ok_remove (subs : List (Option subcircuit_t)) (pending : List Nat)
    (sl sl' : subcirc_list_t) (S : List Nat) (p : Nat)
    (h : parts_ok subs pending sl S) (hr' : ListReachable sl')
    (hslots : ∀ j q, q ≠ p → (sl'.list.getD j none = some q ↔ sl.list.getD j none = some q))
    (hgone : ∀ j, sl'.list.getD j none ≠ some p) :
    parts_ok (subs.set p none) (pending.filter (fun q => q != p)) sl'
      (S.filter (fun q => q != p)) := by
  obtain ⟨hr, hpend, hlist, hall⟩ := h
  refine ⟨hr', ?_, ?_, ?_⟩
  · intro q hq
    obtain ⟨h1, h2⟩ := (mem_filter_ne pending p q).mp hq
    exact (mem_filter_ne S p q).mpr ⟨hpend q h1, h2⟩
  · intro j q hq
    have hqp : q ≠ p := fun hc => hgone j (hc ▸ hq)
    exact (mem_filter_ne S p q).mpr ⟨hlist j q ((hslots j q hqp).mp hq), hqp⟩
  · intro q hq
    obtain ⟨hqS, hqp⟩ := (mem_filter_ne S p q).mp hq
    obtain ⟨x, hx, hcase⟩ := hall q hqS
    refine ⟨x, by rw [getD_set_opt, if_neg (fun hc => hqp hc.1.symm)]; exact hx, ?_⟩
    rcases hcase with ⟨h1, h2, h3⟩ | ⟨h1, h2, h3⟩
    · exact Or.inl ⟨h1, (mem_filter_ne pending p q).mpr ⟨h2, hqp⟩,
        fun j hj => h3 j ((hslots j q hqp).mp hj)⟩
    · exact Or.inr ⟨h1, fun hmem => h2 ((mem_filter_ne pending p q).mp hmem).1,
        fun j => (hslots j q hqp).trans (h3 j)⟩

/-- An object that is created and freed at once leaves everything in
place. -/
theorem parts_ok_append_freed (subs : List (Option subcircuit_t)) (pending : List Nat)
    (sl : subcirc_list_t) (S : List Nat) (x : Option subcircuit_t)
    (h : parts_ok subs pending sl S) :
    parts_ok ((subs ++ [x]).set subs.length none) pending sl S := by
  obtain ⟨hr, hpend, hlist, hall⟩ := h
  refine ⟨hr, hpend, hlist, ?_⟩
  intro q hq
  obtain ⟨y, hy, hcase⟩ := hall q hq
  have hlt := getD_some_lt subs q y hy
  refine ⟨y, ?_, hcase⟩
  rw [getD_set_opt, if_neg (fun hc => by omega), getD_append_one, if_neg (by omega)]
  exact hy

theorem set_hop_heaps (w w' : World) (circ middle : Nat) (hop : crypt_path_t)
    (hs : set_hop w circ middle hop = .ok w') :
    w'.subcircuits = w.subcircuits ∧ w'.split_datas = w.split_datas := by
  unfold set_hop at hs
  obtain ⟨oc, -, hs⟩ := bind_ok _ _ _ hs
  split at hs
  · injection hs with hs
    subst hs
    exact ⟨rfl, rfl⟩
  · cases hs

/-- A stored sub-circuit that `split_data_get_subcirc` returns is in the slot
asked for. -/
theorem split_data_get_subcirc_slot (sd : split_data_t) (id p : Nat)
    (hg : split_data_get_subcirc sd id = .ok (some p)) :
    sd.subcircs.list.getD id none = some p := by
  unfold split_data_get_subcirc at hg
  split at hg
  · cases hg
  · obtain ⟨u, -, hg⟩ := bind_ok _ _ _ hg
    split at hg
    · cases hg
    · unfold subcirc_list_get at hg
      obtain ⟨u2, -, hg⟩ := bind_ok _ _ _ hg
      unfold rdp at hg
      rw [List.getD_eq_getElem?_getD, ← List.get?_eq_getElem?]
      cases hx : sd.subcircs.list.get? id with
      | none => rw [hx] at hg; cases hg
      | some v =>
        rw [hx] at hg
        injection hg with hg

/-- The part of `split_data_remove_subcirc` that follows the `switch`: with
the session stored back as `sd1`, the object `p` is freed, and the session,
when it is still a live object afterwards, has the lists of `sd1`. -/
theorem remove_origin_tail (w1 w' : World) (h circ middle p : Nat) (at_exit : Bool)
    (sub : subcircuit_t) (sd1 : split_data_t) (hsd1 : get_split_data w1 h = .ok sd1)
    (hrun : (do
      let w ←
        (if sub.circ = sd1.base then do
           let w ←
             (if !at_exit then
                split_data_mark_for_close circuit_mark_for_close_origin w1 h
                  end_circ_reason_t.END_CIRC_REASON_INTERNAL
              else pure w1 : Run World)
           match sd1.base with
           | none => .error Fault.memory
           | some base => do
             let origin_base ← get_origin w base
             match origin_base.split_data_circuit with
             | none => .error Fault.assertion
             | some num => do
               let num := num - 1
               let w := set_origin w base { origin_base with
                 split_data_circuit := if num = 0 then none else some num }
               let split_data ← get_split_data w h
               pure (set_split_data w h { split_data with base := none })
         else pure w1 : Run World)
      let w := { w with subcircuits := w.subcircuits.set p none }
      let hop ← get_hop w circ middle
      let w ← set_hop w circ middle { hop with subcirc := none }
      let split_data ← get_split_data w h
      let w :=
        if split_data_get_num_subcircs split_data = 0 then
          { w with split_datas := w.split_datas.set h none }
        else w
      let hop ← get_hop w circ middle
      set_hop w circ middle { hop with split_data := none } : Run World) = .ok w') :
    w'.subcircuits = w1.subcircuits.set p none ∧
    ∀ sd', get_split_data w' h = .ok sd' →
      sd'.subcircs = sd1.subcircs ∧ pending_of sd' = pending_of sd1 := by
  obtain ⟨w2, h2, hrun⟩ := bind_ok _ _ _ hrun
  have hf2 : parts_frame h w1 w2 := by
    split at h2
    · obtain ⟨wa, ha, h2⟩ := bind_ok _ _ _ h2
      have hfa : parts_frame h w1 wa := by
        split at ha
        · exact mark_for_close_parts_frame h _ _ _ _ ha
        · injection ha with ha
          subst ha
          exact parts_frame_refl h w1
      cases hb : sd1.base with
      | none => rw [hb] at h2; cases h2
      | some base =>
        rw [hb] at h2
        dsimp only at h2
        obtain ⟨ob, -, h2⟩ := bind_ok _ _ _ h2
        cases hn : ob.split_data_circuit with
        | none => rw [hn] at h2; cases h2
        | some num =>
          rw [hn] at h2
          dsimp only at h2
          obtain ⟨sdb, hsdb, h2⟩ := bind_ok _ _ _ h2
          injection h2 with h2
          subst h2
          exact parts_frame_trans h _ _ _ hfa
            (parts_frame_trans h _ _ _ (parts_frame_of_eq h _ _ rfl rfl)
              (parts_frame_set h h _ sdb _ hsdb rfl rfl))
    · injection h2 with h2
      subst h2
      exact parts_frame_refl h w1
  dsimp only at hrun
  obtain ⟨hop, -, hrun⟩ := bind_ok _ _ _ hrun
  obtain ⟨w4, h4, hrun⟩ := bind_ok _ _ _ hrun
  obtain ⟨e4a, e4b⟩ := set_hop_heaps _ _ _ _ _ h4
  obtain ⟨sd4, hsd4, hrun⟩ := bind_ok _ _ _ hrun
  obtain ⟨hop5, -, hrun⟩ := bind_ok _ _ _ hrun
  obtain ⟨e5a, e5b⟩ := set_hop_heaps _ _ _ _ _ hrun
  obtain ⟨sd2, hsd2, hs2, hp2⟩ := hf2.2 sd1 hsd1
  have hsd4' : get_split_data w2 h = .ok sd4 := by
    rw [← hsd4]
    unfold get_split_data
    rw [e4b]
  rw [hsd2] at hsd4'
  injection hsd4' with hsd4'
  subst hsd4'
  constructor
  · rw [e5a]
    split
    · rw [e4a, hf2.1]
    · rw [e4a, hf2.1]
  · intro sd' hsd'
    unfold get_split_data at hsd'
    rw [e5b] at hsd'
    by_cases hz : split_data_get_num_subcircs sd2 = 0
    · rw [if_pos hz] at hsd'
      have hlt := get_split_data_lt _ _ _ hsd4
      simp [List.get?_eq_getElem?, List.getElem?_set, hlt] at hsd'
    · rw [if_neg hz] at hsd'
      have : get_split_data w4 h = .ok sd' := hsd'
      rw [hsd4] at this
      injection this with this
      subst this
      exact ⟨hs2, hp2⟩

theorem session_partition_of (w : World) (h : Nat) (S : List Nat) (sd : split_data_t)
    (hsd : get_split_data w h = .ok sd)
    (hok : parts_ok w.subcircuits (pending_of sd) sd.subcircs S) : session_partition w h S := by
  intro sd' hsd'
  rw [hsd] at hsd'
  injection hsd' with hsd'
  subst hsd'
  exact hok

theorem session_partition_frame (w w' : World) (h : Nat) (S : List Nat) (sd : split_data_t)
    (hsd : get_split_data w h = .ok sd)
    (hok : parts_ok w.subcircuits (pending_of sd) sd.subcircs S) (hf : parts_frame h w w') :
    session_partition w' h S := by
  obtain ⟨sd', hsd', hs, hp⟩ := hf.2 sd hsd
  refine session_partition_of w' h S sd' hsd' ?_
  rw [hf.1, hs, hp]
  exact hok

theorem filter_ne_self (l : List Nat) (p : Nat) (hp : p ∉ l) :
    l.filter (fun q => q != p) = l := by
  apply List.filter_eq_self.mpr
  intro q hq
  simp only [bne_iff_ne, ne_eq]
  intro hc
  exact hp (hc ▸ hq)

/-- Removing a sub-circuit of the session keeps the others stored as
`session_partition` says. -/
theorem remove_origin_partition (w w' : World) (h : Nat) (S : List Nat) (circ middle : Nat)
    (at_exit : Bool) (hop : crypt_path_t) (p : Nat) (hinv : session_partition w h S)
    (hhop : get_hop w circ middle = .ok hop) (hh : hop.split_data = some h)
    (hp : hop.subcirc = some p)
    (hrun : split_data_remove_subcirc_origin w circ middle at_exit = .ok w') :
    session_partition w' h (S.filter (fun q => q != p)) := by
  unfold split_data_remove_subcirc_origin at hrun
  obtain ⟨hop', hhop', hrun⟩ := bind_ok _ _ _ hrun
  rw [hhop] at hhop'
  injection hhop' with hhop'
  subst hhop'
  rw [hh, hp] at hrun
  obtain ⟨sd, hsd, hrun⟩ := bind_ok _ _ _ hrun
  obtain ⟨sub, hsub, hrun⟩ := bind_ok _ _ _ hrun
  obtain ⟨sd1, hsw, hrun⟩ := bind_ok _ _ _ hrun
  dsimp only at hrun
  have hlt := get_split_data_lt _ _ _ hsd
  obtain ⟨hheap, hlists⟩ := remove_origin_tail (set_split_data w h sd1) w' h circ middle p at_exit
    sub sd1 (get_set_split_data _ _ _ hlt) hrun
  have hok := hinv sd hsd
  have hsubD := (get_subcirc_iff w p sub).mp hsub
  have hnew : parts_ok (w.subcircuits.set p none) (pending_of sd1) sd1.subcircs
      (S.filter (fun q => q != p)) := by
    obtain ⟨hr, hpend, hlist, hall⟩ := hok
    have hstateS : p ∈ S → (is_pending sub.state ∧ p ∈ pending_of sd ∧
          ∀ id, sd.subcircs.list.getD id none ≠ some p) ∨
        (sub.state = subcirc_state_t.SUBCIRC_STATE_ADDED ∧ p ∉ pending_of sd ∧
          ∀ id, sd.subcircs.list.getD id none = some p ↔ id = sub.id) := by
      intro hpS
      obtain ⟨x, hx, hcase⟩ := hall p hpS
      rw [hsubD] at hx
      injection hx with hx
      subst hx
      exact hcase
    cases hst : sub.state with
    | SUBCIRC_STATE_UNSPEC =>
      rw [hst] at hsw
      injection hsw with hsw
      subst hsw
      have hpS : p ∉ S := by
        intro hpS
        rcases hstateS hpS with ⟨h1, -, -⟩ | ⟨h1, -, -⟩
        · rcases h1 with h1 | h1 <;> rw [hst] at h1 <;> cases h1
        · rw [hst] at h1; cases h1
      have := parts_ok_remove w.subcircuits (pending_of sd) sd.subcircs sd.subcircs S p
        ⟨hr, hpend, hlist, hall⟩ hr (fun _ _ _ => Iff.rfl)
        (fun j hj => hpS (hlist j p hj))
      rw [filter_ne_self (pending_of sd) p (fun hc => hpS (hpend p hc))] at this
      exact this
    | SUBCIRC_STATE_ADDED =>
      rw [hst] at hsw
      dsimp only at hsw
      obtain ⟨stored, hstored, hsw⟩ := bind_ok _ _ _ hsw
      obtain ⟨u, hu, hsw⟩ := bind_ok _ _ _ hsw
      obtain ⟨sl', hrem, hsw⟩ := bind_ok _ _ _ hsw
      injection hsw with hsw
      subst hsw
      have hst2 : stored = some p := by
        have := tor_assert_ok _ _ hu
        simpa using this
      rw [hst2] at hstored
      have hslot := split_data_get_subcirc_slot sd sub.id p hstored
      have hpS : p ∈ S := hlist _ _ hslot
      have hp3 : p ∉ pending_of sd ∧ ∀ id, sd.subcircs.list.getD id none = some p ↔ id = sub.id := by
        rcases hstateS hpS with ⟨h1, -, -⟩ | ⟨-, h2, h3⟩
        · rcases h1 with h1 | h1 <;> rw [hst] at h1 <;> cases h1
        · exact ⟨h2, h3⟩
      obtain ⟨-, hlen, -, -, -⟩ := list_invariant sd.subcircs hr
      obtain ⟨-, -, hget⟩ := subcirc_list_remove_inv sd.subcircs sl' sub.id hlen hrem
      have := parts_ok_remove w.subcircuits (pending_of sd) sd.subcircs sl' S p
        ⟨hr, hpend, hlist, hall⟩ (ListReachable.remove sd.subcircs sl' sub.id hr hrem)
        (fun j q hqp => by
          rw [hget j]
          by_cases hj : sub.id = j
          · rw [if_pos hj, ← hj, hslot]
            constructor
            · intro hc; cases hc
            · intro hc
              injection hc with hc
              exact absurd hc.symm hqp
          · rw [if_neg hj])
        (fun j hj => by
          rw [hget j] at hj
          by_cases hjj : sub.id = j
          · rw [if_pos hjj] at hj
            cases hj
          · rw [if_neg hjj] at hj
            exact hjj ((hp3.2 j).mp hj).symm)
      rw [filter_ne_self (pending_of sd) p hp3.1] at this
      exact this
    | SUBCIRC_STATE_PENDING_COOKIE =>
      rw [hst] at hsw
      dsimp only at hsw
      obtain ⟨client, hcl, hsw⟩ := bind_ok _ _ _ hsw
      obtain ⟨u, hu, hsw⟩ := bind_ok _ _ _ hsw
      injection hsw with hsw
      subst hsw
      have hclient := get_client_some sd client hcl
      have hpin : p ∈ pending_of sd := by
        rw [pending_of_client sd client hclient]
        have := tor_assert_ok _ _ hu
        simpa using this
      have hpS : p ∈ S := hpend p hpin
      have hp3 : ∀ id, sd.subcircs.list.getD id none ≠ some p := by
        rcases hstateS hpS with ⟨-, -, h3⟩ | ⟨h1, -, -⟩
        · exact h3
        · rw [hst] at h1; cases h1
      have := parts_ok_remove w.subcircuits (pending_of sd) sd.subcircs sd.subcircs S p
        ⟨hr, hpend, hlist, hall⟩ hr (fun _ _ _ => Iff.rfl) hp3
      rw [pending_of_client sd client hclient] at this
      exact this
    | SUBCIRC_STATE_PENDING_JOIN =>
      rw [hst] at hsw
      dsimp only at hsw
      obtain ⟨client, hcl, hsw⟩ := bind_ok _ _ _ hsw
      obtain ⟨u, hu, hsw⟩ := bind_ok _ _ _ hsw
      injection hsw with hsw
      subst hsw
      have hclient := get_client_some sd client hcl
      have hpin : p ∈ pending_of sd := by
        rw [pending_of_client sd client hclient]
        have := tor_assert_ok _ _ hu
        simpa using this
      have hpS : p ∈ S := hpend p hpin
      have hp3 : ∀ id, sd.subcircs.list.getD id none ≠ some p := by
        rcases hstateS hpS with ⟨-, -, h3⟩ | ⟨h1, -, -⟩
        · exact h3
        · rw [hst] at h1; cases h1
      have := parts_ok_remove w.subcircuits (pending_of sd) sd.subcircs sd.subcircs S p
        ⟨hr, hpend, hlist, hall⟩ hr (fun _ _ _ => Iff.rfl) hp3
      rw [pending_of_client sd client hclient] at this
      exact this
  intro sd' hsd'
  obtain ⟨hs', hp'⟩ := hlists sd' hsd'
  rw [hheap, hs', hp']
  exact hnew

/-- Every operation on the sub-circuits of a client session keeps them stored
as `session_partition` says. -/
theorem client_step_partition (P idBytes : Nat) (env : client_env) (h : Nat) (w w' : World)
    (S S' : List Nat) (hinv : session_partition w h S)
    (hstep : client_step P idBytes env h w S w' S') : session_partition w' h S' := by
  cases hstep with
  | add _ _ state circ id p hrun =>
    unfold split_data_add_subcirc_origin at hrun
    obtain ⟨sd, hsd, hrun⟩ := bind_ok _ _ _ hrun
    have hok := hinv sd hsd
    have hlt := get_split_data_lt _ _ _ hsd
    split at hrun
    · cases hrun
    · obtain ⟨r, -, hrun⟩ := bind_ok _ _ _ hrun
      obtain ⟨u, -, hrun⟩ := bind_ok _ _ _ hrun
      dsimp only at hrun
      cases state with
      | SUBCIRC_STATE_UNSPEC => cases hrun
      | SUBCIRC_STATE_PENDING_COOKIE =>
        dsimp only at hrun
        cases hcl : sd.split_data_client with
        | none => rw [hcl] at hrun; cases hrun
        | some client =>
          rw [hcl] at hrun
          injection hrun with hrun
          injection hrun with hp hw
          injection hp with hp
          subst hp
          subst hw
          refine session_partition_of _ h _ _ (get_set_split_data _ _ _ (by simpa using hlt)) ?_
          have := parts_ok_add_pending w.subcircuits (pending_of sd) sd.subcircs S
            { subcircuit_new with circ := some circ, id := id,
                                  state := subcirc_state_t.SUBCIRC_STATE_PENDING_COOKIE }
            hok (Or.inl rfl)
          rw [pending_of_client sd client hcl] at this
          exact this
      | SUBCIRC_STATE_PENDING_JOIN =>
        dsimp only at hrun
        cases hcl : sd.split_data_client with
        | none => rw [hcl] at hrun; cases hrun
        | some client =>
          rw [hcl] at hrun
          injection hrun with hrun
          injection hrun with hp hw
          injection hp with hp
          subst hp
          subst hw
          refine session_partition_of _ h _ _ (get_set_split_data _ _ _ (by simpa using hlt)) ?_
          have := parts_ok_add_pending w.subcircuits (pending_of sd) sd.subcircs S
            { subcircuit_new with circ := some circ, id := id,
                                  state := subcirc_state_t.SUBCIRC_STATE_PENDING_JOIN }
            hok (Or.inr rfl)
          rw [pending_of_client sd client hcl] at this
          exact this
      | SUBCIRC_STATE_ADDED =>
        dsimp only at hrun
        obtain ⟨u2, -, hrun⟩ := bind_ok _ _ _ hrun
        obtain ⟨sl', hadd, hrun⟩ := bind_ok _ _ _ hrun
        injection hrun with hrun
        injection hrun with hp hw
        injection hp with hp
        subst hp
        subst hw
        refine session_partition_of _ h _ _ (get_set_split_data _ _ _ (by simpa using hlt)) ?_
        exact parts_ok_add_added w.subcircuits (pending_of sd) sd.subcircs sl' S
          { subcircuit_new with circ := some circ, id := id,
                                state := subcirc_state_t.SUBCIRC_STATE_ADDED }
          hok rfl hadd
  | add_refused _ _ state circ id hrun =>
    unfold split_data_add_subcirc_origin at hrun
    obtain ⟨sd, hsd, hrun⟩ := bind_ok _ _ _ hrun
    have hok := hinv sd hsd
    split at hrun
    · injection hrun with hrun
      injection hrun with _ hw
      subst hw
      exact hinv
    · obtain ⟨r, -, hrun⟩ := bind_ok _ _ _ hrun
      obtain ⟨u, -, hrun⟩ := bind_ok _ _ _ hrun
      dsimp only at hrun
      cases state with
      | SUBCIRC_STATE_UNSPEC =>
        injection hrun with hrun
        injection hrun with _ hw
        subst hw
        refine session_partition_of _ h _ sd hsd ?_
        exact parts_ok_append_freed w.subcircuits (pending_of sd) sd.subcircs S _ hok
      | SUBCIRC_STATE_PENDING_COOKIE =>
        dsimp only at hrun
        cases hcl : sd.split_data_client with
        | none => rw [hcl] at hrun; cases hrun
        | some client =>
          rw [hcl] at hrun
          injection hrun with hrun
          injection hrun with hp _
          cases hp
      | SUBCIRC_STATE_PENDING_JOIN =>
        dsimp only at hrun
        cases hcl : sd.split_data_client with
        | none => rw [hcl] at hrun; cases hrun
        | some client =>
          rw [hcl] at hrun
          injection hrun with hrun
          injection hrun with hp _
          cases hp
      | SUBCIRC_STATE_ADDED =>
        dsimp only at hrun
        obtain ⟨u2, -, hrun⟩ := bind_ok _ _ _ hrun
        obtain ⟨sl', hadd, hrun⟩ := bind_ok _ _ _ hrun
        injection hrun with hrun
        injection hrun with hp _
        cases hp
  | make_added _ _ p id hrun =>
    unfold split_data_subcirc_make_added at hrun
    obtain ⟨sd, hsd, hrun⟩ := bind_ok _ _ _ hrun
    obtain ⟨client, hcl, hrun⟩ := bind_ok _ _ _ hrun
    obtain ⟨sub, hsub, hrun⟩ := bind_ok _ _ _ hrun
    obtain ⟨u1, hst, hrun⟩ := bind_ok _ _ _ hrun
    obtain ⟨u2, hcont, hrun⟩ := bind_ok _ _ _ hrun
    have hok := hinv sd hsd
    have hlt := get_split_data_lt _ _ _ hsd
    have hclient := get_client_some sd client hcl
    have hpend : p ∈ pending_of sd := by
      rw [pending_of_client sd client hclient]
      have := tor_assert_ok _ _ hcont
      simpa using this
    have hstate : is_pending sub.state := by
      have := tor_assert_ok _ _ hst
      simp only [Bool.or_eq_true, beq_iff_eq] at this
      exact this
    cases hc : sub.circ with
    | none => rw [hc] at hrun; cases hrun
    | some c =>
      rw [hc] at hrun
      dsimp only at hrun
      obtain ⟨u3, -, hrun⟩ := bind_ok _ _ _ hrun
      obtain ⟨oc, -, hrun⟩ := bind_ok _ _ _ hrun
      obtain ⟨sl', hadd, hrun⟩ := bind_ok _ _ _ hrun
      have hf := finalise_parts_frame h P idBytes env _ _ h hrun
      refine session_partition_frame _ w' h S _
        (get_set_split_data _ _ _ (by simpa using hlt)) ?_ hf
      have := parts_ok_make_added w.subcircuits (pending_of sd) sd.subcircs sl' S p id sub hok
        ((get_subcirc_iff w p sub).mp hsub) hstate hpend hadd
      rw [pending_of_client sd client hclient, hc] at this
      exact this
  | change_state _ _ p sub new_state hsub hst hnew hrun =>
    unfold subcirc_change_state at hrun
    obtain ⟨sub', hsub', hrun⟩ := bind_ok _ _ _ hrun
    rw [hsub] at hsub'
    injection hsub' with hsub'
    subst hsub'
    obtain ⟨u, -, hrun⟩ := bind_ok _ _ _ hrun
    cases hc : sub.circ with
    | none => rw [hc] at hrun; cases hrun
    | some c =>
      rw [hc] at hrun
      injection hrun with hrun
      subst hrun
      intro sd hsd
      have hsd0 : get_split_data w h = .ok sd := hsd
      have := parts_ok_change_state w.subcircuits (pending_of sd) sd.subcircs S p sub new_state
        (hinv sd hsd0) ((get_subcirc_iff w p sub).mp hsub) hst hnew
      rw [hc] at this
      exact this
  | remove _ _ circ middle at_exit hop p hhop hh hp hrun =>
    exact remove_origin_partition w w' h S circ middle at_exit hop p hinv hhop hh hp hrun

theorem getD_append_lt {α : Type} (l : List (Option α)) (x : Option α) (q : Nat) (y : α)
    (h : l.getD q none = some y) : (l ++ [x]).getD q none = some y := by
  have hlt := getD_some_lt l q y h
  rw [getD_append_one, if_neg (by omega)]
  exact h

/-- No operation on the sub-circuits of a client session touches a
sub-circuit that is in the state ADDED and stays in the session: the object
is the same afterwards. -/
theorem client_step_added (P idBytes : Nat) (env : client_env) (h : Nat) (w w' : World)
    (S S' : List Nat) (hstep : client_step P idBytes env h w S w' S') (q : Nat)
    (sub : subcircuit_t) (hq : get_subcirc w q = .ok sub)
    (hst : sub.state = subcirc_state_t.SUBCIRC_STATE_ADDED) (hqS : q ∈ S') :
    get_subcirc w' q = .ok sub := by
  have hqD := (get_subcirc_iff w q sub).mp hq
  rw [get_subcirc_iff]
  cases hstep with
  | add _ _ state circ id p hrun =>
    unfold split_data_add_subcirc_origin at hrun
    obtain ⟨sd, hsd, hrun⟩ := bind_ok _ _ _ hrun
    split at hrun
    · cases hrun
    · obtain ⟨r, -, hrun⟩ := bind_ok _ _ _ hrun
      obtain ⟨u, -, hrun⟩ := bind_ok _ _ _ hrun
      dsimp only at hrun
      cases state with
      | SUBCIRC_STATE_UNSPEC => cases hrun
      | SUBCIRC_STATE_PENDING_COOKIE =>
        dsimp only at hrun
        cases hcl : sd.split_data_client with
        | none => rw [hcl] at hrun; cases hrun
        | some client =>
          rw [hcl] at hrun
          injection hrun with hrun
          injection hrun with _ hw
          subst hw
          exact getD_append_lt _ _ _ _ hqD
      | SUBCIRC_STATE_PENDING_JOIN =>
        dsimp only at hrun
        cases hcl : sd.split_data_client with
        | none => rw [hcl] at hrun; cases hrun
        | some client =>
          rw [hcl] at hrun
          injection hrun with hrun
          injection hrun with _ hw
          subst hw
          exact getD_append_lt _ _ _ _ hqD
      | SUBCIRC_STATE_ADDED =>
        dsimp only at hrun
        obtain ⟨u2, -, hrun⟩ := bind_ok _ _ _ hrun
        obtain ⟨sl', hadd, hrun⟩ := bind_ok _ _ _ hrun
        injection hrun with hrun
        injection hrun with _ hw
        subst hw
        exact getD_append_lt _ _ _ _ hqD
  | add_refused _ _ state circ id hrun =>
    unfold split_data_add_subcirc_origin at hrun
    obtain ⟨sd, hsd, hrun⟩ := bind_ok _ _ _ hrun
    split at hrun
    · injection hrun with hrun
      injection hrun with _ hw
      subst hw
      exact hqD
    · obtain ⟨r, -, hrun⟩ := bind_ok _ _ _ hrun
      obtain ⟨u, -, hrun⟩ := bind_ok _ _ _ hrun
      dsimp only at hrun
      cases state with
      | SUBCIRC_STATE_UNSPEC =>
        injection hrun with hrun
        injection hrun with _ hw
        subst hw
        have hlt := getD_some_lt _ _ _ hqD
        show ((w.subcircuits ++ [_]).set w.subcircuits.length none).getD q none = some sub
        rw [getD_set_opt, if_neg (fun hc => by omega)]
        exact getD_append_lt _ _ _ _ hqD
      | SUBCIRC_STATE_PENDING_COOKIE =>
        dsimp only at hrun
        cases hcl : sd.split_data_client with
        | none => rw [hcl] at hrun; cases hrun
        | some client =>
          rw [hcl] at hrun
          injection hrun with hrun
          injection hrun with hp _
          cases hp
      | SUBCIRC_STATE_PENDING_JOIN =>
        dsimp only at hrun
        cases hcl : sd.split_data_client with
        | none => rw [hcl] at hrun; cases hrun
        | some client =>
          rw [hcl] at hrun
          injection hrun with hrun
          injection hrun with hp _
          cases hp
      | SUBCIRC_STATE_ADDED =>
        dsimp only at hrun
        obtain ⟨u2, -, hrun⟩ := bind_ok _ _ _ hrun
        obtain ⟨sl', hadd, hrun⟩ := bind_ok _ _ _ hrun
        injection hrun with hrun
        injection hrun with hp _
        cases hp
  | make_added _ _ p id hrun =>
    unfold split_data_subcirc_make_added at hrun
    obtain ⟨sd, hsd, hrun⟩ := bind_ok _ _ _ hrun
    obtain ⟨client, hcl, hrun⟩ := bind_ok _ _ _ hrun
    obtain ⟨subp, hsubp, hrun⟩ := bind_ok _ _ _ hrun
    obtain ⟨u1, hstp, hrun⟩ := bind_ok _ _ _ hrun
    obtain ⟨u2, hcont, hrun⟩ := bind_ok _ _ _ hrun
    have hstate : is_pending subp.state := by
      have := tor_assert_ok _ _ hstp
      simp only [Bool.or_eq_true, beq_iff_eq] at this
      exact this
    have hqp : q ≠ p := by
      intro hc
      subst hc
      rw [hq] at hsubp
      injection hsubp with hsubp
      subst hsubp
      rcases hstate with h1 | h1 <;> rw [hst] at h1 <;> cases h1
    cases hc : subp.circ with
    | none => rw [hc] at hrun; cases hrun
    | some c =>
      rw [hc] at hrun
      dsimp only at hrun
      obtain ⟨u3, -, hrun⟩ := bind_ok _ _ _ hrun
      obtain ⟨oc, -, hrun⟩ := bind_ok _ _ _ hrun
      obtain ⟨sl', hadd, hrun⟩ := bind_ok _ _ _ hrun
      have hf := finalise_parts_frame h P idBytes env _ _ h hrun
      rw [hf.1]
      show (w.subcircuits.set p _).getD q none = some sub
      rw [getD_set_opt, if_neg (fun hc => hqp hc.1.symm)]
      exact hqD
  | change_state _ _ p subp new_state hsubp hstp hnew hrun =>
    have hqp : q ≠ p := by
      intro hc
      subst hc
      rw [hq] at hsubp
      injection hsubp with hsubp
      subst hsubp
      rcases hstp with h1 | h1 <;> rw [hst] at h1 <;> cases h1
    unfold subcirc_change_state at hrun
    obtain ⟨sub', hsub', hrun⟩ := bind_ok _ _ _ hrun
    obtain ⟨u, -, hrun⟩ := bind_ok _ _ _ hrun
    cases hc : sub'.circ with
    | none => rw [hc] at hrun; cases hrun
    | some c =>
      rw [hc] at hrun
      injection hrun with hrun
      subst hrun
      show (w.subcircuits.set p _).getD q none = some sub
      rw [getD_set_opt, if_neg (fun hc => hqp hc.1.symm)]
      exact hqD
  | remove _ _ circ middle at_exit hop p hhop hh hp hrun =>
    have hqp : q ≠ p := ((mem_filter_ne S p q).mp hqS).2
    unfold split_data_remove_subcirc_origin at hrun
    obtain ⟨hop', hhop', hrun⟩ := bind_ok _ _ _ hrun
    rw [hhop] at hhop'
    injection hhop' with hhop'
    subst hhop'
    rw [hh, hp] at hrun
    obtain ⟨sd, hsd, hrun⟩ := bind_ok _ _ _ hrun
    obtain ⟨subp, hsubp, hrun⟩ := bind_ok _ _ _ hrun
    obtain ⟨sd1, hsw, hrun⟩ := bind_ok _ _ _ hrun
    dsimp only at hrun
    obtain ⟨hheap, -⟩ := remove_origin_tail (set_split_data w h sd1) w' h circ middle p at_exit
      subp sd1 (get_set_split_data _ _ _ (get_split_data_lt _ _ _ hsd)) hrun
    rw [hheap]
    show (w.subcircuits.set p none).getD q none = some sub
    rw [getD_set_opt, if_neg (fun hc => hqp hc.1.symm)]
    exact hqD

theorem client_reach_partition (P idBytes : Nat) (env : client_env) (h : Nat) (w : World)
    (S : List Nat) (hreach : client_reach P idBytes env h w S) : session_partition w h S := by
  induction hreach with
  | init w sd hsd hpend hnew =>
    refine session_partition_of w h [] sd hsd ?_
    rw [hpend, hnew]
    refine ⟨ListReachable.new, fun p hp => absurd hp (List.not_mem_nil p), ?_,
      fun p hp => absurd hp (List.not_mem_nil p)⟩
    intro id p hp
    rw [show subcirc_list_new.list = List.replicate SUBCIRC_LIST_DEFAULT_CAPACITY none from rfl,
      getD_replicate_none] at hp
    cases hp
  | step w w' S S' _ hstep ih => exact client_step_partition P idBytes env h w w' S S' ih hstep

theorem is_pending_ne_added (s : subcirc_state_t) (h : is_pending s) :
    s ≠ subcirc_state_t.SUBCIRC_STATE_ADDED := by
  intro hc
  rcases h with h | h <;> rw [hc] at h <;> cases h

/-- C37: in every state of a client session that is reachable from a session
without sub-circuits through `split_data_add_subcirc`,
`split_data_subcirc_make_added`, `subcirc_change_state` (as the handlers call
it: on a pending sub-circuit, to a pending state) and
`split_data_remove_subcirc`, as long as the session is a live object: the
pending list and the added list hold sub-circuits of the session only; every
sub-circuit of the session is a live object that is in the pending list
exactly when its state is PENDING_COOKIE or PENDING_JOIN, is in a slot of the
added list exactly when its state is ADDED, then in the slot of its ID and in
no other, and is in exactly one of the two lists.  And every further
operation leads to a state with the same properties and leaves a sub-circuit
that is ADDED and stays in the session as it is: it never returns to
pending. -/
theorem C37_pending_added_partition (RELAY_PAYLOAD_SIZE idBytes : Nat) (env : client_env)
    (h : Nat) (w : World) (S : List Nat)
    (hreach : client_reach RELAY_PAYLOAD_SIZE idBytes env h w S) :
    (∀ sd, get_split_data w h = .ok sd →
      (∀ p ∈ pending_of sd, p ∈ S) ∧
      (∀ id p, sd.subcircs.list.getD id none = some p → p ∈ S) ∧
      ∀ p ∈ S, ∃ sub, get_subcirc w p = .ok sub ∧
        (p ∈ pending_of sd ↔ is_pending sub.state) ∧
        ((∃ id, sd.subcircs.list.getD id none = some p) ↔
          sub.state = subcirc_state_t.SUBCIRC_STATE_ADDED) ∧
        (∀ id, sd.subcircs.list.getD id none = some p → id = sub.id) ∧
        (sub.state = subcirc_state_t.SUBCIRC_STATE_ADDED →
          sd.subcircs.list.getD sub.id none = some p) ∧
        (p ∈ pending_of sd ∨ ∃ id, sd.subcircs.list.getD id none = some p) ∧
        ¬ (p ∈ pending_of sd ∧ ∃ id, sd.subcircs.list.getD id none = some p)) ∧
    ∀ w' S', client_step RELAY_PAYLOAD_SIZE idBytes env h w S w' S' →
      client_reach RELAY_PAYLOAD_SIZE idBytes env h w' S' ∧
      session_partition w' h S' ∧
      ∀ q sub, get_subcirc w q = .ok sub →
        sub.state = subcirc_state_t.SUBCIRC_STATE_ADDED → q ∈ S' →
        get_subcirc w' q = .ok sub := by
  have hinv := client_reach_partition RELAY_PAYLOAD_SIZE idBytes env h w S hreach
  refine ⟨?_, ?_⟩
  · intro sd hsd
    obtain ⟨-, hpend, hlist, hall⟩ := hinv sd hsd
    refine ⟨hpend, hlist, ?_⟩
    intro p hp
    obtain ⟨sub, hsub, hcase⟩ := hall p hp
    refine ⟨sub, (get_subcirc_iff w p sub).mpr hsub, ?_⟩
    rcases hcase with ⟨h1, h2, h3⟩ | ⟨h1, h2, h3⟩
    · have hna := is_pending_ne_added sub.state h1
      refine ⟨⟨fun _ => h1, fun _ => h2⟩, ⟨fun ⟨id, hid⟩ => absurd hid (h3 id),
        fun hc => absurd hc hna⟩, fun id hid => absurd hid (h3 id), fun hc => absurd hc hna,
        Or.inl h2, fun ⟨_, ⟨id, hid⟩⟩ => h3 id hid⟩
    · have hnp : ¬ is_pending sub.state := fun hc => is_pending_ne_added sub.state hc h1
      refine ⟨⟨fun hc => absurd hc h2, fun hc => absurd hc hnp⟩,
        ⟨fun _ => h1, fun _ => ⟨sub.id, (h3 sub.id).mpr rfl⟩⟩, fun id hid => (h3 id).mp hid,
        fun _ => (h3 sub.id).mpr rfl, Or.inr ⟨sub.id, (h3 sub.id).mpr rfl⟩,
        fun ⟨hc, _⟩ => h2 hc⟩
  · intro w' S' hstep
    exact ⟨client_reach.step w w' S S' hreach hstep,
      client_step_partition RELAY_PAYLOAD_SIZE idBytes env h w w' S S' hinv hstep,
      fun q sub hq hst hqS =>
        client_step_added RELAY_PAYLOAD_SIZE idBytes env h w w' S S' hstep q sub hq hst hqS⟩

/-- C37 at the session of `client_world_base_pending`, reached from
`client_world_empty` by adding the base circuit in the state PENDING_COOKIE:
sub-circuit 0 is in the pending list and in no slot of the added list. -/
theorem C37_pending_added_partition_witness :
    ∃ sub, get_subcirc client_world_base_pending 0 = .ok sub ∧
      (0 ∈ [0] ↔ is_pending sub.state) ∧
      ((∃ id, subcirc_list_new.list.getD id none = some 0) ↔
        sub.state = subcirc_state_t.SUBCIRC_STATE_ADDED) :=
  have h := (C37_pending_added_partition 4 1 (ex_client_env 3) 0 client_world_base_pending [0]
    (client_reach.step client_world_empty client_world_base_pending [] [0]
      (client_reach.init client_world_empty _ rfl rfl rfl)
      (client_step.add client_world_empty client_world_base_pending []
        subcirc_state_t.SUBCIRC_STATE_PENDING_COOKIE 0 0 0 (by decide)))).1
    _ rfl
  (h.2.2 0 (List.mem_singleton.mpr rfl)).elim
    fun sub hs => ⟨sub, hs.1, hs.2.1, hs.2.2.1⟩

end TrafficSliver
